import Mathlib

/-!
The sysctl MIB engine of `sys/kern/kern_sysctl.c`.

A shallow embedding of the registry engine: the MIB tree (`sysctl_register_oid`,
`sysctl_remove_oid`, `sysctl_add_oid`, `sysctl_ctx_free`), the resolver
(`sysctl_find_oid`, `name2oid`, `sysctl_sysctl_name`) and the request object
(`sysctl_old_kernel`, `sysctl_old_user`, `kernel_sysctl`, `userland_sysctl`).

Conventions of the embedding.

* Pointers are natural numbers, `0` is `NULL`.  A `struct sysctl_oid *` indexes the
  store `Tree.oids`; a `struct sysctl_oid_list *` indexes `Tree.lists`, whose value is
  the chain of `oid_link`s starting at that list head, in storage order.
* `int` values are mathematical integers (signed overflow is undefined in C and is
  outside the model); `size_t` values are naturals below `2 ^ w` and every `size_t`
  operation is reduced modulo `2 ^ w`.
* C strings are lists of character codes without the terminating NUL.
* A run that dereferences `NULL`, calls `panic` or would sleep for ever has no result
  (`none`).
-/

namespace Sysctl

/-! ## Constants of `sys/sysctl.h`, `sys/errno.h` and `sys/param.h` -/

/-- Longest numeric path (`CTL_MAXNAME` of `sys/sysctl.h`). -/
def CTL_MAXNAME : Nat := 12

/-- Size of the path-name buffer (`MAXPATHLEN` of `sys/param.h`). -/
def MAXPATHLEN : Nat := 1024

/-- Id that asks the engine for a number (`OID_AUTO` of `sys/sysctl.h`). -/
def OID_AUTO : Int := -1

/-- The greatest value of an `int` (32 bits). -/
def INT_MAX : Int := 2147483647

/-- The least value of an `int` (32 bits). -/
def INT_MIN : Int := -2147483648

/-- The `int` that holds the result of an `int` addition whose exact value is `x`:
`x` reduced to 32 bits in two's complement, so `INT_MAX + 1` gives `INT_MIN`. -/
def int_wrap (x : Int) : Int := (x + 2147483648) % 4294967296 - 2147483648

/-- Mask of the type tag in `oid_kind`. -/
def CTLTYPE : Nat := 0xf
/-- Type tag of an interior node. -/
def CTLTYPE_NODE : Nat := 1
/-- Type tag of an `int` leaf. -/
def CTLTYPE_INT : Nat := 2
/-- Type tag of a string leaf. -/
def CTLTYPE_STRING : Nat := 3
/-- Type tag of a 64-bit leaf. -/
def CTLTYPE_QUAD : Nat := 4

/-- Flag: readable. -/
def CTLFLAG_RD : Nat := 0x80000000
/-- Flag: writable. -/
def CTLFLAG_WR : Nat := 0x40000000
/-- Flag: the node opts out of wiring the user buffer. -/
def CTLFLAG_NOLOCK : Nat := 0x20000000
/-- Flag: no privilege needed to write. -/
def CTLFLAG_ANYBODY : Nat := 0x10000000
/-- Flag: writable only at securelevel 0 or below. -/
def CTLFLAG_SECURE : Nat := 0x08000000
/-- Flag: jailed root may write. -/
def CTLFLAG_PRISON : Nat := 0x04000000
/-- Flag: the node was created at run time and may be removed. -/
def CTLFLAG_DYN : Nat := 0x02000000

def EPERM : Int := 1
def ENOENT : Int := 2
def ENOMEM : Int := 12
def EFAULT : Int := 14
def EBUSY : Int := 16
def ENOTDIR : Int := 20
def EISDIR : Int := 21
def EINVAL : Int := 22
def EAGAIN : Int := 35
def ENAMETOOLONG : Int := 63
def ENOTEMPTY : Int := 66

/-- Character code of the path separator. -/
def DOT : Nat := 46

/-! ## The MIB tree -/

/-- One `struct sysctl_oid` (declared in `sys/sysctl.h`).  The `oid_link` field is
represented by the position of the node in `Tree.lists`; `oid_kind` is the bit pattern
of the `int`; the ref-count is a natural number. -/
structure sysctl_oid where
  oid_parent : Nat
  oid_number : Int
  oid_kind : Nat
  oid_arg1 : Nat
  oid_arg2 : Int
  oid_name : List Nat
  oid_handler : Nat
  oid_fmt : Option (List Nat)
  oid_refcnt : Nat
deriving DecidableEq

/-- The store of nodes and of child lists. -/
structure Tree where
  oids : Nat → sysctl_oid
  lists : Nat → List Nat

/-- Address of the root list `sysctl__children`. -/
def sysctl__children : Nat := 1

/-- The test `(oid_kind & CTLTYPE) == CTLTYPE_NODE`. -/
def is_node (kind : Nat) : Bool := (kind &&& CTLTYPE) == CTLTYPE_NODE

/-- The test `(oid_kind & CTLFLAG_DYN) != 0`. -/
def is_dyn (kind : Nat) : Bool := (kind &&& CTLFLAG_DYN) != 0

/-- `SYSCTL_CHILDREN(oidp)`: the list head stored in `oid_arg1`. -/
def SYSCTL_CHILDREN (s : Tree) (oidp : Nat) : Nat := (s.oids oidp).oid_arg1

/-- `sysctl_find_oidname`: the first node of the list whose name compares equal. -/
def sysctl_find_oidname (s : Tree) (name : List Nat) (list : Nat) : Option Nat :=
  (s.lists list).find? (fun oidp => (s.oids oidp).oid_name = name)

/-- Store update `oidp->oid_refcnt = r`. -/
def set_refcnt (s : Tree) (oidp : Nat) (r : Nat) : Tree :=
  { s with oids := fun q => if q = oidp then { s.oids oidp with oid_refcnt := r } else s.oids q }

/-- Store update `oidp->oid_number = n`. -/
def set_number (s : Tree) (oidp : Nat) (n : Int) : Tree :=
  { s with oids := fun q => if q = oidp then { s.oids oidp with oid_number := n } else s.oids q }

/-- Store update of one list head. -/
def set_list (s : Tree) (list : Nat) (l : List Nat) : Tree :=
  { s with lists := fun q => if q = list then l else s.lists q }

/-- The first loop of `sysctl_register_oid`: `n = 99`, then the greatest number above
it found in the list.  The `n + 1` that follows the loop is in `sysctl_register_oid`. -/
def highest_oid (s : Tree) (l : List Nat) : Int :=
  l.foldl (fun n p => if (s.oids p).oid_number > n then (s.oids p).oid_number else n) 99

/-- The second loop of `sysctl_register_oid` followed by the insertion: `q` is the
last node passed before the first node with a greater number; the new node goes after
`q`, or to the head when there is no `q`. -/
def insert_in_order (s : Tree) (oidp : Nat) : List Nat → List Nat
  | [] => [oidp]
  | p :: rest =>
    if (s.oids oidp).oid_number < (s.oids p).oid_number then oidp :: p :: rest
    else p :: insert_in_order s oidp rest

/-- `sysctl_register_oid`.  The `n + 1` of the automatic id is an `int` addition. -/
def sysctl_register_oid (s : Tree) (oidp : Nat) : Tree :=
  let parent := (s.oids oidp).oid_parent
  match sysctl_find_oidname s (s.oids oidp).oid_name parent with
  | some p =>
    if is_node (s.oids p).oid_kind then set_refcnt s p ((s.oids p).oid_refcnt + 1)
    else s
  | none =>
    let s1 :=
      if (s.oids oidp).oid_number = OID_AUTO then
        set_number s oidp (int_wrap (highest_oid s (s.lists parent) + 1))
      else s
    set_list s1 parent (insert_in_order s1 oidp (s1.lists parent))

/-- `sysctl_unregister_oid`: `SLIST_REMOVE` of a node that is not on the list runs off
the end of the list and dereferences `NULL`. -/
def sysctl_unregister_oid (s : Tree) (oidp : Nat) : Option Tree :=
  let parent := (s.oids oidp).oid_parent
  if oidp ∈ s.lists parent then some (set_list s parent ((s.lists parent).erase oidp))
  else none

/-- The `SLIST_FOREACH` over the children in `sysctl_remove_oid`; `rm` is the
recursive call. -/
def remove_children (recurse : Bool) (rm : Tree → Nat → Option (Int × Tree)) :
    Tree → List Nat → Option (Int × Tree)
  | s, [] => some (0, s)
  | s, p :: rest =>
    if !recurse then some (ENOTEMPTY, s)
    else
      match rm s p with
      | none => none
      | some (error, s1) =>
        if error ≠ 0 then some (error, s1) else remove_children recurse rm s1 rest

/-- `sysctl_remove_oid`.  The first argument bounds the depth of the recursion; a
call with `recurse = false` never recurses.  Releasing storage (`free`) does not
change the tree and is not represented. -/
def sysctl_remove_oid : Nat → Tree → Nat → Bool → Bool → Option (Int × Tree)
  | depth, s, oidp, del, recurse =>
    if oidp = 0 then some (EINVAL, s)
    else if !is_dyn (s.oids oidp).oid_kind then some (EINVAL, s)
    else
      let after_children : Option (Int × Tree) :=
        if is_node (s.oids oidp).oid_kind && (s.oids oidp).oid_refcnt == 1 then
          remove_children recurse
            (fun s1 p =>
              match depth with
              | 0 => none
              | d + 1 => sysctl_remove_oid d s1 p del recurse)
            s (s.lists (SYSCTL_CHILDREN s oidp))
        else some (0, s)
      match after_children with
      | none => none
      | some (error, s1) =>
        if error ≠ 0 then some (error, s1)
        else if (s1.oids oidp).oid_refcnt > 1 then
          some (0, set_refcnt s1 oidp ((s1.oids oidp).oid_refcnt - 1))
        else if (s1.oids oidp).oid_refcnt = 0 then some (EINVAL, s1)
        else
          match sysctl_unregister_oid s1 oidp with
          | none => none
          | some s2 => some (0, s2)

/-- `sysctl_ctx_entry_add`: the context is the list of the `entry` pointers of
its elements, newest first; `none` is a `NULL` context. -/
def sysctl_ctx_entry_add (clist : Option (List Nat)) (oidp : Nat) : Option (List Nat) :=
  match clist with
  | none => none
  | some c => if oidp = 0 then some c else some (oidp :: c)

/-- The dry run of `sysctl_ctx_free`: the error, the tree, and the entries that were
deregistered before the loop stopped, the last one first. -/
def ctx_dry_run : Tree → List Nat → List Nat → Option (Int × Tree × List Nat)
  | s, [], done => some (0, s, done)
  | s, e :: rest, done =>
    match sysctl_remove_oid 0 s e false false with
    | none => none
    | some (error, s1) =>
      if error ≠ 0 then some (error, s1, done) else ctx_dry_run s1 rest (e :: done)

/-- The restore loop of `sysctl_ctx_free`: walk back with `TAILQ_PREV` and register. -/
def ctx_restore : Tree → List Nat → Tree
  | s, [] => s
  | s, e1 :: rest => ctx_restore (sysctl_register_oid s e1) rest

/-- The commit loop of `sysctl_ctx_free`; an error is a `panic`. -/
def ctx_commit : Tree → List Nat → Option Tree
  | s, [] => some s
  | s, e :: rest =>
    match sysctl_remove_oid 0 s e true false with
    | none => none
    | some (error, s1) => if error ≠ 0 then none else ctx_commit s1 rest

/-- `sysctl_ctx_free`: the returned value, the tree and the entries the context
still holds (every entry is freed by the commit loop). -/
def sysctl_ctx_free (s : Tree) (clist : List Nat) : Option (Int × Tree × List Nat) :=
  match ctx_dry_run s clist [] with
  | none => none
  | some (error, s1, done) =>
    let s2 := ctx_restore s1 done
    if error ≠ 0 then some (EBUSY, s2, clist)
    else
      match ctx_commit s2 clist with
      | none => none
      | some s3 => some (0, s3, [])

/-- The node `sysctl_add_oid` allocates and fills in before it registers it. -/
def new_oid (parent : Nat) (number : Int) (name : List Nat) (kind : Nat) (arg1 : Nat)
    (arg2 : Int) (handler : Nat) (fmt : Option (List Nat)) (newlist : Nat) : sysctl_oid :=
  { oid_parent := parent
    oid_number := number
    oid_kind := CTLFLAG_DYN ||| kind
    oid_arg1 := if is_node kind then newlist else arg1
    oid_arg2 := if is_node kind then 0 else arg2
    oid_name := name
    oid_handler := handler
    oid_fmt := fmt
    oid_refcnt := 1 }

/-- The store after the allocations of `sysctl_add_oid`: the new node at `newoid`
and, for an interior node, an empty child list at `newlist`. -/
def alloc_oid (s : Tree) (kind : Nat) (node : sysctl_oid) (newoid newlist : Nat) : Tree :=
  { oids := fun q => if q = newoid then node else s.oids q
    lists := fun q => if is_node kind && q == newlist then [] else s.lists q }

/-- `sysctl_add_oid`.  `newoid` and `newlist` are the addresses returned by the two
`malloc` calls.  The result is the returned pointer (`0` for `NULL`), the tree and
the context. -/
def sysctl_add_oid (s : Tree) (clist : Option (List Nat)) (parent : Nat) (number : Int)
    (name : List Nat) (kind : Nat) (arg1 : Nat) (arg2 : Int) (handler : Nat)
    (fmt : Option (List Nat)) (newoid newlist : Nat) : Nat × Tree × Option (List Nat) :=
  if parent = 0 then (0, s, clist)
  else
    match sysctl_find_oidname s name parent with
    | some oidp =>
      if is_node (s.oids oidp).oid_kind then
        (oidp, set_refcnt s oidp ((s.oids oidp).oid_refcnt + 1), sysctl_ctx_entry_add clist oidp)
      else (0, s, clist)
    | none =>
      let s1 := alloc_oid s kind
        (new_oid parent number name kind arg1 arg2 handler fmt newlist) newoid newlist
      (newoid, sysctl_register_oid s1 newoid, sysctl_ctx_entry_add clist newoid)

/-! ## The resolver -/

/-- A walk along `oid_link`: `visit` answers `none` for "take `SLIST_NEXT` and go on"
and `some r` when the loop is left, or goes on in another list, with outcome `r`;
`at_end` is the outcome when the cursor becomes `NULL`. -/
def slist_walk {α : Type} (at_end : α) (visit : Nat → Option α) : List Nat → α
  | [] => at_end
  | oid :: rest =>
    match visit oid with
    | some r => r
    | none => slist_walk at_end visit rest

/-- The loop of `sysctl_find_oid`.  The first argument is `CTL_MAXNAME - indx`; the
result is the error, the pair stored through `noid` and `nindx` (when it is stored)
and the value of `req->lock`.  `name[indx]` is read with default `0` outside the
array. -/
def find_oid_loop (s : Tree) (name : List Int) (namelen : Nat) :
    Nat → Nat → Nat → List Nat → Int × Option (Nat × Nat) × Nat
  | 0, _, lock, _ => (ENOENT, none, lock)
  | room + 1, indx, lock, l =>
    slist_walk (ENOENT, none, lock)
      (fun oid =>
        if (s.oids oid).oid_number = name.getD indx 0 then
          let indx1 := indx + 1
          let lock1 := if (s.oids oid).oid_kind &&& CTLFLAG_NOLOCK ≠ 0 then 0 else lock
          some
            (if is_node (s.oids oid).oid_kind then
              if (s.oids oid).oid_handler ≠ 0 ∨ indx1 = namelen then
                (0, some (oid, indx1), lock1)
              else find_oid_loop s name namelen room indx1 lock1 (s.lists (s.oids oid).oid_arg1)
            else if indx1 = namelen then (0, some (oid, indx1), lock1)
            else (ENOTDIR, none, lock1))
        else none)
      l

/-- `sysctl_find_oid`; `lock` is the value of `req->lock` at entry. -/
def sysctl_find_oid (s : Tree) (name : List Int) (namelen : Nat) (lock : Nat) :
    Int × Option (Nat × Nat) × Nat :=
  find_oid_loop s name namelen CTL_MAXNAME 0 lock (s.lists sysctl__children)

/-- The level-by-level resolver as the specification words it: at level `i` take
the first child whose id equals `path[i]`; none: `ENOENT`; interior with a handler, or
`i + 1 = n`: success with `(child, i + 1)`; leaf with `i + 1 < n`: `ENOTDIR`;
otherwise continue in the list of the child.  A child carrying `NOLOCK` clears the
lock flag of the request. -/
def resolve_spec (s : Tree) (n : Nat) :
    List Int → Nat → Nat → Nat → Int × Option (Nat × Nat) × Nat
  | [], _, lock, _ => (ENOENT, none, lock)
  | x :: rest, i, lock, list =>
    match (s.lists list).find? (fun c => (s.oids c).oid_number = x) with
    | none => (ENOENT, none, lock)
    | some child =>
      let lock1 := if (s.oids child).oid_kind &&& CTLFLAG_NOLOCK ≠ 0 then 0 else lock
      if (is_node (s.oids child).oid_kind ∧ (s.oids child).oid_handler ≠ 0) ∨ i + 1 = n then
        (0, some (child, i + 1), lock1)
      else if ¬ is_node (s.oids child).oid_kind then (ENOTDIR, none, lock1)
      else resolve_spec s n rest (i + 1) lock1 (s.oids child).oid_arg1

/-- The loop of `name2oid`.  The first argument is `CTL_MAXNAME - *len`, the second
the numbers stored through `oid` so far, the third the string at `name` before
its first `.` is overwritten.  The result is the error, the numbers stored (`*len` is
their count) and the node stored through `oidpp`. -/
def name2oid_loop (s : Tree) :
    Nat → List Int → List Nat → List Nat → Int × List Int × Option Nat
  | 0, acc, _, _ => (ENOENT, acc, none)
  | room + 1, acc, name, l =>
    slist_walk (ENOENT, acc, none)
      (fun oidp =>
        if (s.oids oidp).oid_name ≠ name.takeWhile (fun c => c ≠ DOT) then none
        else
          let acc1 := acc ++ [(s.oids oidp).oid_number]
          some
            (match name.dropWhile (fun c => c ≠ DOT) with
            | [] => (0, acc1, some oidp)
            | _ :: rest =>
              if !is_node (s.oids oidp).oid_kind then (ENOENT, acc1, none)
              else if (s.oids oidp).oid_handler ≠ 0 then (ENOENT, acc1, none)
              else name2oid_loop s room acc1 rest (s.lists (s.oids oidp).oid_arg1)))
      l

/-- `name2oid` on the C string `name`. -/
def name2oid (s : Tree) (name : List Nat) : Int × List Int × Option Nat :=
  if name = [] then (ENOENT, [], none)
  else
    let name1 := if name.getLast? = some DOT then name.dropLast else name
    name2oid_loop s CTL_MAXNAME [] name1 (s.lists sysctl__children)

/-! ## The request object -/

/-- The two transfer functions a request can point to. -/
inductive xfer where
  | kernel
  | user
deriving DecidableEq

/-- One `struct sysctl_req`. -/
structure sysctl_req where
  p : Nat
  lock : Nat
  oldptr : Nat
  oldlen : Nat
  oldidx : Nat
  oldfunc : xfer
  newptr : Nat
  newlen : Nat
  newidx : Nat
  newfunc : xfer
deriving DecidableEq

/-- The serialization object `memlock`. -/
structure sysctl_lock where
  sl_lock : Nat
  sl_want : Nat
  sl_locked : Nat
deriving DecidableEq

/-- The kernel state a request runs in: the tree, byte-addressed memory, `memlock`,
`securelevel`, and counters of the calls made to `vslock`, `vsunlock` and `wakeup`. -/
structure kstate where
  tree : Tree
  mem : Nat → Nat
  memlock : sysctl_lock
  securelevel : Int
  vslocks : Nat
  vsunlocks : Nat
  wakeups : Nat

/-- The primitives of other subsystems: `useracc addr len prot`, the error of a
`copyout` to and of a `copyin` from a user range, and `suser_xxx` for a process and
a flag. -/
structure kenv where
  useracc : Nat → Nat → Nat → Bool
  copyout_err : Nat → Nat → Int
  copyin_err : Nat → Nat → Int
  suser_xxx : Nat → Nat → Int

def VM_PROT_READ : Nat := 1
def VM_PROT_WRITE : Nat := 2
def PRISON_ROOT : Nat := 1

/-- Addition of `size_t` values. -/
def size_add (w a b : Nat) : Nat := (a + b) % 2 ^ w

/-- Subtraction of `size_t` values. -/
def size_sub (w a b : Nat) : Nat := (a + (2 ^ w - b % 2 ^ w)) % 2 ^ w

/-- The bytes at `addr`, `addr + 1`, ... (`n` of them). -/
def mem_read (mem : Nat → Nat) (addr n : Nat) : List Nat :=
  (List.range n).map (fun k => mem (addr + k))

/-- `bcopy` of the first `n` bytes of `src` to address `dst`. -/
def mem_write (mem : Nat → Nat) (src : List Nat) (dst n : Nat) : Nat → Nat :=
  fun a => if dst ≤ a ∧ a < dst + n then src.getD (a - dst) 0 else mem a

/-- `sysctl_old_kernel`; `p` is the content of the source, `l` the length asked for. -/
def sysctl_old_kernel (w : Nat) (ks : kstate) (req : sysctl_req) (p : List Nat) (l : Nat) :
    Int × kstate × sysctl_req :=
  let i : Nat :=
    if req.oldptr ≠ 0 then
      if l > size_sub w req.oldlen req.oldidx then size_sub w req.oldlen req.oldidx else l
    else 0
  let ks1 : kstate :=
    if req.oldptr ≠ 0 ∧ i > 0 then { ks with mem := mem_write ks.mem p (req.oldptr + req.oldidx) i }
    else ks
  let req1 : sysctl_req := { req with oldidx := size_add w req.oldidx l }
  if req.oldptr ≠ 0 ∧ i ≠ l then (ENOMEM, ks1, req1) else (0, ks1, req1)

/-- `sysctl_new_kernel`; `p` is the destination address. -/
def sysctl_new_kernel (w : Nat) (ks : kstate) (req : sysctl_req) (p : Nat) (l : Nat) :
    Int × kstate × sysctl_req :=
  if req.newptr = 0 then (0, ks, req)
  else if size_sub w req.newlen req.newidx < l then (EINVAL, ks, req)
  else
    (0, { ks with mem := mem_write ks.mem (mem_read ks.mem (req.newptr + req.newidx) l) p l },
      { req with newidx := size_add w req.newidx l })

/-- `copyout`: the bytes reach user memory when the range is accepted, and nothing
is written otherwise. -/
def copyout (env : kenv) (ks : kstate) (src : List Nat) (dst n : Nat) : Int × kstate :=
  if env.copyout_err dst n = 0 then (0, { ks with mem := mem_write ks.mem src dst n })
  else (env.copyout_err dst n, ks)

/-- `copyin`: the bytes of the user range reach address `dst` when the range is
accepted, and nothing is written otherwise. -/
def copyin (env : kenv) (ks : kstate) (src dst n : Nat) : Int × kstate :=
  if env.copyin_err src n = 0 then
    (0, { ks with mem := mem_write ks.mem (mem_read ks.mem src n) dst n })
  else (env.copyin_err src n, ks)

/-- `sysctl_old_user`. -/
def sysctl_old_user (w : Nat) (env : kenv) (ks : kstate) (req : sysctl_req) (p : List Nat)
    (l : Nat) : Int × kstate × sysctl_req :=
  let wire : Bool := req.lock = 1 ∧ req.oldptr ≠ 0
  let ks0 : kstate := if wire then { ks with vslocks := ks.vslocks + 1 } else ks
  let lock1 : Nat := if wire then 2 else req.lock
  let i : Nat :=
    if req.oldptr ≠ 0 then
      if l > size_sub w req.oldlen req.oldidx then size_sub w req.oldlen req.oldidx else l
    else 0
  let out : Int × kstate :=
    if req.oldptr ≠ 0 ∧ i > 0 then copyout env ks0 p (req.oldptr + req.oldidx) i else (0, ks0)
  let req1 : sysctl_req := { req with lock := lock1, oldidx := size_add w req.oldidx l }
  if out.1 ≠ 0 then (out.1, out.2, req1)
  else if req.oldptr ≠ 0 ∧ i < l then (ENOMEM, out.2, req1)
  else (0, out.2, req1)

/-- `sysctl_new_user`. -/
def sysctl_new_user (w : Nat) (env : kenv) (ks : kstate) (req : sysctl_req) (p : Nat) (l : Nat) :
    Int × kstate × sysctl_req :=
  if req.newptr = 0 then (0, ks, req)
  else if size_sub w req.newlen req.newidx < l then (EINVAL, ks, req)
  else
    let r := copyin env ks (req.newptr + req.newidx) p l
    (r.1, r.2, { req with newidx := size_add w req.newidx l })

/-- `SYSCTL_OUT(r, p, l)`: call through `r->oldfunc`. -/
def SYSCTL_OUT (w : Nat) (env : kenv) (ks : kstate) (req : sysctl_req) (p : List Nat) (l : Nat) :
    Int × kstate × sysctl_req :=
  match req.oldfunc with
  | xfer.kernel => sysctl_old_kernel w ks req p l
  | xfer.user => sysctl_old_user w env ks req p l

/-- `SYSCTL_IN(r, p, l)`: call through `r->newfunc`. -/
def SYSCTL_IN (w : Nat) (env : kenv) (ks : kstate) (req : sysctl_req) (p : Nat) (l : Nat) :
    Int × kstate × sysctl_req :=
  match req.newfunc with
  | xfer.kernel => sysctl_new_kernel w ks req p l
  | xfer.user => sysctl_new_user w env ks req p l

/-! ## Handlers and the dispatcher -/

/-- The `arg1` of `SYSCTL_HANDLER_ARGS`: the address of a datum, or an array of
`int`s (the rest of the path handed to the handler of an interior node). -/
inductive handler_arg where
  | data (addr : Nat)
  | path (name : List Int)

/-- The address in `arg1`. -/
def handler_arg.addr : handler_arg → Nat
  | handler_arg.data a => a
  | handler_arg.path _ => 0

/-- The `int` array in `arg1`. -/
def handler_arg.ints : handler_arg → List Int
  | handler_arg.data _ => []
  | handler_arg.path name => name

/-- A handler: `oidp`, `arg1`, `arg2` and the request, run in a kernel state.  A
handler that faults or does not return has no result. -/
abbrev handler_fn : Type :=
  kstate → Nat → handler_arg → Int → sysctl_req → Option (Int × kstate × sysctl_req)

/-- Conversion of an `int` to `size_t`. -/
def size_of_int (w : Nat) (x : Int) : Nat := (x % (2 : Int) ^ w).toNat

/-- Conversion of an unsigned value to a 32-bit `int`. -/
def int_of_size (k : Nat) : Int :=
  if k % 2 ^ 32 < 2 ^ 31 then ((k % 2 ^ 32 : Nat) : Int) else ((k % 2 ^ 32 : Nat) : Int) - 2 ^ 32

/-- `strlen` at an address, searching at most `bound` bytes: there is no result when
no NUL is met. -/
def c_strlen (mem : Nat → Nat) : Nat → Nat → Option Nat
  | 0, _ => none
  | bound + 1, a =>
    if mem a = 0 then some 0
    else
      match c_strlen mem bound (a + 1) with
      | none => none
      | some n => some (n + 1)

/-- `sysctl_handle_string`. -/
def sysctl_handle_string (w : Nat) (env : kenv) : handler_fn :=
  fun ks _ arg1 arg2 req =>
    match c_strlen ks.mem (2 ^ w) arg1.addr with
    | none => none
    | some n =>
      let r := SYSCTL_OUT w env ks req (mem_read ks.mem arg1.addr (n + 1)) (size_add w n 1)
      if r.1 ≠ 0 ∨ r.2.2.newptr = 0 then some r
      else if size_sub w r.2.2.newlen r.2.2.newidx ≥ size_of_int w arg2 then
        some (EINVAL, r.2.1, r.2.2)
      else
        let arg2new : Int := int_of_size (size_sub w r.2.2.newlen r.2.2.newidx)
        let r2 := SYSCTL_IN w env r.2.1 r.2.2 arg1.addr (size_of_int w arg2new)
        some (r2.1,
          { r2.2.1 with
            mem := fun a => if (a : Int) = (arg1.addr : Int) + arg2new then 0 else r2.2.1.mem a },
          r2.2.2)

/-- What `snprintf(buf, sizeof(buf), "%d", x)` leaves in `char buf[10]`: the first
nine characters of the decimal form of `x`. -/
def snprintf_d (x : Int) : List Nat :=
  (if x < 0 then 45 :: (Nat.toDigits 10 x.natAbs).map Char.toNat
   else (Nat.toDigits 10 x.toNat).map Char.toNat).take 9

/-- One component of `sysctl_sysctl_name`: a `.` when `req->oldidx` is not zero,
then, unless that failed, the text. -/
def name_out (w : Nat) (env : kenv) (ks : kstate) (req : sysctl_req) (text : List Nat) :
    Int × kstate × sysctl_req :=
  let r := if req.oldidx ≠ 0 then SYSCTL_OUT w env ks req [DOT] 1 else (0, ks, req)
  if r.1 = 0 then SYSCTL_OUT w env r.2.1 r.2.2 text text.length else r

/-- The `while (namelen)` loop of `sysctl_sysctl_name`; `lsp = 0` is the `NULL`
list.  An element that matches no node of the list leaves `lsp = NULL` without
consuming the element, and the next turn of the loop prints it as a number: both
turns are one step here. -/
def sysctl_name_loop (w : Nat) (env : kenv) :
    Nat → List Int → Nat → kstate → sysctl_req → Int × kstate × sysctl_req
  | 0, _, _, ks, req => (0, ks, req)
  | namelen + 1, name, lsp, ks, req =>
    let found : Option Nat :=
      if lsp = 0 then none
      else (ks.tree.lists lsp).find? (fun oid => (ks.tree.oids oid).oid_number = name.headD 0)
    match found with
    | none =>
      let r := name_out w env ks req (snprintf_d (name.headD 0))
      if r.1 ≠ 0 then r else sysctl_name_loop w env namelen name.tail 0 r.2.1 r.2.2
    | some oid =>
      let r := name_out w env ks req (ks.tree.oids oid).oid_name
      if r.1 ≠ 0 then r
      else
        let lsp2 : Nat :=
          if !is_node (ks.tree.oids oid).oid_kind then 0
          else if (ks.tree.oids oid).oid_handler ≠ 0 then 0
          else (ks.tree.oids oid).oid_arg1
        sysctl_name_loop w env namelen name.tail lsp2 r.2.1 r.2.2

/-- `sysctl_sysctl_name`. -/
def sysctl_sysctl_name (w : Nat) (env : kenv) : handler_fn :=
  fun ks _ arg1 arg2 req =>
    let r := sysctl_name_loop w env (size_of_int 32 arg2) arg1.ints sysctl__children ks req
    if r.1 ≠ 0 then some r else some (SYSCTL_OUT w env r.2.1 r.2.2 [0] 1)

/-- `sysctl_root`; `hs` resolves the function pointer `oid_handler`. -/
def sysctl_root (env : kenv) (hs : Nat → handler_fn) (ks : kstate) (name : List Int)
    (namelen : Nat) (req : sysctl_req) : Option (Int × kstate × sysctl_req) :=
  let found := sysctl_find_oid ks.tree name namelen req.lock
  let req1 : sysctl_req := { req with lock := found.2.2 }
  if found.1 ≠ 0 then some (found.1, ks, req1)
  else
    match found.2.1 with
    | none => none
    | some (oid, indx) =>
      let o := ks.tree.oids oid
      if is_node o.oid_kind ∧ o.oid_handler = 0 then some (EISDIR, ks, req1)
      else if req1.newptr ≠ 0 ∧
          (o.oid_kind &&& CTLFLAG_WR = 0 ∨ (o.oid_kind &&& CTLFLAG_SECURE ≠ 0 ∧ ks.securelevel > 0))
      then some (EPERM, ks, req1)
      else
        let error : Int :=
          if o.oid_kind &&& CTLFLAG_ANYBODY = 0 ∧ req1.newptr ≠ 0 ∧ req1.p ≠ 0 then
            env.suser_xxx req1.p (if o.oid_kind &&& CTLFLAG_PRISON ≠ 0 then PRISON_ROOT else 0)
          else 0
        if error ≠ 0 then some (error, ks, req1)
        else if o.oid_handler = 0 then some (EINVAL, ks, req1)
        else if is_node o.oid_kind then
          hs o.oid_handler ks oid (handler_arg.path (name.drop indx)) ((namelen : Int) - indx) req1
        else hs o.oid_handler ks oid (handler_arg.data o.oid_arg1) o.oid_arg2 req1

/-- The size `kernel_sysctl` and `userland_sysctl` store through `retval`. -/
def reported_size (req : sysctl_req) : Nat :=
  if req.oldptr ≠ 0 ∧ req.oldidx > req.oldlen then req.oldlen else req.oldidx

/-- Release of `memlock` at the end of a call: `vsunlock` when the buffer was
wired, then `sl_lock = 0` and the `wakeup` of a waiter. -/
def sysctl_unlock (ks : kstate) (req : sysctl_req) : kstate :=
  let ks1 : kstate := if req.lock = 2 then { ks with vsunlocks := ks.vsunlocks + 1 } else ks
  if ks1.memlock.sl_want ≠ 0 then
    { ks1 with memlock := { ks1.memlock with sl_lock := 0, sl_want := 0 }, wakeups := ks1.wakeups + 1 }
  else { ks1 with memlock := { ks1.memlock with sl_lock := 0 } }

/-- The request `kernel_sysctl` builds. -/
def kernel_req (p : Nat) (old : Nat) (oldlenp : Option Nat) (new : Nat) (newlen : Nat) :
    sysctl_req :=
  { p := p
    lock := 1
    oldptr := old
    oldlen := oldlenp.getD 0
    oldidx := 0
    oldfunc := xfer.kernel
    newptr := new
    newlen := if new ≠ 0 then newlen else 0
    newidx := 0
    newfunc := xfer.kernel }

/-- The request after `bzero` and `req.p = p`, as it is when `userland_sysctl` returns
before the dispatch (it is local to the call and dies with it; its function pointers
are never called). -/
def blank_req (p : Nat) : sysctl_req :=
  { p := p
    lock := 0
    oldptr := 0
    oldlen := 0
    oldidx := 0
    oldfunc := xfer.user
    newptr := 0
    newlen := 0
    newidx := 0
    newfunc := xfer.user }

/-- The request `userland_sysctl` builds once the user ranges are accepted. -/
def userland_req (p : Nat) (old : Nat) (oldlen : Nat) (new : Nat) (newlen : Nat) : sysctl_req :=
  { p := p
    lock := 1
    oldptr := old
    oldlen := oldlen
    oldidx := 0
    oldfunc := xfer.user
    newptr := new
    newlen := if new ≠ 0 then newlen else 0
    newidx := 0
    newfunc := xfer.user }

/-- The `do ... while (error == EAGAIN)` loop of `userland_sysctl`; the first
argument bounds the number of attempts. -/
def userland_retry (env : kenv) (hs : Nat → handler_fn) (name : List Int) (namelen : Nat)
    (req : sysctl_req) : Nat → kstate → Option (Int × kstate × sysctl_req)
  | 0, _ => none
  | attempts + 1, ks =>
    match sysctl_root env hs ks name namelen req with
    | none => none
    | some (error, ks1, req2) =>
      if error = EAGAIN then userland_retry env hs name namelen req attempts ks1
      else some (error, ks1, req2)

/-- The error of reading `*oldlenp` in `userland_sysctl`: a `copyin` unless the call
comes from the kernel. -/
def oldlenp_error (w : Nat) (env : kenv) (oldlenp : Option (Nat × Nat)) (inkernel : Bool) : Int :=
  match oldlenp with
  | none => 0
  | some (addr, _) => if inkernel then 0 else env.copyin_err addr (w / 8)

/-- The value read from `*oldlenp`; `req.oldlen` stays `0` for a `NULL` pointer. -/
def oldlenp_value (oldlenp : Option (Nat × Nat)) : Nat :=
  match oldlenp with
  | none => 0
  | some (_, v) => v

/-- `userland_sysctl`.  `oldlenp` is the address and the value behind the pointer
(`none` for `NULL`); the first argument bounds the number of attempts of the retry
loop. -/
def userland_sysctl (w : Nat) (env : kenv) (hs : Nat → handler_fn) (attempts : Nat)
    (ks : kstate) (p : Nat) (name : List Int) (namelen : Nat) (old : Nat)
    (oldlenp : Option (Nat × Nat)) (inkernel : Bool) (new : Nat) (newlen : Nat)
    (retval : Bool) : Option (Int × kstate × Option Nat × sysctl_req) :=
  let lenerr : Int := oldlenp_error w env oldlenp inkernel
  let oldlen : Nat := oldlenp_value oldlenp
  if lenerr ≠ 0 then some (lenerr, ks, none, blank_req p)
  else if old ≠ 0 ∧ !env.useracc old oldlen VM_PROT_WRITE then
    some (EFAULT, ks, none, blank_req p)
  else if new ≠ 0 ∧ !env.useracc new 0 VM_PROT_READ then
    some (EFAULT, ks, none, blank_req p)
  else
    let req : sysctl_req := userland_req p old oldlen new newlen
    if ks.memlock.sl_lock ≠ 0 then none
    else
      let ks1 : kstate := { ks with memlock := { ks.memlock with sl_lock := 1 } }
      match userland_retry env hs name namelen req attempts ks1 with
      | none => none
      | some (error, ks2, req2) =>
        let ks3 := sysctl_unlock ks2 req2
        if error ≠ 0 ∧ error ≠ ENOMEM then some (error, ks3, none, req2)
        else some (error, ks3, if retval then some (reported_size req2) else none, req2)

/-! ## Concrete states used in the examples -/

/-- A zeroed `struct sysctl_oid`. -/
def zero_oid : sysctl_oid :=
  { oid_parent := 0, oid_number := 0, oid_kind := 0, oid_arg1 := 0, oid_arg2 := 0,
    oid_name := [], oid_handler := 0, oid_fmt := none, oid_refcnt := 0 }

/-- A static leaf of the root list. -/
def leaf_oid (number : Int) (name : List Nat) : sysctl_oid :=
  { zero_oid with
    oid_parent := sysctl__children, oid_number := number, oid_kind := CTLTYPE_INT,
    oid_name := name, oid_refcnt := 1 }

/-- Root list `[10, 11]` with ids `5` and `7` (names `a`, `b`); node `12` (name `x`) is
not registered and asks for an automatic id; node `13` (name `c`) is not registered
and asks for id `5`. -/
def tree57 : Tree :=
  { oids := fun q =>
      if q = 10 then leaf_oid 5 [97]
      else if q = 11 then leaf_oid 7 [98]
      else if q = 12 then
        { leaf_oid OID_AUTO [120] with oid_kind := CTLFLAG_DYN ||| CTLTYPE_NODE, oid_arg1 := 2 }
      else if q = 13 then leaf_oid 5 [99]
      else zero_oid
    lists := fun q => if q = sysctl__children then [10, 11] else [] }

/-- Root list `[10, 11]` with ids `INT_MIN` and `INT_MAX` (names `a`, `b`); node `12`
(name `x`) is not registered and asks for an automatic id. -/
def tree_int_max : Tree :=
  { oids := fun q =>
      if q = 10 then leaf_oid INT_MIN [97]
      else if q = 11 then leaf_oid INT_MAX [98]
      else if q = 12 then leaf_oid OID_AUTO [120]
      else zero_oid
    lists := fun q => if q = sysctl__children then [10, 11] else [] }

/-! ## Predicates and auxiliary definitions of the proofs -/

/-- Ids of a list are strictly increasing in storage order. -/
def ids_increasing (s : Tree) (l : List Nat) : Prop :=
  l.Pairwise (fun a b => (s.oids a).oid_number < (s.oids b).oid_number)

/-- Names of a list are pairwise distinct. -/
def names_distinct (s : Tree) (l : List Nat) : Prop :=
  l.Pairwise (fun a b => (s.oids a).oid_name ≠ (s.oids b).oid_name)

instance (s : Tree) (l : List Nat) : Decidable (ids_increasing s l) := by
  unfold ids_increasing; infer_instance

instance (s : Tree) (l : List Nat) : Decidable (names_distinct s l) := by
  unfold names_distinct; infer_instance

/-- The state in which `sysctl_register_oid` runs its insertion loop. -/
def numbered (s : Tree) (oidp : Nat) : Tree :=
  if (s.oids oidp).oid_number = OID_AUTO then
    set_number s oidp (int_wrap (highest_oid s (s.lists (s.oids oidp).oid_parent) + 1))
  else s


/-- The sibling invariants: in every child list the names are pairwise distinct and
the ids strictly increasing. -/
def sibling_inv (s : Tree) : Prop :=
  (∀ l, names_distinct s (s.lists l)) ∧ (∀ l, ids_increasing s (s.lists l))

/-- What the restore loop of `sysctl_ctx_free` relies on for a node: its id is not
`AUTO`, and when its ref-count is above one it is an interior node linked in the list
of its parent. -/
def restorable (s : Tree) (x : Nat) : Prop :=
  (s.oids x).oid_number ≠ OID_AUTO
  ∧ ((s.oids x).oid_refcnt > 1 →
      is_node (s.oids x).oid_kind = true ∧ x ∈ s.lists (s.oids x).oid_parent)

/-- Root list `[30, 31]`: node `30` is a dynamic leaf (id `5`, name `a`) with ref-count
`2`, node `31` a static leaf (id `7`, name `b`). -/
def tree_leaf2 : Tree :=
  { oids := fun q =>
      if q = 30 then { leaf_oid 5 [97] with oid_kind := CTLFLAG_DYN ||| CTLTYPE_INT, oid_refcnt := 2 }
      else if q = 31 then leaf_oid 7 [98]
      else zero_oid
    lists := fun q => if q = sysctl__children then [30, 31] else [] }

/-- Root list `[32, 33]`: node `32` is a dynamic leaf whose id is the value of `AUTO`
(name `a`, ref-count `1`), node `33` a static leaf (id `5`, name `b`). -/
def tree_auto : Tree :=
  { oids := fun q =>
      if q = 32 then { leaf_oid OID_AUTO [97] with oid_kind := CTLFLAG_DYN ||| CTLTYPE_INT }
      else if q = 33 then leaf_oid 5 [98]
      else zero_oid
    lists := fun q => if q = sysctl__children then [32, 33] else [] }

/-- Root list `[42, 40, 41]`: node `40` is a dynamic interior node with ref-count `2`
and child list `2`, node `41` a dynamic leaf, node `42` a static leaf. -/
def tree_busy : Tree :=
  { oids := fun q =>
      if q = 40 then
        { leaf_oid 100 [97] with
          oid_kind := CTLFLAG_DYN ||| CTLTYPE_NODE, oid_arg1 := 2, oid_refcnt := 2 }
      else if q = 41 then { leaf_oid 101 [98] with oid_kind := CTLFLAG_DYN ||| CTLTYPE_INT }
      else if q = 42 then leaf_oid 7 [99]
      else zero_oid
    lists := fun q => if q = sysctl__children then [42, 40, 41] else [] }

/-- Primitives that accept every user range and every caller. -/
def env_ok : kenv :=
  { useracc := fun _ _ _ => true
    copyout_err := fun _ _ => 0
    copyin_err := fun _ _ => 0
    suser_xxx := fun _ _ => 0 }

/-- The name `kern`. -/
def name_kern : List Nat := [107, 101, 114, 110]

/-- The name `hostname`. -/
def name_hostname : List Nat := [104, 111, 115, 116, 110, 97, 109, 101]

/-- Root list `[50]`: `kern`, an interior node (id `1`) without handler whose child
list `3` is `[51]`: `hostname`, a string leaf (id `10`) handled by handler `1`, with its
buffer of `64` bytes at address `2000`. -/
def tree_kern : Tree :=
  { oids := fun q =>
      if q = 50 then
        { leaf_oid 1 name_kern with oid_kind := CTLFLAG_RD ||| CTLFLAG_WR ||| CTLTYPE_NODE, oid_arg1 := 3 }
      else if q = 51 then
        { leaf_oid 10 name_hostname with
          oid_parent := 3, oid_kind := CTLFLAG_RD ||| CTLFLAG_WR ||| CTLTYPE_STRING,
          oid_arg1 := 2000, oid_arg2 := 64, oid_handler := 1 }
      else zero_oid
    lists := fun q => if q = sysctl__children then [50] else if q = 3 then [51] else [] }

/-- A kernel state over `tree_kern` whose memory holds the 20 characters `a` ... `t`
at address `2000`, followed by NUL bytes. -/
def ks_kern : kstate :=
  { tree := tree_kern
    mem := fun a => if 2000 ≤ a ∧ a < 2020 then 97 + (a - 2000) else 0
    memlock := { sl_lock := 0, sl_want := 0, sl_locked := 0 }
    securelevel := 0
    vslocks := 0
    vsunlocks := 0
    wakeups := 0 }

/-- Handler table of the examples: pointer `1` is `sysctl_handle_string`, pointer `2`
is `sysctl_sysctl_name`. -/
def handlers32 : Nat → handler_fn :=
  fun h =>
    if h = 1 then sysctl_handle_string 32 env_ok
    else if h = 2 then sysctl_sysctl_name 32 env_ok
    else fun _ _ _ _ _ => none

/-- A request in the state a truncated read leaves: a 7-byte old buffer at address
`3000` and the cursor at `21`. -/
def req_truncated (f : xfer) : sysctl_req :=
  { p := 0, lock := 1, oldptr := 3000, oldlen := 7, oldidx := 21, oldfunc := f,
    newptr := 0, newlen := 0, newidx := 0, newfunc := f }

/-! ## Auxiliary definitions for the name round trips -/

/-- Memory after `bytes` are stored at `addr`. -/
def mem_put (mem : Nat → Nat) (addr : Nat) (bytes : List Nat) : Nat → Nat :=
  fun a => if addr ≤ a ∧ a < addr + bytes.length then bytes.getD (a - addr) 0 else mem a

/-- The C string that starts a byte sequence: the bytes before the first NUL. -/
def c_string (bytes : List Nat) : List Nat := bytes.takeWhile (fun c => c ≠ 0)

/-- Components joined by `.`. -/
def join_dots : List (List Nat) → List Nat
  | [] => []
  | n :: rest => if rest = [] then n else n ++ DOT :: join_dots rest

/-- Node `c` is the first node of list `l` that carries its number. -/
def by_id (s : Tree) (l c : Nat) : Prop :=
  (s.lists l).find? (fun q => decide ((s.oids q).oid_number = (s.oids c).oid_number)) = some c

/-- Node `c` is the first node of list `l` that carries its name. -/
def by_name (s : Tree) (l c : Nat) : Prop :=
  (s.lists l).find? (fun q => decide ((s.oids q).oid_name = (s.oids c).oid_name)) = some c

/-- A descent from list `l`: each node is found in the current list, and every node
but the last is an interior node without handler whose child list is the next
list. -/
def chain (s : Tree) (found : Nat → Nat → Prop) : Nat → List Nat → Prop
  | _, [] => False
  | l, c :: rest =>
    found l c ∧
      (rest = [] ∨
        (is_node (s.oids c).oid_kind = true ∧ (s.oids c).oid_handler = 0
          ∧ chain s found (s.oids c).oid_arg1 rest))

/-- A request that writes into a present buffer, with the cursor inside the
buffer. -/
def writes_inside (w : Nat) (req : sysctl_req) : Prop :=
  req.oldptr ≠ 0 ∧ req.oldlen < 2 ^ w ∧ req.oldidx ≤ req.oldlen

/-- The separator `sysctl_sysctl_name` writes before a component. -/
def separator (req : sysctl_req) : List Nat := if req.oldidx ≠ 0 then [DOT] else []

/-- Root list `[60]`: an interior node with the empty name (id `1`) without handler,
whose child list `4` is `[61]`: a leaf named `b` (id `2`). -/
def tree_anon : Tree :=
  { oids := fun q =>
      if q = 60 then
        { leaf_oid 1 [] with oid_kind := CTLFLAG_RD ||| CTLTYPE_NODE, oid_arg1 := 4 }
      else if q = 61 then { leaf_oid 2 [98] with oid_parent := 4 }
      else zero_oid
    lists := fun q => if q = sysctl__children then [60] else if q = 4 then [61] else [] }

/-- A kernel state over `tree_anon` with zeroed memory. -/
def ks_anon : kstate := { ks_kern with tree := tree_anon, mem := fun _ => 0 }

/-- The string `kern.hostname`. -/
def dotted_hostname : List Nat := name_kern ++ DOT :: name_hostname

/-! ## Further handlers -/

/-- The four bytes of an `int` in memory (two's complement, least significant byte
first, as on the i386). -/
def int_bytes (c : Int) : List Nat :=
  let u : Nat := (c % (2 : Int) ^ 32).toNat
  [u % 256, u / 256 % 256, u / 65536 % 256, u / 16777216 % 256]

/-- The value of `sizeof(int)`. -/
def SIZEOF_INT : Nat := 4

/-- `sysctl_handle_int`. -/
def sysctl_handle_int (w : Nat) (env : kenv) : handler_fn :=
  fun ks _ arg1 arg2 req =>
    let r :=
      if arg1.addr ≠ 0 then
        SYSCTL_OUT w env ks req (mem_read ks.mem arg1.addr SIZEOF_INT) SIZEOF_INT
      else SYSCTL_OUT w env ks req (int_bytes arg2) SIZEOF_INT
    if r.1 ≠ 0 ∨ r.2.2.newptr = 0 then some r
    else if arg1.addr = 0 then some (EPERM, r.2.1, r.2.2)
    else some (SYSCTL_IN w env r.2.1 r.2.2 arg1.addr SIZEOF_INT)

/-- `sysctl_handle_long`; `sizeof(long)` is the size of a machine word. -/
def sysctl_handle_long (w : Nat) (env : kenv) : handler_fn :=
  fun ks _ arg1 _ req =>
    if arg1.addr = 0 then some (EINVAL, ks, req)
    else
      let r := SYSCTL_OUT w env ks req (mem_read ks.mem arg1.addr (w / 8)) (w / 8)
      if r.1 ≠ 0 ∨ r.2.2.newptr = 0 then some r
      else some (SYSCTL_IN w env r.2.1 r.2.2 arg1.addr (w / 8))

/-- A kernel state over `tree57`, whose leaves carry no access flag. -/
def ks57 : kstate := { ks_kern with tree := tree57, mem := fun _ => 0 }

/-! ## Trees that differ only in what a re-registration may change -/

/-- Two node records that agree in every field but `oid_number`. -/
def same_but_number (a b : sysctl_oid) : Prop :=
  { a with oid_number := 0 } = { b with oid_number := 0 }

/-- Two trees that hold the same nodes in the same lists and agree on everything but
the place and the id of the nodes outside `keep`: a node that is unlinked and
registered again may get another place among siblings with the same id, and a fresh
id when its id was `OID_AUTO`. -/
def alike (keep : Nat → Bool) (s t : Tree) : Prop :=
  (∀ x, same_but_number (s.oids x) (t.oids x))
  ∧ (∀ x, keep x = true → (s.oids x).oid_number = (t.oids x).oid_number)
  ∧ (∀ l, (s.lists l).Perm (t.lists l))
  ∧ (∀ l, (s.lists l).filter keep = (t.lists l).filter keep)

/-- What the restore loop of `sysctl_ctx_free` relies on to find a node again whose
ref-count was decremented: it is an interior node linked in the list of its parent. -/
def relinkable (s : Tree) (x : Nat) : Prop :=
  (s.oids x).oid_refcnt > 1 →
    is_node (s.oids x).oid_kind = true ∧ x ∈ s.lists (s.oids x).oid_parent

instance (s : Tree) (x : Nat) : Decidable (relinkable s x) := by
  unfold relinkable; infer_instance

/-- The nodes a context does not reference. -/
def unreferenced (clist : List Nat) : Nat → Bool := fun x => decide (x ∉ clist)

/-- The trace `m` successful removals of node `x` leave, from tree `s` to tree `s1`:
only the ref-count of `x` may differ; without a removal the ref-count and the links
are the same; with `m` removals either the ref-count was above `m`, is now `m` less
and the links are the same, or it was `m`, the node was linked in the list of its
parent and is no longer. -/
def removed_times (s s1 : Tree) (m : Nat) (x : Nat) : Prop :=
  s1.oids x = { s.oids x with oid_refcnt := (s1.oids x).oid_refcnt }
  ∧ (m = 0 →
      (s1.oids x).oid_refcnt = (s.oids x).oid_refcnt ∧ ∀ l, x ∈ s1.lists l ↔ x ∈ s.lists l)
  ∧ (0 < m →
      (m < (s.oids x).oid_refcnt ∧ (s1.oids x).oid_refcnt = (s.oids x).oid_refcnt - m
        ∧ ∀ l, x ∈ s1.lists l ↔ x ∈ s.lists l)
      ∨ (m = (s.oids x).oid_refcnt ∧ x ∈ s.lists (s.oids x).oid_parent
        ∧ x ∉ s1.lists (s.oids x).oid_parent ∧ (s1.oids x).oid_refcnt = 1))

/-- From `s` to `s1` no kind has changed and every node that is not dynamic has the
same record and is in the same lists. -/
def keeps_static (s s1 : Tree) : Prop :=
  (∀ x, (s1.oids x).oid_kind = (s.oids x).oid_kind)
  ∧ ∀ x, is_dyn (s.oids x).oid_kind = false →
      s1.oids x = s.oids x ∧ ∀ l, x ∈ s1.lists l ↔ x ∈ s.lists l

/-- Root list `[70, 71]` with two interior nodes of the same name `a`: node `70` is
static with ref-count `1`, node `71` dynamic with ref-count `2`. -/
def tree_twins : Tree :=
  { oids := fun q =>
      if q = 70 then { leaf_oid 5 [97] with oid_kind := CTLTYPE_NODE, oid_arg1 := 5 }
      else if q = 71 then
        { leaf_oid 6 [97] with
          oid_kind := CTLFLAG_DYN ||| CTLTYPE_NODE, oid_arg1 := 6, oid_refcnt := 2 }
      else zero_oid
    lists := fun q => if q = sysctl__children then [70, 71] else [] }

/-! ## Reachable states of the tree and its contexts -/

/-- The number of entries, over the contexts `ctxs`, that reference node `x`. -/
def entries (ctxs : List (List Nat)) (x : Nat) : Nat := (ctxs.map (fun c => c.count x)).sum

/-- The states (tree and contexts) reached from the tree `s0` without contexts by
`sysctl_ctx_init` (a new empty context), by `sysctl_add_oid` with one of the contexts,
and by `sysctl_ctx_free` of one of the contexts.  The addresses `malloc` hands to
`sysctl_add_oid` are not `NULL`, the node address is on no list and the list at the
list address is empty. -/
inductive reach (s0 : Tree) : Tree → List (List Nat) → Prop where
  | start : reach s0 s0 []
  | ctx_init {s : Tree} {ctxs : List (List Nat)} : reach s0 s ctxs → reach s0 s ([] :: ctxs)
  | add_oid {s : Tree} {pre : List (List Nat)} {c : List Nat} {post : List (List Nat)}
      (parent : Nat) (number : Int) (name : List Nat) (kind : Nat) (arg1 : Nat) (arg2 : Int)
      (handler : Nat) (fmt : Option (List Nat)) (newoid newlist ret : Nat) (s1 : Tree)
      (c1 : List Nat) :
      reach s0 s (pre ++ c :: post) →
      newoid ≠ 0 → (∀ l, newoid ∉ s.lists l) → s.lists newlist = [] →
      sysctl_add_oid s (some c) parent number name kind arg1 arg2 handler fmt newoid newlist
        = (ret, s1, some c1) →
      reach s0 s1 (pre ++ c1 :: post)
  | ctx_free {s : Tree} {pre : List (List Nat)} {c : List Nat} {post : List (List Nat)}
      (err : Int) (s1 : Tree) (c1 : List Nat) :
      reach s0 s (pre ++ c :: post) →
      sysctl_ctx_free s c = some (err, s1, c1) →
      reach s0 s1 (pre ++ c1 :: post)

/-- The invariant of the reachable states: sibling names are distinct, every node
is on the list `oid_parent` names, `NULL` is on no list, a linked node has ref-count
one plus its entries when it was linked in `s0` and its entries otherwise, every
referenced node is linked, a linked node with ref-count above one is interior, and the
nodes linked in `s0` are linked. -/
def count_inv (s0 s : Tree) (ctxs : List (List Nat)) : Prop :=
  (∀ l, names_distinct s (s.lists l))
  ∧ (∀ l, ∀ x ∈ s.lists l, (s.oids x).oid_parent = l)
  ∧ (∀ l, (0 : Nat) ∉ s.lists l)
  ∧ (∀ l, ∀ x ∈ s.lists l,
      ((∃ l0, x ∈ s0.lists l0) → (s.oids x).oid_refcnt = 1 + entries ctxs x)
      ∧ ((∀ l0, x ∉ s0.lists l0) → (s.oids x).oid_refcnt = entries ctxs x))
  ∧ (∀ x, 0 < entries ctxs x → ∃ l, x ∈ s.lists l)
  ∧ (∀ l, ∀ x ∈ s.lists l, (s.oids x).oid_refcnt > 1 → is_node (s.oids x).oid_kind = true)
  ∧ (∀ l0, ∀ x ∈ s0.lists l0, ∃ l, x ∈ s.lists l)

/-- The tree after an interior node `d` has been added under the root of `tree_kern`
through a first context: the new node is `60`, with child list `61`. -/
def tree_shared1 : Tree :=
  (sysctl_add_oid tree_kern (some []) 1 OID_AUTO [100] CTLTYPE_NODE 0 0 0 none 60 61).2.1

/-- The tree after `d` has been added once more, through a second context. -/
def tree_shared2 : Tree :=
  (sysctl_add_oid tree_shared1 (some []) 1 OID_AUTO [100] CTLTYPE_NODE 0 0 0 none 62 63).2.1

/-- Root list `[80]`: a dynamic interior node `d` with ref-count `1` and child
list `8`. -/
def tree_dyn : Tree :=
  { oids := fun q =>
      if q = 80 then
        { leaf_oid 5 [100] with oid_kind := CTLFLAG_DYN ||| CTLTYPE_NODE, oid_arg1 := 8 }
      else zero_oid
    lists := fun q => if q = sysctl__children then [80] else [] }

/-! ## Enumeration: `sysctl_sysctl_next` -/

/-- The `SLIST_FOREACH` of `sysctl_sysctl_next_ls` over the remaining siblings.
`rec lsp name namelen` is the recursive call one level down, `name` is the pointer
`name` (`none` for the null pointer the unconstrained recursion passes), and the
first argument is the current value of `namelen`, which the code sets to `1` at the
label `next`.  The result is `none` for a fault, `some none` for the return value
`1`, and `some (some p)` for the return value `0` with `p` the part of `next` this
level and the levels below have filled.  Reading `*name` has no result when the
pointer is null or the model holds no element there. -/
def next_ls_loop (s : Tree)
    (rec : Nat → Option (List Int) → Nat → Option (Option (List Int)))
    (name : Option (List Int)) : Nat → List Nat → Option (Option (List Int))
  | _, [] => some none
  | namelen, oidp :: rest =>
    if namelen = 0 then
      if !is_node (s.oids oidp).oid_kind then some (some [(s.oids oidp).oid_number])
      else if (s.oids oidp).oid_handler ≠ 0 then some (some [(s.oids oidp).oid_number])
      else
        match rec (s.oids oidp).oid_arg1 none 0 with
        | none => none
        | some (some p) => some (some ((s.oids oidp).oid_number :: p))
        | some none => next_ls_loop s rec name 1 rest
    else
      match name with
      | some (x :: tl) =>
        if (s.oids oidp).oid_number < x then next_ls_loop s rec name namelen rest
        else if (s.oids oidp).oid_number > x then
          if !is_node (s.oids oidp).oid_kind then some (some [(s.oids oidp).oid_number])
          else if (s.oids oidp).oid_handler ≠ 0 then some (some [(s.oids oidp).oid_number])
          else
            match rec (s.oids oidp).oid_arg1 (some tl) (namelen - 1) with
            | none => none
            | some (some p) => some (some ((s.oids oidp).oid_number :: p))
            | some none => next_ls_loop s rec name 1 rest
        else if !is_node (s.oids oidp).oid_kind then next_ls_loop s rec name namelen rest
        else if (s.oids oidp).oid_handler ≠ 0 then next_ls_loop s rec name namelen rest
        else
          match rec (s.oids oidp).oid_arg1 (some tl) (namelen - 1) with
          | none => none
          | some (some p) => some (some ((s.oids oidp).oid_number :: p))
          | some none => next_ls_loop s rec name 1 rest
      | _ => none

/-- `sysctl_sysctl_next_ls`.  The first argument is the room left in the array
`newoid[CTL_MAXNAME]` that `next` points into: a visit of a node without room writes
behind the array and has no result. -/
def sysctl_sysctl_next_ls (s : Tree) :
    Nat → Nat → Option (List Int) → Nat → Option (Option (List Int))
  | 0, lsp, _, _ => if s.lists lsp = [] then some none else none
  | room + 1, lsp, name, namelen =>
    next_ls_loop s (sysctl_sysctl_next_ls s room) name namelen (s.lists lsp)

/-- `sysctl_sysctl_next`. -/
def sysctl_sysctl_next (w : Nat) (env : kenv) : handler_fn :=
  fun ks _ arg1 arg2 req =>
    match sysctl_sysctl_next_ls ks.tree CTL_MAXNAME sysctl__children (some arg1.ints)
        (size_of_int 32 arg2) with
    | none => none
    | some none => some (ENOENT, ks, req)
    | some (some newoid) =>
      some (SYSCTL_OUT w env ks req (newoid.map int_bytes).flatten (newoid.length * SIZEOF_INT))

/-- Root list `[90]`: `90` is an interior node (id `1`) without handler whose child
list `9` is `[91, 92]`; `91` is an interior node (id `1`) without handler and without
children (its list is `10`), `92` is a leaf (id `2`). -/
def tree_hollow : Tree :=
  { oids := fun q =>
      if q = 90 then { leaf_oid 1 [97] with oid_kind := CTLTYPE_NODE, oid_arg1 := 9 }
      else if q = 91 then
        { leaf_oid 1 [98] with oid_parent := 9, oid_kind := CTLTYPE_NODE, oid_arg1 := 10 }
      else if q = 92 then { leaf_oid 2 [99] with oid_parent := 9 }
      else zero_oid
    lists := fun q => if q = sysctl__children then [90] else if q = 9 then [91, 92] else [] }

/-- Root list `[93, 94]`: `93` is an interior node (id `1`) without handler and
without children (its list is `11`), `94` is a leaf (id `2`). -/
def tree_hollow_root : Tree :=
  { oids := fun q =>
      if q = 93 then { leaf_oid 1 [97] with oid_kind := CTLTYPE_NODE, oid_arg1 := 11 }
      else if q = 94 then leaf_oid 2 [98]
      else zero_oid
    lists := fun q => if q = sysctl__children then [93, 94] else [] }

/-- The sequence the enumeration is specified to yield, to depth `d` below list
`lsp`: depth first, children in storage order, the path of every leaf and of every
interior node with a handler, and below an interior node without handler the
sequence of its children. -/
def dfs_paths (s : Tree) : Nat → Nat → List (List Int)
  | 0, _ => []
  | d + 1, lsp =>
    ((s.lists lsp).map (fun c =>
      if !is_node (s.oids c).oid_kind || (s.oids c).oid_handler != 0 then
        [[(s.oids c).oid_number]]
      else (dfs_paths s d (s.oids c).oid_arg1).map (fun p => (s.oids c).oid_number :: p))).flatten

/-- Root list `[100]`: `100` is a dynamic interior node with ref-count `1` whose
child list `12` is `[101, 102]`; `101` is a dynamic leaf, `102` a static leaf. -/
def tree_half_removed : Tree :=
  { oids := fun q =>
      if q = 100 then
        { leaf_oid 5 [97] with oid_kind := CTLFLAG_DYN ||| CTLTYPE_NODE, oid_arg1 := 12 }
      else if q = 101 then
        { leaf_oid 1 [98] with oid_parent := 12, oid_kind := CTLFLAG_DYN ||| CTLTYPE_INT }
      else if q = 102 then { leaf_oid 2 [99] with oid_parent := 12 }
      else zero_oid
    lists := fun q => if q = sysctl__children then [100] else if q = 12 then [101, 102] else [] }

/-! ## Examples for the top-level calls -/

/-- Primitives of a caller whose accessible memory ends at address `5000`: a range
is accepted when it ends at or before `5000`. -/
def env_short : kenv :=
  { useracc := fun a l _ => decide (a + l ≤ 5000)
    copyout_err := fun a l => if a + l ≤ 5000 then 0 else EFAULT
    copyin_err := fun a l => if a + l ≤ 5000 then 0 else EFAULT
    suser_xxx := fun _ _ => 0 }

/-- The handler table of the examples over `env_short`: `1` is `sysctl_handle_string`. -/
def handlers_short : Nat → handler_fn :=
  fun h => if h = 1 then sysctl_handle_string 32 env_short else fun _ _ _ _ _ => none

/-- An example of a handler that asks for a retry: it emits the four bytes
`1 2 3 4` and then, the first time it runs (the byte at address `7000` is still `0`),
sets that byte and returns `EAGAIN`; from then on it returns `0`. -/
def handler_again (w : Nat) (env : kenv) : handler_fn :=
  fun ks _ _ _ req =>
    let r := SYSCTL_OUT w env ks req [1, 2, 3, 4] 4
    if r.1 ≠ 0 then some r
    else if r.2.1.mem 7000 = 0 then
      some (EAGAIN, { r.2.1 with mem := fun a => if a = 7000 then 1 else r.2.1.mem a }, r.2.2)
    else some (0, r.2.1, r.2.2)

/-- A handler table in which pointer `1` is `handler_again`. -/
def handlers_again : Nat → handler_fn :=
  fun h => if h = 1 then handler_again 32 env_ok else fun _ _ _ _ _ => none

/-- The access flags of `oid_kind`. -/
def CTLFLAG_ACCESS : Nat :=
  CTLFLAG_RD ||| CTLFLAG_WR ||| CTLFLAG_ANYBODY ||| CTLFLAG_SECURE ||| CTLFLAG_PRISON

/-- The bits of the 32-bit `oid_kind` that are not access flags. -/
def KIND_OTHER : Nat := 0xffffffff ^^^ CTLFLAG_ACCESS

/-- Tree `t` is tree `s` with other access flags: the lists are the same and the
records differ at most in the access flags of `oid_kind`. -/
def same_but_access (s t : Tree) : Prop :=
  t.lists = s.lists
  ∧ (∀ x, t.oids x = { s.oids x with oid_kind := (t.oids x).oid_kind })
  ∧ (∀ x, (t.oids x).oid_kind &&& KIND_OTHER = (s.oids x).oid_kind &&& KIND_OTHER)

/-- The example tree with every access flag of `kern` and `kern.hostname` cleared. -/
def tree_kern_closed : Tree :=
  { oids := fun q =>
      if q = 50 then { tree_kern.oids 50 with oid_kind := CTLTYPE_NODE }
      else if q = 51 then { tree_kern.oids 51 with oid_kind := CTLTYPE_STRING }
      else tree_kern.oids q
    lists := tree_kern.lists }

/-! ## The default handlers with the in-process transfer -/

/-- `sysctl_handle_opaque`: `arg1` points to the data, `arg2` is the size. -/
def sysctl_handle_opaque (w : Nat) (env : kenv) : handler_fn :=
  fun ks _ arg1 arg2 req =>
    let r := SYSCTL_OUT w env ks req (mem_read ks.mem arg1.addr (size_of_int w arg2))
      (size_of_int w arg2)
    if r.1 ≠ 0 ∨ r.2.2.newptr = 0 then some r
    else some (SYSCTL_IN w env r.2.1 r.2.2 arg1.addr (size_of_int w arg2))

/-- The common body of the integer, long and opaque handlers for a datum of `l`
bytes at `addr`: `SYSCTL_OUT`, then, unless that failed or there is no new input,
`SYSCTL_IN`. -/
def out_then_in (w : Nat) (env : kenv) (ks : kstate) (req : sysctl_req) (addr l : Nat) :
    Int × kstate × sysctl_req :=
  let r := SYSCTL_OUT w env ks req (mem_read ks.mem addr l) l
  if r.1 ≠ 0 ∨ r.2.2.newptr = 0 then r else SYSCTL_IN w env r.2.1 r.2.2 addr l

/-- The ranges `[a, a + n)` and `[b, b + m)` do not meet. -/
def apart (a n b m : Nat) : Prop := a + n ≤ b ∨ b + m ≤ a

/-- What is required of a handler run from state `ks` on request `req` with result
`res`, for a datum of `n` bytes at `addr` of which the handler emits the first `l`
bytes: when there is an old buffer, the part of it the out step covers holds the
bytes the datum had before the call; and when the returned error is not zero the
datum holds what it held before the call. -/
def keeps_datum (ks : kstate) (req : sysctl_req) (addr n l : Nat)
    (res : Option (Int × kstate × sysctl_req)) : Prop :=
  ∀ e ks1 req1, res = some (e, ks1, req1) →
    (req.oldptr ≠ 0 →
      mem_read ks1.mem (req.oldptr + req.oldidx) (min l (req.oldlen - req.oldidx))
        = mem_read ks.mem addr (min l (req.oldlen - req.oldidx)))
    ∧ (e ≠ 0 → mem_read ks1.mem addr n = mem_read ks.mem addr n)

/-! ## Reachable states with any initial ref-counts and with `NULL` contexts -/

/-- The states (tree and contexts) reached from the tree `s0` without contexts by
`sysctl_ctx_init` (a new empty context), by `sysctl_add_oid` with one of the contexts
or with a `NULL` context, and by `sysctl_ctx_free` of one of the contexts.  The
addresses `malloc` hands to `sysctl_add_oid` are not `NULL`, the node address is on no
list and the list at the list address is empty. -/
inductive reach_any (s0 : Tree) : Tree → List (List Nat) → Prop where
  | start : reach_any s0 s0 []
  | ctx_init {s : Tree} {ctxs : List (List Nat)} :
      reach_any s0 s ctxs → reach_any s0 s ([] :: ctxs)
  | add_oid {s : Tree} {pre : List (List Nat)} {c : List Nat} {post : List (List Nat)}
      (parent : Nat) (number : Int) (name : List Nat) (kind : Nat) (arg1 : Nat) (arg2 : Int)
      (handler : Nat) (fmt : Option (List Nat)) (newoid newlist ret : Nat) (s1 : Tree)
      (c1 : List Nat) :
      reach_any s0 s (pre ++ c :: post) →
      newoid ≠ 0 → (∀ l, newoid ∉ s.lists l) → s.lists newlist = [] →
      sysctl_add_oid s (some c) parent number name kind arg1 arg2 handler fmt newoid newlist
        = (ret, s1, some c1) →
      reach_any s0 s1 (pre ++ c1 :: post)
  | add_oid_null {s : Tree} {ctxs : List (List Nat)}
      (parent : Nat) (number : Int) (name : List Nat) (kind : Nat) (arg1 : Nat) (arg2 : Int)
      (handler : Nat) (fmt : Option (List Nat)) (newoid newlist ret : Nat) (s1 : Tree)
      (c1 : Option (List Nat)) :
      reach_any s0 s ctxs →
      newoid ≠ 0 → (∀ l, newoid ∉ s.lists l) → s.lists newlist = [] →
      sysctl_add_oid s none parent number name kind arg1 arg2 handler fmt newoid newlist
        = (ret, s1, c1) →
      reach_any s0 s1 ctxs
  | ctx_free {s : Tree} {pre : List (List Nat)} {c : List Nat} {post : List (List Nat)}
      (err : Int) (s1 : Tree) (c1 : List Nat) :
      reach_any s0 s (pre ++ c :: post) →
      sysctl_ctx_free s c = some (err, s1, c1) →
      reach_any s0 s1 (pre ++ c1 :: post)

/-- The invariant of these states: sibling names are distinct, every node is on the
list `oid_parent` names, `NULL` is on no list, a linked node has at least as many
references as entries, every referenced node is linked, and a referenced node with
ref-count above one is interior. -/
def ctx_inv (s : Tree) (ctxs : List (List Nat)) : Prop :=
  (∀ l, names_distinct s (s.lists l))
  ∧ (∀ l, ∀ x ∈ s.lists l, (s.oids x).oid_parent = l)
  ∧ (∀ l, (0 : Nat) ∉ s.lists l)
  ∧ (∀ l, ∀ x ∈ s.lists l, entries ctxs x ≤ (s.oids x).oid_refcnt)
  ∧ (∀ x, 0 < entries ctxs x → ∃ l, x ∈ s.lists l)
  ∧ (∀ l, ∀ x ∈ s.lists l, 0 < entries ctxs x → (s.oids x).oid_refcnt > 1 →
      is_node (s.oids x).oid_kind = true)
/-! ## Registration: order, names, automatic ids -/

theorem find_oidname_none {s : Tree} {name : List Nat} {list : Nat}
    (h : sysctl_find_oidname s name list = none) :
    ∀ q ∈ s.lists list, (s.oids q).oid_name ≠ name := by
  intro q hq
  unfold sysctl_find_oidname at h
  have := List.find?_eq_none.mp h q hq
  simpa using this

theorem find_oidname_some {s : Tree} {name : List Nat} {list p : Nat}
    (h : sysctl_find_oidname s name list = some p) :
    p ∈ s.lists list ∧ (s.oids p).oid_name = name := by
  unfold sysctl_find_oidname at h
  refine ⟨List.mem_of_find?_eq_some h, ?_⟩
  have := List.find?_some h
  simpa using this

theorem find_oidname_of_absent {s : Tree} {name : List Nat} {list : Nat}
    (h : ∀ q ∈ s.lists list, (s.oids q).oid_name ≠ name) :
    sysctl_find_oidname s name list = none := by
  unfold sysctl_find_oidname
  apply List.find?_eq_none.mpr
  intro q hq
  simpa using h q hq

theorem highest_oid_fold_ge (s : Tree) (l : List Nat) (n0 : Int) :
    n0 ≤ l.foldl (fun n p => if (s.oids p).oid_number > n then (s.oids p).oid_number else n) n0
    ∧ (∀ q ∈ l, (s.oids q).oid_number ≤
        l.foldl (fun n p => if (s.oids p).oid_number > n then (s.oids p).oid_number else n) n0)
    ∧ (l.foldl (fun n p => if (s.oids p).oid_number > n then (s.oids p).oid_number else n) n0 = n0
        ∨ ∃ q ∈ l, (s.oids q).oid_number =
          l.foldl (fun n p => if (s.oids p).oid_number > n then (s.oids p).oid_number else n) n0) := by
  induction l generalizing n0 with
  | nil => simp
  | cons p rest ih =>
    simp only [List.foldl_cons, List.mem_cons, forall_eq_or_imp, exists_eq_or_imp]
    by_cases hc : (s.oids p).oid_number > n0
    · simp only [hc, if_true]
      obtain ⟨h1, h2, h3⟩ := ih (s.oids p).oid_number
      refine ⟨by omega, ⟨h1, h2⟩, ?_⟩
      rcases h3 with h3 | h3
      · right; left; exact h3.symm
      · right; right; exact h3
    · simp only [hc, if_false]
      obtain ⟨h1, h2, h3⟩ := ih n0
      refine ⟨h1, ⟨by omega, h2⟩, ?_⟩
      rcases h3 with h3 | h3
      · left; exact h3
      · right; right; exact h3

theorem insert_in_order_last (s : Tree) (oidp : Nat) (l : List Nat)
    (h : ∀ q ∈ l, ¬ (s.oids oidp).oid_number < (s.oids q).oid_number) :
    insert_in_order s oidp l = l ++ [oidp] := by
  induction l with
  | nil => rfl
  | cons p rest ih =>
    simp only [insert_in_order, List.cons_append]
    rw [if_neg (h p (List.mem_cons_self _ _)), ih (fun q hq => h q (List.mem_cons_of_mem _ hq))]

theorem insert_in_order_perm (s : Tree) (oidp : Nat) (l : List Nat) :
    (insert_in_order s oidp l).Perm (oidp :: l) := by
  induction l with
  | nil => exact List.Perm.refl _
  | cons p rest ih =>
    simp only [insert_in_order]
    split_ifs
    · exact List.Perm.refl _
    · exact (List.Perm.cons p ih).trans (List.Perm.swap oidp p rest)

theorem insert_in_order_increasing (s : Tree) (oidp : Nat) (l : List Nat)
    (hl : ids_increasing s l)
    (hne : ∀ q ∈ l, (s.oids q).oid_number ≠ (s.oids oidp).oid_number) :
    ids_increasing s (insert_in_order s oidp l) := by
  unfold ids_increasing at *
  induction l with
  | nil => simp [insert_in_order]
  | cons p rest ih =>
    simp only [insert_in_order]
    rw [List.pairwise_cons] at hl
    split_ifs with hc
    · refine List.pairwise_cons.mpr ⟨?_, List.pairwise_cons.mpr hl⟩
      intro q hq
      rcases List.mem_cons.mp hq with rfl | hq
      · exact hc
      · exact lt_trans hc (hl.1 q hq)
    · refine List.pairwise_cons.mpr ⟨?_, ih hl.2 (fun q hq => hne q (List.mem_cons_of_mem _ hq))⟩
      intro q hq
      have hq2 := (insert_in_order_perm s oidp rest).mem_iff.mp hq
      rcases List.mem_cons.mp hq2 with rfl | hq2
      · have := hne p (List.mem_cons_self _ _)
        omega
      · exact hl.1 q hq2

theorem ids_increasing_congr {s t : Tree} {l : List Nat}
    (h : ∀ q ∈ l, (t.oids q).oid_number = (s.oids q).oid_number)
    (hs : ids_increasing s l) : ids_increasing t l := by
  unfold ids_increasing at *
  refine List.Pairwise.imp_of_mem ?_ hs
  intro a b ha hb hab
  rw [h a ha, h b hb]; exact hab

theorem names_distinct_congr {s t : Tree} {l : List Nat}
    (h : ∀ q ∈ l, (t.oids q).oid_name = (s.oids q).oid_name)
    (hs : names_distinct s l) : names_distinct t l := by
  unfold names_distinct at *
  refine List.Pairwise.imp_of_mem ?_ hs
  intro a b ha hb hab
  rw [h a ha, h b hb]; exact hab

/-- Registration of a node whose name is already on the list of its parent changes
no list, no number and no name. -/
theorem register_present {s : Tree} {oidp p : Nat}
    (h : sysctl_find_oidname s (s.oids oidp).oid_name (s.oids oidp).oid_parent = some p) :
    (sysctl_register_oid s oidp).lists = s.lists
    ∧ (∀ q, ((sysctl_register_oid s oidp).oids q).oid_number = (s.oids q).oid_number)
    ∧ (∀ q, ((sysctl_register_oid s oidp).oids q).oid_name = (s.oids q).oid_name) := by
  unfold sysctl_register_oid
  simp only [h]
  split_ifs
  · refine ⟨rfl, ?_, ?_⟩ <;> intro q <;> simp only [set_refcnt] <;> split_ifs with hq <;>
      first | rfl | (subst hq; rfl)
  · exact ⟨rfl, fun _ => rfl, fun _ => rfl⟩

theorem register_absent {s : Tree} {oidp : Nat}
    (h : sysctl_find_oidname s (s.oids oidp).oid_name (s.oids oidp).oid_parent = none) :
    sysctl_register_oid s oidp =
      set_list (numbered s oidp) (s.oids oidp).oid_parent
        (insert_in_order (numbered s oidp) oidp (s.lists (s.oids oidp).oid_parent)) := by
  unfold sysctl_register_oid numbered
  simp only [h]
  split_ifs <;> rfl

theorem numbered_lists (s : Tree) (oidp : Nat) : (numbered s oidp).lists = s.lists := by
  unfold numbered; split_ifs <;> rfl

theorem numbered_other (s : Tree) (oidp q : Nat) (hq : q ≠ oidp) :
    (numbered s oidp).oids q = s.oids q := by
  unfold numbered; split_ifs
  · simp [set_number, hq]
  · rfl

theorem numbered_name (s : Tree) (oidp q : Nat) :
    ((numbered s oidp).oids q).oid_name = (s.oids q).oid_name := by
  unfold numbered; split_ifs
  · simp only [set_number]; split_ifs with hq
    · subst hq; rfl
    · rfl
  · rfl

theorem numbered_auto (s : Tree) (oidp : Nat) (h : (s.oids oidp).oid_number = OID_AUTO) :
    ((numbered s oidp).oids oidp).oid_number
      = int_wrap (highest_oid s (s.lists (s.oids oidp).oid_parent) + 1) := by
  unfold numbered; rw [if_pos h]; simp [set_number]

theorem int_wrap_of_range (x : Int) (h1 : INT_MIN ≤ x) (h2 : x ≤ INT_MAX) : int_wrap x = x := by
  unfold int_wrap
  unfold INT_MIN at h1
  unfold INT_MAX at h2
  omega

/-- With every sibling id below `INT_MAX` the `n + 1` of the automatic id does not
overflow. -/
theorem highest_oid_succ (s : Tree) (l : List Nat)
    (h : ∀ q ∈ l, (s.oids q).oid_number < INT_MAX) :
    int_wrap (highest_oid s l + 1) = highest_oid s l + 1 := by
  obtain ⟨h1, -, h3⟩ := highest_oid_fold_ge s l 99
  have hlt : highest_oid s l < INT_MAX := by
    unfold highest_oid
    rcases h3 with h3 | ⟨q, hq, h3⟩
    · rw [h3]; decide
    · rw [← h3]; exact h q hq
  have h99 : 99 ≤ highest_oid s l := h1
  apply int_wrap_of_range
  · unfold INT_MIN; omega
  · omega

theorem numbered_explicit (s : Tree) (oidp : Nat) (h : (s.oids oidp).oid_number ≠ OID_AUTO) :
    numbered s oidp = s := by
  unfold numbered; rw [if_neg h]

theorem absent_not_mem {s : Tree} {oidp : Nat}
    (h : sysctl_find_oidname s (s.oids oidp).oid_name (s.oids oidp).oid_parent = none) :
    oidp ∉ s.lists (s.oids oidp).oid_parent :=
  fun hm => find_oidname_none h oidp hm rfl

/-- Registration keeps strictly increasing ids when the id is automatic or carried by
no sibling. -/
theorem register_increasing (s : Tree) (oidp : Nat)
    (hs : ids_increasing s (s.lists (s.oids oidp).oid_parent))
    (hid : ((s.oids oidp).oid_number = OID_AUTO
        ∧ ∀ q ∈ s.lists (s.oids oidp).oid_parent, (s.oids q).oid_number < INT_MAX)
      ∨ ((s.oids oidp).oid_number ≠ OID_AUTO
        ∧ ∀ q ∈ s.lists (s.oids oidp).oid_parent,
            (s.oids q).oid_number ≠ (s.oids oidp).oid_number)) :
    ids_increasing (sysctl_register_oid s oidp)
      ((sysctl_register_oid s oidp).lists (s.oids oidp).oid_parent) := by
  cases h : sysctl_find_oidname s (s.oids oidp).oid_name (s.oids oidp).oid_parent with
  | some p =>
    obtain ⟨hl, hn, _⟩ := register_present h
    rw [hl]
    exact ids_increasing_congr (fun q _ => hn q) hs
  | none =>
    rw [register_absent h]
    have hnm := absent_not_mem h
    have hsame : ∀ q ∈ s.lists (s.oids oidp).oid_parent,
        ((numbered s oidp).oids q).oid_number = (s.oids q).oid_number := by
      intro q hq
      rw [numbered_other s oidp q (fun e => hnm (e ▸ hq))]
    have hs1 : ids_increasing (numbered s oidp) (s.lists (s.oids oidp).oid_parent) :=
      ids_increasing_congr hsame hs
    have hne : ∀ q ∈ s.lists (s.oids oidp).oid_parent,
        ((numbered s oidp).oids q).oid_number ≠ ((numbered s oidp).oids oidp).oid_number := by
      intro q hq
      rw [hsame q hq]
      rcases hid with ⟨ha, hmax⟩ | ⟨ha, hid⟩
      · rw [numbered_auto s oidp ha, highest_oid_succ s _ hmax]
        have := (highest_oid_fold_ge s (s.lists (s.oids oidp).oid_parent) 99).2.1 q hq
        unfold highest_oid
        omega
      · rw [numbered_explicit s oidp ha]
        exact hid q hq
    have := insert_in_order_increasing (numbered s oidp) oidp _ hs1 hne
    simp only [set_list, if_true]
    exact this

/-- Registration keeps the names of a list pairwise distinct. -/
theorem register_names (s : Tree) (oidp : Nat)
    (hs : names_distinct s (s.lists (s.oids oidp).oid_parent)) :
    names_distinct (sysctl_register_oid s oidp)
      ((sysctl_register_oid s oidp).lists (s.oids oidp).oid_parent) := by
  cases h : sysctl_find_oidname s (s.oids oidp).oid_name (s.oids oidp).oid_parent with
  | some p =>
    obtain ⟨hl, _, hn⟩ := register_present h
    rw [hl]
    exact names_distinct_congr (fun q _ => hn q) hs
  | none =>
    rw [register_absent h]
    simp only [set_list, if_true]
    have habs := find_oidname_none h
    have hs1 : names_distinct (numbered s oidp) (oidp :: s.lists (s.oids oidp).oid_parent) := by
      unfold names_distinct
      refine List.pairwise_cons.mpr ⟨?_, ?_⟩
      · intro q hq
        rw [numbered_name, numbered_name]
        exact fun e => habs q hq e.symm
      · exact names_distinct_congr (fun q _ => numbered_name s oidp q) hs
    unfold names_distinct at *
    exact ((insert_in_order_perm (numbered s oidp) oidp _).pairwise_iff
      (fun hab => fun e => hab e.symm)).mpr hs1


/-! ### `sysctl_add_oid` -/

theorem add_oid_present_lists (s : Tree) (clist : Option (List Nat)) (parent : Nat) (number : Int)
    (name : List Nat) (kind : Nat) (arg1 : Nat) (arg2 : Int) (handler : Nat)
    (fmt : Option (List Nat)) (newoid newlist p : Nat)
    (h : parent = 0 ∨ sysctl_find_oidname s name parent = some p) :
    (sysctl_add_oid s clist parent number name kind arg1 arg2 handler fmt newoid newlist).2.1.lists
        = s.lists
    ∧ (∀ q, ((sysctl_add_oid s clist parent number name kind arg1 arg2 handler fmt newoid
          newlist).2.1.oids q).oid_number = (s.oids q).oid_number)
    ∧ (∀ q, ((sysctl_add_oid s clist parent number name kind arg1 arg2 handler fmt newoid
          newlist).2.1.oids q).oid_name = (s.oids q).oid_name) := by
  unfold sysctl_add_oid
  by_cases hp : parent = 0
  · simp [hp]
  · rcases h with h | h
    · exact absurd h hp
    · simp only [hp, if_false, h]
      split_ifs
      · refine ⟨rfl, ?_, ?_⟩ <;> intro q <;> simp only [set_refcnt] <;> split_ifs with hq <;>
          first | rfl | (subst hq; rfl)
      · exact ⟨rfl, fun _ => rfl, fun _ => rfl⟩

theorem add_oid_absent (s : Tree) (clist : Option (List Nat)) (parent : Nat) (number : Int)
    (name : List Nat) (kind : Nat) (arg1 : Nat) (arg2 : Int) (handler : Nat)
    (fmt : Option (List Nat)) (newoid newlist : Nat)
    (hp : parent ≠ 0) (h : sysctl_find_oidname s name parent = none) :
    (sysctl_add_oid s clist parent number name kind arg1 arg2 handler fmt newoid newlist).2.1
      = sysctl_register_oid (alloc_oid s kind
          (new_oid parent number name kind arg1 arg2 handler fmt newlist) newoid newlist) newoid := by
  unfold sysctl_add_oid
  simp only [hp, if_false, h]

theorem alloc_oid_list_sub (s : Tree) (kind : Nat) (node : sysctl_oid) (newoid newlist l : Nat) :
    (alloc_oid s kind node newoid newlist).lists l = s.lists l
    ∨ (alloc_oid s kind node newoid newlist).lists l = [] := by
  unfold alloc_oid
  simp only
  split_ifs
  · right; rfl
  · left; rfl

theorem alloc_oid_other (s : Tree) (kind : Nat) (node : sysctl_oid) (newoid newlist q : Nat)
    (hq : q ≠ newoid) : (alloc_oid s kind node newoid newlist).oids q = s.oids q := by
  simp [alloc_oid, hq]

theorem alloc_oid_self (s : Tree) (kind : Nat) (node : sysctl_oid) (newoid newlist : Nat) :
    (alloc_oid s kind node newoid newlist).oids newoid = node := by
  simp [alloc_oid]

/-- Adding a node keeps strictly increasing ids when the id is automatic or carried by
no sibling. -/
theorem add_oid_increasing (s : Tree) (clist : Option (List Nat)) (parent : Nat) (number : Int)
    (name : List Nat) (kind : Nat) (arg1 : Nat) (arg2 : Int) (handler : Nat)
    (fmt : Option (List Nat)) (newoid newlist : Nat)
    (hs : ids_increasing s (s.lists parent))
    (hfresh : newoid ∉ s.lists parent)
    (hid : (number = OID_AUTO ∧ ∀ q ∈ s.lists parent, (s.oids q).oid_number < INT_MAX)
      ∨ (number ≠ OID_AUTO ∧ ∀ q ∈ s.lists parent, (s.oids q).oid_number ≠ number)) :
    ids_increasing
      (sysctl_add_oid s clist parent number name kind arg1 arg2 handler fmt newoid newlist).2.1
      ((sysctl_add_oid s clist parent number name kind arg1 arg2 handler fmt newoid
        newlist).2.1.lists parent) := by
  by_cases hp : parent = 0
  · obtain ⟨hl, hn, _⟩ := add_oid_present_lists s clist parent number name kind arg1 arg2 handler
      fmt newoid newlist 0 (Or.inl hp)
    rw [hl]; exact ids_increasing_congr (fun q _ => hn q) hs
  cases h : sysctl_find_oidname s name parent with
  | some p =>
    obtain ⟨hl, hn, _⟩ := add_oid_present_lists s clist parent number name kind arg1 arg2 handler
      fmt newoid newlist p (Or.inr h)
    rw [hl]; exact ids_increasing_congr (fun q _ => hn q) hs
  | none =>
    rw [add_oid_absent s clist parent number name kind arg1 arg2 handler fmt newoid newlist hp h]
    have hself := alloc_oid_self s kind
      (new_oid parent number name kind arg1 arg2 handler fmt newlist) newoid newlist
    have hpar : ((alloc_oid s kind (new_oid parent number name kind arg1 arg2 handler fmt newlist)
        newoid newlist).oids newoid).oid_parent = parent := by rw [hself]; rfl
    have hnum : ((alloc_oid s kind (new_oid parent number name kind arg1 arg2 handler fmt newlist)
        newoid newlist).oids newoid).oid_number = number := by rw [hself]; rfl
    have key := register_increasing (alloc_oid s kind
      (new_oid parent number name kind arg1 arg2 handler fmt newlist) newoid newlist) newoid
    rw [hpar, hnum] at key
    apply key
    · rcases alloc_oid_list_sub s kind (new_oid parent number name kind arg1 arg2 handler fmt
        newlist) newoid newlist parent with e | e
      · rw [e]
        exact ids_increasing_congr
          (fun q hq => by rw [alloc_oid_other _ _ _ _ _ _ (fun (e2 : q = newoid) => hfresh (e2 ▸ hq))]) hs
      · rw [e]; exact List.Pairwise.nil
    · have hsib : ∀ (P : Int → Prop), (∀ q ∈ s.lists parent, P (s.oids q).oid_number) →
          ∀ q ∈ (alloc_oid s kind (new_oid parent number name kind arg1 arg2 handler fmt
            newlist) newoid newlist).lists parent,
            P ((alloc_oid s kind (new_oid parent number name kind arg1 arg2 handler fmt
              newlist) newoid newlist).oids q).oid_number := by
        intro P hP q hq
        rcases alloc_oid_list_sub s kind (new_oid parent number name kind arg1 arg2 handler fmt
          newlist) newoid newlist parent with e | e
        · rw [e] at hq
          rw [alloc_oid_other _ _ _ _ _ _ (fun (e2 : q = newoid) => hfresh (e2 ▸ hq))]
          exact hP q hq
        · rw [e] at hq; exact absurd hq (List.not_mem_nil _)
      rcases hid with ⟨ha, hmax⟩ | ⟨ha, hid⟩
      · exact Or.inl ⟨ha, hsib (fun n => n < INT_MAX) hmax⟩
      · exact Or.inr ⟨ha, hsib (fun n => n ≠ number) hid⟩

/-- Adding a node keeps the names of the list pairwise distinct. -/
theorem add_oid_names (s : Tree) (clist : Option (List Nat)) (parent : Nat) (number : Int)
    (name : List Nat) (kind : Nat) (arg1 : Nat) (arg2 : Int) (handler : Nat)
    (fmt : Option (List Nat)) (newoid newlist : Nat)
    (hs : names_distinct s (s.lists parent))
    (hfresh : newoid ∉ s.lists parent) :
    names_distinct
      (sysctl_add_oid s clist parent number name kind arg1 arg2 handler fmt newoid newlist).2.1
      ((sysctl_add_oid s clist parent number name kind arg1 arg2 handler fmt newoid
        newlist).2.1.lists parent) := by
  by_cases hp : parent = 0
  · obtain ⟨hl, _, hn⟩ := add_oid_present_lists s clist parent number name kind arg1 arg2 handler
      fmt newoid newlist 0 (Or.inl hp)
    rw [hl]; exact names_distinct_congr (fun q _ => hn q) hs
  cases h : sysctl_find_oidname s name parent with
  | some p =>
    obtain ⟨hl, _, hn⟩ := add_oid_present_lists s clist parent number name kind arg1 arg2 handler
      fmt newoid newlist p (Or.inr h)
    rw [hl]; exact names_distinct_congr (fun q _ => hn q) hs
  | none =>
    rw [add_oid_absent s clist parent number name kind arg1 arg2 handler fmt newoid newlist hp h]
    have hself := alloc_oid_self s kind
      (new_oid parent number name kind arg1 arg2 handler fmt newlist) newoid newlist
    have hpar : ((alloc_oid s kind (new_oid parent number name kind arg1 arg2 handler fmt newlist)
        newoid newlist).oids newoid).oid_parent = parent := by rw [hself]; rfl
    have key := register_names (alloc_oid s kind
      (new_oid parent number name kind arg1 arg2 handler fmt newlist) newoid newlist) newoid
    rw [hpar] at key
    apply key
    rcases alloc_oid_list_sub s kind (new_oid parent number name kind arg1 arg2 handler fmt
      newlist) newoid newlist parent with e | e
    · rw [e]
      exact names_distinct_congr
        (fun q hq => by rw [alloc_oid_other _ _ _ _ _ _ (fun (e2 : q = newoid) => hfresh (e2 ▸ hq))]) hs
    · rw [e]; exact List.Pairwise.nil

theorem find_oidname_of_present {s : Tree} {name : List Nat} {list : Nat}
    (h : ∃ q ∈ s.lists list, (s.oids q).oid_name = name) :
    ∃ p, sysctl_find_oidname s name list = some p := by
  cases hf : sysctl_find_oidname s name list with
  | some p => exact ⟨p, rfl⟩
  | none =>
    obtain ⟨q, hq, hn⟩ := h
    exact absurd hn (find_oidname_none hf q hq)

/-- C3 (as amended): registration keeps the ids of the child list strictly
increasing when the new node asks for an automatic id and every sibling id is below
`INT_MAX`, or carries an explicit id that no sibling carries; this holds for
`sysctl_register_oid` and, with a freshly allocated node, for `sysctl_add_oid`. -/
theorem C3_registration_keeps_ids_increasing (s : Tree) (oidp : Nat)
    (clist : Option (List Nat)) (parent : Nat) (number : Int) (name : List Nat) (kind : Nat)
    (arg1 : Nat) (arg2 : Int) (handler : Nat) (fmt : Option (List Nat)) (newoid newlist : Nat)
    (hreg : ids_increasing s (s.lists (s.oids oidp).oid_parent))
    (hregid : ((s.oids oidp).oid_number = OID_AUTO
        ∧ ∀ q ∈ s.lists (s.oids oidp).oid_parent, (s.oids q).oid_number < INT_MAX)
      ∨ ((s.oids oidp).oid_number ≠ OID_AUTO
        ∧ ∀ q ∈ s.lists (s.oids oidp).oid_parent,
            (s.oids q).oid_number ≠ (s.oids oidp).oid_number))
    (hadd : ids_increasing s (s.lists parent))
    (hfresh : newoid ∉ s.lists parent)
    (haddid : (number = OID_AUTO ∧ ∀ q ∈ s.lists parent, (s.oids q).oid_number < INT_MAX)
      ∨ (number ≠ OID_AUTO ∧ ∀ q ∈ s.lists parent, (s.oids q).oid_number ≠ number)) :
    ids_increasing (sysctl_register_oid s oidp)
      ((sysctl_register_oid s oidp).lists (s.oids oidp).oid_parent)
    ∧ ids_increasing
      (sysctl_add_oid s clist parent number name kind arg1 arg2 handler fmt newoid newlist).2.1
      ((sysctl_add_oid s clist parent number name kind arg1 arg2 handler fmt newoid
        newlist).2.1.lists parent) :=
  ⟨register_increasing s oidp hreg hregid,
    add_oid_increasing s clist parent number name kind arg1 arg2 handler fmt newoid newlist
      hadd hfresh haddid⟩

/-- C3, witness: node `12` (automatic id) is registered and added under the root list
`[5, 7]`. -/
theorem C3_registration_keeps_ids_increasing_witness :
    ids_increasing (sysctl_register_oid tree57 12)
      ((sysctl_register_oid tree57 12).lists (tree57.oids 12).oid_parent)
    ∧ ids_increasing
      (sysctl_add_oid tree57 none sysctl__children OID_AUTO [121] CTLTYPE_INT 0 0 0 none 20
        21).2.1
      ((sysctl_add_oid tree57 none sysctl__children OID_AUTO [121] CTLTYPE_INT 0 0 0 none 20
        21).2.1.lists sysctl__children) :=
  C3_registration_keeps_ids_increasing tree57 12 none sysctl__children OID_AUTO [121] CTLTYPE_INT
    0 0 0 none 20 21 (by decide) (by decide) (by decide) (by decide) (by decide)

/-- C3, counterexample: the root list holds ids `[5, 7]`, strictly increasing with
distinct names; registering node `13` (name `c`, explicit id `5`) links it after the
sibling with id `5`, and the ids `[5, 5, 7]` are no longer strictly increasing.  And
the root list of `tree_int_max` holds the ids `INT_MIN` and `INT_MAX`: registering
node `12` (name `x`, id `AUTO`) gives it the id `INT_MIN`, the `int` that `n + 1` leaves
for `n = INT_MAX`, and links it after the sibling with that id. -/
theorem C3_counterexample :
    (ids_increasing tree57 (tree57.lists sysctl__children)
      ∧ names_distinct tree57 (tree57.lists sysctl__children)
      ∧ (tree57.oids 13).oid_parent = sysctl__children
      ∧ (sysctl_register_oid tree57 13).lists sysctl__children = [10, 13, 11]
      ∧ ¬ ids_increasing (sysctl_register_oid tree57 13)
          ((sysctl_register_oid tree57 13).lists sysctl__children))
    ∧ (ids_increasing tree_int_max (tree_int_max.lists sysctl__children)
      ∧ names_distinct tree_int_max (tree_int_max.lists sysctl__children)
      ∧ (tree_int_max.oids 12).oid_parent = sysctl__children
      ∧ (tree_int_max.oids 12).oid_number = OID_AUTO
      ∧ ((sysctl_register_oid tree_int_max 12).lists sysctl__children).map
          (fun q => ((sysctl_register_oid tree_int_max 12).oids q).oid_number)
        = [INT_MIN, INT_MIN, INT_MAX]
      ∧ ¬ ids_increasing (sysctl_register_oid tree_int_max 12)
          ((sysctl_register_oid tree_int_max 12).lists sysctl__children)) := by
  decide

/-- C4: registration keeps sibling names pairwise distinct, for
`sysctl_register_oid` and for `sysctl_add_oid` (with a freshly allocated node); and
when the name is already on the list of the parent, no list of the tree changes, so
the node of the caller is not linked. -/
theorem C4_registration_keeps_names_distinct (s : Tree) (oidp : Nat)
    (clist : Option (List Nat)) (parent : Nat) (number : Int) (name : List Nat) (kind : Nat)
    (arg1 : Nat) (arg2 : Int) (handler : Nat) (fmt : Option (List Nat)) (newoid newlist : Nat)
    (hreg : names_distinct s (s.lists (s.oids oidp).oid_parent))
    (hadd : names_distinct s (s.lists parent))
    (hfresh : newoid ∉ s.lists parent) :
    names_distinct (sysctl_register_oid s oidp)
      ((sysctl_register_oid s oidp).lists (s.oids oidp).oid_parent)
    ∧ names_distinct
      (sysctl_add_oid s clist parent number name kind arg1 arg2 handler fmt newoid newlist).2.1
      ((sysctl_add_oid s clist parent number name kind arg1 arg2 handler fmt newoid
        newlist).2.1.lists parent)
    ∧ ((∃ q ∈ s.lists (s.oids oidp).oid_parent, (s.oids q).oid_name = (s.oids oidp).oid_name) →
        (sysctl_register_oid s oidp).lists = s.lists)
    ∧ ((∃ q ∈ s.lists parent, (s.oids q).oid_name = name) →
        (sysctl_add_oid s clist parent number name kind arg1 arg2 handler fmt newoid
          newlist).2.1.lists = s.lists
        ∧ (sysctl_add_oid s clist parent number name kind arg1 arg2 handler fmt newoid
          newlist).1 ∈ 0 :: s.lists parent) := by
  refine ⟨register_names s oidp hreg,
    add_oid_names s clist parent number name kind arg1 arg2 handler fmt newoid newlist hadd hfresh,
    ?_, ?_⟩
  · intro h
    obtain ⟨p, hp⟩ := find_oidname_of_present h
    exact (register_present hp).1
  · intro h
    obtain ⟨p, hp⟩ := find_oidname_of_present h
    refine ⟨(add_oid_present_lists s clist parent number name kind arg1 arg2 handler fmt newoid
      newlist p (Or.inr hp)).1, ?_⟩
    unfold sysctl_add_oid
    by_cases h0 : parent = 0
    · simp [h0]
    · simp only [h0, if_false, hp]
      split_ifs
      · exact List.mem_cons_of_mem _ (find_oidname_some hp).1
      · exact List.mem_cons_self _ _

/-- C4, witness: a node named `a` (a name the root list `[a, b]` already holds) is
registered and added. -/
theorem C4_registration_keeps_names_distinct_witness :
    names_distinct tree57 (tree57.lists sysctl__children)
    ∧ (20 : Nat) ∉ tree57.lists sysctl__children
    ∧ (sysctl_add_oid tree57 none sysctl__children 9 [97] CTLTYPE_INT 0 0 0 none 20
          21).2.1.lists = tree57.lists :=
  ⟨by decide, by decide,
    ((C4_registration_keeps_names_distinct tree57 12 none sysctl__children 9 [97] CTLTYPE_INT
      0 0 0 none 20 21 (by decide) (by decide) (by decide)).2.2.2
        ⟨10, by decide, by decide⟩).1⟩

/-- A node with id `AUTO` whose name is not among its siblings, all of which carry an
id below `INT_MAX`, gets the id `m + 1`, where `m` is the greatest of `99` and the
sibling ids (so `100` when every sibling id is below `100`), and becomes the last
child. -/
theorem register_auto_id (s : Tree) (oidp : Nat)
    (hauto : (s.oids oidp).oid_number = OID_AUTO)
    (hname : ∀ q ∈ s.lists (s.oids oidp).oid_parent,
      (s.oids q).oid_name ≠ (s.oids oidp).oid_name)
    (hmax : ∀ q ∈ s.lists (s.oids oidp).oid_parent, (s.oids q).oid_number < INT_MAX) :
    (99 ≤ ((sysctl_register_oid s oidp).oids oidp).oid_number - 1
      ∧ (∀ q ∈ s.lists (s.oids oidp).oid_parent,
          (s.oids q).oid_number ≤ ((sysctl_register_oid s oidp).oids oidp).oid_number - 1)
      ∧ (((sysctl_register_oid s oidp).oids oidp).oid_number - 1 = 99
          ∨ ∃ q ∈ s.lists (s.oids oidp).oid_parent,
            (s.oids q).oid_number = ((sysctl_register_oid s oidp).oids oidp).oid_number - 1))
    ∧ ((∀ q ∈ s.lists (s.oids oidp).oid_parent, (s.oids q).oid_number < 100) →
        ((sysctl_register_oid s oidp).oids oidp).oid_number = 100)
    ∧ (sysctl_register_oid s oidp).lists (s.oids oidp).oid_parent
        = s.lists (s.oids oidp).oid_parent ++ [oidp] := by
  have habs := find_oidname_of_absent hname
  have hnum0 : ((numbered s oidp).oids oidp).oid_number
      = highest_oid s (s.lists (s.oids oidp).oid_parent) + 1 := by
    rw [numbered_auto s oidp hauto, highest_oid_succ s _ hmax]
  have hnum : ((sysctl_register_oid s oidp).oids oidp).oid_number
      = highest_oid s (s.lists (s.oids oidp).oid_parent) + 1 := by
    rw [register_absent habs]
    exact hnum0
  obtain ⟨h1, h2, h3⟩ : 99 ≤ highest_oid s (s.lists (s.oids oidp).oid_parent)
      ∧ (∀ q ∈ s.lists (s.oids oidp).oid_parent,
          (s.oids q).oid_number ≤ highest_oid s (s.lists (s.oids oidp).oid_parent))
      ∧ (highest_oid s (s.lists (s.oids oidp).oid_parent) = 99
          ∨ ∃ q ∈ s.lists (s.oids oidp).oid_parent,
            (s.oids q).oid_number = highest_oid s (s.lists (s.oids oidp).oid_parent)) :=
    highest_oid_fold_ge s (s.lists (s.oids oidp).oid_parent) 99
  have hnm := absent_not_mem habs
  refine ⟨⟨?_, ?_, ?_⟩, ?_, ?_⟩
  · rw [hnum]; omega
  · intro q hq; rw [hnum]; have := h2 q hq; omega
  · rw [hnum]
    rcases h3 with h3 | ⟨q, hq, h3⟩
    · left; omega
    · right; exact ⟨q, hq, by omega⟩
  · intro hlt
    rw [hnum]
    rcases h3 with h3 | ⟨q, hq, h3⟩
    · omega
    · have := hlt q hq; omega
  · rw [register_absent habs]
    simp only [set_list, if_true]
    apply insert_in_order_last
    intro q hq
    rw [hnum0, numbered_other s oidp q (fun (e : q = oidp) => hnm (e ▸ hq))]
    have := h2 q hq
    omega

/-- C5: the automatic id.  With sibling ids `5` and `7` the node gets the id `100` and
the list becomes `[5, 7, 100]`; in general, when every sibling id is below `INT_MAX`, a
node with id `AUTO` whose name is not among its siblings gets the id `m + 1`, where `m`
is the greatest of `99` and the sibling ids, and becomes the last child.  With a
sibling whose id is `INT_MAX` the `int` addition `n + 1` overflows: in `tree_int_max`,
whose root list holds the ids `INT_MIN` and `INT_MAX` under names other than that of
node `12`, the node gets the id `INT_MIN`, which is below `99` and is not
`INT_MAX + 1`, and it is linked second, not last. -/
theorem C5_auto_id :
    (∀ (s : Tree) (oidp : Nat), (s.oids oidp).oid_number = OID_AUTO →
      (∀ q ∈ s.lists (s.oids oidp).oid_parent, (s.oids q).oid_name ≠ (s.oids oidp).oid_name) →
      (∀ q ∈ s.lists (s.oids oidp).oid_parent, (s.oids q).oid_number < INT_MAX) →
      (99 ≤ ((sysctl_register_oid s oidp).oids oidp).oid_number - 1
        ∧ (∀ q ∈ s.lists (s.oids oidp).oid_parent,
            (s.oids q).oid_number ≤ ((sysctl_register_oid s oidp).oids oidp).oid_number - 1)
        ∧ (((sysctl_register_oid s oidp).oids oidp).oid_number - 1 = 99
            ∨ ∃ q ∈ s.lists (s.oids oidp).oid_parent,
              (s.oids q).oid_number = ((sysctl_register_oid s oidp).oids oidp).oid_number - 1))
      ∧ ((∀ q ∈ s.lists (s.oids oidp).oid_parent, (s.oids q).oid_number < 100) →
          ((sysctl_register_oid s oidp).oids oidp).oid_number = 100)
      ∧ (sysctl_register_oid s oidp).lists (s.oids oidp).oid_parent
          = s.lists (s.oids oidp).oid_parent ++ [oidp])
    ∧ (((sysctl_register_oid tree57 12).oids 12).oid_number = 100
        ∧ (sysctl_register_oid tree57 12).lists sysctl__children = [10, 11, 12]
        ∧ ((sysctl_register_oid tree57 12).lists sysctl__children).map
            (fun q => ((sysctl_register_oid tree57 12).oids q).oid_number) = [5, 7, 100])
    ∧ ((tree_int_max.oids 12).oid_number = OID_AUTO
        ∧ (tree_int_max.oids 12).oid_parent = sysctl__children
        ∧ (∀ q ∈ tree_int_max.lists sysctl__children,
            (tree_int_max.oids q).oid_name ≠ (tree_int_max.oids 12).oid_name)
        ∧ (tree_int_max.lists sysctl__children).map
            (fun q => (tree_int_max.oids q).oid_number) = [INT_MIN, INT_MAX]
        ∧ ((sysctl_register_oid tree_int_max 12).oids 12).oid_number = INT_MIN
        ∧ (sysctl_register_oid tree_int_max 12).lists sysctl__children = [10, 12, 11]) :=
  ⟨fun s oidp hauto hname hmax => register_auto_id s oidp hauto hname hmax,
    by decide, by decide⟩

/-! ## Context teardown -/

theorem Tree.eq_of_fields {a b : Tree} (h1 : a.oids = b.oids) (h2 : a.lists = b.lists) :
    a = b := by
  cases a; cases b; simp_all

/-- `sysctl_remove_oid` without recursion, as a chain of tests. -/
theorem remove_oid_flat (s : Tree) (oidp : Nat) (del : Bool) :
    sysctl_remove_oid 0 s oidp del false =
      if oidp = 0 then some (EINVAL, s)
      else if is_dyn (s.oids oidp).oid_kind = false then some (EINVAL, s)
      else if is_node (s.oids oidp).oid_kind = true ∧ (s.oids oidp).oid_refcnt = 1
          ∧ s.lists (SYSCTL_CHILDREN s oidp) ≠ [] then some (ENOTEMPTY, s)
      else if (s.oids oidp).oid_refcnt > 1 then
        some (0, set_refcnt s oidp ((s.oids oidp).oid_refcnt - 1))
      else if (s.oids oidp).oid_refcnt = 0 then some (EINVAL, s)
      else
        match sysctl_unregister_oid s oidp with
        | none => none
        | some s2 => some (0, s2) := by
  unfold sysctl_remove_oid
  by_cases h0 : oidp = 0
  · simp [h0]
  simp only [h0, if_false]
  by_cases hd : is_dyn (s.oids oidp).oid_kind = false
  · simp [hd]
  simp only [hd, if_false]
  have hd2 : is_dyn (s.oids oidp).oid_kind = true := by simpa using hd
  simp only [hd2, Bool.not_true, Bool.false_eq_true, if_false]
  by_cases hn : is_node (s.oids oidp).oid_kind = true
  · by_cases hr : (s.oids oidp).oid_refcnt = 1
    · cases hk : s.lists (SYSCTL_CHILDREN s oidp) with
      | nil => simp [hn, hr, remove_children]
      | cons k rest =>
        simp [hn, hr, remove_children, ENOTEMPTY]
    · simp [hn, hr]
  · simp [hn]

theorem enotempty_ne : ENOTEMPTY ≠ 0 := by decide
theorem einval_ne : EINVAL ≠ 0 := by decide

/-- A failing `sysctl_remove_oid` without recursion leaves the tree as it was. -/
theorem remove_oid_flat_fail (s s1 : Tree) (oidp : Nat) (del : Bool) (error : Int)
    (h : sysctl_remove_oid 0 s oidp del false = some (error, s1)) (he : error ≠ 0) :
    s1 = s := by
  rw [remove_oid_flat] at h
  split_ifs at h
  all_goals first
    | (simp only [Option.some.injEq, Prod.mk.injEq] at h; exact h.2.symm)
    | (simp only [Option.some.injEq, Prod.mk.injEq] at h; exact absurd h.1.symm he)
    | skip
  cases hu : sysctl_unregister_oid s oidp with
  | none => rw [hu] at h; simp at h
  | some s2 =>
    rw [hu] at h
    simp only [Option.some.injEq, Prod.mk.injEq] at h
    exact absurd h.1.symm he

theorem insert_erase (s : Tree) (l : List Nat) (e : Nat) (hs : ids_increasing s l) (he : e ∈ l) :
    insert_in_order s e (l.erase e) = l := by
  unfold ids_increasing at hs
  induction l with
  | nil => exact absurd he (List.not_mem_nil _)
  | cons p rest ih =>
    rw [List.pairwise_cons] at hs
    by_cases hpe : p = e
    · subst hpe
      rw [List.erase_cons_head]
      cases rest with
      | nil => rfl
      | cons h t =>
        simp only [insert_in_order]
        rw [if_pos (hs.1 h (List.mem_cons_self _ _))]
    · have hmem : e ∈ rest := by
        rcases List.mem_cons.mp he with h | h
        · exact absurd h.symm hpe
        · exact h
      rw [List.erase_cons_tail (by simpa using hpe)]
      simp only [insert_in_order]
      have hlt := hs.1 e hmem
      rw [if_neg (by omega), ih hs.2 hmem]

theorem find_unique (s : Tree) (l : List Nat) (e : Nat) (hd : names_distinct s l) (he : e ∈ l) :
    l.find? (fun q => decide ((s.oids q).oid_name = (s.oids e).oid_name)) = some e := by
  unfold names_distinct at hd
  induction l with
  | nil => exact absurd he (List.not_mem_nil _)
  | cons p rest ih =>
    rw [List.pairwise_cons] at hd
    by_cases hpe : p = e
    · subst hpe
      simp
    · have hmem : e ∈ rest := by
        rcases List.mem_cons.mp he with h | h
        · exact absurd h.symm hpe
        · exact h
      rw [List.find?_cons_of_neg _ (by simpa using hd.1 e hmem)]
      exact ih hd.2 hmem

theorem find_oidname_congr (s t : Tree) (name : List Nat) (list : Nat)
    (hl : t.lists list = s.lists list)
    (hn : ∀ q, (t.oids q).oid_name = (s.oids q).oid_name) :
    sysctl_find_oidname t name list = sysctl_find_oidname s name list := by
  unfold sysctl_find_oidname
  rw [hl]
  congr 1
  funext q
  rw [hn q]

theorem names_ne_of_mem {s : Tree} {l : List Nat} (hd : names_distinct s l) {a b : Nat}
    (ha : a ∈ l) (hb : b ∈ l) (hab : a ≠ b) : (s.oids a).oid_name ≠ (s.oids b).oid_name := by
  unfold names_distinct at hd
  exact List.Pairwise.forall (fun _ _ h => fun e2 => h e2.symm) hd ha hb hab

theorem nodup_of_increasing {s : Tree} {l : List Nat} (h : ids_increasing s l) : l.Nodup := by
  unfold ids_increasing at h
  exact List.Pairwise.imp (fun hab => fun e2 => by rw [e2] at hab; omega) h

theorem insert_in_order_congr (s t : Tree) (h : t.oids = s.oids) (e : Nat) (l : List Nat) :
    insert_in_order t e l = insert_in_order s e l := by
  induction l with
  | nil => rfl
  | cons p rest ih => simp only [insert_in_order, h, ih]

theorem set_refcnt_restore (s : Tree) (e r : Nat) (hr : r = (s.oids e).oid_refcnt) (k : Nat) :
    set_refcnt (set_refcnt s e k) e r = s := by
  apply Tree.eq_of_fields
  · funext q
    simp only [set_refcnt]
    split_ifs with hq
    · subst hq; subst hr
      cases s.oids q; rfl
    · rfl
  · rfl

theorem set_list_restore (s : Tree) (p : Nat) (l : List Nat) :
    set_list (set_list s p l) p (s.lists p) = s := by
  apply Tree.eq_of_fields
  · rfl
  · funext q
    simp only [set_list]
    split_ifs with hq
    · subst hq; rfl
    · rfl

theorem set_list_insert_restore (s : Tree) (p e : Nat) (l1 : List Nat)
    (hins : insert_in_order s e l1 = s.lists p) :
    set_list (set_list s p l1) p
      (insert_in_order (set_list s p l1) e ((set_list s p l1).lists p)) = s := by
  have h1 : (set_list s p l1).lists p = l1 := by simp [set_list]
  rw [h1, insert_in_order_congr s (set_list s p l1) rfl, hins]
  exact set_list_restore s p l1

/-- A successful dry-run removal is undone by `sysctl_register_oid`, and it keeps the
sibling invariants and what the restore relies on. -/
theorem remove_oid_flat_ok (s s1 : Tree) (e : Nat) (hinv : sibling_inv s)
    (he : restorable s e)
    (h : sysctl_remove_oid 0 s e false false = some (0, s1)) :
    sysctl_register_oid s1 e = s ∧ sibling_inv s1 ∧ ∀ x, restorable s x → restorable s1 x := by
  rw [remove_oid_flat] at h
  split_ifs at h with h0 hd hne hgt hz
  · simp [EINVAL] at h
  · simp [EINVAL] at h
  · simp [ENOTEMPTY] at h
  · -- the ref-count is above one: it is decremented
    simp only [Option.some.injEq, Prod.mk.injEq, true_and] at h
    subst h
    obtain ⟨hnode, hmem⟩ := he.2 hgt
    have hname : ∀ q, ((set_refcnt s e ((s.oids e).oid_refcnt - 1)).oids q).oid_name
        = (s.oids q).oid_name := by
      intro q; simp only [set_refcnt]; split_ifs with hq
      · subst hq; rfl
      · rfl
    have hnum : ∀ q, ((set_refcnt s e ((s.oids e).oid_refcnt - 1)).oids q).oid_number
        = (s.oids q).oid_number := by
      intro q; simp only [set_refcnt]; split_ifs with hq
      · subst hq; rfl
      · rfl
    have hself : (set_refcnt s e ((s.oids e).oid_refcnt - 1)).oids e
        = { s.oids e with oid_refcnt := (s.oids e).oid_refcnt - 1 } := by
      simp [set_refcnt]
    refine ⟨?_, ⟨fun l => names_distinct_congr (fun q _ => hname q) (hinv.1 l),
      fun l => ids_increasing_congr (fun q _ => hnum q) (hinv.2 l)⟩, ?_⟩
    · unfold sysctl_register_oid
      have hf : sysctl_find_oidname (set_refcnt s e ((s.oids e).oid_refcnt - 1))
          ((set_refcnt s e ((s.oids e).oid_refcnt - 1)).oids e).oid_name
          ((set_refcnt s e ((s.oids e).oid_refcnt - 1)).oids e).oid_parent = some e := by
        rw [find_oidname_congr s (set_refcnt s e ((s.oids e).oid_refcnt - 1)) _ _ rfl hname, hself]
        exact find_unique s _ e (hinv.1 _) hmem
      simp only [hf]
      rw [hself]
      simp only [hnode, if_true]
      exact set_refcnt_restore s e _ (by omega) _
    · intro x hx
      refine ⟨by rw [hnum]; exact hx.1, ?_⟩
      intro hgx
      by_cases hxe : x = e
      · subst hxe
        rw [hself]
        exact ⟨hnode, hmem⟩
      · have hsame : (set_refcnt s e ((s.oids e).oid_refcnt - 1)).oids x = s.oids x := by
          simp [set_refcnt, hxe]
        rw [hsame] at hgx ⊢
        exact hx.2 hgx
  · simp [EINVAL] at h
  · -- the ref-count is one: the node is unlinked
    unfold sysctl_unregister_oid at h
    by_cases hmem : e ∈ s.lists (s.oids e).oid_parent
    · simp only [hmem, if_true, Option.some.injEq, Prod.mk.injEq, true_and] at h
      subst h
      have hsub : ∀ l, List.Sublist ((set_list s (s.oids e).oid_parent
          ((s.lists (s.oids e).oid_parent).erase e)).lists l) (s.lists l) := by
        intro l
        simp only [set_list]
        split_ifs with hl
        · subst hl; exact List.erase_sublist _ _
        · exact List.Sublist.refl _
      refine ⟨?_, ⟨fun l => List.Pairwise.sublist (hsub l) (hinv.1 l),
        fun l => List.Pairwise.sublist (hsub l) (hinv.2 l)⟩, ?_⟩
      · have hnodup : (s.lists (s.oids e).oid_parent).Nodup :=
          nodup_of_increasing (hinv.2 _)
        have habs : sysctl_find_oidname
            (set_list s (s.oids e).oid_parent ((s.lists (s.oids e).oid_parent).erase e))
            (s.oids e).oid_name (s.oids e).oid_parent = none := by
          apply find_oidname_of_absent
          intro q hq
          simp only [set_list, if_true] at hq
          have hq1 : q ∈ s.lists (s.oids e).oid_parent := List.mem_of_mem_erase hq
          have hqe : q ≠ e := fun e2 => by
            rw [e2] at hq
            exact (List.Nodup.not_mem_erase hnodup) hq
          exact names_ne_of_mem (hinv.1 _) hq1 hmem hqe
        have hreg := @register_absent (set_list s (s.oids e).oid_parent
          ((s.lists (s.oids e).oid_parent).erase e)) e habs
        rw [hreg]
        have hnumb : numbered (set_list s (s.oids e).oid_parent
            ((s.lists (s.oids e).oid_parent).erase e)) e
            = set_list s (s.oids e).oid_parent ((s.lists (s.oids e).oid_parent).erase e) :=
          numbered_explicit _ e he.1
        rw [hnumb]
        exact set_list_insert_restore s _ e _ (insert_erase s _ e (hinv.2 _) hmem)
      · intro x hx
        refine ⟨hx.1, ?_⟩
        intro hgx
        obtain ⟨hxn, hxm⟩ := hx.2 hgx
        refine ⟨hxn, ?_⟩
        have hxe : x ≠ e := fun e2 => by rw [e2] at hgx; exact hgt hgx
        show x ∈ (set_list s (s.oids e).oid_parent
          ((s.lists (s.oids e).oid_parent).erase e)).lists (s.oids x).oid_parent
        simp only [set_list]
        split_ifs with hl
        · rw [hl] at hxm
          exact (List.mem_erase_of_ne hxe).mpr hxm
        · exact hxm
    · simp [hmem] at h

theorem ctx_dry_run_restore (clist : List Nat) :
    ∀ (s : Tree) (done : List Nat) (error : Int) (s1 : Tree) (done1 : List Nat),
      sibling_inv s → (∀ e ∈ clist, restorable s e) →
      ctx_dry_run s clist done = some (error, s1, done1) →
      ctx_restore s1 done1 = ctx_restore s done := by
  induction clist with
  | nil =>
    intro s done error s1 done1 _ _ h
    simp only [ctx_dry_run, Option.some.injEq, Prod.mk.injEq] at h
    rw [← h.2.1, ← h.2.2]
  | cons e rest ih =>
    intro s done error s1 done1 hinv hres h
    simp only [ctx_dry_run] at h
    cases hr : sysctl_remove_oid 0 s e false false with
    | none => rw [hr] at h; simp at h
    | some r =>
      obtain ⟨err, s2⟩ := r
      rw [hr] at h
      simp only at h
      by_cases he : err = 0
      · subst he
        simp only [ne_eq, not_true_eq_false, if_false] at h
        obtain ⟨hback, hinv2, hkeep⟩ :=
          remove_oid_flat_ok s s2 e hinv (hres e (List.mem_cons_self _ _)) hr
        have := ih s2 (e :: done) error s1 done1 hinv2
          (fun x hx => hkeep x (hres x (List.mem_cons_of_mem _ hx))) h
        rw [this]
        simp only [ctx_restore, hback]
      · simp only [ne_eq, he, not_false_eq_true, if_true, Option.some.injEq, Prod.mk.injEq] at h
        rw [← h.2.1, ← h.2.2, remove_oid_flat_fail s s2 e false err hr he]

/-- C1: in a tree that satisfies the sibling invariants, for a context whose entries
reference registered nodes, a `sysctl_ctx_free` that returns a non-zero value returns
`EBUSY`, leaves the tree exactly as it was (every node record, so every ref-count, and
every child list) and leaves the context as it was.  The registered nodes are taken
as registration leaves them: none carries the id `AUTO`, which
`sysctl_register_oid` replaces before it links a node, and none is a leaf with a
ref-count above one, since only interior nodes are ever incremented. -/
theorem C1_failed_ctx_free_restores (s : Tree) (clist : List Nat) (error : Int) (s1 : Tree)
    (clist1 : List Nat)
    (hinv : sibling_inv s)
    (hreg : ∀ e ∈ clist, e ∈ s.lists (s.oids e).oid_parent)
    (hauto : ∀ e ∈ clist, (s.oids e).oid_number ≠ OID_AUTO)
    (hleaf : ∀ e ∈ clist, (s.oids e).oid_refcnt > 1 → is_node (s.oids e).oid_kind = true)
    (hrun : sysctl_ctx_free s clist = some (error, s1, clist1))
    (herr : error ≠ 0) :
    error = EBUSY ∧ s1 = s ∧ clist1 = clist := by
  unfold sysctl_ctx_free at hrun
  cases hd : ctx_dry_run s clist [] with
  | none => rw [hd] at hrun; simp at hrun
  | some r =>
    obtain ⟨err, s2, done⟩ := r
    rw [hd] at hrun
    simp only at hrun
    have hres : ∀ e ∈ clist, restorable s e :=
      fun e he => ⟨hauto e he, fun hg => ⟨hleaf e he hg, hreg e he⟩⟩
    have hback := ctx_dry_run_restore clist s [] err s2 done hinv hres hd
    by_cases he : err = 0
    · simp only [he, ne_eq, not_true_eq_false, if_false] at hrun
      cases hc : ctx_commit (ctx_restore s2 done) clist with
      | none => rw [hc] at hrun; simp at hrun
      | some s3 =>
        rw [hc] at hrun
        simp only [Option.some.injEq, Prod.mk.injEq] at hrun
        exact absurd hrun.1.symm herr
    · simp only [ne_eq, he, not_false_eq_true, if_true, Option.some.injEq, Prod.mk.injEq] at hrun
      refine ⟨hrun.1.symm, ?_, hrun.2.2.symm⟩
      rw [← hrun.2.1, hback]
      rfl

theorem sibling_inv_of_root (s : Tree) (hl : ∀ l, l ≠ sysctl__children → s.lists l = [])
    (hn : names_distinct s (s.lists sysctl__children))
    (hi : ids_increasing s (s.lists sysctl__children)) : sibling_inv s := by
  constructor
  · intro l
    by_cases h : l = sysctl__children
    · rw [h]; exact hn
    · rw [hl l h]; exact List.Pairwise.nil
  · intro l
    by_cases h : l = sysctl__children
    · rw [h]; exact hi
    · rw [hl l h]; exact List.Pairwise.nil

theorem tree_busy_inv : sibling_inv tree_busy :=
  sibling_inv_of_root tree_busy (fun l h => by simp [tree_busy, h]) (by decide) (by decide)

theorem tree_leaf2_inv : sibling_inv tree_leaf2 :=
  sibling_inv_of_root tree_leaf2 (fun l h => by simp [tree_leaf2, h]) (by decide) (by decide)

theorem tree_auto_inv : sibling_inv tree_auto :=
  sibling_inv_of_root tree_auto (fun l h => by simp [tree_auto, h]) (by decide) (by decide)

/-- C1, witness: the context `[41, 40, 42]` of the example tree; the dry run unlinks
the leaf `41`, decrements the shared node `40` and fails at the static leaf `42`. -/
theorem C1_failed_ctx_free_restores_witness :
    ∃ r, sysctl_ctx_free tree_busy [41, 40, 42] = some r ∧ r.1 ≠ 0
      ∧ r.1 = EBUSY ∧ r.2.1 = tree_busy ∧ r.2.2 = [41, 40, 42] := by
  have hsome : (sysctl_ctx_free tree_busy [41, 40, 42]).map (fun r => r.1) = some EBUSY := by
    decide
  cases h : sysctl_ctx_free tree_busy [41, 40, 42] with
  | none => rw [h] at hsome; simp at hsome
  | some r =>
    obtain ⟨error, s1, clist1⟩ := r
    rw [h] at hsome
    have herr : error ≠ 0 := by
      simp only [Option.map_some', Option.some.injEq] at hsome
      rw [hsome]; decide
    exact ⟨_, rfl, herr,
      C1_failed_ctx_free_restores tree_busy [41, 40, 42] error s1 clist1 tree_busy_inv
        (by decide) (by decide) (by decide) h herr⟩

/-- Two trees that no sequence of registrations builds, on which a failed
`sysctl_ctx_free` does not give the tree back.  In the first the dynamic leaf `30` has
ref-count `2`: the dry run decrements it, fails at the static leaf `31`, and the
restore does not increment a leaf.  In the second the linked leaf `32` carries the
value of `AUTO` as its id: the dry run unlinks it, fails at `33`, and the restore
numbers it `100` and links it after `33`. -/
theorem ctx_free_on_unbuilt_trees :
    (sibling_inv tree_leaf2
      ∧ (∀ e ∈ [30, 31], e ∈ tree_leaf2.lists (tree_leaf2.oids e).oid_parent)
      ∧ (tree_leaf2.oids 30).oid_refcnt = 2
      ∧ (sysctl_ctx_free tree_leaf2 [30, 31]).map
          (fun r => (r.1, (r.2.1.oids 30).oid_refcnt, r.2.2)) = some (EBUSY, 1, [30, 31]))
    ∧ (sibling_inv tree_auto
      ∧ (∀ e ∈ [32, 33], e ∈ tree_auto.lists (tree_auto.oids e).oid_parent)
      ∧ tree_auto.lists sysctl__children = [32, 33]
      ∧ (sysctl_ctx_free tree_auto [32, 33]).map
          (fun r => (r.1, r.2.1.lists sysctl__children, r.2.2)) = some (EBUSY, [33, 32], [32, 33])) :=
  ⟨⟨tree_leaf2_inv, by decide, by decide, by decide⟩,
    ⟨tree_auto_inv, by decide, by decide, by decide⟩⟩

/-! ## The resolver against its specification -/

theorem slist_walk_find {α : Type} (at_end : α) (P : Nat → Bool) (f : Nat → α) (l : List Nat) :
    slist_walk at_end (fun q => if P q = true then some (f q) else none) l
      = match l.find? P with
        | none => at_end
        | some c => f c := by
  induction l with
  | nil => rfl
  | cons p rest ih =>
    simp only [slist_walk, List.find?_cons]
    cases hp : P p with
    | true => simp
    | false => simpa using ih

theorem getD_of_drop {name : List Int} {indx : Nat} {x : Int} {rest : List Int}
    (h : name.drop indx = x :: rest) : name.getD indx 0 = x := by
  have h1 : (name.drop indx)[0]? = some x := by rw [h]; simp
  rw [List.getElem?_drop] at h1
  simp only [add_zero] at h1
  simp [List.getD_eq_getElem?_getD, h1]

theorem length_of_drop {name : List Int} {indx : Nat} {x : Int} {rest : List Int}
    (h : name.drop indx = x :: rest) : name.length = indx + 1 + rest.length := by
  have h1 : (name.drop indx).length = rest.length + 1 := by rw [h]; rfl
  rw [List.length_drop] at h1
  omega

theorem drop_succ_of_drop {name : List Int} {indx : Nat} {x : Int} {rest : List Int}
    (h : name.drop indx = x :: rest) : name.drop (indx + 1) = rest := by
  have : name.drop (indx + 1) = (name.drop indx).drop 1 := by
    rw [List.drop_drop, Nat.add_comm]
  rw [this, h]; rfl

theorem find_oid_loop_spec (s : Tree) (name : List Int) :
    ∀ (rest : List Int) (room indx lock list : Nat),
      name.drop indx = rest → rest ≠ [] → rest.length ≤ room →
      find_oid_loop s name name.length room indx lock (s.lists list)
        = resolve_spec s name.length rest indx lock list := by
  intro rest
  induction rest with
  | nil => intro _ _ _ _ _ h; exact absurd rfl h
  | cons x rest ih =>
    intro room indx lock list hdrop _ hroom
    cases room with
    | zero => simp at hroom
    | succ room =>
      have hx := getD_of_drop hdrop
      have hlen := length_of_drop hdrop
      have hnext := drop_succ_of_drop hdrop
      simp only [List.length_cons] at hroom
      unfold find_oid_loop resolve_spec
      rw [hx]
      have hw := slist_walk_find (α := Int × Option (Nat × Nat) × Nat) (ENOENT, none, lock)
        (fun oid => decide ((s.oids oid).oid_number = x))
        (fun oid =>
          if is_node (s.oids oid).oid_kind = true then
            if (s.oids oid).oid_handler ≠ 0 ∨ indx + 1 = name.length then
              (0, some (oid, indx + 1),
                if (s.oids oid).oid_kind &&& CTLFLAG_NOLOCK ≠ 0 then 0 else lock)
            else find_oid_loop s name name.length room (indx + 1)
              (if (s.oids oid).oid_kind &&& CTLFLAG_NOLOCK ≠ 0 then 0 else lock)
              (s.lists (s.oids oid).oid_arg1)
          else if indx + 1 = name.length then
            (0, some (oid, indx + 1),
              if (s.oids oid).oid_kind &&& CTLFLAG_NOLOCK ≠ 0 then 0 else lock)
          else (ENOTDIR, none, if (s.oids oid).oid_kind &&& CTLFLAG_NOLOCK ≠ 0 then 0 else lock))
        (s.lists list)
      simp only [decide_eq_true_eq] at hw
      rw [hw]
      cases hf : (s.lists list).find? (fun oid => decide ((s.oids oid).oid_number = x)) with
      | none => rfl
      | some c =>
        simp only
        by_cases hn : is_node (s.oids c).oid_kind = true
        · by_cases hh : (s.oids c).oid_handler ≠ 0
          · simp [hn, hh]
          · by_cases hl : indx + 1 = name.length
            · simp [hn, hl]
            · have hrest : rest ≠ [] := by
                intro e; rw [e] at hlen; simp at hlen; omega
              simp only [hn, hh, hl, or_self, if_false, if_true, and_false, not_true_eq_false,
                true_and, false_or]
              exact ih room (indx + 1) _ _ hnext hrest (by omega)
        · by_cases hl : indx + 1 = name.length
          · simp [hn, hl]
          · simp [hn, hl]

/-- C2: for a numeric path of length `n` with `1 ≤ n ≤ CTL_MAXNAME`,
`sysctl_find_oid` returns what the level-by-level resolver of the specification
returns: the same error, the same node and consumed length, and the same lock
flag. -/
theorem C2_find_oid_refines_resolver (s : Tree) (name : List Int) (lock : Nat)
    (h1 : 1 ≤ name.length) (h2 : name.length ≤ CTL_MAXNAME) :
    sysctl_find_oid s name name.length lock
      = resolve_spec s name.length name 0 lock sysctl__children := by
  unfold sysctl_find_oid
  exact find_oid_loop_spec s name name CTL_MAXNAME 0 lock sysctl__children rfl
    (by intro e; rw [e] at h1; simp at h1) h2

/-- C2, witness: the path `[1, 10]` resolves to the leaf `hostname` of the example
tree, through the interior node `kern`. -/
theorem C2_find_oid_refines_resolver_witness :
    sysctl_find_oid tree_kern [1, 10] 2 1
        = resolve_spec tree_kern 2 [1, 10] 0 1 sysctl__children
    ∧ sysctl_find_oid tree_kern [1, 10] 2 1 = (0, some (51, 2), 1) :=
  ⟨C2_find_oid_refines_resolver tree_kern [1, 10] 1 (by decide) (by decide), by decide⟩

/-! ## The transfer functions -/

theorem size_sub_of_le (w a b : Nat) (hab : b ≤ a) (ha : a < 2 ^ w) : size_sub w a b = a - b := by
  unfold size_sub
  have hb : b % 2 ^ w = b := Nat.mod_eq_of_lt (by omega)
  rw [hb]
  have : a + (2 ^ w - b) = (a - b) + 2 ^ w := by omega
  rw [this, Nat.add_mod_right]
  exact Nat.mod_eq_of_lt (by omega)

/-- C6: for a request with `oldidx ≤ oldlen`, `sysctl_old_kernel` advances the
cursor by `l` (in `size_t` arithmetic, and by exactly `l` when the sum is
representable), with or without an old buffer; with an old buffer it copies the first
`min l (oldlen - oldidx)` bytes of the source to offset `oldidx` of the buffer and
changes no other byte, without one it changes no byte; and it returns `ENOMEM`
exactly when there is an old buffer and `l > oldlen - oldidx`, and `0` otherwise. -/
theorem C6_old_kernel (w : Nat) (ks : kstate) (req : sysctl_req) (p : List Nat) (l : Nat)
    (hidx : req.oldidx ≤ req.oldlen) (hlen : req.oldlen < 2 ^ w) :
    (sysctl_old_kernel w ks req p l).2.2.oldidx = (req.oldidx + l) % 2 ^ w
    ∧ (req.oldidx + l < 2 ^ w → (sysctl_old_kernel w ks req p l).2.2.oldidx = req.oldidx + l)
    ∧ (∀ a, (sysctl_old_kernel w ks req p l).2.1.mem a =
        if req.oldptr ≠ 0 ∧ req.oldptr + req.oldidx ≤ a
            ∧ a < req.oldptr + req.oldidx + min l (req.oldlen - req.oldidx)
        then p.getD (a - (req.oldptr + req.oldidx)) 0 else ks.mem a)
    ∧ ((sysctl_old_kernel w ks req p l).1 = ENOMEM ↔
        (req.oldptr ≠ 0 ∧ l > req.oldlen - req.oldidx))
    ∧ (¬ (req.oldptr ≠ 0 ∧ l > req.oldlen - req.oldidx) →
        (sysctl_old_kernel w ks req p l).1 = 0) := by
  have hsub := size_sub_of_le w req.oldlen req.oldidx hidx hlen
  unfold sysctl_old_kernel
  simp only [hsub]
  refine ⟨?_, ?_, ?_, ?_, ?_⟩
  · split_ifs <;> rfl
  · intro h
    have : (req.oldidx + l) % 2 ^ w = req.oldidx + l := Nat.mod_eq_of_lt h
    split_ifs <;> simpa [size_add] using this
  · intro a
    by_cases hp : req.oldptr = 0
    · simp [hp]
    · by_cases hl : l > req.oldlen - req.oldidx
      · have hmin : min l (req.oldlen - req.oldidx) = req.oldlen - req.oldidx :=
          Nat.min_eq_right (by omega)
        simp only [hp, hl, hmin, ne_eq, not_false_eq_true, if_true, true_and]
        by_cases hz : req.oldlen - req.oldidx > 0
        · have hne : req.oldlen - req.oldidx ≠ l := by omega
          simp [hz, hne, mem_write]
        · have hz0 : req.oldlen - req.oldidx = 0 := by omega
          have hne : ¬ (0 = l) := by omega
          simp only [hz0, gt_iff_lt, lt_self_iff_false, if_false, add_zero]
          split_ifs <;> first | rfl | omega
      · have hmin : min l (req.oldlen - req.oldidx) = l := Nat.min_eq_left (by omega)
        simp only [hp, hl, hmin, ne_eq, not_false_eq_true, if_true, if_false, true_and,
          not_true_eq_false, and_false]
        by_cases hz : l > 0
        · simp [hz, mem_write]
        · have hz0 : l = 0 := by omega
          simp only [hz0, gt_iff_lt, lt_self_iff_false, if_false, add_zero]
          split_ifs <;> first | rfl | omega
  · by_cases hp : req.oldptr = 0
    · simp [hp, ENOMEM]
    · by_cases hl : l > req.oldlen - req.oldidx
      · have hne : req.oldlen - req.oldidx ≠ l := by omega
        simp [hp, hl, hne]
      · simp [hp, hl, ENOMEM]
  · intro h
    by_cases hp : req.oldptr = 0
    · simp [hp]
    · have hl : ¬ l > req.oldlen - req.oldidx := fun hl => h ⟨hp, hl⟩
      simp [hp, hl]

/-- C6, witness: 21 bytes are sent to a 7-byte buffer with the cursor at `0`. -/
theorem C6_old_kernel_witness :
    (kernel_req 0 3000 (some 7) 0 0).oldidx ≤ (kernel_req 0 3000 (some 7) 0 0).oldlen
    ∧ (sysctl_old_kernel 32 ks_kern (kernel_req 0 3000 (some 7) 0 0)
        (mem_read ks_kern.mem 2000 21) 21).1 = ENOMEM
    ∧ (sysctl_old_kernel 32 ks_kern (kernel_req 0 3000 (some 7) 0 0)
        (mem_read ks_kern.mem 2000 21) 21).2.2.oldidx = 21 :=
  ⟨by decide,
    (C6_old_kernel 32 ks_kern (kernel_req 0 3000 (some 7) 0 0) (mem_read ks_kern.mem 2000 21) 21
      (by decide) (by decide)).2.2.2.1.mpr (by decide),
    (C6_old_kernel 32 ks_kern (kernel_req 0 3000 (some 7) 0 0) (mem_read ks_kern.mem 2000 21) 21
      (by decide) (by decide)).2.1 (by decide)⟩

/-- C7, the code at the failing input: with a 7-byte old buffer and the cursor at
`21` (the request a truncated read of 21 bytes leaves), `oldlen - oldidx` wraps to `2 ^ 32 - 14`, the length `1` is not clamped, and both
transfer functions store the byte at offset `21` of the buffer, beyond its end, and
return `0`. -/
theorem C7_out_writes_past_oldlen :
    req_truncated xfer.kernel = { kernel_req 0 3000 (some 7) 0 0 with oldidx := 21 }
    ∧ (req_truncated xfer.kernel).oldlen = 7
    ∧ (req_truncated xfer.kernel).oldidx = 21
    ∧ size_sub 32 7 21 = 2 ^ 32 - 14
    ∧ ks_kern.mem (3000 + 21) = 0
    ∧ (sysctl_old_kernel 32 ks_kern (req_truncated xfer.kernel) [65] 1).1 = 0
    ∧ (sysctl_old_kernel 32 ks_kern (req_truncated xfer.kernel) [65] 1).2.1.mem (3000 + 21) = 65
    ∧ (sysctl_old_user 32 env_ok ks_kern (req_truncated xfer.user) [65] 1).1 = 0
    ∧ (sysctl_old_user 32 env_ok ks_kern (req_truncated xfer.user) [65] 1).2.1.mem (3000 + 21)
        = 65 := by
  decide

/-! ## The size reported by the top-level calls -/

theorem mem_put_nil (mem : Nat → Nat) (addr : Nat) : mem_put mem addr [] = mem := by
  funext a
  unfold mem_put
  simp only [List.length_nil, add_zero]
  split_ifs with h
  · omega
  · rfl

theorem mem_put_append (mem : Nat → Nat) (addr : Nat) (a b : List Nat) :
    mem_put (mem_put mem addr a) (addr + a.length) b = mem_put mem addr (a ++ b) := by
  funext x
  unfold mem_put
  simp only [List.length_append]
  by_cases h1 : addr + a.length ≤ x ∧ x < addr + a.length + b.length
  · have h2 : addr ≤ x ∧ x < addr + (a.length + b.length) := by omega
    rw [if_pos h1, if_pos h2]
    rw [List.getD_append_right _ _ _ _ (by omega)]
    congr 1
    omega
  · rw [if_neg h1]
    by_cases h3 : addr ≤ x ∧ x < addr + a.length
    · have h2 : addr ≤ x ∧ x < addr + (a.length + b.length) := by omega
      rw [if_pos h3, if_pos h2]
      rw [List.getD_append _ _ _ _ (by omega)]
    · have h2 : ¬ (addr ≤ x ∧ x < addr + (a.length + b.length)) := by omega
      rw [if_neg h3, if_neg h2]

theorem mem_read_put (mem : Nat → Nat) (addr : Nat) (t : List Nat) :
    mem_read (mem_put mem addr t) addr t.length = t := by
  unfold mem_read mem_put
  apply List.ext_getElem
  · simp
  · intro n h1 h2
    simp only [List.length_map, List.length_range] at h1
    simp only [List.getElem_map, List.getElem_range]
    have : addr ≤ addr + n ∧ addr + n < addr + t.length := by omega
    rw [if_pos this]
    simp [List.getD_eq_getElem?_getD, h2]

/-- A successful `sysctl_old_kernel` on a request that writes inside its buffer:
the bytes are stored at the cursor and the cursor moves behind them. -/
theorem old_kernel_ok (w : Nat) (ks ks1 : kstate) (req req1 : sysctl_req) (p : List Nat)
    (hg : writes_inside w req)
    (h : sysctl_old_kernel w ks req p p.length = (0, ks1, req1)) :
    ks1.tree = ks.tree
    ∧ ks1.mem = mem_put ks.mem (req.oldptr + req.oldidx) p
    ∧ req1.oldptr = req.oldptr
    ∧ req1.oldidx = req.oldidx + p.length
    ∧ writes_inside w req1 := by
  obtain ⟨hp, hl, hi⟩ := hg
  have hsub := size_sub_of_le w req.oldlen req.oldidx hi hl
  unfold sysctl_old_kernel at h
  simp only [hsub, hp, ne_eq, not_false_eq_true, if_true, true_and] at h
  by_cases hfit : p.length > req.oldlen - req.oldidx
  · have hne : ¬ (req.oldlen - req.oldidx = p.length) := by omega
    simp [hfit, hne, ENOMEM] at h
  · simp only [hfit, if_false, not_true_eq_false, Prod.mk.injEq, true_and] at h
    obtain ⟨h1, h2⟩ := h
    have hadd : size_add w req.oldidx p.length = req.oldidx + p.length := by
      unfold size_add
      exact Nat.mod_eq_of_lt (by omega)
    rw [hadd] at h2
    subst h1 h2
    refine ⟨?_, ?_, rfl, rfl, hp, hl, by simp only; omega⟩
    · split_ifs <;> rfl
    · by_cases hz : p.length > 0
      · simp only [hz, if_true]
        rfl
      · simp only [hz, if_false]
        have : p = [] := List.eq_nil_of_length_eq_zero (by omega)
        rw [this, mem_put_nil]

/-- A successful `sysctl_old_user` on a request that writes inside its buffer. -/
theorem old_user_ok (w : Nat) (env : kenv) (ks ks1 : kstate) (req req1 : sysctl_req)
    (p : List Nat) (hg : writes_inside w req)
    (h : sysctl_old_user w env ks req p p.length = (0, ks1, req1)) :
    ks1.tree = ks.tree
    ∧ ks1.mem = mem_put ks.mem (req.oldptr + req.oldidx) p
    ∧ req1.oldptr = req.oldptr
    ∧ req1.oldidx = req.oldidx + p.length
    ∧ writes_inside w req1 := by
  obtain ⟨hp, hl, hi⟩ := hg
  have hsub := size_sub_of_le w req.oldlen req.oldidx hi hl
  unfold sysctl_old_user at h
  simp only [hsub, hp, ne_eq, not_false_eq_true, if_true, true_and] at h
  by_cases hfit : p.length > req.oldlen - req.oldidx
  · have hlt : req.oldlen - req.oldidx < p.length := hfit
    simp only [hfit, if_true, hlt] at h
    split_ifs at h <;> simp [ENOMEM] at h <;> omega
  · have hadd : size_add w req.oldidx p.length = req.oldidx + p.length := by
      unfold size_add
      exact Nat.mod_eq_of_lt (by omega)
    simp only [hfit, if_false, lt_self_iff_false, hadd] at h
    by_cases hz : p.length > 0
    · simp only [hz, if_true] at h
      unfold copyout at h
      by_cases hc : env.copyout_err (req.oldptr + req.oldidx) p.length = 0
      · simp only [hc, if_true, ne_eq, not_true_eq_false, if_false, Prod.mk.injEq, true_and] at h
        obtain ⟨h1, h2⟩ := h
        subst h1 h2
        refine ⟨?_, ?_, rfl, rfl, hp, hl, by simp only; omega⟩
        · simp only; split_ifs <;> rfl
        · simp only; split_ifs <;> rfl
      · simp only [hc, if_false, ne_eq, not_false_eq_true, if_true, Prod.mk.injEq] at h
        exact h.1.elim
    · simp only [hz, if_false, ne_eq, not_true_eq_false, Prod.mk.injEq, true_and] at h
      obtain ⟨h1, h2⟩ := h
      subst h1 h2
      have : p = [] := List.eq_nil_of_length_eq_zero (by omega)
      refine ⟨?_, ?_, rfl, rfl, hp, hl, by simp only; omega⟩
      · split_ifs <;> rfl
      · rw [this, mem_put_nil]; split_ifs <;> rfl

theorem out_ok_fields (w : Nat) (env : kenv) (ks ks1 : kstate) (req req1 : sysctl_req)
    (p : List Nat) (hg : writes_inside w req)
    (h : SYSCTL_OUT w env ks req p p.length = (0, ks1, req1)) :
    ks1.tree = ks.tree
    ∧ ks1.mem = mem_put ks.mem (req.oldptr + req.oldidx) p
    ∧ req1.oldptr = req.oldptr
    ∧ req1.oldidx = req.oldidx + p.length
    ∧ writes_inside w req1 := by
  unfold SYSCTL_OUT at h
  cases hf : req.oldfunc with
  | kernel => rw [hf] at h; exact old_kernel_ok w ks ks1 req req1 p hg h
  | user => rw [hf] at h; exact old_user_ok w env ks ks1 req req1 p hg h

theorem name_out_ok (w : Nat) (env : kenv) (ks ks1 : kstate) (req req1 : sysctl_req)
    (text : List Nat) (hg : writes_inside w req)
    (h : name_out w env ks req text = (0, ks1, req1)) :
    ks1.tree = ks.tree
    ∧ ks1.mem = mem_put ks.mem (req.oldptr + req.oldidx) (separator req ++ text)
    ∧ req1.oldptr = req.oldptr
    ∧ req1.oldidx = req.oldidx + (separator req ++ text).length
    ∧ writes_inside w req1 := by
  unfold name_out at h
  unfold separator
  by_cases hz : req.oldidx ≠ 0
  · simp only [if_pos hz] at h ⊢
    cases hr : SYSCTL_OUT w env ks req [DOT] 1 with
    | mk e kq =>
      obtain ⟨k, q⟩ := kq
      rw [hr] at h
      by_cases he : e = 0
      · subst he
        rw [if_pos (show ((0 : Int), k, q).1 = 0 from rfl)] at h
        obtain ⟨a1, a2, a3, a4, a5⟩ := out_ok_fields w env ks k req q [DOT] hg hr
        obtain ⟨b1, b2, b3, b4, b5⟩ := out_ok_fields w env k ks1 q req1 text a5 h
        refine ⟨b1.trans a1, ?_, b3.trans a3, ?_, b5⟩
        · rw [b2, a2, a3, a4]
          have := mem_put_append ks.mem (req.oldptr + req.oldidx) [DOT] text
          simp only [List.length_singleton] at this ⊢
          rw [← this, Nat.add_assoc]
        · rw [b4, a4]
          simp only [List.length_append, List.length_singleton]
          omega
      · rw [if_neg (show ¬ (e, k, q).1 = 0 from he)] at h
        simp only [Prod.mk.injEq] at h
        exact absurd h.1 he
  · rw [if_neg hz] at h
    rw [if_neg hz]
    simp only [List.nil_append]
    exact out_ok_fields w env ks ks1 req req1 text hg h

theorem join_dots_cons (n : List Nat) (rest : List (List Nat)) (h : rest ≠ []) :
    join_dots (n :: rest) = n ++ DOT :: join_dots rest := by
  simp [join_dots, h]

theorem by_id_list_ne (s : Tree) (hnull : s.lists 0 = []) (l c : Nat) (h : by_id s l c) :
    l ≠ 0 := by
  intro e
  unfold by_id at h
  rw [e, hnull] at h
  simp at h

/-- What a successful run of the loop of `sysctl_sysctl_name` leaves when every
element of the path is found: the separator and the names joined by dots, stored at
the cursor. -/
theorem name_loop_chain (w : Nat) (env : kenv) (s : Tree) (hnull : s.lists 0 = []) :
    ∀ (nodes : List Nat) (l : Nat) (ks ks1 : kstate) (req req1 : sysctl_req),
      ks.tree = s → chain s (by_id s) l nodes → writes_inside w req →
      (req.oldidx ≠ 0 ∨ ∀ c, nodes.head? = some c → (s.oids c).oid_name ≠ []) →
      sysctl_name_loop w env nodes.length (nodes.map (fun c => (s.oids c).oid_number)) l ks req
        = (0, ks1, req1) →
      ks1.tree = s
      ∧ ks1.mem = mem_put ks.mem (req.oldptr + req.oldidx)
          (separator req ++ join_dots (nodes.map (fun c => (s.oids c).oid_name)))
      ∧ req1.oldptr = req.oldptr
      ∧ req1.oldidx = req.oldidx
          + (separator req ++ join_dots (nodes.map (fun c => (s.oids c).oid_name))).length
      ∧ writes_inside w req1 := by
  intro nodes
  induction nodes with
  | nil => intro l ks ks1 req req1 _ hc; exact absurd hc (by simp [chain])
  | cons c rest ih =>
    intro l ks ks1 req req1 hks hc hg hfirst hrun
    obtain ⟨hfound, hrest⟩ := hc
    have hl := by_id_list_ne s hnull l c hfound
    simp only [List.length_cons, List.map_cons, sysctl_name_loop, hl, if_false, List.headD_cons,
      hks, List.tail_cons] at hrun
    unfold by_id at hfound
    rw [hfound] at hrun
    simp only at hrun
    cases hr : name_out w env ks req (s.oids c).oid_name with
    | mk e kq =>
      obtain ⟨k, q⟩ := kq
      rw [hr] at hrun
      simp only at hrun
      by_cases he : e = 0
      · subst he
        simp only [ne_eq, not_true_eq_false, if_false] at hrun
        obtain ⟨a1, a2, a3, a4, a5⟩ := name_out_ok w env ks k req q _ hg hr
        rcases hrest with hnil | ⟨hnode, hhand, hchain⟩
        · subst hnil
          simp only [List.length_nil, sysctl_name_loop, Prod.mk.injEq, true_and] at hrun
          obtain ⟨hk, hq⟩ := hrun
          subst hk hq
          simp only [List.map_nil, join_dots, if_true]
          exact ⟨a1.trans hks, a2, a3, a4, a5⟩
        · have hrne : rest ≠ [] := by
            intro e; rw [e] at hchain; simp [chain] at hchain
          simp only [hnode, Bool.not_true, Bool.false_eq_true, if_false, hhand, ne_eq,
            not_true_eq_false] at hrun
          have hq0 : q.oldidx ≠ 0 := by
            rw [a4]
            rcases hfirst with h0 | h0
            · omega
            · have := h0 c rfl
              have hpos : 0 < (s.oids c).oid_name.length := List.length_pos.mpr this
              simp only [List.length_append]
              omega
          obtain ⟨b1, b2, b3, b4, b5⟩ := ih (s.oids c).oid_arg1 k ks1 q req1 (a1.trans hks)
            hchain a5 (Or.inl hq0) hrun
          have hsep : separator q = [DOT] := by simp [separator, hq0]
          have hmapne : rest.map (fun c => (s.oids c).oid_name) ≠ [] := by
            simpa using hrne
          have hjoin := join_dots_cons (s.oids c).oid_name
            (rest.map (fun c => (s.oids c).oid_name)) hmapne
          simp only [List.map_cons]
          refine ⟨b1, ?_, b3.trans a3, ?_, b5⟩
          · rw [b2, a2, a3, a4, hsep, hjoin]
            have e : req.oldptr + (req.oldidx + (separator req ++ (s.oids c).oid_name).length)
                = req.oldptr + req.oldidx + (separator req ++ (s.oids c).oid_name).length := by
              omega
            rw [e, mem_put_append]
            simp only [List.append_assoc, List.singleton_append]
          · rw [b4, a4, hsep, hjoin]
            simp only [List.length_append, List.length_cons, List.length_nil]
            omega
      · simp only [ne_eq, he, not_false_eq_true, if_true, Prod.mk.injEq] at hrun
        exact hrun.1.elim

theorem slist_walk_elim {α : Type} (P : α → Prop) (at_end : α) (visit : Nat → Option α)
    (l : List Nat) (h0 : P at_end) (h1 : ∀ q r, q ∈ l → visit q = some r → P r) :
    P (slist_walk at_end visit l) := by
  induction l with
  | nil => exact h0
  | cons p rest ih =>
    simp only [slist_walk]
    cases hv : visit p with
    | some r => exact h1 p r (List.mem_cons_self _ _) hv
    | none => exact ih (fun q r hq => h1 q r (List.mem_cons_of_mem _ hq))

theorem enoent_ne : ENOENT ≠ 0 := by decide
theorem enotdir_ne : ENOTDIR ≠ 0 := by decide

/-- A successful `sysctl_find_oid` loop consumes at least one element. -/
theorem find_oid_loop_index (s : Tree) (name : List Int) (n : Nat) :
    ∀ (room indx lock : Nat) (l : List Nat) (oid k lock1 : Nat),
      find_oid_loop s name n room indx lock l = (0, some (oid, k), lock1) → indx < k := by
  intro room
  induction room with
  | zero =>
    intro indx lock l oid k lock1 h
    simp [find_oid_loop, ENOENT] at h
  | succ room ih =>
    intro indx lock l oid k lock1
    unfold find_oid_loop
    apply slist_walk_elim (fun r => r = (0, some (oid, k), lock1) → indx < k)
    · intro h; simp [ENOENT] at h
    · intro q r _ hv hr
      subst hr
      by_cases h1 : (s.oids q).oid_number = name.getD indx 0
      · rw [if_pos h1] at hv
        have hv2 := Option.some.inj hv
        by_cases hn : is_node (s.oids q).oid_kind = true
        · rw [if_pos hn] at hv2
          by_cases hh : (s.oids q).oid_handler ≠ 0 ∨ indx + 1 = n
          · rw [if_pos hh] at hv2
            simp only [Prod.mk.injEq, Option.some.injEq] at hv2
            omega
          · rw [if_neg hh] at hv2
            have := ih _ _ _ _ _ _ hv2
            omega
        · rw [if_neg hn] at hv2
          by_cases hl : indx + 1 = n
          · rw [if_pos hl] at hv2
            simp only [Prod.mk.injEq, Option.some.injEq] at hv2
            omega
          · rw [if_neg hl] at hv2
            simp [ENOTDIR] at hv2
      · rw [if_neg h1] at hv
        cases hv

theorem chain_ne_nil {s : Tree} {found : Nat → Nat → Prop} {l : Nat} {nodes : List Nat}
    (h : chain s found l nodes) : nodes ≠ [] := by
  intro e; rw [e] at h; exact h

theorem chain_mono {s : Tree} {found found2 : Nat → Nat → Prop}
    (hm : ∀ l c, found l c → found2 l c) :
    ∀ (nodes : List Nat) (l : Nat), chain s found l nodes → chain s found2 l nodes := by
  intro nodes
  induction nodes with
  | nil => intro l h; exact h
  | cons c rest ih =>
    intro l h
    obtain ⟨h1, h2⟩ := h
    refine ⟨hm l c h1, ?_⟩
    rcases h2 with h2 | ⟨a, b, h2⟩
    · exact Or.inl h2
    · exact Or.inr ⟨a, b, ih _ h2⟩

/-- A resolution that consumes the whole path is a descent through the nodes found
by their ids. -/
theorem resolve_spec_chain (s : Tree) (n : Nat) :
    ∀ (rest : List Int) (indx lock l oid lock1 : Nat),
      n = indx + rest.length →
      resolve_spec s n rest indx lock l = (0, some (oid, n), lock1) →
      ∃ nodes, chain s (by_id s) l nodes
        ∧ nodes.map (fun c => (s.oids c).oid_number) = rest
        ∧ nodes.getLast? = some oid := by
  intro rest
  induction rest with
  | nil =>
    intro indx lock l oid lock1 _ h
    simp [resolve_spec, ENOENT] at h
  | cons x rest ih =>
    intro indx lock l oid lock1 hn h
    unfold resolve_spec at h
    cases hf : (s.lists l).find? (fun c => decide ((s.oids c).oid_number = x)) with
    | none => rw [hf] at h; simp [ENOENT] at h
    | some child =>
      rw [hf] at h
      simp only at h
      have hx : (s.oids child).oid_number = x := by simpa using List.find?_some hf
      have hby : by_id s l child := by
        unfold by_id; rw [hx]; exact hf
      simp only [List.length_cons] at hn
      by_cases h1 : (is_node (s.oids child).oid_kind = true ∧ (s.oids child).oid_handler ≠ 0)
          ∨ indx + 1 = n
      · rw [if_pos h1] at h
        simp only [Prod.mk.injEq, Option.some.injEq] at h
        obtain ⟨_, ⟨ho, hi⟩, _⟩ := h
        have hr : rest = [] := List.eq_nil_of_length_eq_zero (by omega)
        subst hr
        exact ⟨[child], ⟨hby, Or.inl rfl⟩, by simp [hx], by simp [ho]⟩
      · rw [if_neg h1] at h
        by_cases h2 : ¬ is_node (s.oids child).oid_kind = true
        · rw [if_pos h2] at h
          simp [ENOTDIR] at h
        · rw [if_neg h2] at h
          have hnode : is_node (s.oids child).oid_kind = true := by simpa using h2
          have hhand : (s.oids child).oid_handler = 0 := by
            by_contra hc
            exact h1 (Or.inl ⟨hnode, hc⟩)
          obtain ⟨nodes, hc, hm, hlast⟩ := ih (indx + 1) _ _ oid lock1 (by omega) h
          refine ⟨child :: nodes, ⟨hby, Or.inr ⟨hnode, hhand, hc⟩⟩, by simp [hx, hm], ?_⟩
          cases nodes with
          | nil => exact absurd rfl (chain_ne_nil hc)
          | cons a b => simpa using hlast

theorem takeWhile_sep (z : Nat) (n t : List Nat) (hn : z ∉ n) :
    (n ++ z :: t).takeWhile (fun c => decide (c ≠ z)) = n
    ∧ (n ++ z :: t).dropWhile (fun c => decide (c ≠ z)) = z :: t := by
  have hall : ∀ a ∈ n, (fun c => decide (c ≠ z)) a = true := by
    intro a ha
    have : a ≠ z := fun e => hn (e ▸ ha)
    simpa using this
  have hz1 := List.takeWhile_cons_of_neg (p := fun c => decide (c ≠ z)) (a := z) (l := t)
    (by simp)
  have hz2 := List.dropWhile_cons_of_neg (p := fun c => decide (c ≠ z)) (a := z) (l := t)
    (by simp)
  constructor
  · rw [List.takeWhile_append_of_pos hall, hz1, List.append_nil]
  · rw [List.dropWhile_append_of_pos hall, hz2]

theorem takeWhile_all (z : Nat) (n : List Nat) (hn : z ∉ n) :
    n.takeWhile (fun c => decide (c ≠ z)) = n
    ∧ n.dropWhile (fun c => decide (c ≠ z)) = [] := by
  have hall : ∀ a ∈ n, (fun c => decide (c ≠ z)) a = true := by
    intro a ha
    have : a ≠ z := fun e => hn (e ▸ ha)
    simpa using this
  have h1 : (n ++ []).takeWhile (fun c => decide (c ≠ z))
      = n ++ ([] : List Nat).takeWhile (fun c => decide (c ≠ z)) :=
    List.takeWhile_append_of_pos hall
  have h2 : (n ++ []).dropWhile (fun c => decide (c ≠ z))
      = ([] : List Nat).dropWhile (fun c => decide (c ≠ z)) :=
    List.dropWhile_append_of_pos hall
  simp only [List.append_nil, List.takeWhile_nil, List.dropWhile_nil] at h1 h2
  exact ⟨h1, h2⟩

theorem slist_walk_find_not {α : Type} (at_end : α) (P : Nat → Prop) [DecidablePred P]
    (f : Nat → α) (l : List Nat) :
    slist_walk at_end (fun q => if ¬ P q then none else some (f q)) l
      = match l.find? (fun q => decide (P q)) with
        | none => at_end
        | some c => f c := by
  induction l with
  | nil => rfl
  | cons p rest ih =>
    simp only [slist_walk, List.find?_cons]
    by_cases hp : P p
    · simp [hp]
    · simp only [hp, not_false_eq_true, if_true, decide_False]
      exact ih

/-- `name2oid` on the names of a descent, joined by dots, returns its numbers. -/
theorem name2oid_loop_chain (s : Tree) :
    ∀ (nodes : List Nat) (l : Nat) (acc : List Int) (room : Nat),
      chain s (by_name s) l nodes →
      (∀ c ∈ nodes, DOT ∉ (s.oids c).oid_name) →
      nodes.length ≤ room →
      name2oid_loop s room acc (join_dots (nodes.map (fun c => (s.oids c).oid_name))) (s.lists l)
        = (0, acc ++ nodes.map (fun c => (s.oids c).oid_number), nodes.getLast?) := by
  intro nodes
  induction nodes with
  | nil => intro l acc room h; exact absurd h (by simp [chain])
  | cons c rest ih =>
    intro l acc room hc hdot hroom
    cases room with
    | zero => simp at hroom
    | succ room =>
      obtain ⟨hfound, hrest⟩ := hc
      have hcd : DOT ∉ (s.oids c).oid_name := hdot c (List.mem_cons_self _ _)
      unfold name2oid_loop
      rw [slist_walk_find_not]
      rcases hrest with hnil | ⟨hnode, hhand, hchain⟩
      · subst hnil
        simp only [List.map_cons, List.map_nil, join_dots, if_true]
        simp only [(takeWhile_all DOT _ hcd).1, (takeWhile_all DOT _ hcd).2]
        unfold by_name at hfound
        simp only [hfound]
        simp
      · have hrne : rest ≠ [] := chain_ne_nil hchain
        have hmapne : rest.map (fun c => (s.oids c).oid_name) ≠ [] := by simpa using hrne
        simp only [List.map_cons]
        simp only [join_dots_cons _ _ hmapne]
        simp only [(takeWhile_sep DOT _ _ hcd).1, (takeWhile_sep DOT _ _ hcd).2]
        unfold by_name at hfound
        simp only [hfound]
        simp only [hnode, Bool.not_true, Bool.false_eq_true, if_false, hhand, ne_eq,
          not_true_eq_false]
        rw [ih (s.oids c).oid_arg1 _ room hchain
          (fun x hx => hdot x (List.mem_cons_of_mem _ hx))
          (by simp only [List.length_cons] at hroom; omega)]
        have hlast : (c :: rest).getLast? = rest.getLast? := by
          cases rest with
          | nil => exact absurd rfl hrne
          | cons a b => simp
        rw [hlast]
        simp

theorem mem_join_dots (names : List (List Nat)) (x : Nat) (h : x ∈ join_dots names) :
    x = DOT ∨ ∃ n ∈ names, x ∈ n := by
  induction names with
  | nil => simp [join_dots] at h
  | cons n rest ih =>
    by_cases hr : rest = []
    · subst hr
      simp only [join_dots, if_true] at h
      exact Or.inr ⟨n, List.mem_cons_self _ _, h⟩
    · rw [join_dots_cons n rest hr] at h
      rcases List.mem_append.mp h with h | h
      · exact Or.inr ⟨n, List.mem_cons_self _ _, h⟩
      · rcases List.mem_cons.mp h with h | h
        · exact Or.inl h
        · rcases ih h with h | ⟨m, hm, hx⟩
          · exact Or.inl h
          · exact Or.inr ⟨m, List.mem_cons_of_mem _ hm, hx⟩

theorem join_dots_last (names : List (List Nat)) (hne : names ≠ [])
    (h : ∀ n ∈ names, n ≠ [] ∧ DOT ∉ n) :
    ∃ x, (join_dots names).getLast? = some x ∧ x ≠ DOT := by
  induction names with
  | nil => exact absurd rfl hne
  | cons n rest ih =>
    by_cases hr : rest = []
    · subst hr
      simp only [join_dots, if_true]
      obtain ⟨hn, hd⟩ := h n (List.mem_cons_self _ _)
      refine ⟨n.getLast hn, List.getLast?_eq_getLast _ hn, ?_⟩
      intro e
      exact hd (e ▸ List.getLast_mem hn)
    · rw [join_dots_cons n rest hr]
      obtain ⟨x, hx, hxd⟩ := ih hr (fun m hm => h m (List.mem_cons_of_mem _ hm))
      refine ⟨x, ?_, hxd⟩
      rw [List.getLast?_append]
      have hj : join_dots rest ≠ [] := by
        intro e; rw [e] at hx; simp at hx
      cases hjr : join_dots rest with
      | nil => exact absurd hjr hj
      | cons a b =>
        rw [hjr] at hx
        simp only [List.getLast?_cons_cons, hx]
        rfl

theorem c_string_terminated (t : List Nat) (h : 0 ∉ t) : c_string (t ++ [0]) = t := by
  unfold c_string
  exact (takeWhile_sep 0 t [] h).1

theorem size_of_int_nat (n : Nat) (h : n < 2 ^ 32) : size_of_int 32 (n : Int) = n := by
  unfold size_of_int
  have h1 : ((n : Int) % (2 : Int) ^ 32) = n := by
    apply Int.emod_eq_of_lt
    · omega
    · have : ((2 : Int) ^ 32) = ((2 ^ 32 : Nat) : Int) := by norm_num
      rw [this]
      exact_mod_cast h
  rw [h1]
  simp

theorem by_id_mem {s : Tree} {l c : Nat} (h : by_id s l c) : c ∈ s.lists l :=
  List.mem_of_find?_eq_some h

theorem by_name_mem {s : Tree} {l c : Nat} (h : by_name s l c) : c ∈ s.lists l :=
  List.mem_of_find?_eq_some h

theorem chain_mem {s : Tree} {found : Nat → Nat → Prop}
    (hf : ∀ l c, found l c → c ∈ s.lists l) :
    ∀ (nodes : List Nat) (l : Nat), chain s found l nodes → ∀ c ∈ nodes, ∃ l2, c ∈ s.lists l2 := by
  intro nodes
  induction nodes with
  | nil => intro l h; exact absurd h (by simp [chain])
  | cons c rest ih =>
    intro l h x hx
    obtain ⟨h1, h2⟩ := h
    rcases List.mem_cons.mp hx with e | hx
    · exact ⟨l, e ▸ hf l c h1⟩
    · rcases h2 with h2 | ⟨_, _, h2⟩
      · rw [h2] at hx; exact absurd hx (List.not_mem_nil _)
      · exact ih _ h2 x hx

/-- What a successful `sysctl_sysctl_name` leaves in the old buffer for a path all
of whose elements are found: the names joined by dots, and a NUL. -/
theorem sysctl_name_chain (w : Nat) (env : kenv) (ks ks1 : kstate) (oidp : Nat)
    (req req1 : sysctl_req) (nodes : List Nat)
    (hnull : ks.tree.lists 0 = [])
    (hc : chain ks.tree (by_id ks.tree) sysctl__children nodes)
    (hlen : nodes.length ≤ CTL_MAXNAME)
    (hfirst : ∀ c, nodes.head? = some c → (ks.tree.oids c).oid_name ≠ [])
    (hptr : req.oldptr ≠ 0) (hidx : req.oldidx = 0)
    (hol : req.oldlen < 2 ^ w)
    (hrun : sysctl_sysctl_name w env ks oidp
      (handler_arg.path (nodes.map (fun c => (ks.tree.oids c).oid_number)))
      (nodes.length : Int) req = some (0, ks1, req1)) :
    mem_read ks1.mem req.oldptr req1.oldidx
      = join_dots (nodes.map (fun c => (ks.tree.oids c).oid_name)) ++ [0] := by
  have hg : writes_inside w req := ⟨hptr, hol, by omega⟩
  unfold sysctl_sysctl_name at hrun
  have hsz : size_of_int 32 (nodes.length : Int) = nodes.length :=
    size_of_int_nat _ (by unfold CTL_MAXNAME at hlen; omega)
  simp only [hsz, handler_arg.ints] at hrun
  cases hr : sysctl_name_loop w env nodes.length
      (nodes.map (fun c => (ks.tree.oids c).oid_number)) sysctl__children ks req with
  | mk e kq =>
    obtain ⟨k, q⟩ := kq
    rw [hr] at hrun
    by_cases he : e = 0
    · subst he
      rw [if_neg (show ¬ ((0 : Int), k, q).1 ≠ 0 from by simp)] at hrun
      have hout := Option.some.inj hrun
      obtain ⟨a1, a2, a3, a4, a5⟩ := name_loop_chain w env ks.tree hnull nodes sysctl__children
        ks k req q rfl hc hg (Or.inr hfirst) hr
      obtain ⟨b1, b2, b3, b4, b5⟩ := out_ok_fields w env k ks1 q req1 [0] a5 hout
      have hsep : separator req = [] := by simp [separator, hidx]
      rw [hsep, List.nil_append, hidx, Nat.add_zero] at a2
      rw [hsep, List.nil_append, hidx, Nat.zero_add] at a4
      rw [b2, a2, a3, a4, mem_put_append, b4, a4]
      have := mem_read_put ks.mem req.oldptr
        (join_dots (nodes.map (fun c => (ks.tree.oids c).oid_name)) ++ [0])
      simpa using this
    · rw [if_pos (show (e, k, q).1 ≠ 0 from he)] at hrun
      simp only [Option.some.injEq, Prod.mk.injEq] at hrun
      exact absurd hrun.1 he

theorem by_id_to_by_name {s : Tree} (hinv : sibling_inv s) (l c : Nat) (h : by_id s l c) :
    by_name s l c :=
  find_unique s (s.lists l) c (hinv.1 l) (by_id_mem h)

/-- C9: in a tree that satisfies the sibling invariants (with no child list at the
`NULL` address) and whose node names are non-empty C strings without `.`, for a
numeric path of length at most `CTL_MAXNAME`
that `sysctl_find_oid` resolves consuming the whole path: when `sysctl_sysctl_name`
writes the name of the path into an old buffer (cursor at `0`, through either
transfer function) and succeeds, `name2oid` applied to the C string found in the
buffer returns exactly that path, and the node the path resolves to. -/
theorem C9_name_then_name2oid (w : Nat) (env : kenv) (ks ks1 : kstate) (oidp : Nat)
    (req req1 : sysctl_req) (path : List Int) (oid lock lock1 : Nat)
    (hinv : sibling_inv ks.tree)
    (hnull : ks.tree.lists 0 = [])
    (hnames : ∀ l, ∀ q ∈ ks.tree.lists l,
      (ks.tree.oids q).oid_name ≠ [] ∧ DOT ∉ (ks.tree.oids q).oid_name
        ∧ 0 ∉ (ks.tree.oids q).oid_name)
    (hlen : path.length ≤ CTL_MAXNAME)
    (hfind : sysctl_find_oid ks.tree path path.length lock = (0, some (oid, path.length), lock1))
    (hptr : req.oldptr ≠ 0) (hidx : req.oldidx = 0)
    (hol : req.oldlen < 2 ^ w)
    (hrun : sysctl_sysctl_name w env ks oidp (handler_arg.path path) (path.length : Int) req
      = some (0, ks1, req1)) :
    name2oid ks.tree (c_string (mem_read ks1.mem req.oldptr req1.oldidx))
      = (0, path, some oid) := by
  have hpos : 0 < path.length :=
    find_oid_loop_index ks.tree path path.length CTL_MAXNAME 0 lock _ oid path.length lock1 hfind
  have hne : path ≠ [] := by
    intro e; rw [e] at hpos; simp at hpos
  unfold sysctl_find_oid at hfind
  rw [find_oid_loop_spec ks.tree path path CTL_MAXNAME 0 lock sysctl__children rfl hne hlen]
    at hfind
  obtain ⟨nodes, hc, hm, hlast⟩ := resolve_spec_chain ks.tree path.length path 0 lock
    sysctl__children oid lock1 (by simp) hfind
  subst hm
  simp only [List.length_map] at hrun hlen
  have hmem := chain_mem (s := ks.tree) (fun l c h => by_id_mem h) nodes sysctl__children hc
  have hfirst : ∀ c, nodes.head? = some c → (ks.tree.oids c).oid_name ≠ [] := by
    intro c hcn
    obtain ⟨l2, hl2⟩ := hmem c (List.mem_of_mem_head? hcn)
    exact (hnames l2 c hl2).1
  rw [sysctl_name_chain w env ks ks1 oidp req req1 nodes hnull hc hlen hfirst hptr hidx hol
    hrun]
  have hzero : 0 ∉ join_dots (nodes.map (fun c => (ks.tree.oids c).oid_name)) := by
    intro h0
    rcases mem_join_dots _ 0 h0 with h0 | ⟨n, hn, h0⟩
    · exact absurd h0 (by decide)
    · obtain ⟨c, hcn, rfl⟩ := List.mem_map.mp hn
      obtain ⟨l2, hl2⟩ := hmem c hcn
      exact (hnames l2 c hl2).2.2 h0
  rw [c_string_terminated _ hzero]
  have hnn : nodes ≠ [] := chain_ne_nil hc
  obtain ⟨x, hx, hxd⟩ := join_dots_last (nodes.map (fun c => (ks.tree.oids c).oid_name))
    (by simpa using hnn)
    (by
      intro n hn
      obtain ⟨c, hcn, rfl⟩ := List.mem_map.mp hn
      obtain ⟨l2, hl2⟩ := hmem c hcn
      exact ⟨(hnames l2 c hl2).1, (hnames l2 c hl2).2.1⟩)
  unfold name2oid
  have hj : join_dots (nodes.map (fun c => (ks.tree.oids c).oid_name)) ≠ [] := by
    intro e; rw [e] at hx; simp at hx
  rw [if_neg hj]
  have hnd : ¬ ((join_dots (nodes.map (fun c => (ks.tree.oids c).oid_name))).getLast? = some DOT) := by
    rw [hx]; intro e; exact hxd (Option.some.inj e)
  simp only [hnd, if_false]
  rw [name2oid_loop_chain ks.tree nodes sysctl__children [] CTL_MAXNAME
    (chain_mono (by_id_to_by_name hinv) nodes _ hc)
    (by
      intro c hcn
      obtain ⟨l2, hl2⟩ := hmem c hcn
      exact (hnames l2 c hl2).2.1)
    hlen]
  simp [hlast]

theorem tree_kern_lists (l : Nat) (P : List Nat → Prop) (h1 : P [50]) (h3 : P [51])
    (h0 : P []) : P (tree_kern.lists l) := by
  by_cases e1 : l = 1
  · subst e1; exact h1
  · by_cases e3 : l = 3
    · subst e3; exact h3
    · have : tree_kern.lists l = [] := by simp [tree_kern, sysctl__children, e1, e3]
      rw [this]; exact h0

theorem tree_kern_inv : sibling_inv tree_kern :=
  ⟨fun l => tree_kern_lists l (names_distinct tree_kern) (by decide) (by decide) (by decide),
   fun l => tree_kern_lists l (ids_increasing tree_kern) (by decide) (by decide) (by decide)⟩

theorem tree_kern_names : ∀ l, ∀ q ∈ tree_kern.lists l,
    (tree_kern.oids q).oid_name ≠ [] ∧ DOT ∉ (tree_kern.oids q).oid_name
      ∧ 0 ∉ (tree_kern.oids q).oid_name :=
  fun l => tree_kern_lists l
    (fun ls => ∀ q ∈ ls, (tree_kern.oids q).oid_name ≠ [] ∧ DOT ∉ (tree_kern.oids q).oid_name
      ∧ 0 ∉ (tree_kern.oids q).oid_name)
    (by decide) (by decide) (by decide)

/-- C9, witness: the path `[1, 10]` of the example tree is rendered as
`kern.hostname` into a 64-byte buffer and read back. -/
theorem C9_name_then_name2oid_witness :
    ∃ ks1 req1,
      sysctl_sysctl_name 32 env_ok ks_kern 0 (handler_arg.path [1, 10]) 2
        (kernel_req 0 3000 (some 64) 0 0) = some (0, ks1, req1)
      ∧ req1.oldidx = 14
      ∧ name2oid ks_kern.tree (c_string (mem_read ks1.mem 3000 req1.oldidx))
        = (0, [1, 10], some 51) := by
  have hsome : (sysctl_sysctl_name 32 env_ok ks_kern 0 (handler_arg.path [1, 10]) 2
      (kernel_req 0 3000 (some 64) 0 0)).map (fun r => (r.1, r.2.2.oldidx)) = some (0, 14) := by
    decide
  cases h : sysctl_sysctl_name 32 env_ok ks_kern 0 (handler_arg.path [1, 10]) 2
      (kernel_req 0 3000 (some 64) 0 0) with
  | none => rw [h] at hsome; simp at hsome
  | some r =>
    obtain ⟨e, ks1, req1⟩ := r
    rw [h] at hsome
    simp only [Option.map_some', Option.some.injEq, Prod.mk.injEq] at hsome
    obtain ⟨he, hi⟩ := hsome
    subst he
    exact ⟨ks1, req1, rfl, hi,
      C9_name_then_name2oid 32 env_ok ks_kern ks1 0 (kernel_req 0 3000 (some 64) 0 0) req1
        [1, 10] 51 1 1 tree_kern_inv (by decide) tree_kern_names (by decide) (by decide)
        (by decide) rfl (by decide) h⟩

theorem find_unique_id (s : Tree) (l : List Nat) (e : Nat) (hd : ids_increasing s l)
    (he : e ∈ l) :
    l.find? (fun q => decide ((s.oids q).oid_number = (s.oids e).oid_number)) = some e := by
  unfold ids_increasing at hd
  induction l with
  | nil => exact absurd he (List.not_mem_nil _)
  | cons p rest ih =>
    rw [List.pairwise_cons] at hd
    by_cases hpe : p = e
    · subst hpe
      simp
    · have hmem : e ∈ rest := by
        rcases List.mem_cons.mp he with h | h
        · exact absurd h.symm hpe
        · exact h
      have hlt := hd.1 e hmem
      rw [List.find?_cons_of_neg _ (by simp only [decide_eq_true_eq]; omega)]
      exact ih hd.2 hmem

theorem by_name_to_by_id {s : Tree} (hinv : sibling_inv s) (l c : Nat) (h : by_name s l c) :
    by_id s l c :=
  find_unique_id s (s.lists l) c (hinv.2 l) (by_name_mem h)

theorem dropWhile_head_dot (name rest : List Nat) (h : Nat)
    (hd : name.dropWhile (fun c => decide (c ≠ DOT)) = h :: rest) : h = DOT := by
  induction name with
  | nil => simp at hd
  | cons a t ih =>
    by_cases ha : a = DOT
    · subst ha
      have hz := List.dropWhile_cons_of_neg (p := fun c => decide (c ≠ DOT)) (a := DOT) (l := t)
        (by simp)
      rw [hz] at hd
      exact (List.cons.inj hd).1.symm
    · have hz := List.dropWhile_cons_of_pos (p := fun c => decide (c ≠ DOT)) (a := a) (l := t)
        (by simpa using ha)
      rw [hz] at hd
      exact ih hd

/-- A successful `name2oid` loop is a descent through the nodes found by the
components of the string. -/
theorem name2oid_loop_inv (s : Tree) :
    ∀ (room : Nat) (acc : List Int) (name : List Nat) (l : Nat) (path : List Int)
      (o : Option Nat),
      name2oid_loop s room acc name (s.lists l) = (0, path, o) →
      ∃ nodes, chain s (by_name s) l nodes
        ∧ join_dots (nodes.map (fun c => (s.oids c).oid_name)) = name
        ∧ path = acc ++ nodes.map (fun c => (s.oids c).oid_number)
        ∧ nodes.length ≤ room
        ∧ o = nodes.getLast? := by
  intro room
  induction room with
  | zero =>
    intro acc name l path o h
    simp [name2oid_loop, ENOENT] at h
  | succ room ih =>
    intro acc name l path o h
    unfold name2oid_loop at h
    rw [slist_walk_find_not] at h
    cases hf : (s.lists l).find?
        (fun q => decide ((s.oids q).oid_name = name.takeWhile (fun c => decide (c ≠ DOT)))) with
    | none => simp only [hf] at h; simp [ENOENT] at h
    | some c =>
      simp only [hf] at h
      have hname : (s.oids c).oid_name = name.takeWhile (fun c => decide (c ≠ DOT)) := by
        simpa using List.find?_some hf
      have hby : by_name s l c := by
        unfold by_name; rw [hname]; exact hf
      have hsplit := List.takeWhile_append_dropWhile (fun c => decide (c ≠ DOT)) name
      cases hdrop : name.dropWhile (fun c => decide (c ≠ DOT)) with
      | nil =>
        simp only [hdrop, Prod.mk.injEq, true_and] at h
        rw [hdrop, List.append_nil] at hsplit
        refine ⟨[c], ⟨hby, Or.inl rfl⟩, ?_, ?_, by simp, ?_⟩
        · simp only [List.map_cons, List.map_nil, join_dots, if_true]
          rw [hname, hsplit]
        · simp [h.1]
        · simp [h.2]
      | cons hd rest =>
        have hdot := dropWhile_head_dot name rest hd hdrop
        subst hdot
        simp only [hdrop] at h
        by_cases hn : (!is_node (s.oids c).oid_kind) = true
        · rw [if_pos hn] at h; simp [ENOENT] at h
        · rw [if_neg hn] at h
          by_cases hh : (s.oids c).oid_handler ≠ 0
          · rw [if_pos hh] at h; simp [ENOENT] at h
          · rw [if_neg hh] at h
            obtain ⟨nodes, hc, hj, hp, hl, ho⟩ := ih _ _ _ _ _ h
            have hnn := chain_ne_nil hc
            refine ⟨c :: nodes,
              ⟨hby, Or.inr ⟨by simpa using hn, by simpa using hh, hc⟩⟩, ?_, ?_, ?_, ?_⟩
            · simp only [List.map_cons]
              rw [join_dots_cons _ _ (by simpa using hnn), hj, hname]
              rw [hdrop] at hsplit
              exact hsplit
            · rw [hp]; simp
            · simp only [List.length_cons]; omega
            · rw [ho]
              cases nodes with
              | nil => exact absurd rfl hnn
              | cons a b => simp

theorem dropLast_append_dot (d : List Nat) : (d ++ [DOT]).dropLast = d := by
  simp

/-- C10 (as amended): in a tree that satisfies the sibling invariants (with no child
list at the `NULL` address), for a dotted string `d` that neither starts nor ends with `.` and on which `name2oid` succeeds,
`sysctl_sysctl_name` applied to the returned path (cursor at `0`, a present buffer,
either transfer function, successful) writes `d` followed by a single NUL; and one trailing `.` is ignored: for
every non-empty `d` that does not end in `.`, `name2oid` returns on `d` followed by
`.` what it returns on `d`. -/
theorem C10_name2oid_then_name (w : Nat) (env : kenv) (ks ks1 : kstate) (oidp : Nat)
    (req req1 : sysctl_req) (d : List Nat) (path : List Int) (oid : Option Nat)
    (hinv : sibling_inv ks.tree)
    (hnull : ks.tree.lists 0 = [])
    (hhead : d.head? ≠ some DOT)
    (hlast : d.getLast? ≠ some DOT)
    (h2oid : name2oid ks.tree d = (0, path, oid))
    (hptr : req.oldptr ≠ 0) (hidx : req.oldidx = 0)
    (hol : req.oldlen < 2 ^ w)
    (hrun : sysctl_sysctl_name w env ks oidp (handler_arg.path path) (path.length : Int) req
      = some (0, ks1, req1)) :
    mem_read ks1.mem req.oldptr req1.oldidx = d ++ [0]
    ∧ ∀ (s : Tree) (e : List Nat), e ≠ [] → e.getLast? ≠ some DOT →
        name2oid s (e ++ [DOT]) = name2oid s e := by
  constructor
  · unfold name2oid at h2oid
    by_cases hd : d = []
    · rw [if_pos hd] at h2oid
      simp [ENOENT] at h2oid
    · rw [if_neg hd] at h2oid
      simp only [hlast, if_false] at h2oid
      obtain ⟨nodes, hc, hj, hp, hl, _⟩ := name2oid_loop_inv ks.tree CTL_MAXNAME [] d
        sysctl__children path oid h2oid
      simp only [List.nil_append] at hp
      subst hp
      simp only [List.length_map] at hrun
      have hfirst : ∀ c, nodes.head? = some c → (ks.tree.oids c).oid_name ≠ [] := by
        intro c hcn hempty
        cases nodes with
        | nil => simp at hcn
        | cons a rest =>
          simp only [List.head?_cons, Option.some.injEq] at hcn
          subst hcn
          by_cases hr : rest = []
          · subst hr
            simp only [List.map_cons, List.map_nil, join_dots, if_true] at hj
            exact hd (hj ▸ hempty)
          · rw [List.map_cons, join_dots_cons _ _ (by simpa using hr), hempty,
              List.nil_append] at hj
            rw [← hj] at hhead
            simp at hhead
      rw [sysctl_name_chain w env ks ks1 oidp req req1 nodes hnull
        (chain_mono (by_name_to_by_id hinv) nodes _ hc) hl hfirst hptr hidx hol hrun, hj]
  · intro s e he hel
    unfold name2oid
    have h1 : e ++ [DOT] ≠ [] := by simp
    have h2 : (e ++ [DOT]).getLast? = some DOT := by simp
    rw [if_neg h1, if_neg he]
    simp only [h2, if_true, hel, if_false, dropLast_append_dot]

/-- C10, witness: `kern.hostname` in the example tree, and the same name followed by
a dot. -/
theorem C10_name2oid_then_name_witness :
    name2oid ks_kern.tree dotted_hostname = (0, [1, 10], some 51)
    ∧ name2oid ks_kern.tree (dotted_hostname ++ [DOT]) = name2oid ks_kern.tree dotted_hostname
    ∧ ∃ ks1 req1,
      sysctl_sysctl_name 32 env_ok ks_kern 0 (handler_arg.path [1, 10]) 2
        (kernel_req 0 3000 (some 64) 0 0) = some (0, ks1, req1)
      ∧ mem_read ks1.mem 3000 req1.oldidx = dotted_hostname ++ [0] := by
  have hsome : (sysctl_sysctl_name 32 env_ok ks_kern 0 (handler_arg.path [1, 10]) 2
      (kernel_req 0 3000 (some 64) 0 0)).map (fun r => r.1) = some 0 := by
    decide
  cases h : sysctl_sysctl_name 32 env_ok ks_kern 0 (handler_arg.path [1, 10]) 2
      (kernel_req 0 3000 (some 64) 0 0) with
  | none => rw [h] at hsome; simp at hsome
  | some r =>
    obtain ⟨e, ks1, req1⟩ := r
    rw [h] at hsome
    simp only [Option.map_some', Option.some.injEq] at hsome
    subst hsome
    have key := C10_name2oid_then_name 32 env_ok ks_kern ks1 0 (kernel_req 0 3000 (some 64) 0 0)
      req1 dotted_hostname [1, 10] (some 51) tree_kern_inv (by decide) (by decide) (by decide)
      (by decide) (by decide) rfl (by decide) h
    exact ⟨by decide, key.2 ks_kern.tree dotted_hostname (by decide) (by decide),
      ks1, req1, rfl, key.1⟩

theorem tree_anon_inv : sibling_inv tree_anon := by
  constructor <;> intro l <;> by_cases e1 : l = 1
  · subst e1; decide
  · by_cases e4 : l = 4
    · subst e4; decide
    · have : tree_anon.lists l = [] := by simp [tree_anon, sysctl__children, e1, e4]
      rw [this]; exact List.Pairwise.nil
  · subst e1; decide
  · by_cases e4 : l = 4
    · subst e4; decide
    · have : tree_anon.lists l = [] := by simp [tree_anon, sysctl__children, e1, e4]
      rw [this]; exact List.Pairwise.nil

/-- C10, counterexample: both trees satisfy the sibling invariants.  In the first,
`name2oid` succeeds on `kern.hostname.` with the leaf `hostname` as target, and
`sysctl_sysctl_name` writes for the returned path `[1, 10]` the string
`kern.hostname` and a NUL, which is not the given string followed by a NUL.  In the
second the root node has the empty name: `name2oid` succeeds on `.b` with the leaf `b`
as target, and `sysctl_sysctl_name` writes for the returned path `[1, 2]` only `b`
and a NUL, because the cursor is still `0` when the second component is written. -/
theorem C10_counterexample :
    (sibling_inv ks_kern.tree
      ∧ name2oid ks_kern.tree (dotted_hostname ++ [DOT]) = (0, [1, 10], some 51)
      ∧ (sysctl_sysctl_name 32 env_ok ks_kern 0 (handler_arg.path [1, 10]) 2
          (kernel_req 0 3000 (some 64) 0 0)).map
            (fun r => (r.1, mem_read r.2.1.mem 3000 r.2.2.oldidx))
          = some (0, dotted_hostname ++ [0])
      ∧ dotted_hostname ++ [0] ≠ (dotted_hostname ++ [DOT]) ++ [0])
    ∧ (sibling_inv ks_anon.tree
      ∧ name2oid ks_anon.tree [DOT, 98] = (0, [1, 2], some 61)
      ∧ is_node (ks_anon.tree.oids 61).oid_kind = false
      ∧ (sysctl_sysctl_name 32 env_ok ks_anon 0 (handler_arg.path [1, 2]) 2
          (kernel_req 0 3000 (some 64) 0 0)).map
            (fun r => (r.1, mem_read r.2.1.mem 3000 r.2.2.oldidx))
          = some (0, [98, 0])
      ∧ [98, 0] ≠ [DOT, 98] ++ [0]) :=
  ⟨⟨tree_kern_inv, by decide, by decide, by decide⟩,
    ⟨tree_anon_inv, by decide, by decide, by decide, by decide⟩⟩

/-! ## The dispatcher: refused writes -/

/-- C12: for a request that carries new input and resolves to a leaf or to an
interior node with a handler, when the node lacks `CTLFLAG_WR`, or carries
`CTLFLAG_SECURE` while `securelevel > 0`, `sysctl_root` returns `EPERM` whatever the
handler table and whatever the privilege check would answer: the kernel state (so
every datum) is unchanged and the request is unchanged but for the lock flag the
resolver sets, so both cursors stay where they were. -/
theorem C12_root_refuses_write (env : kenv) (hs : Nat → handler_fn) (ks : kstate)
    (name : List Int) (namelen : Nat) (req : sysctl_req) (oid indx lock1 : Nat)
    (hnew : req.newptr ≠ 0)
    (hfind : sysctl_find_oid ks.tree name namelen req.lock = (0, some (oid, indx), lock1))
    (htarget : ¬ (is_node (ks.tree.oids oid).oid_kind = true
      ∧ (ks.tree.oids oid).oid_handler = 0))
    (hperm : (ks.tree.oids oid).oid_kind &&& CTLFLAG_WR = 0
      ∨ ((ks.tree.oids oid).oid_kind &&& CTLFLAG_SECURE ≠ 0 ∧ ks.securelevel > 0)) :
    sysctl_root env hs ks name namelen req = some (EPERM, ks, { req with lock := lock1 })
    ∧ ({ req with lock := lock1 } : sysctl_req).oldidx = req.oldidx
    ∧ ({ req with lock := lock1 } : sysctl_req).newidx = req.newidx := by
  refine ⟨?_, rfl, rfl⟩
  unfold sysctl_root
  simp only [hfind, ne_eq, not_true_eq_false, if_false]
  rw [if_neg htarget]
  rw [if_pos ⟨hnew, hperm⟩]

/-- C12, witness: a write to leaf `10` of the example tree, which carries no
`CTLFLAG_WR`, with a table of handlers that never return and a privilege check that
always fails. -/
theorem C12_root_refuses_write_witness :
    sysctl_root { env_ok with suser_xxx := fun _ _ => EPERM } (fun _ _ _ _ _ _ => none) ks57 [5]
        1 (kernel_req 0 0 none 5000 4)
      = some (EPERM, ks57, { kernel_req 0 0 none 5000 4 with lock := 1 }) :=
  (C12_root_refuses_write { env_ok with suser_xxx := fun _ _ => EPERM }
    (fun _ _ _ _ _ _ => none) ks57 [5] 1 (kernel_req 0 0 none 5000 4) 10 1 1
    (by decide) (by decide) (by decide) (by decide)).1

/-! ## Adding under a name that is taken -/

/-- C13: when the child list of a non-null parent already holds a child with the
requested name, `sysctl_add_oid` leaves every child list as it was and writes no new
node; with `c` the child the name lookup finds: if `c` is interior, `c` is returned,
only its record changes and only by `oid_refcnt + 1`, and a supplied context gets
exactly one new entry, `c`, at its head; if `c` is a leaf, `NULL` is returned and the
tree and the context are unchanged. -/
theorem C13_add_oid_existing_name (s : Tree) (clist : Option (List Nat)) (parent : Nat)
    (number : Int) (name : List Nat) (kind : Nat) (arg1 : Nat) (arg2 : Int) (handler : Nat)
    (fmt : Option (List Nat)) (newoid newlist : Nat)
    (hp : parent ≠ 0) (h0 : (0 : Nat) ∉ s.lists parent)
    (hc : ∃ q ∈ s.lists parent, (s.oids q).oid_name = name) :
    ∃ c, sysctl_find_oidname s name parent = some c
      ∧ c ∈ s.lists parent ∧ (s.oids c).oid_name = name
      ∧ (sysctl_add_oid s clist parent number name kind arg1 arg2 handler fmt newoid
          newlist).2.1.lists = s.lists
      ∧ (is_node (s.oids c).oid_kind = true →
          (sysctl_add_oid s clist parent number name kind arg1 arg2 handler fmt newoid
            newlist).1 = c
          ∧ (sysctl_add_oid s clist parent number name kind arg1 arg2 handler fmt newoid
              newlist).2.1.oids c = { s.oids c with oid_refcnt := (s.oids c).oid_refcnt + 1 }
          ∧ (∀ q, q ≠ c →
              (sysctl_add_oid s clist parent number name kind arg1 arg2 handler fmt newoid
                newlist).2.1.oids q = s.oids q)
          ∧ (sysctl_add_oid s clist parent number name kind arg1 arg2 handler fmt newoid
              newlist).2.2 = clist.map (fun l => c :: l))
      ∧ (is_node (s.oids c).oid_kind = false →
          sysctl_add_oid s clist parent number name kind arg1 arg2 handler fmt newoid newlist
            = (0, s, clist)) := by
  obtain ⟨c, hf⟩ := find_oidname_of_present hc
  have hmem := find_oidname_some hf
  have hc0 : c ≠ 0 := fun e => h0 (e ▸ hmem.1)
  refine ⟨c, hf, hmem.1, hmem.2, ?_, ?_, ?_⟩
  · exact (add_oid_present_lists s clist parent number name kind arg1 arg2 handler fmt newoid
      newlist c (Or.inr hf)).1
  · intro hn
    unfold sysctl_add_oid
    simp only [hp, if_false, hf, hn, if_true]
    refine ⟨trivial, ?_, ?_, ?_⟩
    · simp [set_refcnt]
    · intro q hq
      simp [set_refcnt, hq]
    · cases clist with
      | none => rfl
      | some l => simp [sysctl_ctx_entry_add, hc0]
  · intro hn
    unfold sysctl_add_oid
    simp only [hp, if_false, hf, hn]
    rfl

/-- C13, witness: adding `kern` again under the root of the example tree, where `kern`
is an interior node. -/
theorem C13_add_oid_existing_name_witness :
    ∃ c, sysctl_find_oidname tree_kern name_kern 1 = some c
      ∧ c ∈ tree_kern.lists 1 ∧ (tree_kern.oids c).oid_name = name_kern
      ∧ (sysctl_add_oid tree_kern (some [51]) 1 OID_AUTO name_kern CTLTYPE_NODE 0 0 0 none 60
          61).2.1.lists = tree_kern.lists
      ∧ (is_node (tree_kern.oids c).oid_kind = true →
          (sysctl_add_oid tree_kern (some [51]) 1 OID_AUTO name_kern CTLTYPE_NODE 0 0 0 none 60
            61).1 = c
          ∧ (sysctl_add_oid tree_kern (some [51]) 1 OID_AUTO name_kern CTLTYPE_NODE 0 0 0 none
              60 61).2.1.oids c
              = { tree_kern.oids c with oid_refcnt := (tree_kern.oids c).oid_refcnt + 1 }
          ∧ (∀ q, q ≠ c →
              (sysctl_add_oid tree_kern (some [51]) 1 OID_AUTO name_kern CTLTYPE_NODE 0 0 0 none
                60 61).2.1.oids q = tree_kern.oids q)
          ∧ (sysctl_add_oid tree_kern (some [51]) 1 OID_AUTO name_kern CTLTYPE_NODE 0 0 0 none
              60 61).2.2 = (some [51]).map (fun l => c :: l))
      ∧ (is_node (tree_kern.oids c).oid_kind = false →
          sysctl_add_oid tree_kern (some [51]) 1 OID_AUTO name_kern CTLTYPE_NODE 0 0 0 none 60 61
            = (0, tree_kern, some [51])) :=
  C13_add_oid_existing_name tree_kern (some [51]) 1 OID_AUTO name_kern CTLTYPE_NODE 0 0 0 none
    60 61 (by decide) (by decide) ⟨50, by decide, by decide⟩

/-! ## The in-process input transfer -/

theorem mem_read_length (mem : Nat → Nat) (addr n : Nat) : (mem_read mem addr n).length = n := by
  simp [mem_read]

theorem mem_write_eq_put (mem : Nat → Nat) (src : List Nat) (dst : Nat) :
    mem_write mem src dst src.length = mem_put mem dst src := rfl

theorem mem_write_read (mem mem0 : Nat → Nat) (addr dst n : Nat) :
    mem_read (mem_write mem (mem_read mem0 addr n) dst n) dst n = mem_read mem0 addr n := by
  have h := mem_read_put mem dst (mem_read mem0 addr n)
  rw [mem_read_length] at h
  have e : mem_write mem (mem_read mem0 addr n) dst n = mem_put mem dst (mem_read mem0 addr n) := by
    have := mem_write_eq_put mem (mem_read mem0 addr n) dst
    rwa [mem_read_length] at this
  rw [e]
  exact h

theorem size_add_of_lt (w a b : Nat) (h : a + b < 2 ^ w) : size_add w a b = a + b :=
  Nat.mod_eq_of_lt h

/-- C19: for a request with new input, `sysctl_new_kernel` answers `EINVAL` exactly
when `l` exceeds `newlen - newidx` (in `size_t` arithmetic), and then changes neither
the kernel state nor the request; otherwise it answers `0`, the destination holds the
`l` bytes that stood at `newptr + newidx`, no byte outside the destination changes,
and only `newidx` changes, to `newidx + l` in `size_t` arithmetic.  When
`newidx ≤ newlen` the difference and the sum are exact and `newidx + l ≤ newlen`
after a success, so that a second call reads the slice that starts where the first
one ended. -/
theorem C19_new_kernel (w : Nat) (ks : kstate) (req : sysctl_req) (p l : Nat)
    (hnew : req.newptr ≠ 0) :
    ((sysctl_new_kernel w ks req p l).1 = EINVAL ↔ size_sub w req.newlen req.newidx < l)
    ∧ (size_sub w req.newlen req.newidx < l → sysctl_new_kernel w ks req p l = (EINVAL, ks, req))
    ∧ (¬ size_sub w req.newlen req.newidx < l →
        (sysctl_new_kernel w ks req p l).1 = 0
        ∧ mem_read (sysctl_new_kernel w ks req p l).2.1.mem p l
            = mem_read ks.mem (req.newptr + req.newidx) l
        ∧ (∀ a, ¬ (p ≤ a ∧ a < p + l) → (sysctl_new_kernel w ks req p l).2.1.mem a = ks.mem a)
        ∧ (sysctl_new_kernel w ks req p l).2.1.tree = ks.tree
        ∧ (sysctl_new_kernel w ks req p l).2.2 = { req with newidx := size_add w req.newidx l })
    ∧ (req.newidx ≤ req.newlen → req.newlen < 2 ^ w →
        size_sub w req.newlen req.newidx = req.newlen - req.newidx
        ∧ (l ≤ req.newlen - req.newidx →
            (sysctl_new_kernel w ks req p l).2.2.newidx = req.newidx + l
            ∧ (sysctl_new_kernel w ks req p l).2.2.newidx
                ≤ (sysctl_new_kernel w ks req p l).2.2.newlen
            ∧ ∀ p2 l2, l2 ≤ req.newlen - (req.newidx + l) →
                (sysctl_new_kernel w (sysctl_new_kernel w ks req p l).2.1
                    (sysctl_new_kernel w ks req p l).2.2 p2 l2).1 = 0
                ∧ mem_read (sysctl_new_kernel w (sysctl_new_kernel w ks req p l).2.1
                    (sysctl_new_kernel w ks req p l).2.2 p2 l2).2.1.mem p2 l2
                  = mem_read (sysctl_new_kernel w ks req p l).2.1.mem
                      (req.newptr + (req.newidx + l)) l2
                ∧ (sysctl_new_kernel w (sysctl_new_kernel w ks req p l).2.1
                    (sysctl_new_kernel w ks req p l).2.2 p2 l2).2.2.newidx
                  = req.newidx + l + l2)) := by
  have hbig : ∀ (k : kstate) (r : sysctl_req) (q n : Nat), r.newptr ≠ 0 →
      ¬ size_sub w r.newlen r.newidx < n →
      sysctl_new_kernel w k r q n
        = (0, { k with mem := mem_write k.mem (mem_read k.mem (r.newptr + r.newidx) n) q n },
            { r with newidx := size_add w r.newidx n }) := by
    intro k r q n h1 h2
    unfold sysctl_new_kernel
    rw [if_neg h1, if_neg h2]
  have hsmall : size_sub w req.newlen req.newidx < l →
      sysctl_new_kernel w ks req p l = (EINVAL, ks, req) := by
    intro h
    unfold sysctl_new_kernel
    rw [if_neg hnew, if_pos h]
  refine ⟨?_, hsmall, ?_, ?_⟩
  · constructor
    · intro h
      by_contra hc
      rw [hbig ks req p l hnew hc] at h
      exact einval_ne (h.symm)
    · intro h
      rw [hsmall h]
  · intro h
    rw [hbig ks req p l hnew h]
    refine ⟨rfl, mem_write_read _ _ _ _ _, ?_, rfl, rfl⟩
    intro a ha
    show mem_write ks.mem _ p l a = ks.mem a
    unfold mem_write
    rw [if_neg ha]
  · intro hle hlt
    have hsub := size_sub_of_le w req.newlen req.newidx hle hlt
    refine ⟨hsub, ?_⟩
    intro hl
    have hnot : ¬ size_sub w req.newlen req.newidx < l := by rw [hsub]; omega
    have hadd : size_add w req.newidx l = req.newidx + l := size_add_of_lt w _ _ (by omega)
    rw [hbig ks req p l hnew hnot]
    refine ⟨hadd, ?_, ?_⟩
    · show size_add w req.newidx l ≤ req.newlen
      rw [hadd]; omega
    · intro p2 l2 hl2
      have hsub2 : size_sub w req.newlen (size_add w req.newidx l)
          = req.newlen - (req.newidx + l) := by
        rw [hadd]; exact size_sub_of_le w _ _ (by omega) hlt
      have hnot2 : ¬ size_sub w
          ({ req with newidx := size_add w req.newidx l } : sysctl_req).newlen
          ({ req with newidx := size_add w req.newidx l } : sysctl_req).newidx < l2 := by
        show ¬ size_sub w req.newlen (size_add w req.newidx l) < l2
        rw [hsub2]; omega
      rw [hbig _ { req with newidx := size_add w req.newidx l } p2 l2 hnew hnot2]
      refine ⟨rfl, ?_, ?_⟩
      · show mem_read (mem_write _ (mem_read _ (req.newptr + size_add w req.newidx l) l2) p2 l2)
            p2 l2 = _
        rw [mem_write_read, hadd]
      · show size_add w (size_add w req.newidx l) l2 = req.newidx + l + l2
        rw [hadd]
        exact size_add_of_lt w _ _ (by omega)

/-- C19, witness: the request of the example write, which carries four bytes of new
input at address `5000`. -/
theorem C19_new_kernel_witness :
    (sysctl_new_kernel 32 ks57 (kernel_req 0 0 none 5000 4) 6000 5).1 = EINVAL
      ↔ size_sub 32 (kernel_req 0 0 none 5000 4).newlen (kernel_req 0 0 none 5000 4).newidx < 5 :=
  (C19_new_kernel 32 ks57 (kernel_req 0 0 none 5000 4) 6000 5 (by decide)).1

/-! ## The integer handler -/

/-- What `SYSCTL_OUT` never touches, and how it moves the old cursor. -/
theorem out_fields (w : Nat) (env : kenv) (ks : kstate) (req : sysctl_req) (p : List Nat)
    (l : Nat) :
    (SYSCTL_OUT w env ks req p l).2.2.newptr = req.newptr
    ∧ (SYSCTL_OUT w env ks req p l).2.2.newlen = req.newlen
    ∧ (SYSCTL_OUT w env ks req p l).2.2.newidx = req.newidx
    ∧ (SYSCTL_OUT w env ks req p l).2.2.newfunc = req.newfunc
    ∧ (SYSCTL_OUT w env ks req p l).2.2.oldidx = size_add w req.oldidx l
    ∧ (SYSCTL_OUT w env ks req p l).2.1.tree = ks.tree := by
  unfold SYSCTL_OUT
  cases req.oldfunc with
  | kernel =>
    simp only [sysctl_old_kernel]
    split_ifs <;> exact ⟨rfl, rfl, rfl, rfl, rfl, rfl⟩
  | user =>
    simp only [sysctl_old_user, copyout]
    split_ifs <;> exact ⟨rfl, rfl, rfl, rfl, rfl, rfl⟩

/-- The in-process output transfer with room for the whole source. -/
theorem old_kernel_room (w : Nat) (ks : kstate) (req : sysctl_req) (p : List Nat)
    (hg : writes_inside w req) (hpos : 0 < p.length)
    (hroom : req.oldidx + p.length ≤ req.oldlen) :
    sysctl_old_kernel w ks req p p.length
      = (0, { ks with mem := mem_put ks.mem (req.oldptr + req.oldidx) p },
          { req with oldidx := req.oldidx + p.length }) := by
  obtain ⟨hp, hl, hi⟩ := hg
  have hsub := size_sub_of_le w req.oldlen req.oldidx hi hl
  have hadd : size_add w req.oldidx p.length = req.oldidx + p.length :=
    size_add_of_lt w _ _ (by omega)
  have h1 : ¬ p.length > req.oldlen - req.oldidx := by omega
  unfold sysctl_old_kernel
  simp only [hsub, hp, ne_eq, not_false_eq_true, if_true, true_and, if_neg h1, hadd,
    not_true_eq_false, if_false, gt_iff_lt, hpos]
  rfl

theorem int_bytes_length (c : Int) : (int_bytes c).length = 4 := rfl

/-- C16: `sysctl_handle_int` on a constant (`arg1 = NULL`, `arg2 = c`).  A request
without new input gets the outcome of the output of the four bytes of `c`, which for
the in-process transfer with room in the old buffer is: result `0`, the bytes of `c`
(`42 0 0 0` for `c = 42`) at the old cursor, and the cursor four further.  A request
with new input goes through the same output step first: if that step fails its error
is returned, and if it succeeds the result is `EPERM`, nothing is read from the input
and the new cursor is where it was, but the old cursor has moved by `sizeof(int)`. -/
theorem C16_handle_int_constant (w : Nat) (env : kenv) (ks : kstate) (oidp : Nat) (c : Int)
    (req : sysctl_req) :
    (req.newptr = 0 →
        sysctl_handle_int w env ks oidp (handler_arg.data 0) c req
          = some (SYSCTL_OUT w env ks req (int_bytes c) SIZEOF_INT))
    ∧ (req.newptr = 0 → req.oldfunc = xfer.kernel → writes_inside w req →
        req.oldidx + SIZEOF_INT ≤ req.oldlen →
        sysctl_handle_int w env ks oidp (handler_arg.data 0) c req
          = some (0, { ks with mem := mem_put ks.mem (req.oldptr + req.oldidx) (int_bytes c) },
              { req with oldidx := req.oldidx + SIZEOF_INT }))
    ∧ int_bytes 42 = [42, 0, 0, 0]
    ∧ (req.newptr ≠ 0 → (SYSCTL_OUT w env ks req (int_bytes c) SIZEOF_INT).1 ≠ 0 →
        sysctl_handle_int w env ks oidp (handler_arg.data 0) c req
          = some (SYSCTL_OUT w env ks req (int_bytes c) SIZEOF_INT))
    ∧ (req.newptr ≠ 0 → (SYSCTL_OUT w env ks req (int_bytes c) SIZEOF_INT).1 = 0 →
        sysctl_handle_int w env ks oidp (handler_arg.data 0) c req
          = some (EPERM, (SYSCTL_OUT w env ks req (int_bytes c) SIZEOF_INT).2.1,
              (SYSCTL_OUT w env ks req (int_bytes c) SIZEOF_INT).2.2)
        ∧ (SYSCTL_OUT w env ks req (int_bytes c) SIZEOF_INT).2.2.newidx = req.newidx
        ∧ (SYSCTL_OUT w env ks req (int_bytes c) SIZEOF_INT).2.2.oldidx
            = size_add w req.oldidx SIZEOF_INT) := by
  have hf := out_fields w env ks req (int_bytes c) SIZEOF_INT
  have hread : req.newptr = 0 →
      sysctl_handle_int w env ks oidp (handler_arg.data 0) c req
        = some (SYSCTL_OUT w env ks req (int_bytes c) SIZEOF_INT) := by
    intro h0
    have h1 : (SYSCTL_OUT w env ks req (int_bytes c) SIZEOF_INT).2.2.newptr = 0 := by
      rw [hf.1]; exact h0
    simp only [sysctl_handle_int, handler_arg.addr, ne_eq, not_true_eq_false, if_false]
    rw [if_pos (Or.inr h1)]
  refine ⟨hread, ?_, by decide, ?_, ?_⟩
  · intro h0 hk hg hroom
    have e := old_kernel_room w ks req (int_bytes c) hg
      (by rw [int_bytes_length]; decide) hroom
    have hout : SYSCTL_OUT w env ks req (int_bytes c) SIZEOF_INT
        = sysctl_old_kernel w ks req (int_bytes c) SIZEOF_INT := by
      unfold SYSCTL_OUT
      rw [hk]
    rw [hread h0, hout]
    exact congrArg some e
  · intro _ he
    simp only [sysctl_handle_int, handler_arg.addr, ne_eq, not_true_eq_false, if_false]
    rw [if_pos (Or.inl he)]
  · intro hn he
    have h1 : ¬ ((SYSCTL_OUT w env ks req (int_bytes c) SIZEOF_INT).1 ≠ 0
        ∨ (SYSCTL_OUT w env ks req (int_bytes c) SIZEOF_INT).2.2.newptr = 0) := by
      rw [hf.1]
      intro h
      rcases h with h | h
      · exact h he
      · exact hn h
    refine ⟨?_, hf.2.2.1, hf.2.2.2.2.1⟩
    simp only [sysctl_handle_int, handler_arg.addr, ne_eq, not_true_eq_false, if_false]
    rw [if_neg h1]
    rfl

/-- C16, witness: a read of the constant `42` into an eight-byte buffer at `3000`. -/
theorem C16_handle_int_constant_witness :
    sysctl_handle_int 32 env_ok ks57 0 (handler_arg.data 0) 42 (kernel_req 0 3000 (some 8) 0 0)
      = some (0,
          { ks57 with
            mem := mem_put ks57.mem
              ((kernel_req 0 3000 (some 8) 0 0).oldptr + (kernel_req 0 3000 (some 8) 0 0).oldidx)
              (int_bytes 42) },
          { kernel_req 0 3000 (some 8) 0 0 with
            oldidx := (kernel_req 0 3000 (some 8) 0 0).oldidx + SIZEOF_INT }) :=
  (C16_handle_int_constant 32 env_ok ks57 0 42 (kernel_req 0 3000 (some 8) 0 0)).2.1
    rfl rfl ⟨by decide, by decide, by decide⟩ (by decide)

/-- C16, counterexample: a write to the constant `42` without an old buffer
is refused with `EPERM` after the old cursor has moved to `4`; and with an old buffer
of two bytes the result is `ENOMEM`, not `EPERM`. -/
theorem C16_counterexample :
    (sysctl_handle_int 32 env_ok ks57 0 (handler_arg.data 0) 42
        (kernel_req 0 0 none 5000 4)).map (fun r => (r.1, r.2.2))
      = some (EPERM, { kernel_req 0 0 none 5000 4 with oldidx := 4 })
    ∧ (kernel_req 0 0 none 5000 4).oldidx = 0
    ∧ (sysctl_handle_int 32 env_ok ks57 0 (handler_arg.data 0) 42
        (kernel_req 0 3000 (some 2) 5000 4)).map (fun r => (r.1, r.2.2.oldidx, r.2.2.newidx))
      = some (ENOMEM, 4, 0) := by
  decide

/-! ## The string handler: writes -/

theorem size_of_int_cast (w n : Nat) (h : n < 2 ^ w) : size_of_int w (n : Int) = n := by
  unfold size_of_int
  have h1 : ((n : Int) % (2 : Int) ^ w) = n := by
    apply Int.emod_eq_of_lt
    · omega
    · have : ((2 : Int) ^ w) = ((2 ^ w : Nat) : Int) := by norm_num
      rw [this]
      exact_mod_cast h
  rw [h1]
  simp

theorem size_sub_lt (w a b : Nat) : size_sub w a b < 2 ^ w :=
  Nat.mod_lt _ (Nat.pow_pos (by decide))

theorem int_of_size_small (k : Nat) (h : k < 2 ^ 31) : int_of_size k = (k : Int) := by
  unfold int_of_size
  have h1 : k % 2 ^ 32 = k := Nat.mod_eq_of_lt (by omega)
  rw [h1, if_pos h]

/-- The write step of `sysctl_handle_string` once the length and the output step are
known: the outcome as a function of the state and the request the output step left. -/
theorem handle_string_write (w : Nat) (env : kenv) (ks ks1 : kstate) (oidp addr n cap : Nat)
    (req req1 : sysctl_req) (hw : 31 ≤ w) (hcap : cap < 2 ^ 31)
    (hlen : c_strlen ks.mem (2 ^ w) addr = some n)
    (hout : SYSCTL_OUT w env ks req (mem_read ks.mem addr (n + 1)) (size_add w n 1)
      = (0, ks1, req1))
    (hnew : req1.newptr ≠ 0) :
    sysctl_handle_string w env ks oidp (handler_arg.data addr) (cap : Int) req
      = if cap ≤ size_sub w req1.newlen req1.newidx then some (EINVAL, ks1, req1)
        else
          some ((SYSCTL_IN w env ks1 req1 addr (size_sub w req1.newlen req1.newidx)).1,
            { (SYSCTL_IN w env ks1 req1 addr (size_sub w req1.newlen req1.newidx)).2.1 with
              mem := fun a =>
                if a = addr + size_sub w req1.newlen req1.newidx then 0
                else (SYSCTL_IN w env ks1 req1 addr
                  (size_sub w req1.newlen req1.newidx)).2.1.mem a },
            (SYSCTL_IN w env ks1 req1 addr (size_sub w req1.newlen req1.newidx)).2.2) := by
  have hpow : (2 : Nat) ^ 31 ≤ 2 ^ w := Nat.pow_le_pow_right (by decide) hw
  have hc : size_of_int w (cap : Int) = cap := size_of_int_cast w cap (by omega)
  have h1 : ¬ (((0 : Int), ks1, req1).1 ≠ 0 ∨ ((0 : Int), ks1, req1).2.2.newptr = 0) := by
    intro h
    rcases h with h | h
    · exact h rfl
    · exact hnew h
  simp only [sysctl_handle_string, handler_arg.addr, hlen, hout]
  rw [if_neg h1]
  simp only [hc, ge_iff_le]
  by_cases hk : cap ≤ size_sub w req1.newlen req1.newidx
  · rw [if_pos hk, if_pos hk]
  · rw [if_neg hk, if_neg hk]
    have hk31 : size_sub w req1.newlen req1.newidx < 2 ^ 31 := by omega
    have e1 := int_of_size_small _ hk31
    have e2 := size_of_int_cast w (size_sub w req1.newlen req1.newidx) (size_sub_lt w _ _)
    simp only [e1, e2]
    have e3 : ∀ a : Nat, ((a : Int) = (addr : Int) + (size_sub w req1.newlen req1.newidx : Nat))
        = (a = addr + size_sub w req1.newlen req1.newidx) := by
      intro a
      apply propext
      constructor
      · intro h; exact_mod_cast h
      · intro h; exact_mod_cast h
    simp only [e3]

theorem mem_read_congr (m1 m2 : Nat → Nat) (addr n : Nat)
    (h : ∀ j, j < n → m1 (addr + j) = m2 (addr + j)) : mem_read m1 addr n = mem_read m2 addr n := by
  unfold mem_read
  apply List.map_congr_left
  intro j hj
  exact h j (List.mem_range.mp hj)

/-- `SYSCTL_IN` writes inside the destination only. -/
theorem in_mem_outside (w : Nat) (env : kenv) (ks : kstate) (req : sysctl_req) (p l a : Nat)
    (ha : ¬ (p ≤ a ∧ a < p + l)) : (SYSCTL_IN w env ks req p l).2.1.mem a = ks.mem a := by
  unfold SYSCTL_IN
  cases req.newfunc with
  | kernel =>
    simp only [sysctl_new_kernel]
    split_ifs
    · rfl
    · rfl
    · show mem_write ks.mem _ p l a = ks.mem a
      unfold mem_write
      rw [if_neg ha]
  | user =>
    simp only [sysctl_new_user, copyin]
    split_ifs
    · rfl
    · rfl
    · show mem_write ks.mem _ p l a = ks.mem a
      unfold mem_write
      rw [if_neg ha]
    · rfl

/-- `SYSCTL_IN` of no more than the remaining input, when the transfer itself cannot
fail: the bytes arrive. -/
theorem in_ok (w : Nat) (env : kenv) (ks : kstate) (req : sysctl_req) (p l : Nat)
    (hnew : req.newptr ≠ 0) (hl : ¬ size_sub w req.newlen req.newidx < l)
    (hok : req.newfunc = xfer.kernel ∨ env.copyin_err (req.newptr + req.newidx) l = 0) :
    (SYSCTL_IN w env ks req p l).1 = 0
    ∧ (SYSCTL_IN w env ks req p l).2.1.mem
        = mem_write ks.mem (mem_read ks.mem (req.newptr + req.newidx) l) p l := by
  unfold SYSCTL_IN
  cases hf : req.newfunc with
  | kernel =>
    simp only [sysctl_new_kernel]
    rw [if_neg hnew, if_neg hl]
    exact ⟨rfl, rfl⟩
  | user =>
    have hc : env.copyin_err (req.newptr + req.newidx) l = 0 := by
      rcases hok with h | h
      · rw [hf] at h; exact absurd h (by decide)
      · exact h
    simp only [sysctl_new_user, copyin]
    rw [if_neg hnew, if_neg hl, if_pos hc]
    exact ⟨rfl, rfl⟩

/-- C17: `sysctl_handle_string` on a buffer of capacity `cap` (the `arg2` of the
leaf), for a request with new input whose output step succeeded, with
`k = newlen - newidx` the remaining input.  If `cap ≤ k` the result is `EINVAL` and
the write step changes nothing.  If `k < cap` the handler stores a NUL at index `k`
and changes no byte outside the indices `0 .. k`, hence none at an index `≥ cap`; and
when the input transfer itself cannot fail (the in-process transfer, or a `copyin`
that succeeds) the result is `0` and the indices `0 .. k - 1` hold the `k` input bytes.
So with such a transfer the write is accepted exactly when `k < cap`. -/
theorem C17_handle_string_write (w : Nat) (env : kenv) (ks ks1 : kstate)
    (oidp addr n cap : Nat) (req req1 : sysctl_req) (hw : 31 ≤ w) (hcap : cap < 2 ^ 31)
    (hlen : c_strlen ks.mem (2 ^ w) addr = some n)
    (hout : SYSCTL_OUT w env ks req (mem_read ks.mem addr (n + 1)) (size_add w n 1)
      = (0, ks1, req1))
    (hnew : req.newptr ≠ 0) :
    (cap ≤ size_sub w req.newlen req.newidx →
        sysctl_handle_string w env ks oidp (handler_arg.data addr) (cap : Int) req
          = some (EINVAL, ks1, req1))
    ∧ (size_sub w req.newlen req.newidx < cap →
        ∃ e ks2 req2,
          sysctl_handle_string w env ks oidp (handler_arg.data addr) (cap : Int) req
            = some (e, ks2, req2)
          ∧ ks2.mem (addr + size_sub w req.newlen req.newidx) = 0
          ∧ (∀ a, ¬ (addr ≤ a ∧ a ≤ addr + size_sub w req.newlen req.newidx) →
              ks2.mem a = ks1.mem a)
          ∧ (∀ a, addr + cap ≤ a → ks2.mem a = ks1.mem a)
          ∧ ((req.newfunc = xfer.kernel
                ∨ env.copyin_err (req.newptr + req.newidx)
                    (size_sub w req.newlen req.newidx) = 0) →
              e = 0
              ∧ mem_read ks2.mem addr (size_sub w req.newlen req.newidx)
                  = mem_read ks1.mem (req.newptr + req.newidx)
                      (size_sub w req.newlen req.newidx)))
    ∧ ((req.newfunc = xfer.kernel
          ∨ env.copyin_err (req.newptr + req.newidx) (size_sub w req.newlen req.newidx) = 0) →
        ((sysctl_handle_string w env ks oidp (handler_arg.data addr) (cap : Int) req).map
            (fun r => r.1) = some 0
          ↔ size_sub w req.newlen req.newidx < cap)) := by
  have hf := out_fields w env ks req (mem_read ks.mem addr (n + 1)) (size_add w n 1)
  rw [hout] at hf
  obtain ⟨f1, f2, f3, f4, -, -⟩ := hf
  have f1 : req1.newptr = req.newptr := f1
  have f2 : req1.newlen = req.newlen := f2
  have f3 : req1.newidx = req.newidx := f3
  have f4 : req1.newfunc = req.newfunc := f4
  have hnew1 : req1.newptr ≠ 0 := by rw [f1]; exact hnew
  have hmain := handle_string_write w env ks ks1 oidp addr n cap req req1 hw hcap hlen hout hnew1
  rw [f2, f3] at hmain
  have hrej : cap ≤ size_sub w req.newlen req.newidx →
      sysctl_handle_string w env ks oidp (handler_arg.data addr) (cap : Int) req
        = some (EINVAL, ks1, req1) := by
    intro h
    rw [hmain, if_pos h]
  have hacc : size_sub w req.newlen req.newidx < cap →
      (req.newfunc = xfer.kernel
        ∨ env.copyin_err (req.newptr + req.newidx) (size_sub w req.newlen req.newidx) = 0) →
      (SYSCTL_IN w env ks1 req1 addr (size_sub w req.newlen req.newidx)).1 = 0
      ∧ (SYSCTL_IN w env ks1 req1 addr (size_sub w req.newlen req.newidx)).2.1.mem
          = mem_write ks1.mem (mem_read ks1.mem (req.newptr + req.newidx)
              (size_sub w req.newlen req.newidx)) addr (size_sub w req.newlen req.newidx) := by
    intro _ hok
    have := in_ok w env ks1 req1 addr (size_sub w req.newlen req.newidx) hnew1
      (by rw [f2, f3]; exact Nat.lt_irrefl _) (by rw [f4, f1, f3]; exact hok)
    rw [f1, f3] at this
    exact this
  refine ⟨hrej, ?_, ?_⟩
  · intro hk
    have hm2 := hmain
    rw [if_neg (show ¬ cap ≤ size_sub w req.newlen req.newidx by omega)] at hm2
    refine ⟨_, _, _, hm2, ?_, ?_, ?_, ?_⟩
    · show (if _ = _ then 0 else _) = 0
      rw [if_pos rfl]
    · intro a ha
      show (if a = _ then 0 else _) = _
      rw [if_neg (by omega)]
      exact in_mem_outside w env ks1 req1 addr _ a (by omega)
    · intro a ha
      show (if a = _ then 0 else _) = _
      rw [if_neg (by omega)]
      exact in_mem_outside w env ks1 req1 addr _ a (by omega)
    · intro hok
      obtain ⟨e1, e2⟩ := hacc hk hok
      refine ⟨e1, ?_⟩
      rw [← mem_write_read ks1.mem ks1.mem (req.newptr + req.newidx) addr
        (size_sub w req.newlen req.newidx), ← e2]
      apply mem_read_congr
      intro j hj
      show (if addr + j = _ then 0 else _) = _
      rw [if_neg (by omega)]
  · intro hok
    constructor
    · intro h
      by_contra hc
      rw [hrej (by omega)] at h
      simp only [Option.map_some', Option.some.injEq] at h
      exact einval_ne h
    · intro hk
      rw [hmain, if_neg (by omega)]
      simp only [Option.map_some', Option.some.injEq]
      exact (hacc hk hok).1

/-- C17, witness: four bytes written in process to `hostname` (capacity `64`) of the
example state are accepted. -/
theorem C17_handle_string_write_witness :
    (sysctl_handle_string 32 env_ok ks_kern 51 (handler_arg.data 2000) ((64 : Nat) : Int)
        (kernel_req 0 0 none 5000 4)).map (fun r => r.1) = some 0
      ↔ size_sub 32 (kernel_req 0 0 none 5000 4).newlen (kernel_req 0 0 none 5000 4).newidx < 64 :=
  (C17_handle_string_write 32 env_ok ks_kern ks_kern 51 2000 20 64 (kernel_req 0 0 none 5000 4)
    { kernel_req 0 0 none 5000 4 with oldidx := 21 } (by decide) (by decide) (by decide) rfl
    (by decide)).2.2 (Or.inl rfl)

/-- C17, counterexample: five bytes offered from a user address that
`copyin` refuses.  Five is below the capacity `64`, yet the handler returns `EFAULT`,
and the buffer does not hold the input: it keeps `abcde` and has a NUL at index 5. -/
theorem C17_counterexample :
    (sysctl_handle_string 32 { env_ok with copyin_err := fun _ _ => EFAULT } ks_kern 51
        (handler_arg.data 2000) 64 (userland_req 0 0 0 5000 5)).map
        (fun r => (r.1, mem_read r.2.1.mem 2000 7))
      = some (EFAULT, [97, 98, 99, 100, 101, 0, 103])
    ∧ size_sub 32 (userland_req 0 0 0 5000 5).newlen (userland_req 0 0 0 5000 5).newidx < 64
    ∧ mem_read ks_kern.mem 5000 5 = [0, 0, 0, 0, 0]
    ∧ mem_read ks_kern.mem 2000 7 = [97, 98, 99, 100, 101, 102, 103] := by
  decide

/-! ## Names of paths: numbers that do not fit the conversion buffer -/

/-- C20: what `sysctl_sysctl_name` writes for elements whose decimal form has ten or
more characters.  In the example tree no root child has id `1234567890` or
`-2147483648`; with a 64-byte buffer the handler returns `0` and writes `123456789`
and `-21474836`, nine characters each and then the NUL, where the decimal forms are
`1234567890` and `-2147483648`; after the leaf `kern.hostname` the element
`1234567890` is written as `123456789` as well. -/
theorem C20_decimal_truncated :
    (sysctl_sysctl_name 32 env_ok ks_kern 0 (handler_arg.path [1234567890]) 1
        (kernel_req 0 3000 (some 64) 0 0)).map
        (fun r => (r.1, r.2.2.oldidx, mem_read r.2.1.mem 3000 r.2.2.oldidx))
      = some (0, 10, [49, 50, 51, 52, 53, 54, 55, 56, 57, 0])
    ∧ (sysctl_sysctl_name 32 env_ok ks_kern 0 (handler_arg.path [-2147483648]) 1
        (kernel_req 0 3000 (some 64) 0 0)).map
        (fun r => (r.1, r.2.2.oldidx, mem_read r.2.1.mem 3000 r.2.2.oldidx))
      = some (0, 10, [45, 50, 49, 52, 55, 52, 56, 51, 54, 0])
    ∧ (sysctl_sysctl_name 32 env_ok ks_kern 0 (handler_arg.path [1, 10, 1234567890]) 3
        (kernel_req 0 3000 (some 64) 0 0)).map
        (fun r => (r.1, r.2.2.oldidx, (mem_read r.2.1.mem 3000 r.2.2.oldidx).drop 13))
      = some (0, 24, [46, 49, 50, 51, 52, 53, 54, 55, 56, 57, 0])
    ∧ snprintf_d 1234567890 = [49, 50, 51, 52, 53, 54, 55, 56, 57]
    ∧ snprintf_d (-2147483648) = [45, 50, 49, 52, 55, 52, 56, 51, 54]
    ∧ snprintf_d 123456789 = [49, 50, 51, 52, 53, 54, 55, 56, 57] := by
  decide

/-! ## Removal never touches a node that is not dynamic -/

theorem remove_children_rel (R : Tree → Tree → Prop) (hrefl : ∀ s, R s s)
    (htrans : ∀ a b c, R a b → R b c → R a c) (recurse : Bool)
    (rm : Tree → Nat → Option (Int × Tree))
    (hrm : ∀ s p r, rm s p = some r → R s r.2) :
    ∀ (l : List Nat) (s : Tree) (r : Int × Tree),
      remove_children recurse rm s l = some r → R s r.2 := by
  intro l
  induction l with
  | nil =>
    intro s r h
    simp only [remove_children, Option.some.injEq] at h
    subst h
    exact hrefl s
  | cons p rest ih =>
    intro s r h
    unfold remove_children at h
    by_cases hrec : (!recurse) = true
    · rw [if_pos hrec] at h
      simp only [Option.some.injEq] at h
      subst h
      exact hrefl s
    · rw [if_neg hrec] at h
      cases hp : rm s p with
      | none => rw [hp] at h; simp at h
      | some r1 =>
        obtain ⟨e1, s1⟩ := r1
        rw [hp] at h
        have h1 : R s s1 := hrm s p (e1, s1) hp
        by_cases he : e1 ≠ 0
        · simp only [if_pos he, Option.some.injEq] at h
          subst h
          exact h1
        · simp only [if_neg he] at h
          exact htrans _ _ _ h1 (ih s1 r h)

/-- Every relation on trees that is reflexive and transitive, keeps the kinds, and
contains the two updates `sysctl_remove_oid` makes (one decrement of the reference
count of a dynamic node, one unlinking of a dynamic node) relates the tree before a
call of `sysctl_remove_oid` to the tree after it. -/
theorem remove_oid_rel (R : Tree → Tree → Prop) (hrefl : ∀ s, R s s)
    (htrans : ∀ a b c, R a b → R b c → R a c)
    (hkind : ∀ a b, R a b → ∀ x, (b.oids x).oid_kind = (a.oids x).oid_kind)
    (hdec : ∀ s e, e ≠ 0 → is_dyn (s.oids e).oid_kind = true → (s.oids e).oid_refcnt > 1 →
      R s (set_refcnt s e ((s.oids e).oid_refcnt - 1)))
    (hunreg : ∀ s e s2, e ≠ 0 → is_dyn (s.oids e).oid_kind = true →
      sysctl_unregister_oid s e = some s2 → R s s2)
    (del recurse : Bool) :
    ∀ (depth : Nat) (s : Tree) (oidp : Nat) (r : Int × Tree),
      sysctl_remove_oid depth s oidp del recurse = some r → R s r.2 := by
  intro depth
  induction depth with
  | zero =>
    intro s oidp r h
    unfold sysctl_remove_oid at h
    by_cases h0 : oidp = 0
    · rw [if_pos h0] at h
      simp only [Option.some.injEq] at h
      subst h
      exact hrefl s
    rw [if_neg h0] at h
    by_cases hd : (!is_dyn (s.oids oidp).oid_kind) = true
    · rw [if_pos hd] at h
      simp only [Option.some.injEq] at h
      subst h
      exact hrefl s
    rw [if_neg hd] at h
    have hd2 : is_dyn (s.oids oidp).oid_kind = true := by simpa using hd
    have hch : ∀ a : Option (Int × Tree), (∀ r1, a = some r1 → R s r1.2) →
        (match a with
          | none => none
          | some (error, s1) =>
            if error ≠ 0 then some (error, s1)
            else if (s1.oids oidp).oid_refcnt > 1 then
              some (0, set_refcnt s1 oidp ((s1.oids oidp).oid_refcnt - 1))
            else if (s1.oids oidp).oid_refcnt = 0 then some (EINVAL, s1)
            else
              match sysctl_unregister_oid s1 oidp with
              | none => none
              | some s2 => some (0, s2)) = some r → R s r.2 := by
      intro a ha hm
      cases a with
      | none => simp at hm
      | some r1 =>
        obtain ⟨e1, s1⟩ := r1
        have h1 : R s s1 := ha (e1, s1) rfl
        have hk1 : is_dyn (s1.oids oidp).oid_kind = true := by
          rw [hkind s s1 h1 oidp]; exact hd2
        simp only at hm
        by_cases he : e1 ≠ 0
        · rw [if_pos he] at hm
          simp only [Option.some.injEq] at hm
          subst hm
          exact h1
        rw [if_neg he] at hm
        by_cases hr : (s1.oids oidp).oid_refcnt > 1
        · rw [if_pos hr] at hm
          simp only [Option.some.injEq] at hm
          subst hm
          exact htrans _ _ _ h1 (hdec s1 oidp h0 hk1 hr)
        rw [if_neg hr] at hm
        by_cases hz : (s1.oids oidp).oid_refcnt = 0
        · rw [if_pos hz] at hm
          simp only [Option.some.injEq] at hm
          subst hm
          exact h1
        rw [if_neg hz] at hm
        cases hu : sysctl_unregister_oid s1 oidp with
        | none => rw [hu] at hm; simp at hm
        | some s2 =>
          rw [hu] at hm
          simp only [Option.some.injEq] at hm
          subst hm
          exact htrans _ _ _ h1 (hunreg s1 oidp s2 h0 hk1 hu)
    apply hch _ _ h
    intro r1 hr1
    by_cases hn : (is_node (s.oids oidp).oid_kind && (s.oids oidp).oid_refcnt == 1) = true
    · rw [if_pos hn] at hr1
      exact remove_children_rel R hrefl htrans recurse _ (fun _ _ _ hx => by simp at hx) _ s r1 hr1
    · rw [if_neg hn] at hr1
      simp only [Option.some.injEq] at hr1
      subst hr1
      exact hrefl s
  | succ d ih =>
    intro s oidp r h
    unfold sysctl_remove_oid at h
    by_cases h0 : oidp = 0
    · rw [if_pos h0] at h
      simp only [Option.some.injEq] at h
      subst h
      exact hrefl s
    rw [if_neg h0] at h
    by_cases hd : (!is_dyn (s.oids oidp).oid_kind) = true
    · rw [if_pos hd] at h
      simp only [Option.some.injEq] at h
      subst h
      exact hrefl s
    rw [if_neg hd] at h
    have hd2 : is_dyn (s.oids oidp).oid_kind = true := by simpa using hd
    have hch : ∀ a : Option (Int × Tree), (∀ r1, a = some r1 → R s r1.2) →
        (match a with
          | none => none
          | some (error, s1) =>
            if error ≠ 0 then some (error, s1)
            else if (s1.oids oidp).oid_refcnt > 1 then
              some (0, set_refcnt s1 oidp ((s1.oids oidp).oid_refcnt - 1))
            else if (s1.oids oidp).oid_refcnt = 0 then some (EINVAL, s1)
            else
              match sysctl_unregister_oid s1 oidp with
              | none => none
              | some s2 => some (0, s2)) = some r → R s r.2 := by
      intro a ha hm
      cases a with
      | none => simp at hm
      | some r1 =>
        obtain ⟨e1, s1⟩ := r1
        have h1 : R s s1 := ha (e1, s1) rfl
        have hk1 : is_dyn (s1.oids oidp).oid_kind = true := by
          rw [hkind s s1 h1 oidp]; exact hd2
        simp only at hm
        by_cases he : e1 ≠ 0
        · rw [if_pos he] at hm
          simp only [Option.some.injEq] at hm
          subst hm
          exact h1
        rw [if_neg he] at hm
        by_cases hr : (s1.oids oidp).oid_refcnt > 1
        · rw [if_pos hr] at hm
          simp only [Option.some.injEq] at hm
          subst hm
          exact htrans _ _ _ h1 (hdec s1 oidp h0 hk1 hr)
        rw [if_neg hr] at hm
        by_cases hz : (s1.oids oidp).oid_refcnt = 0
        · rw [if_pos hz] at hm
          simp only [Option.some.injEq] at hm
          subst hm
          exact h1
        rw [if_neg hz] at hm
        cases hu : sysctl_unregister_oid s1 oidp with
        | none => rw [hu] at hm; simp at hm
        | some s2 =>
          rw [hu] at hm
          simp only [Option.some.injEq] at hm
          subst hm
          exact htrans _ _ _ h1 (hunreg s1 oidp s2 h0 hk1 hu)
    apply hch _ _ h
    intro r1 hr1
    by_cases hn : (is_node (s.oids oidp).oid_kind && (s.oids oidp).oid_refcnt == 1) = true
    · rw [if_pos hn] at hr1
      exact remove_children_rel R hrefl htrans recurse _
        (fun s1 p r2 hx => ih s1 p r2 hx) _ s r1 hr1
    · rw [if_neg hn] at hr1
      simp only [Option.some.injEq] at hr1
      subst hr1
      exact hrefl s

/-! ## Trees alike: the frame of `sysctl_ctx_free` -/

theorem same_but_number_fields {a b : sysctl_oid} (h : same_but_number a b) :
    a.oid_parent = b.oid_parent ∧ a.oid_kind = b.oid_kind ∧ a.oid_arg1 = b.oid_arg1
    ∧ a.oid_name = b.oid_name ∧ a.oid_refcnt = b.oid_refcnt := by
  unfold same_but_number at h
  cases a
  cases b
  simp only [sysctl_oid.mk.injEq] at h
  obtain ⟨h1, -, h3, h4, -, h6, -, -, h9⟩ := h
  exact ⟨h1, h3, h4, h6, h9⟩

theorem same_but_number_refl (a : sysctl_oid) : same_but_number a a := rfl

theorem same_but_number_symm {a b : sysctl_oid} (h : same_but_number a b) :
    same_but_number b a := Eq.symm h

theorem same_but_number_trans {a b c : sysctl_oid} (h1 : same_but_number a b)
    (h2 : same_but_number b c) : same_but_number a c := Eq.trans h1 h2

theorem same_but_number_set (a : sysctl_oid) (n : Int) :
    same_but_number { a with oid_number := n } a := rfl

theorem alike_refl (keep : Nat → Bool) (s : Tree) : alike keep s s :=
  ⟨fun _ => rfl, fun _ _ => rfl, fun _ => List.Perm.refl _, fun _ => rfl⟩

theorem alike_symm {keep : Nat → Bool} {s t : Tree} (h : alike keep s t) : alike keep t s :=
  ⟨fun x => same_but_number_symm (h.1 x), fun x hx => (h.2.1 x hx).symm,
    fun l => (h.2.2.1 l).symm, fun l => (h.2.2.2 l).symm⟩

theorem alike_trans {keep : Nat → Bool} {s t u : Tree} (h1 : alike keep s t)
    (h2 : alike keep t u) : alike keep s u :=
  ⟨fun x => same_but_number_trans (h1.1 x) (h2.1 x),
    fun x hx => (h1.2.1 x hx).trans (h2.2.1 x hx),
    fun l => (h1.2.2.1 l).trans (h2.2.2.1 l),
    fun l => (h1.2.2.2 l).trans (h2.2.2.2 l)⟩

theorem alike_names {keep : Nat → Bool} {s t : Tree} (h : alike keep s t)
    (hn : ∀ l, names_distinct s (s.lists l)) : ∀ l, names_distinct t (t.lists l) := by
  intro l
  have h1 : names_distinct s (t.lists l) := by
    unfold names_distinct
    exact List.Perm.pairwise (h.2.2.1 l) (hn l) (fun hab => fun e => hab e.symm)
  unfold names_distinct at h1 ⊢
  refine List.Pairwise.imp ?_ h1
  intro a b hab
  rw [← (same_but_number_fields (h.1 a)).2.2.2.1, ← (same_but_number_fields (h.1 b)).2.2.2.1]
  exact hab

theorem find_oidname_unique {s : Tree} {name : List Nat} {list p : Nat}
    (hd : names_distinct s (s.lists list)) (hp : p ∈ s.lists list)
    (hn : (s.oids p).oid_name = name) : sysctl_find_oidname s name list = some p := by
  unfold sysctl_find_oidname
  rw [← hn]
  exact find_unique s (s.lists list) p hd hp

/-- The name lookup gives the same answer in trees that are alike. -/
theorem alike_find {keep : Nat → Bool} {s t : Tree} (h : alike keep s t)
    (hn : ∀ l, names_distinct s (s.lists l)) (name : List Nat) (list : Nat) :
    sysctl_find_oidname t name list = sysctl_find_oidname s name list := by
  cases hf : sysctl_find_oidname s name list with
  | none =>
    apply find_oidname_of_absent
    intro q hq
    rw [← (same_but_number_fields (h.1 q)).2.2.2.1]
    exact find_oidname_none hf q ((h.2.2.1 list).mem_iff.mpr hq)
  | some p =>
    obtain ⟨hp, hname⟩ := find_oidname_some hf
    apply find_oidname_unique (alike_names h hn list) ((h.2.2.1 list).mem_iff.mp hp)
    rw [← (same_but_number_fields (h.1 p)).2.2.2.1]
    exact hname

theorem alike_set_refcnt {keep : Nat → Bool} {s t : Tree} (h : alike keep s t) (e k : Nat) :
    alike keep (set_refcnt s e k) (set_refcnt t e k) := by
  refine ⟨?_, ?_, h.2.2.1, h.2.2.2⟩
  · intro x
    simp only [set_refcnt]
    by_cases hx : x = e
    · rw [if_pos hx, if_pos hx]
      have := h.1 e
      unfold same_but_number at this ⊢
      cases hs : s.oids e
      cases ht : t.oids e
      rw [hs, ht] at this
      simp only [sysctl_oid.mk.injEq] at this ⊢
      obtain ⟨h1, -, h3, h4, h5, h6, h7, h8, -⟩ := this
      exact ⟨h1, trivial, h3, h4, h5, h6, h7, h8, trivial⟩
    · rw [if_neg hx, if_neg hx]
      exact h.1 x
  · intro x hx
    simp only [set_refcnt]
    by_cases hxe : x = e
    · rw [if_pos hxe, if_pos hxe]
      subst hxe
      exact h.2.1 x hx
    · rw [if_neg hxe, if_neg hxe]
      exact h.2.1 x hx

theorem alike_set_list {keep : Nat → Bool} {s t : Tree} (h : alike keep s t) (p : Nat)
    (l1 l2 : List Nat) (hp : l1.Perm l2) (hf : l1.filter keep = l2.filter keep) :
    alike keep (set_list s p l1) (set_list t p l2) := by
  refine ⟨h.1, h.2.1, ?_, ?_⟩
  · intro l
    simp only [set_list]
    by_cases hl : l = p
    · rw [if_pos hl, if_pos hl]; exact hp
    · rw [if_neg hl, if_neg hl]; exact h.2.2.1 l
  · intro l
    simp only [set_list]
    by_cases hl : l = p
    · rw [if_pos hl, if_pos hl]; exact hf
    · rw [if_neg hl, if_neg hl]; exact h.2.2.2 l

theorem alike_erase {keep : Nat → Bool} {s t : Tree} (h : alike keep s t) (p e : Nat) :
    alike keep (set_list s p ((s.lists p).erase e)) (set_list t p ((t.lists p).erase e)) := by
  apply alike_set_list h
  · exact (h.2.2.1 p).erase e
  · rw [← List.erase_filter, ← List.erase_filter, h.2.2.2 p]

/-- A removal without recursion has the same outcome in trees that are alike, and
leaves them alike; whether storage is released makes no difference to the tree. -/
theorem alike_remove {keep : Nat → Bool} {s t : Tree} (h : alike keep s t) (e : Nat)
    (del1 del2 : Bool) (err : Int) (s1 : Tree)
    (hr : sysctl_remove_oid 0 s e del1 false = some (err, s1)) :
    ∃ t1, sysctl_remove_oid 0 t e del2 false = some (err, t1) ∧ alike keep s1 t1 := by
  obtain ⟨fp, fk, fa, -, fr⟩ := same_but_number_fields (h.1 e)
  have hch : (t.lists (SYSCTL_CHILDREN t e) ≠ []) ↔ (s.lists (SYSCTL_CHILDREN s e) ≠ []) := by
    unfold SYSCTL_CHILDREN
    rw [← fa]
    constructor
    · intro h1 h2
      apply h1
      have := h.2.2.1 (s.oids e).oid_arg1
      rw [h2] at this
      exact List.Perm.eq_nil this.symm
    · intro h1 h2
      apply h1
      have := h.2.2.1 (s.oids e).oid_arg1
      rw [h2] at this
      exact List.Perm.eq_nil this
  rw [remove_oid_flat] at hr ⊢
  rw [← fk, ← fr]
  simp only [hch]
  by_cases h0 : e = 0
  · simp only [if_pos h0, Option.some.injEq, Prod.mk.injEq] at hr ⊢
    obtain ⟨rfl, rfl⟩ := hr
    exact ⟨t, ⟨rfl, rfl⟩, h⟩
  simp only [if_neg h0] at hr ⊢
  by_cases hd : is_dyn (s.oids e).oid_kind = false
  · simp only [if_pos hd, Option.some.injEq, Prod.mk.injEq] at hr ⊢
    obtain ⟨rfl, rfl⟩ := hr
    exact ⟨t, ⟨rfl, rfl⟩, h⟩
  simp only [if_neg hd] at hr ⊢
  by_cases hne : is_node (s.oids e).oid_kind = true ∧ (s.oids e).oid_refcnt = 1
      ∧ s.lists (SYSCTL_CHILDREN s e) ≠ []
  · simp only [if_pos hne, Option.some.injEq, Prod.mk.injEq] at hr ⊢
    obtain ⟨rfl, rfl⟩ := hr
    exact ⟨t, ⟨rfl, rfl⟩, h⟩
  simp only [if_neg hne] at hr ⊢
  by_cases hgt : (s.oids e).oid_refcnt > 1
  · simp only [if_pos hgt, Option.some.injEq, Prod.mk.injEq] at hr ⊢
    obtain ⟨rfl, rfl⟩ := hr
    exact ⟨_, ⟨rfl, rfl⟩, alike_set_refcnt h e _⟩
  simp only [if_neg hgt] at hr ⊢
  by_cases hz : (s.oids e).oid_refcnt = 0
  · simp only [if_pos hz, Option.some.injEq, Prod.mk.injEq] at hr ⊢
    obtain ⟨rfl, rfl⟩ := hr
    exact ⟨t, ⟨rfl, rfl⟩, h⟩
  simp only [if_neg hz] at hr ⊢
  unfold sysctl_unregister_oid at hr ⊢
  rw [← fp]
  by_cases hm : e ∈ s.lists (s.oids e).oid_parent
  · have hm2 : e ∈ t.lists (s.oids e).oid_parent := (h.2.2.1 _).mem_iff.mp hm
    simp only [if_pos hm, if_pos hm2, Option.some.injEq, Prod.mk.injEq] at hr ⊢
    obtain ⟨rfl, rfl⟩ := hr
    exact ⟨_, ⟨rfl, rfl⟩, alike_erase h _ e⟩
  · simp only [if_neg hm] at hr
    exact absurd hr (by simp)

theorem nodup_of_names {s : Tree} {l : List Nat} (h : names_distinct s l) : l.Nodup := by
  unfold names_distinct at h
  exact List.Pairwise.imp (fun hab => fun e2 => by rw [e2] at hab; exact hab rfl) h

theorem insert_in_order_filter (s : Tree) (e : Nat) (l : List Nat) (keep : Nat → Bool)
    (hk : keep e = false) : (insert_in_order s e l).filter keep = l.filter keep := by
  induction l with
  | nil => simp [insert_in_order, hk]
  | cons p rest ih =>
    simp only [insert_in_order]
    split_ifs
    · rw [List.filter_cons_of_neg (by simp [hk])]
    · rw [List.filter_cons, List.filter_cons, ih]

theorem alike_set_number (keep : Nat → Bool) (s : Tree) (e : Nat) (n : Int)
    (hk : keep e = false) : alike keep (set_number s e n) s := by
  refine ⟨?_, ?_, fun _ => List.Perm.refl _, fun _ => rfl⟩
  · intro x
    simp only [set_number]
    by_cases hx : x = e
    · rw [if_pos hx, hx]
      exact same_but_number_set _ _
    · rw [if_neg hx]
      exact same_but_number_refl _
  · intro x hx
    simp only [set_number]
    by_cases hxe : x = e
    · rw [hxe, hk] at hx
      exact absurd hx (by decide)
    · rw [if_neg hxe]

theorem alike_numbered (keep : Nat → Bool) (s : Tree) (e : Nat) (hk : keep e = false) :
    alike keep (numbered s e) s := by
  unfold numbered
  split_ifs
  · exact alike_set_number keep s e _ hk
  · exact alike_refl keep s

/-- Registration of a node outside `keep` in trees that are alike leaves them alike. -/
theorem alike_register {keep : Nat → Bool} {s t : Tree} (h : alike keep s t)
    (hn : ∀ l, names_distinct s (s.lists l)) (e : Nat) (hk : keep e = false) :
    alike keep (sysctl_register_oid s e) (sysctl_register_oid t e) := by
  obtain ⟨fp, -, -, fn, -⟩ := same_but_number_fields (h.1 e)
  have hf := alike_find h hn (s.oids e).oid_name (s.oids e).oid_parent
  cases hs : sysctl_find_oidname s (s.oids e).oid_name (s.oids e).oid_parent with
  | some p =>
    have ht : sysctl_find_oidname t (t.oids e).oid_name (t.oids e).oid_parent = some p := by
      rw [← fp, ← fn, hf, hs]
    obtain ⟨-, fk, -, -, fr⟩ := same_but_number_fields (h.1 p)
    unfold sysctl_register_oid
    simp only [hs, ht]
    rw [← fk, ← fr]
    split_ifs
    · exact alike_set_refcnt h p _
    · exact h
  | none =>
    have ht : sysctl_find_oidname t (t.oids e).oid_name (t.oids e).oid_parent = none := by
      rw [← fp, ← fn, hf, hs]
    rw [register_absent hs, register_absent ht, ← fp]
    have h1 : alike keep (numbered s e) (numbered t e) :=
      alike_trans (alike_numbered keep s e hk)
        (alike_trans h (alike_symm (alike_numbered keep t e hk)))
    apply alike_set_list h1
    · exact (insert_in_order_perm _ e _).trans
        ((List.Perm.cons e (h.2.2.1 _)).trans (insert_in_order_perm _ e _).symm)
    · rw [insert_in_order_filter _ e _ keep hk, insert_in_order_filter _ e _ keep hk]
      exact h.2.2.2 _

/-- A successful dry-run removal of a node outside `keep` is undone by
`sysctl_register_oid` up to the place and the id of that node, and it keeps the names
distinct and the nodes relinkable. -/
theorem remove_then_register (keep : Nat → Bool) (s s1 : Tree) (e : Nat)
    (hn : ∀ l, names_distinct s (s.lists l)) (he : relinkable s e) (hk : keep e = false)
    (h : sysctl_remove_oid 0 s e false false = some (0, s1)) :
    alike keep (sysctl_register_oid s1 e) s
    ∧ (∀ l, names_distinct s1 (s1.lists l))
    ∧ (∀ x, relinkable s x → relinkable s1 x) := by
  rw [remove_oid_flat] at h
  split_ifs at h with h0 hd hne hgt hz
  · simp [EINVAL] at h
  · simp [EINVAL] at h
  · simp [ENOTEMPTY] at h
  · simp only [Option.some.injEq, Prod.mk.injEq, true_and] at h
    subst h
    obtain ⟨hnode, hmem⟩ := he hgt
    have hname : ∀ q, ((set_refcnt s e ((s.oids e).oid_refcnt - 1)).oids q).oid_name
        = (s.oids q).oid_name := by
      intro q; simp only [set_refcnt]; split_ifs with hq
      · subst hq; rfl
      · rfl
    have hself : (set_refcnt s e ((s.oids e).oid_refcnt - 1)).oids e
        = { s.oids e with oid_refcnt := (s.oids e).oid_refcnt - 1 } := by
      simp [set_refcnt]
    refine ⟨?_, fun l => names_distinct_congr (fun q _ => hname q) (hn l), ?_⟩
    · have hback : sysctl_register_oid (set_refcnt s e ((s.oids e).oid_refcnt - 1)) e = s := by
        unfold sysctl_register_oid
        have hf : sysctl_find_oidname (set_refcnt s e ((s.oids e).oid_refcnt - 1))
            ((set_refcnt s e ((s.oids e).oid_refcnt - 1)).oids e).oid_name
            ((set_refcnt s e ((s.oids e).oid_refcnt - 1)).oids e).oid_parent = some e := by
          rw [find_oidname_congr s (set_refcnt s e ((s.oids e).oid_refcnt - 1)) _ _ rfl hname,
            hself]
          exact find_unique s _ e (hn _) hmem
        simp only [hf]
        rw [hself]
        simp only [hnode, if_true]
        exact set_refcnt_restore s e _ (by omega) _
      rw [hback]
      exact alike_refl keep s
    · intro x hx hgx
      by_cases hxe : x = e
      · subst hxe
        rw [hself]
        exact ⟨hnode, hmem⟩
      · have hsame : (set_refcnt s e ((s.oids e).oid_refcnt - 1)).oids x = s.oids x := by
          simp [set_refcnt, hxe]
        rw [hsame] at hgx ⊢
        exact hx hgx
  · simp [EINVAL] at h
  · unfold sysctl_unregister_oid at h
    by_cases hmem : e ∈ s.lists (s.oids e).oid_parent
    · simp only [hmem, if_true, Option.some.injEq, Prod.mk.injEq, true_and] at h
      subst h
      have hsub : ∀ l, List.Sublist ((set_list s (s.oids e).oid_parent
          ((s.lists (s.oids e).oid_parent).erase e)).lists l) (s.lists l) := by
        intro l
        simp only [set_list]
        split_ifs with hl
        · subst hl; exact List.erase_sublist _ _
        · exact List.Sublist.refl _
      refine ⟨?_, fun l => List.Pairwise.sublist (hsub l) (hn l), ?_⟩
      · have hnodup : (s.lists (s.oids e).oid_parent).Nodup := nodup_of_names (hn _)
        have habs : sysctl_find_oidname
            (set_list s (s.oids e).oid_parent ((s.lists (s.oids e).oid_parent).erase e))
            (s.oids e).oid_name (s.oids e).oid_parent = none := by
          apply find_oidname_of_absent
          intro q hq
          simp only [set_list, if_true] at hq
          have hq1 : q ∈ s.lists (s.oids e).oid_parent := List.mem_of_mem_erase hq
          have hqe : q ≠ e := fun e2 => by
            rw [e2] at hq
            exact (List.Nodup.not_mem_erase hnodup) hq
          exact names_ne_of_mem (hn _) hq1 hmem hqe
        have hreg := @register_absent (set_list s (s.oids e).oid_parent
          ((s.lists (s.oids e).oid_parent).erase e)) e habs
        rw [hreg]
        have h1 := alike_numbered keep (set_list s (s.oids e).oid_parent
          ((s.lists (s.oids e).oid_parent).erase e)) e hk
        have h2 := alike_set_list h1 (s.oids e).oid_parent
          (insert_in_order (numbered (set_list s (s.oids e).oid_parent
            ((s.lists (s.oids e).oid_parent).erase e)) e) e
            ((s.lists (s.oids e).oid_parent).erase e))
          (s.lists (s.oids e).oid_parent)
          ((insert_in_order_perm _ e _).trans (List.perm_cons_erase hmem).symm)
          (by
            rw [insert_in_order_filter _ e _ keep hk, ← List.erase_filter]
            apply List.erase_of_not_mem
            intro hc
            have := (List.mem_filter.mp hc).2
            rw [hk] at this
            exact absurd this (by decide))
        rw [set_list_restore] at h2
        have hl : (set_list s (s.oids e).oid_parent
            ((s.lists (s.oids e).oid_parent).erase e)).lists (s.oids e).oid_parent
            = (s.lists (s.oids e).oid_parent).erase e := by simp [set_list]
        show alike keep (set_list _ (s.oids e).oid_parent (insert_in_order _ e
          ((set_list s (s.oids e).oid_parent
            ((s.lists (s.oids e).oid_parent).erase e)).lists (s.oids e).oid_parent))) s
        rw [hl]
        exact h2
      · intro x hx hgx
        obtain ⟨hxn, hxm⟩ := hx hgx
        refine ⟨hxn, ?_⟩
        have hxe : x ≠ e := fun e2 => by rw [e2] at hgx; exact hgt hgx
        show x ∈ (set_list s (s.oids e).oid_parent
          ((s.lists (s.oids e).oid_parent).erase e)).lists (s.oids x).oid_parent
        simp only [set_list]
        split_ifs with hl
        · rw [hl] at hxm
          exact (List.mem_erase_of_ne hxe).mpr hxm
        · exact hxm
    · simp [hmem] at h

theorem ctx_restore_append (s : Tree) (a : List Nat) (e : Nat) :
    ctx_restore s (a ++ [e]) = sysctl_register_oid (ctx_restore s a) e := by
  induction a generalizing s with
  | nil => rfl
  | cons x rest ih =>
    simp only [List.cons_append, ctx_restore]
    exact ih _

/-- The restore loop undoes the dry run up to the place and the id of the entries:
for a tree with distinct sibling names and relinkable entries, restoring the entries
the dry run has added to `done` gives a tree alike the one the dry run started in. -/
theorem dry_run_restore_alike (keep : Nat → Bool) (clist : List Nat) :
    ∀ (s : Tree) (done : List Nat) (err : Int) (s1 : Tree) (done1 : List Nat),
      (∀ l, names_distinct s (s.lists l)) → (∀ e ∈ clist, relinkable s e) →
      (∀ e ∈ clist, keep e = false) →
      ctx_dry_run s clist done = some (err, s1, done1) →
      ∃ pre, done1 = pre ++ done ∧ alike keep (ctx_restore s1 pre) s := by
  induction clist with
  | nil =>
    intro s done err s1 done1 _ _ _ h
    simp only [ctx_dry_run, Option.some.injEq, Prod.mk.injEq] at h
    refine ⟨[], by simp [h.2.2], ?_⟩
    rw [← h.2.1]
    exact alike_refl keep s
  | cons e rest ih =>
    intro s done err s1 done1 hn hre hk h
    simp only [ctx_dry_run] at h
    cases hr : sysctl_remove_oid 0 s e false false with
    | none => rw [hr] at h; simp at h
    | some r =>
      obtain ⟨err0, s2⟩ := r
      rw [hr] at h
      simp only at h
      by_cases he : err0 = 0
      · subst he
        simp only [ne_eq, not_true_eq_false, if_false] at h
        obtain ⟨hback, hn2, hkeep⟩ := remove_then_register keep s s2 e hn
          (hre e (List.mem_cons_self _ _)) (hk e (List.mem_cons_self _ _)) hr
        obtain ⟨pre, hpre, hal⟩ := ih s2 (e :: done) err s1 done1 hn2
          (fun x hx => hkeep x (hre x (List.mem_cons_of_mem _ hx)))
          (fun x hx => hk x (List.mem_cons_of_mem _ hx)) h
        refine ⟨pre ++ [e], by simp [hpre], ?_⟩
        rw [ctx_restore_append]
        have hnX := alike_names (alike_symm hal) hn2
        exact alike_trans (alike_register hal hnX e (hk e (List.mem_cons_self _ _))) hback
      · simp only [ne_eq, he, not_false_eq_true, if_true, Option.some.injEq, Prod.mk.injEq] at h
        have hs2 := remove_oid_flat_fail s s2 e false err0 hr he
        refine ⟨[], by simp [h.2.2], ?_⟩
        rw [← h.2.1, hs2]
        exact alike_refl keep s

/-- The commit loop, started in a tree alike the one the dry run started in, ends
in a tree alike the one the dry run ended in. -/
theorem commit_alike (keep : Nat → Bool) (clist : List Nat) :
    ∀ (s t : Tree) (done : List Nat) (s1 : Tree) (done1 : List Nat) (f : Tree),
      alike keep t s → ctx_dry_run s clist done = some (0, s1, done1) →
      ctx_commit t clist = some f → alike keep f s1 := by
  induction clist with
  | nil =>
    intro s t done s1 done1 f hal hd hc
    simp only [ctx_dry_run, Option.some.injEq, Prod.mk.injEq, true_and] at hd
    simp only [ctx_commit, Option.some.injEq] at hc
    rw [← hc, ← hd.1]
    exact hal
  | cons e rest ih =>
    intro s t done s1 done1 f hal hd hc
    simp only [ctx_dry_run] at hd
    cases hr : sysctl_remove_oid 0 s e false false with
    | none => rw [hr] at hd; simp at hd
    | some r =>
      obtain ⟨err0, s2⟩ := r
      rw [hr] at hd
      simp only at hd
      by_cases he : err0 = 0
      · subst he
        simp only [ne_eq, not_true_eq_false, if_false] at hd
        obtain ⟨t2, ht2, hal2⟩ := alike_remove (alike_symm hal) e false true 0 s2 hr
        simp only [ctx_commit, ht2, ne_eq, not_true_eq_false, if_false] at hc
        exact ih s2 t2 (e :: done) s1 done1 f (alike_symm hal2) hd hc
      · simp only [ne_eq, he, not_false_eq_true, if_true, Option.some.injEq, Prod.mk.injEq] at hd
        exact hd.1.elim

/-- The two ways a removal without recursion succeeds. -/
theorem remove_step (s s2 : Tree) (e : Nat) (del : Bool)
    (h : sysctl_remove_oid 0 s e del false = some (0, s2)) :
    e ≠ 0 ∧ is_dyn (s.oids e).oid_kind = true
    ∧ (((s.oids e).oid_refcnt > 1 ∧ s2 = set_refcnt s e ((s.oids e).oid_refcnt - 1))
      ∨ ((s.oids e).oid_refcnt = 1 ∧ e ∈ s.lists (s.oids e).oid_parent
        ∧ (is_node (s.oids e).oid_kind = true → s.lists (SYSCTL_CHILDREN s e) = [])
        ∧ s2 = set_list s (s.oids e).oid_parent ((s.lists (s.oids e).oid_parent).erase e))) := by
  rw [remove_oid_flat] at h
  split_ifs at h with h0 hd hne hgt hz
  · simp [EINVAL] at h
  · simp [EINVAL] at h
  · simp [ENOTEMPTY] at h
  · simp only [Option.some.injEq, Prod.mk.injEq, true_and] at h
    exact ⟨h0, by simpa using hd, Or.inl ⟨hgt, h.symm⟩⟩
  · simp [EINVAL] at h
  · unfold sysctl_unregister_oid at h
    by_cases hmem : e ∈ s.lists (s.oids e).oid_parent
    · simp only [hmem, if_true, Option.some.injEq, Prod.mk.injEq, true_and] at h
      have hr1 : (s.oids e).oid_refcnt = 1 := by omega
      refine ⟨h0, by simpa using hd, Or.inr ⟨hr1, hmem, ?_, h.symm⟩⟩
      intro hnode
      by_contra hc
      exact hne ⟨hnode, hr1, hc⟩
    · simp [hmem] at h

/-- The dry run changes no list but by unlinking entries of the context. -/
theorem dry_run_filter (keep : Nat → Bool) (clist : List Nat) :
    ∀ (s : Tree) (done : List Nat) (err : Int) (s1 : Tree) (done1 : List Nat),
      (∀ e ∈ clist, keep e = false) →
      ctx_dry_run s clist done = some (err, s1, done1) →
      ∀ l, (s1.lists l).filter keep = (s.lists l).filter keep := by
  induction clist with
  | nil =>
    intro s done err s1 done1 _ h l
    simp only [ctx_dry_run, Option.some.injEq, Prod.mk.injEq] at h
    rw [← h.2.1]
  | cons e rest ih =>
    intro s done err s1 done1 hk h l
    simp only [ctx_dry_run] at h
    cases hr : sysctl_remove_oid 0 s e false false with
    | none => rw [hr] at h; simp at h
    | some r =>
      obtain ⟨err0, s2⟩ := r
      rw [hr] at h
      simp only at h
      by_cases he : err0 = 0
      · subst he
        simp only [ne_eq, not_true_eq_false, if_false] at h
        rw [ih s2 (e :: done) err s1 done1 (fun x hx => hk x (List.mem_cons_of_mem _ hx)) h l]
        obtain ⟨-, -, hstep⟩ := remove_step s s2 e false hr
        rcases hstep with ⟨-, hs2⟩ | ⟨-, -, -, hs2⟩
        · rw [hs2]; rfl
        · rw [hs2]
          simp only [set_list]
          split_ifs with hl
          · rw [← List.erase_filter, hl]
            apply List.erase_of_not_mem
            intro hc
            have := (List.mem_filter.mp hc).2
            rw [hk e (List.mem_cons_self _ _)] at this
            exact absurd this (by decide)
          · rfl
      · simp only [ne_eq, he, not_false_eq_true, if_true, Option.some.injEq, Prod.mk.injEq] at h
        rw [← h.2.1, remove_oid_flat_fail s s2 e false err0 hr he]

theorem unreferenced_of_mem {clist : List Nat} {e : Nat} (h : e ∈ clist) :
    unreferenced clist e = false := by
  simp [unreferenced, h]

/-- The effect of `sysctl_ctx_free` on a tree with distinct sibling names and a
context of relinkable entries: after a failure the tree is alike the one before, and
after a success it is alike the tree the dry run ended in. -/
theorem ctx_free_alike (s : Tree) (clist : List Nat) (err : Int) (f : Tree) (clist1 : List Nat)
    (hn : ∀ l, names_distinct s (s.lists l)) (hre : ∀ e ∈ clist, relinkable s e)
    (hrun : sysctl_ctx_free s clist = some (err, f, clist1)) :
    (err ≠ 0 → err = EBUSY ∧ alike (unreferenced clist) f s ∧ clist1 = clist)
    ∧ (err = 0 → clist1 = [] ∧ ∃ s1 done, ctx_dry_run s clist [] = some (0, s1, done)
        ∧ alike (unreferenced clist) f s1) := by
  unfold sysctl_ctx_free at hrun
  cases hd : ctx_dry_run s clist [] with
  | none => rw [hd] at hrun; simp at hrun
  | some r =>
    obtain ⟨err0, s2, done⟩ := r
    rw [hd] at hrun
    simp only at hrun
    obtain ⟨pre, hpre, hal⟩ := dry_run_restore_alike (unreferenced clist) clist s [] err0 s2 done
      hn hre (fun e he => unreferenced_of_mem he) hd
    rw [List.append_nil] at hpre
    subst hpre
    by_cases he : err0 = 0
    · subst he
      simp only [ne_eq, not_true_eq_false, if_false] at hrun
      cases hc : ctx_commit (ctx_restore s2 done) clist with
      | none => rw [hc] at hrun; simp at hrun
      | some s3 =>
        rw [hc] at hrun
        simp only [Option.some.injEq, Prod.mk.injEq] at hrun
        obtain ⟨h1, h2, h3⟩ := hrun
        subst h2
        refine ⟨fun hne => absurd h1.symm hne, fun _ => ⟨h3.symm, s2, done, rfl, ?_⟩⟩
        exact commit_alike (unreferenced clist) clist s (ctx_restore s2 done) [] s2 done s3 hal hd hc
    · simp only [ne_eq, he, not_false_eq_true, if_true, Option.some.injEq, Prod.mk.injEq] at hrun
      obtain ⟨h1, h2, h3⟩ := hrun
      subst h2
      refine ⟨fun _ => ⟨h1.symm, hal, h3.symm⟩, fun h0 => ?_⟩
      rw [← h1] at h0
      exact absurd h0 (by decide)

theorem removed_times_zero (s : Tree) (x : Nat) : removed_times s s 0 x :=
  ⟨rfl, fun _ => ⟨rfl, fun _ => Iff.rfl⟩, fun h => absurd h (by decide)⟩

theorem removed_times_other (s s2 s1 : Tree) (m x : Nat) (ho : s2.oids x = s.oids x)
    (hl : ∀ l, x ∈ s2.lists l ↔ x ∈ s.lists l) (h : removed_times s2 s1 m x) :
    removed_times s s1 m x := by
  unfold removed_times at h ⊢
  rw [ho] at h
  obtain ⟨h1, h2, h3⟩ := h
  refine ⟨h1, ?_, ?_⟩
  · intro hm
    obtain ⟨a, b⟩ := h2 hm
    exact ⟨a, fun l => (b l).trans (hl l)⟩
  · intro hm
    rcases h3 hm with ⟨a, b, c⟩ | ⟨a, b, c, d⟩
    · exact Or.inl ⟨a, b, fun l => (c l).trans (hl l)⟩
    · exact Or.inr ⟨a, (hl _).mp b, c, d⟩

theorem removed_times_dec (s s1 : Tree) (m e : Nat) (hgt : (s.oids e).oid_refcnt > 1)
    (h : removed_times (set_refcnt s e ((s.oids e).oid_refcnt - 1)) s1 m e) :
    removed_times s s1 (m + 1) e := by
  unfold removed_times at h ⊢
  have hself : (set_refcnt s e ((s.oids e).oid_refcnt - 1)).oids e
      = { s.oids e with oid_refcnt := (s.oids e).oid_refcnt - 1 } := by
    simp [set_refcnt]
  rw [hself] at h
  obtain ⟨h1, h2, h3⟩ := h
  refine ⟨h1, fun hm => absurd hm (by omega), fun _ => ?_⟩
  by_cases hm : m = 0
  · obtain ⟨a, b⟩ := h2 hm
    have a : (s1.oids e).oid_refcnt = (s.oids e).oid_refcnt - 1 := a
    exact Or.inl ⟨by omega, by rw [a, hm], b⟩
  · rcases h3 (by omega) with ⟨a, b, c⟩ | ⟨a, b, c, d⟩
    · have a : m < (s.oids e).oid_refcnt - 1 := a
      have b : (s1.oids e).oid_refcnt = (s.oids e).oid_refcnt - 1 - m := b
      exact Or.inl ⟨by omega, by omega, c⟩
    · have a : m = (s.oids e).oid_refcnt - 1 := a
      exact Or.inr ⟨by omega, b, c, d⟩

theorem removed_times_unlink (s s1 : Tree) (m e : Nat) (hr : (s.oids e).oid_refcnt = 1)
    (hmem : e ∈ s.lists (s.oids e).oid_parent) (hnd : (s.lists (s.oids e).oid_parent).Nodup)
    (h : removed_times
      (set_list s (s.oids e).oid_parent ((s.lists (s.oids e).oid_parent).erase e)) s1 m e) :
    removed_times s s1 (m + 1) e := by
  unfold removed_times at h ⊢
  have hnot : e ∉ (set_list s (s.oids e).oid_parent
      ((s.lists (s.oids e).oid_parent).erase e)).lists (s.oids e).oid_parent := by
    simp only [set_list, if_true]
    exact List.Nodup.not_mem_erase hnd
  have ho : (set_list s (s.oids e).oid_parent
      ((s.lists (s.oids e).oid_parent).erase e)).oids e = s.oids e := rfl
  rw [ho] at h
  obtain ⟨h1, h2, h3⟩ := h
  refine ⟨h1, fun hm => absurd hm (by omega), fun _ => ?_⟩
  by_cases hm : m = 0
  · obtain ⟨a, b⟩ := h2 hm
    refine Or.inr ⟨by omega, hmem, ?_, by omega⟩
    intro hc
    exact hnot ((b _).mp hc)
  · rcases h3 (by omega) with ⟨a, _, _⟩ | ⟨_, b, _, _⟩
    · omega
    · exact absurd b hnot

/-- The trace of a successful dry run: every node has been removed as many times as
the context references it. -/
theorem dry_run_counts (clist : List Nat) :
    ∀ (s : Tree) (done : List Nat) (s1 : Tree) (done1 : List Nat),
      (∀ l, (s.lists l).Nodup) →
      ctx_dry_run s clist done = some (0, s1, done1) →
      ∀ x, removed_times s s1 (clist.count x) x := by
  induction clist with
  | nil =>
    intro s done s1 done1 _ h x
    simp only [ctx_dry_run, Option.some.injEq, Prod.mk.injEq, true_and] at h
    rw [← h.1]
    exact removed_times_zero s x
  | cons e rest ih =>
    intro s done s1 done1 hnd h x
    simp only [ctx_dry_run] at h
    cases hr : sysctl_remove_oid 0 s e false false with
    | none => rw [hr] at h; simp at h
    | some r =>
      obtain ⟨err0, s2⟩ := r
      rw [hr] at h
      simp only at h
      by_cases he : err0 = 0
      · subst he
        simp only [ne_eq, not_true_eq_false, if_false] at h
        obtain ⟨-, -, hstep⟩ := remove_step s s2 e false hr
        have hnd2 : ∀ l, (s2.lists l).Nodup := by
          intro l
          rcases hstep with ⟨-, hs2⟩ | ⟨-, -, -, hs2⟩
          · rw [hs2]; exact hnd l
          · rw [hs2]
            simp only [set_list]
            split_ifs
            · exact List.Nodup.erase _ (hnd _)
            · exact hnd l
        have hx := ih s2 (e :: done) s1 done1 hnd2 h x
        by_cases hxe : x = e
        · subst hxe
          rw [List.count_cons_self]
          rcases hstep with ⟨hgt, hs2⟩ | ⟨hr1, hmem, -, hs2⟩
          · rw [hs2] at hx
            exact removed_times_dec s s1 _ x hgt hx
          · rw [hs2] at hx
            exact removed_times_unlink s s1 _ x hr1 hmem (hnd _) hx
        · rw [List.count_cons_of_ne hxe]
          apply removed_times_other s s2 s1 _ x ?_ ?_ hx
          · rcases hstep with ⟨-, hs2⟩ | ⟨-, -, -, hs2⟩
            · rw [hs2]; simp [set_refcnt, hxe]
            · rw [hs2]; rfl
          · intro l
            rcases hstep with ⟨-, hs2⟩ | ⟨-, -, -, hs2⟩
            · rw [hs2]; exact Iff.rfl
            · rw [hs2]
              simp only [set_list]
              split_ifs with hl
              · rw [hl]; exact List.mem_erase_of_ne hxe
              · exact Iff.rfl
      · simp only [ne_eq, he, not_false_eq_true, if_true, Option.some.injEq, Prod.mk.injEq] at h
        exact h.1.elim

/-! ## A context freed with success -/

/-- The trace of a successful `sysctl_ctx_free`, on a tree with distinct sibling
names and a context of relinkable entries: what happens to the referenced nodes,
counted by their entries, and that nothing else changes. -/
theorem ctx_free_counts (s : Tree) (clist : List Nat) (f : Tree)
    (clist1 : List Nat)
    (hn : ∀ l, names_distinct s (s.lists l)) (hre : ∀ e ∈ clist, relinkable s e)
    (hrun : sysctl_ctx_free s clist = some (0, f, clist1)) :
    clist1 = []
    ∧ (∀ x, 0 < clist.count x →
        clist.count x ≤ (s.oids x).oid_refcnt
        ∧ (clist.count x < (s.oids x).oid_refcnt →
            (f.oids x).oid_refcnt = (s.oids x).oid_refcnt - clist.count x
            ∧ ∀ l, x ∈ f.lists l ↔ x ∈ s.lists l)
        ∧ (clist.count x = (s.oids x).oid_refcnt →
            x ∈ s.lists (s.oids x).oid_parent ∧ x ∉ f.lists (s.oids x).oid_parent))
    ∧ (∀ x, x ∉ clist → f.oids x = s.oids x ∧ ∀ l, x ∈ f.lists l ↔ x ∈ s.lists l)
    ∧ (∀ l, (f.lists l).filter (unreferenced clist) = (s.lists l).filter (unreferenced clist)) := by
  obtain ⟨h1, s1, done, hd, hal⟩ := (ctx_free_alike s clist 0 f clist1 hn hre hrun).2 rfl
  have hcnt := dry_run_counts clist s [] s1 done (fun l => nodup_of_names (hn l)) hd
  have hmem : ∀ x l, x ∈ f.lists l ↔ x ∈ s1.lists l := fun x l => (hal.2.2.1 l).mem_iff
  have href : ∀ x, (f.oids x).oid_refcnt = (s1.oids x).oid_refcnt :=
    fun x => (same_but_number_fields (hal.1 x)).2.2.2.2
  refine ⟨h1, ?_, ?_, ?_⟩
  · intro x hx
    obtain ⟨-, -, h3⟩ := hcnt x
    rcases h3 hx with ⟨a, b, c⟩ | ⟨a, b, c, -⟩
    · refine ⟨by omega, fun _ => ⟨by rw [href, b], fun l => (hmem x l).trans (c l)⟩, fun h => ?_⟩
      omega
    · refine ⟨by omega, fun h => ?_, fun _ => ⟨b, fun hc => c ((hmem x _).mp hc)⟩⟩
      omega
  · intro x hx
    obtain ⟨h1x, h2, -⟩ := hcnt x
    obtain ⟨a, b⟩ := h2 (List.count_eq_zero_of_not_mem hx)
    refine ⟨?_, fun l => (hmem x l).trans (b l)⟩
    have hk : unreferenced clist x = true := by simp [unreferenced, hx]
    have hnum := hal.2.1 x hk
    have hsb := hal.1 x
    rw [a] at h1x
    have h1x : s1.oids x = s.oids x := h1x
    rw [h1x] at hnum hsb
    unfold same_but_number at hsb
    cases hf : f.oids x
    cases hs : s.oids x
    rw [hf, hs] at hnum hsb
    simp only [sysctl_oid.mk.injEq] at hsb ⊢
    obtain ⟨e1, -, e3, e4, e5, e6, e7, e8, e9⟩ := hsb
    exact ⟨e1, hnum, e3, e4, e5, e6, e7, e8, e9⟩
  · intro l
    rw [hal.2.2.2 l]
    exact dry_run_filter (unreferenced clist) clist s [] 0 s1 done
      (fun e he => unreferenced_of_mem he) hd l

theorem keeps_static_refl (s : Tree) : keeps_static s s :=
  ⟨fun _ => rfl, fun _ _ => ⟨rfl, fun _ => Iff.rfl⟩⟩

theorem keeps_static_trans (a b c : Tree) (h1 : keeps_static a b) (h2 : keeps_static b c) :
    keeps_static a c := by
  refine ⟨fun x => (h2.1 x).trans (h1.1 x), fun x hx => ?_⟩
  obtain ⟨e1, m1⟩ := h1.2 x hx
  obtain ⟨e2, m2⟩ := h2.2 x (by rw [h1.1 x]; exact hx)
  exact ⟨e2.trans e1, fun l => (m2 l).trans (m1 l)⟩

theorem keeps_static_dec (s : Tree) (e : Nat) (hd : is_dyn (s.oids e).oid_kind = true)
    (k : Nat) : keeps_static s (set_refcnt s e k) := by
  refine ⟨fun x => ?_, fun x hx => ⟨?_, fun _ => Iff.rfl⟩⟩
  · simp only [set_refcnt]
    split_ifs with h
    · subst h; rfl
    · rfl
  · have hxe : x ≠ e := fun h => by rw [h, hd] at hx; exact absurd hx (by decide)
    simp [set_refcnt, hxe]

theorem keeps_static_unlink (s s2 : Tree) (e : Nat) (hd : is_dyn (s.oids e).oid_kind = true)
    (h : sysctl_unregister_oid s e = some s2) : keeps_static s s2 := by
  unfold sysctl_unregister_oid at h
  simp only at h
  split_ifs at h with hm
  simp only [Option.some.injEq] at h
  subst h
  refine ⟨fun _ => rfl, fun x hx => ⟨rfl, fun l => ?_⟩⟩
  have hxe : x ≠ e := fun h => by rw [h, hd] at hx; exact absurd hx (by decide)
  simp only [set_list]
  split_ifs with hl
  · rw [hl]; exact List.mem_erase_of_ne hxe
  · exact Iff.rfl

/-- `sysctl_remove_oid`, with any bound, start node and flags, keeps the static nodes. -/
theorem remove_oid_keeps_static (depth : Nat) (s : Tree) (oidp : Nat) (del recurse : Bool)
    (r : Int × Tree) (h : sysctl_remove_oid depth s oidp del recurse = some r) :
    keeps_static s r.2 :=
  remove_oid_rel keeps_static keeps_static_refl keeps_static_trans (fun _ _ hab => hab.1)
    (fun s e _ hd _ => keeps_static_dec s e hd _)
    (fun s e s2 _ hd hu => keeps_static_unlink s s2 e hd hu) del recurse depth s oidp r h

theorem dry_run_keeps_static (clist : List Nat) :
    ∀ (s : Tree) (done : List Nat) (r : Int × Tree × List Nat),
      ctx_dry_run s clist done = some r → keeps_static s r.2.1 := by
  induction clist with
  | nil =>
    intro s done r h
    simp only [ctx_dry_run, Option.some.injEq] at h
    subst h
    exact keeps_static_refl s
  | cons e rest ih =>
    intro s done r h
    simp only [ctx_dry_run] at h
    cases hr : sysctl_remove_oid 0 s e false false with
    | none => rw [hr] at h; simp at h
    | some r1 =>
      obtain ⟨err0, s2⟩ := r1
      rw [hr] at h
      have h1 : keeps_static s s2 := remove_oid_keeps_static 0 s e false false (err0, s2) hr
      simp only at h
      by_cases he : err0 = 0
      · subst he
        simp only [ne_eq, not_true_eq_false, if_false] at h
        exact keeps_static_trans _ _ _ h1 (ih s2 (e :: done) r h)
      · simp only [ne_eq, he, not_false_eq_true, if_true, Option.some.injEq] at h
        subst h
        exact h1

theorem remove_oid_static (depth : Nat) (s : Tree) (oidp : Nat) (del recurse : Bool)
    (h : is_dyn (s.oids oidp).oid_kind = false) :
    sysctl_remove_oid depth s oidp del recurse = some (EINVAL, s) := by
  unfold sysctl_remove_oid
  by_cases h0 : oidp = 0
  · rw [if_pos h0]
  · rw [if_neg h0, if_pos (by simp [h])]

/-- C15: a node whose `CTLFLAG_DYN` is clear is never removed.  For every tree, a call
of `sysctl_remove_oid` that returns (any bound on the depth, any start node, any `del`
and `recurse`) leaves every such node with the same record and in the same lists, and
called on such a node it returns `EINVAL` with the tree unchanged.  For a tree with
distinct sibling names and a context whose entries with a ref-count above one are
interior nodes linked in the list of their parent, a call of `sysctl_ctx_free` that
returns leaves every such node with the same ref-count and in the same lists.  Both
conditions hold in every state that `sysctl_add_oid` and `sysctl_ctx_free` build
(`reach_any_inv`, `ctx_inv_relinkable`). -/
theorem C15_static_nodes_stay (s : Tree) :
    (∀ (depth oidp : Nat) (del recurse : Bool) (r : Int × Tree),
        sysctl_remove_oid depth s oidp del recurse = some r →
        ∀ x, is_dyn (s.oids x).oid_kind = false →
          r.2.oids x = s.oids x ∧ ∀ l, x ∈ r.2.lists l ↔ x ∈ s.lists l)
    ∧ (∀ (depth oidp : Nat) (del recurse : Bool), is_dyn (s.oids oidp).oid_kind = false →
        sysctl_remove_oid depth s oidp del recurse = some (EINVAL, s))
    ∧ (∀ (clist : List Nat) (r : Int × Tree × List Nat),
        (∀ l, names_distinct s (s.lists l)) → (∀ e ∈ clist, relinkable s e) →
        sysctl_ctx_free s clist = some r →
        ∀ x, is_dyn (s.oids x).oid_kind = false →
          (r.2.1.oids x).oid_refcnt = (s.oids x).oid_refcnt
          ∧ ∀ l, x ∈ r.2.1.lists l ↔ x ∈ s.lists l) := by
  refine ⟨?_, ?_, ?_⟩
  · intro depth oidp del recurse r h x hx
    exact (remove_oid_keeps_static depth s oidp del recurse r h).2 x hx
  · intro depth oidp del recurse h
    exact remove_oid_static depth s oidp del recurse h
  · intro clist r hn hre hrun x hx
    obtain ⟨err, f, clist1⟩ := r
    obtain ⟨hfail, hok⟩ := ctx_free_alike s clist err f clist1 hn hre hrun
    by_cases he : err = 0
    · obtain ⟨-, s1, done, hd, hal⟩ := hok he
      obtain ⟨e1, m1⟩ := (dry_run_keeps_static clist s [] (0, s1, done) hd).2 x hx
      have e1 : s1.oids x = s.oids x := e1
      refine ⟨?_, fun l => ((hal.2.2.1 l).mem_iff).trans (m1 l)⟩
      show (f.oids x).oid_refcnt = _
      rw [(same_but_number_fields (hal.1 x)).2.2.2.2, e1]
    · obtain ⟨-, hal, -⟩ := hfail he
      refine ⟨?_, fun l => (hal.2.2.1 l).mem_iff⟩
      exact (same_but_number_fields (hal.1 x)).2.2.2.2

/-- C15, witness: the context `[41, 40, 42]` of the example tree, whose last entry is
the static leaf `42`: the call returns and leaves `42` in the root list with its
ref-count. -/
theorem C15_static_nodes_stay_witness :
    ∃ r, sysctl_ctx_free tree_busy [41, 40, 42] = some r
      ∧ (r.2.1.oids 42).oid_refcnt = (tree_busy.oids 42).oid_refcnt
      ∧ 42 ∈ r.2.1.lists sysctl__children := by
  have hsome : (sysctl_ctx_free tree_busy [41, 40, 42]).isSome = true := by decide
  cases h : sysctl_ctx_free tree_busy [41, 40, 42] with
  | none => rw [h] at hsome; exact absurd hsome (by decide)
  | some r =>
    have hc := (C15_static_nodes_stay tree_busy).2.2 [41, 40, 42] r tree_busy_inv.1
      (by decide) h 42 (by decide)
    exact ⟨r, rfl, hc.1, (hc.2 sysctl__children).mpr (by decide)⟩

/-- A tree that no sequence of registrations builds: the root list of `tree_twins`
holds the static interior node `70` and the dynamic interior node `71` under the same
name, and the context references `71`.  `sysctl_ctx_free` returns `0`, and the static
node `70`, still linked, has ref-count `2` where it had `1`: the restore loop found it
by name. -/
theorem ctx_free_on_twins :
    is_dyn (tree_twins.oids 70).oid_kind = false
    ∧ 70 ∈ tree_twins.lists sysctl__children
    ∧ (tree_twins.oids 70).oid_refcnt = 1
    ∧ (∀ e ∈ [71], relinkable tree_twins e)
    ∧ (sysctl_ctx_free tree_twins [71]).map
        (fun r => (r.1, (r.2.1.oids 70).oid_refcnt, r.2.1.lists sysctl__children))
      = some (0, 2, [70]) := by
  decide

/-! ## Reference counts and context entries -/

theorem dry_run_sublist (clist : List Nat) :
    ∀ (s : Tree) (done : List Nat) (r : Int × Tree × List Nat),
      ctx_dry_run s clist done = some r → ∀ l, (r.2.1.lists l).Sublist (s.lists l) := by
  induction clist with
  | nil =>
    intro s done r h l
    simp only [ctx_dry_run, Option.some.injEq] at h
    subst h
    exact List.Sublist.refl _
  | cons e rest ih =>
    intro s done r h l
    simp only [ctx_dry_run] at h
    cases hr : sysctl_remove_oid 0 s e false false with
    | none => rw [hr] at h; simp at h
    | some r1 =>
      obtain ⟨err0, s2⟩ := r1
      rw [hr] at h
      simp only at h
      by_cases he : err0 = 0
      · subst he
        simp only [ne_eq, not_true_eq_false, if_false] at h
        refine (ih s2 (e :: done) r h l).trans ?_
        obtain ⟨-, -, hstep⟩ := remove_step s s2 e false hr
        rcases hstep with ⟨-, hs2⟩ | ⟨-, -, -, hs2⟩
        · rw [hs2]; exact List.Sublist.refl _
        · rw [hs2]
          simp only [set_list]
          split_ifs with hl
          · rw [hl]; exact List.erase_sublist _ _
          · exact List.Sublist.refl _
      · simp only [ne_eq, he, not_false_eq_true, if_true, Option.some.injEq] at h
        subst h
        rw [remove_oid_flat_fail s s2 e false err0 hr he]

/-- What `sysctl_ctx_free` never changes, on a tree with distinct sibling names and a
context of relinkable entries: kinds, parents and names stay, no ref-count grows, no
node enters a list, the sibling names stay distinct; and after a failure the
ref-counts and the lists hold what they held. -/
theorem ctx_free_frame (s : Tree) (clist : List Nat) (err : Int) (f : Tree)
    (clist1 : List Nat)
    (hn : ∀ l, names_distinct s (s.lists l)) (hre : ∀ e ∈ clist, relinkable s e)
    (hrun : sysctl_ctx_free s clist = some (err, f, clist1)) :
    (∀ x, (f.oids x).oid_kind = (s.oids x).oid_kind
        ∧ (f.oids x).oid_parent = (s.oids x).oid_parent
        ∧ (f.oids x).oid_name = (s.oids x).oid_name
        ∧ (f.oids x).oid_refcnt ≤ (s.oids x).oid_refcnt)
    ∧ (∀ l x, x ∈ f.lists l → x ∈ s.lists l)
    ∧ (∀ l, names_distinct f (f.lists l))
    ∧ (err ≠ 0 → clist1 = clist
        ∧ ∀ x, (f.oids x).oid_refcnt = (s.oids x).oid_refcnt
          ∧ ∀ l, x ∈ f.lists l ↔ x ∈ s.lists l) := by
  obtain ⟨hfail, hok⟩ := ctx_free_alike s clist err f clist1 hn hre hrun
  by_cases he : err = 0
  · obtain ⟨-, s1, done, hd, hal⟩ := hok he
    have hcnt := dry_run_counts clist s [] s1 done (fun l => nodup_of_names (hn l)) hd
    have hsub := dry_run_sublist clist s [] (0, s1, done) hd
    have hfld : ∀ x, (s1.oids x).oid_kind = (s.oids x).oid_kind
        ∧ (s1.oids x).oid_parent = (s.oids x).oid_parent
        ∧ (s1.oids x).oid_name = (s.oids x).oid_name := by
      intro x
      have h1 := (hcnt x).1
      rw [h1]
      exact ⟨rfl, rfl, rfl⟩
    have hle : ∀ x, (s1.oids x).oid_refcnt ≤ (s.oids x).oid_refcnt := by
      intro x
      obtain ⟨-, h2, h3⟩ := hcnt x
      by_cases hm : clist.count x = 0
      · exact le_of_eq (h2 hm).1
      · rcases h3 (by omega) with ⟨a, b, -⟩ | ⟨a, -, -, d⟩
        · omega
        · omega
    have hn1 : ∀ l, names_distinct s1 (s1.lists l) := fun l =>
      names_distinct_congr (fun q _ => (hfld q).2.2)
        (List.Pairwise.sublist (hsub l) (hn l))
    refine ⟨fun x => ?_, fun l x hx => ?_, alike_names (alike_symm hal) hn1,
      fun hne => absurd he hne⟩
    · obtain ⟨fp, fk, -, fnm, fr⟩ := same_but_number_fields (hal.1 x)
      exact ⟨fk.trans (hfld x).1, fp.trans (hfld x).2.1, fnm.trans (hfld x).2.2,
        by rw [fr]; exact hle x⟩
    · exact (hsub l).subset ((hal.2.2.1 l).mem_iff.mp hx)
  · obtain ⟨-, hal, hc⟩ := hfail he
    refine ⟨fun x => ?_, fun l x hx => (hal.2.2.1 l).mem_iff.mp hx, alike_names (alike_symm hal) hn,
      fun _ => ⟨hc, fun x => ⟨(same_but_number_fields (hal.1 x)).2.2.2.2,
        fun l => (hal.2.2.1 l).mem_iff⟩⟩⟩
    obtain ⟨fp, fk, -, fnm, fr⟩ := same_but_number_fields (hal.1 x)
    exact ⟨fk, fp, fnm, le_of_eq fr⟩

theorem entries_nil (x : Nat) : entries [] x = 0 := rfl

theorem entries_cons (c : List Nat) (ctxs : List (List Nat)) (x : Nat) :
    entries (c :: ctxs) x = c.count x + entries ctxs x := by
  simp [entries]

theorem entries_split (pre : List (List Nat)) (c : List Nat) (post : List (List Nat))
    (x : Nat) : entries (pre ++ c :: post) x = entries pre x + (c.count x + entries post x) := by
  simp [entries]

/-- The tree `sysctl_add_oid` leaves when it makes a new node at a fresh address. -/
theorem add_oid_new_shape (s : Tree) (clist : Option (List Nat)) (parent : Nat) (number : Int)
    (name : List Nat) (kind : Nat) (arg1 : Nat) (arg2 : Int) (handler : Nat)
    (fmt : Option (List Nat)) (newoid newlist : Nat)
    (hp : parent ≠ 0) (h : sysctl_find_oidname s name parent = none)
    (hfresh : ∀ l, newoid ∉ s.lists l) (hlist : s.lists newlist = []) :
    sysctl_add_oid s clist parent number name kind arg1 arg2 handler fmt newoid newlist
      = (newoid,
          (sysctl_add_oid s clist parent number name kind arg1 arg2 handler fmt newoid
            newlist).2.1,
          sysctl_ctx_entry_add clist newoid)
    ∧ (∀ q, q ≠ newoid →
        (sysctl_add_oid s clist parent number name kind arg1 arg2 handler fmt newoid
          newlist).2.1.oids q = s.oids q)
    ∧ same_but_number
        ((sysctl_add_oid s clist parent number name kind arg1 arg2 handler fmt newoid
          newlist).2.1.oids newoid)
        (new_oid parent number name kind arg1 arg2 handler fmt newlist)
    ∧ (∀ l, l ≠ parent →
        (sysctl_add_oid s clist parent number name kind arg1 arg2 handler fmt newoid
          newlist).2.1.lists l = s.lists l)
    ∧ ((sysctl_add_oid s clist parent number name kind arg1 arg2 handler fmt newoid
          newlist).2.1.lists parent).Perm (newoid :: s.lists parent) := by
  have hret : sysctl_add_oid s clist parent number name kind arg1 arg2 handler fmt newoid newlist
      = (newoid,
          (sysctl_add_oid s clist parent number name kind arg1 arg2 handler fmt newoid
            newlist).2.1,
          sysctl_ctx_entry_add clist newoid) := by
    unfold sysctl_add_oid
    simp only [hp, if_false, h]
  refine ⟨hret, ?_⟩
  rw [add_oid_absent s clist parent number name kind arg1 arg2 handler fmt newoid newlist hp h]
  have hlists : (alloc_oid s kind (new_oid parent number name kind arg1 arg2 handler fmt newlist)
      newoid newlist).lists = s.lists := by
    funext q
    simp only [alloc_oid]
    split_ifs with hq
    · have : q = newlist := by
        simp only [Bool.and_eq_true, beq_iff_eq] at hq
        exact hq.2
      rw [this, hlist]
    · rfl
  have hself := alloc_oid_self s kind
    (new_oid parent number name kind arg1 arg2 handler fmt newlist) newoid newlist
  have habs : sysctl_find_oidname
      (alloc_oid s kind (new_oid parent number name kind arg1 arg2 handler fmt newlist)
        newoid newlist)
      ((alloc_oid s kind (new_oid parent number name kind arg1 arg2 handler fmt newlist)
        newoid newlist).oids newoid).oid_name
      ((alloc_oid s kind (new_oid parent number name kind arg1 arg2 handler fmt newlist)
        newoid newlist).oids newoid).oid_parent = none := by
    rw [hself]
    apply find_oidname_of_absent
    intro q hq
    rw [hlists] at hq
    have hq1 : q ∈ s.lists parent := hq
    have hqn : q ≠ newoid := fun e2 => hfresh parent (e2 ▸ hq1)
    rw [alloc_oid_other _ _ _ _ _ _ hqn]
    exact find_oidname_none h q hq1
  rw [register_absent habs, hself]
  have hpar : (new_oid parent number name kind arg1 arg2 handler fmt newlist).oid_parent
      = parent := rfl
  rw [hpar]
  refine ⟨?_, ?_, ?_, ?_⟩
  · intro q hq
    show (numbered _ newoid).oids q = s.oids q
    rw [numbered_other _ _ _ hq, alloc_oid_other _ _ _ _ _ _ hq]
  · show same_but_number ((numbered _ newoid).oids newoid) _
    have := (alike_numbered (fun _ => false) (alloc_oid s kind
      (new_oid parent number name kind arg1 arg2 handler fmt newlist) newoid newlist) newoid rfl).1
        newoid
    rw [hself] at this
    exact this
  · intro l hl
    show (if l = parent then _ else (numbered _ newoid).lists l) = s.lists l
    rw [if_neg hl, numbered_lists, hlists]
  · show (if parent = parent then _ else _ : List Nat).Perm _
    rw [if_pos rfl, hlists]
    exact insert_in_order_perm _ _ _

theorem entries_bump_self (pre : List (List Nat)) (c : List Nat) (post : List (List Nat))
    (p : Nat) : entries (pre ++ (p :: c) :: post) p = entries (pre ++ c :: post) p + 1 := by
  rw [entries_split, entries_split, List.count_cons_self]
  omega

theorem entries_bump_other (pre : List (List Nat)) (c : List Nat) (post : List (List Nat))
    (p x : Nat) (h : x ≠ p) :
    entries (pre ++ (p :: c) :: post) x = entries (pre ++ c :: post) x := by
  rw [entries_split, entries_split, List.count_cons_of_ne h]

/-- The invariant after `sysctl_add_oid` has found an interior node under the name. -/
theorem count_inv_bump (s0 s : Tree) (pre : List (List Nat)) (c : List Nat)
    (post : List (List Nat)) (p parent : Nat)
    (hinv : count_inv s0 s (pre ++ c :: post)) (hp : p ∈ s.lists parent)
    (hnode : is_node (s.oids p).oid_kind = true) :
    count_inv s0 (set_refcnt s p ((s.oids p).oid_refcnt + 1)) (pre ++ (p :: c) :: post) := by
  obtain ⟨i1, i6, i7, i2, i3, i4, i5⟩ := hinv
  have hname : ∀ q, ((set_refcnt s p ((s.oids p).oid_refcnt + 1)).oids q).oid_name
      = (s.oids q).oid_name := by
    intro q; simp only [set_refcnt]; split_ifs with hq
    · subst hq; rfl
    · rfl
  have hpar : ∀ q, ((set_refcnt s p ((s.oids p).oid_refcnt + 1)).oids q).oid_parent
      = (s.oids q).oid_parent := by
    intro q; simp only [set_refcnt]; split_ifs with hq
    · subst hq; rfl
    · rfl
  have hkind : ∀ q, ((set_refcnt s p ((s.oids p).oid_refcnt + 1)).oids q).oid_kind
      = (s.oids q).oid_kind := by
    intro q; simp only [set_refcnt]; split_ifs with hq
    · subst hq; rfl
    · rfl
  have hself : ((set_refcnt s p ((s.oids p).oid_refcnt + 1)).oids p).oid_refcnt
      = (s.oids p).oid_refcnt + 1 := by simp [set_refcnt]
  have hother : ∀ q, q ≠ p → (set_refcnt s p ((s.oids p).oid_refcnt + 1)).oids q = s.oids q := by
    intro q hq; simp [set_refcnt, hq]
  refine ⟨fun l => names_distinct_congr (fun q _ => hname q) (i1 l), ?_, i7, ?_, ?_, ?_, i5⟩
  · intro l x hx
    rw [hpar]
    exact i6 l x hx
  · intro l x hx
    by_cases hxp : x = p
    · subst hxp
      rw [hself, entries_bump_self]
      obtain ⟨a, b⟩ := i2 l x hx
      exact ⟨fun h => by rw [a h]; omega, fun h => by rw [b h]⟩
    · rw [hother x hxp, entries_bump_other _ _ _ _ _ hxp]
      exact i2 l x hx
  · intro x hx
    by_cases hxp : x = p
    · subst hxp
      exact ⟨parent, hp⟩
    · rw [entries_bump_other _ _ _ _ _ hxp] at hx
      exact i3 x hx
  · intro l x hx hgt
    rw [hkind]
    by_cases hxp : x = p
    · subst hxp; exact hnode
    · rw [hother x hxp] at hgt
      exact i4 l x hx hgt

/-- The invariant after `sysctl_add_oid` has linked a new node. -/
theorem count_inv_new (s0 s s1 : Tree) (pre : List (List Nat)) (c : List Nat)
    (post : List (List Nat)) (parent newoid : Nat) (node : sysctl_oid)
    (hinv : count_inv s0 s (pre ++ c :: post))
    (h0 : newoid ≠ 0) (hfresh : ∀ l, newoid ∉ s.lists l)
    (hother : ∀ q, q ≠ newoid → s1.oids q = s.oids q)
    (hself : same_but_number (s1.oids newoid) node)
    (hnpar : node.oid_parent = parent) (hnref : node.oid_refcnt = 1)
    (hlists : ∀ l, l ≠ parent → s1.lists l = s.lists l)
    (hperm : (s1.lists parent).Perm (newoid :: s.lists parent))
    (hnames : names_distinct s1 (s1.lists parent)) :
    count_inv s0 s1 (pre ++ (newoid :: c) :: post) := by
  obtain ⟨i1, i6, i7, i2, i3, i4, i5⟩ := hinv
  obtain ⟨fp, -, -, -, fr⟩ := same_but_number_fields hself
  have hmem : ∀ l x, x ∈ s1.lists l → x = newoid ∧ l = parent ∨ x ≠ newoid ∧ x ∈ s.lists l := by
    intro l x hx
    by_cases hl : l = parent
    · subst hl
      rcases List.mem_cons.mp (hperm.mem_iff.mp hx) with h | h
      · exact Or.inl ⟨h, rfl⟩
      · exact Or.inr ⟨fun e2 => hfresh l (e2 ▸ h), h⟩
    · rw [hlists l hl] at hx
      exact Or.inr ⟨fun e2 => hfresh l (e2 ▸ hx), hx⟩
  have hgrow : ∀ l x, x ∈ s.lists l → x ∈ s1.lists l := by
    intro l x hx
    by_cases hl : l = parent
    · subst hl
      exact hperm.mem_iff.mpr (List.mem_cons_of_mem _ hx)
    · rw [hlists l hl]; exact hx
  have hzero : entries (pre ++ c :: post) newoid = 0 := by
    by_contra hc
    obtain ⟨l, hl⟩ := i3 newoid (by omega)
    exact hfresh l hl
  refine ⟨?_, ?_, ?_, ?_, ?_, ?_, ?_⟩
  · intro l
    by_cases hl : l = parent
    · rw [hl]; exact hnames
    · rw [hlists l hl]
      exact names_distinct_congr
        (fun q hq => by rw [hother q (fun e2 => hfresh l (e2 ▸ hq))]) (i1 l)
  · intro l x hx
    rcases hmem l x hx with ⟨h1, h2⟩ | ⟨h1, h2⟩
    · rw [h1, fp, hnpar, h2]
    · rw [hother x h1]; exact i6 l x h2
  · intro l hc
    rcases hmem l 0 hc with ⟨h1, -⟩ | ⟨-, h2⟩
    · exact h0 h1.symm
    · exact i7 l h2
  · intro l x hx
    rcases hmem l x hx with ⟨h1, -⟩ | ⟨h1, h2⟩
    · subst h1
      rw [fr, hnref, entries_bump_self, hzero]
      refine ⟨fun h => ?_, fun _ => rfl⟩
      obtain ⟨l0, hl0⟩ := h
      obtain ⟨l1, hl1⟩ := i5 l0 x hl0
      exact absurd hl1 (hfresh l1)
    · rw [hother x h1, entries_bump_other _ _ _ _ _ h1]
      exact i2 l x h2
  · intro x hx
    by_cases hxn : x = newoid
    · subst hxn
      exact ⟨parent, hperm.mem_iff.mpr (List.mem_cons_self _ _)⟩
    · rw [entries_bump_other _ _ _ _ _ hxn] at hx
      obtain ⟨l, hl⟩ := i3 x hx
      exact ⟨l, hgrow l x hl⟩
  · intro l x hx hgt
    rcases hmem l x hx with ⟨h1, -⟩ | ⟨h1, h2⟩
    · subst h1
      rw [fr, hnref] at hgt
      omega
    · rw [hother x h1] at hgt ⊢
      exact i4 l x h2 hgt
  · intro l0 x hx
    obtain ⟨l, hl⟩ := i5 l0 x hx
    exact ⟨l, hgrow l x hl⟩

/-- The invariant is kept by `sysctl_add_oid` with a context. -/
theorem count_inv_add (s0 s : Tree) (pre : List (List Nat)) (c : List Nat)
    (post : List (List Nat)) (parent : Nat) (number : Int) (name : List Nat) (kind : Nat)
    (arg1 : Nat) (arg2 : Int) (handler : Nat) (fmt : Option (List Nat))
    (newoid newlist ret : Nat) (s1 : Tree) (c1 : List Nat)
    (hinv : count_inv s0 s (pre ++ c :: post))
    (h0 : newoid ≠ 0) (hfresh : ∀ l, newoid ∉ s.lists l) (hlist : s.lists newlist = [])
    (hadd : sysctl_add_oid s (some c) parent number name kind arg1 arg2 handler fmt newoid
      newlist = (ret, s1, some c1)) :
    count_inv s0 s1 (pre ++ c1 :: post) := by
  by_cases hp : parent = 0
  · unfold sysctl_add_oid at hadd
    rw [if_pos hp] at hadd
    simp only [Prod.mk.injEq, Option.some.injEq] at hadd
    obtain ⟨-, rfl, rfl⟩ := hadd
    exact hinv
  cases hf : sysctl_find_oidname s name parent with
  | some p =>
    have hmem := (find_oidname_some hf).1
    have hp0 : p ≠ 0 := fun e => hinv.2.2.1 parent (e ▸ hmem)
    unfold sysctl_add_oid at hadd
    simp only [hp, if_false, hf] at hadd
    by_cases hn : is_node (s.oids p).oid_kind = true
    · rw [if_pos hn] at hadd
      simp only [sysctl_ctx_entry_add, hp0, if_false, Prod.mk.injEq, Option.some.injEq] at hadd
      obtain ⟨-, rfl, rfl⟩ := hadd
      exact count_inv_bump s0 s pre c post p parent hinv hmem hn
    · rw [if_neg hn] at hadd
      simp only [Prod.mk.injEq, Option.some.injEq] at hadd
      obtain ⟨-, rfl, rfl⟩ := hadd
      exact hinv
  | none =>
    obtain ⟨hret, ho, hs, hl, hperm⟩ := add_oid_new_shape s (some c) parent number name kind arg1
      arg2 handler fmt newoid newlist hp hf hfresh hlist
    have hnames := add_oid_names s (some c) parent number name kind arg1 arg2 handler fmt newoid
      newlist (hinv.1 parent) (hfresh parent)
    rw [hadd] at hret ho hs hl hperm hnames
    simp only [sysctl_ctx_entry_add, h0, if_false, Prod.mk.injEq, Option.some.injEq] at hret
    obtain ⟨-, -, rfl⟩ := hret
    exact count_inv_new s0 s s1 pre c post parent newoid _ hinv h0 hfresh ho hs rfl rfl hl hperm
      hnames

/-- The invariant is kept by `sysctl_ctx_free`. -/
theorem count_inv_free (s0 s : Tree) (pre : List (List Nat)) (c : List Nat)
    (post : List (List Nat)) (err : Int) (s1 : Tree) (c1 : List Nat)
    (hinv : count_inv s0 s (pre ++ c :: post))
    (hrun : sysctl_ctx_free s c = some (err, s1, c1)) :
    count_inv s0 s1 (pre ++ c1 :: post) := by
  obtain ⟨i1, i6, i7, i2, i3, i4, i5⟩ := hinv
  have hre : ∀ e ∈ c, relinkable s e := by
    intro e he hgt
    have hpos : 0 < entries (pre ++ c :: post) e := by
      rw [entries_split]
      have := List.count_pos_iff.mpr he
      omega
    obtain ⟨l, hl⟩ := i3 e hpos
    refine ⟨i4 l e hl hgt, ?_⟩
    rw [i6 l e hl]; exact hl
  obtain ⟨hfld, hsub, hn1, hfail⟩ := ctx_free_frame s c err s1 c1 i1 hre hrun
  by_cases he : err = 0
  · subst he
    obtain ⟨hc1, hcnt, hun, -⟩ := ctx_free_counts s c s1 c1 i1 hre hrun
    subst hc1
    have hE : ∀ x, entries (pre ++ c :: post) x
        = entries (pre ++ [] :: post) x + c.count x := by
      intro x
      rw [entries_split, entries_split, List.count_nil]
      omega
    have hge : ∀ l x, x ∈ s.lists l → entries (pre ++ c :: post) x ≤ (s.oids x).oid_refcnt := by
      intro l x hx
      obtain ⟨a, b⟩ := i2 l x hx
      by_cases hb : ∃ l0, x ∈ s0.lists l0
      · rw [a hb]; omega
      · rw [b (fun l0 h => hb ⟨l0, h⟩)]
    have hstay : ∀ l x, x ∈ s.lists l →
        (c.count x = 0 ∨ c.count x < (s.oids x).oid_refcnt) → x ∈ s1.lists l := by
      intro l x hx hm
      by_cases h0 : c.count x = 0
      · exact ((hun x (List.count_eq_zero.mp h0)).2 l).mpr hx
      · exact (((hcnt x (by omega)).2.1 (by omega)).2 l).mpr hx
    refine ⟨hn1, ?_, ?_, ?_, ?_, ?_, ?_⟩
    · intro l x hx
      rw [(hfld x).2.1]
      exact i6 l x (hsub l x hx)
    · intro l hc
      exact i7 l (hsub l 0 hc)
    · intro l x hx
      have hxs := hsub l x hx
      have hr : (s1.oids x).oid_refcnt + c.count x = (s.oids x).oid_refcnt := by
        by_cases h0 : c.count x = 0
        · rw [(hun x (List.count_eq_zero.mp h0)).1, h0, Nat.add_zero]
        · obtain ⟨a, b, d⟩ := hcnt x (by omega)
          by_cases hlt : c.count x < (s.oids x).oid_refcnt
          · rw [(b hlt).1]; omega
          · have hnot := (d (by omega)).2
            rw [i6 l x hxs] at hnot
            exact absurd hx hnot
      obtain ⟨a, b⟩ := i2 l x hxs
      have := hE x
      exact ⟨fun h => by have := a h; omega, fun h => by have := b h; omega⟩
    · intro x hx
      have hpos : 0 < entries (pre ++ c :: post) x := by rw [hE]; omega
      obtain ⟨l, hl⟩ := i3 x hpos
      refine ⟨l, hstay l x hl ?_⟩
      have := hge l x hl
      have := hE x
      by_cases h0 : c.count x = 0
      · exact Or.inl h0
      · right; omega
    · intro l x hx hgt
      rw [(hfld x).1]
      exact i4 l x (hsub l x hx) (by have := (hfld x).2.2.2; omega)
    · intro l0 x hx
      obtain ⟨l, hl⟩ := i5 l0 x hx
      refine ⟨l, hstay l x hl ?_⟩
      have := (i2 l x hl).1 ⟨l0, hx⟩
      have := hE x
      by_cases h0 : c.count x = 0
      · exact Or.inl h0
      · right; omega
  · obtain ⟨hc1, hsame⟩ := hfail he
    subst hc1
    refine ⟨hn1, ?_, ?_, ?_, ?_, ?_, ?_⟩
    · intro l x hx
      rw [(hfld x).2.1]
      exact i6 l x (hsub l x hx)
    · intro l hc
      exact i7 l (hsub l 0 hc)
    · intro l x hx
      rw [(hsame x).1]
      exact i2 l x (hsub l x hx)
    · intro x hx
      obtain ⟨l, hl⟩ := i3 x hx
      exact ⟨l, ((hsame x).2 l).mpr hl⟩
    · intro l x hx hgt
      rw [(hfld x).1]
      rw [(hsame x).1] at hgt
      exact i4 l x (hsub l x hx) hgt
    · intro l0 x hx
      obtain ⟨l, hl⟩ := i5 l0 x hx
      exact ⟨l, ((hsame x).2 l).mpr hl⟩

/-- Every reachable state satisfies the invariant, from a tree whose linked nodes
have ref-count one, distinct sibling names and the parent they are linked under. -/
theorem reach_inv (s0 : Tree)
    (h1 : ∀ l, ∀ x ∈ s0.lists l, (s0.oids x).oid_refcnt = 1)
    (hn : ∀ l, names_distinct s0 (s0.lists l))
    (hp : ∀ l, ∀ x ∈ s0.lists l, (s0.oids x).oid_parent = l)
    (hz : ∀ l, (0 : Nat) ∉ s0.lists l) :
    ∀ (s : Tree) (ctxs : List (List Nat)), reach s0 s ctxs → count_inv s0 s ctxs := by
  intro s ctxs hr
  induction hr with
  | start =>
    refine ⟨hn, hp, hz, ?_, ?_, ?_, fun l0 x hx => ⟨l0, hx⟩⟩
    · intro l x hx
      refine ⟨fun _ => by rw [h1 l x hx, entries_nil], fun h => absurd hx (h l)⟩
    · intro x hx
      rw [entries_nil] at hx
      exact absurd hx (by decide)
    · intro l x hx hgt
      rw [h1 l x hx] at hgt
      exact absurd hgt (by decide)
  | ctx_init _ ih =>
    have he : ∀ (cs : List (List Nat)) (x : Nat), entries ([] :: cs) x = entries cs x := by
      intro cs x
      rw [entries_cons, List.count_nil, Nat.zero_add]
    unfold count_inv at ih ⊢
    simp only [he]
    exact ih
  | add_oid parent number name kind arg1 arg2 handler fmt newoid newlist ret s1 c1 _ h0 hfresh
      hlist hadd ih =>
    exact count_inv_add s0 _ _ _ _ parent number name kind arg1 arg2 handler fmt newoid newlist
      ret s1 c1 ih h0 hfresh hlist hadd
  | ctx_free err s1 c1 _ hrun ih =>
    exact count_inv_free s0 _ _ _ _ err s1 c1 ih hrun

/-- C18: in every state reached from a tree whose linked nodes have ref-count one
(with distinct sibling names, each node linked under the parent its record names, and
`NULL` on no list) by `sysctl_ctx_init`, by `sysctl_add_oid` calls that supply a
context and by `sysctl_ctx_free` calls, every linked node, so every linked interior
node with a ref-count above one, has as ref-count the number of entries that
reference it over all contexts, plus one when the node was linked in the initial
tree. -/
theorem C18_refcount_counts_entries (s0 s : Tree) (ctxs : List (List Nat))
    (h1 : ∀ l, ∀ x ∈ s0.lists l, (s0.oids x).oid_refcnt = 1)
    (hn : ∀ l, names_distinct s0 (s0.lists l))
    (hp : ∀ l, ∀ x ∈ s0.lists l, (s0.oids x).oid_parent = l)
    (hz : ∀ l, (0 : Nat) ∉ s0.lists l)
    (hr : reach s0 s ctxs) :
    ∀ l, ∀ x ∈ s.lists l,
      ((∃ l0, x ∈ s0.lists l0) → (s.oids x).oid_refcnt = 1 + entries ctxs x)
      ∧ ((∀ l0, x ∉ s0.lists l0) → (s.oids x).oid_refcnt = entries ctxs x) :=
  (reach_inv s0 h1 hn hp hz s ctxs hr).2.2.2.1

/-- C18, witness: the interior node `d` added under the root of the example tree
through two contexts is node `60`, referenced once by each context, and its ref-count
is the number of its entries. -/
theorem C18_refcount_counts_entries_witness :
    (tree_shared2.oids 60).oid_refcnt = entries [[60], [60]] 60 := by
  have hfresh0 : ∀ l, 60 ∉ tree_kern.lists l :=
    fun l => tree_kern_lists l (fun ls => 60 ∉ ls) (by decide) (by decide) (by decide)
  have r0 : reach tree_kern tree_kern [[], []] := reach.ctx_init (reach.ctx_init reach.start)
  have r1 : reach tree_kern tree_shared1 [[60], []] :=
    @reach.add_oid tree_kern tree_kern [] [] [[]] 1 OID_AUTO [100] CTLTYPE_NODE 0 0 0 none 60 61
      60 tree_shared1 [60] r0 (by decide) hfresh0 (by decide) rfl
  have hsh := add_oid_new_shape tree_kern (some []) 1 OID_AUTO [100] CTLTYPE_NODE 0 0 0 none 60
    61 (by decide) (by decide) hfresh0 (by decide)
  have hfresh1 : ∀ l, 62 ∉ tree_shared1.lists l := by
    intro l
    by_cases hl : l = 1
    · subst hl; decide
    · have h2 : tree_shared1.lists l = tree_kern.lists l := hsh.2.2.2.1 l hl
      rw [h2]
      exact tree_kern_lists l (fun ls => 62 ∉ ls) (by decide) (by decide) (by decide)
  have r2 : reach tree_kern tree_shared2 [[60], [60]] :=
    @reach.add_oid tree_kern tree_shared1 [[60]] [] [] 1 OID_AUTO [100] CTLTYPE_NODE 0 0 0 none
      62 63 60 tree_shared2 [60] r1 (by decide) hfresh1 (by decide) rfl
  have hp : ∀ l, ∀ x ∈ tree_kern.lists l, (tree_kern.oids x).oid_parent = l := by
    intro l
    by_cases e1 : l = 1
    · subst e1; decide
    · by_cases e3 : l = 3
      · subst e3; decide
      · have : tree_kern.lists l = [] := by simp [tree_kern, sysctl__children, e1, e3]
        rw [this]
        intro x hx
        exact absurd hx (List.not_mem_nil _)
  exact ((C18_refcount_counts_entries tree_kern tree_shared2 [[60], [60]]
    (fun l => tree_kern_lists l (fun ls => ∀ x ∈ ls, (tree_kern.oids x).oid_refcnt = 1)
      (by decide) (by decide) (by decide))
    tree_kern_inv.1 hp
    (fun l => tree_kern_lists l (fun ls => 0 ∉ ls) (by decide) (by decide) (by decide))
    r2) 1 60 (by decide)).2 hfresh0

/-- C18, counterexample.  All nodes of `tree_kern` and of `tree_dyn` have
ref-count one.  An interior node added through two contexts is held once by each and
has ref-count `2`, not `1 + 2`.  An interior node of the initial tree added once more
without a context has ref-count `2` and no entry.  And the dynamic interior node of
`tree_dyn`, added twice more through one context, has ref-count `3` and two entries;
a call of `sysctl_remove_oid` on it leaves ref-count `2` with the two entries. -/
theorem C18_counterexample :
    ((∀ x ∈ [50, 51], (tree_kern.oids x).oid_refcnt = 1)
      ∧ (sysctl_add_oid tree_kern (some []) 1 OID_AUTO [100] CTLTYPE_NODE 0 0 0 none 60 61).2.2
          = some [60]
      ∧ (sysctl_add_oid tree_shared1 (some []) 1 OID_AUTO [100] CTLTYPE_NODE 0 0 0 none 62
          63).2.2 = some [60]
      ∧ 60 ∈ tree_shared2.lists sysctl__children
      ∧ is_node (tree_shared2.oids 60).oid_kind = true
      ∧ (tree_shared2.oids 60).oid_refcnt = 2
      ∧ entries [[60], [60]] 60 = 2)
    ∧ (((sysctl_add_oid tree_kern none 1 OID_AUTO name_kern CTLTYPE_NODE 0 0 0 none 60
          61).2.1.oids 50).oid_refcnt = 2
      ∧ (sysctl_add_oid tree_kern none 1 OID_AUTO name_kern CTLTYPE_NODE 0 0 0 none 60 61).2.2
          = none)
    ∧ ((tree_dyn.oids 80).oid_refcnt = 1
      ∧ (sysctl_add_oid
          (sysctl_add_oid tree_dyn (some []) 1 OID_AUTO [100] CTLTYPE_NODE 0 0 0 none 60 61).2.1
          (some [80]) 1 OID_AUTO [100] CTLTYPE_NODE 0 0 0 none 60 61).2.2 = some [80, 80]
      ∧ ((sysctl_add_oid
          (sysctl_add_oid tree_dyn (some []) 1 OID_AUTO [100] CTLTYPE_NODE 0 0 0 none 60 61).2.1
          (some [80]) 1 OID_AUTO [100] CTLTYPE_NODE 0 0 0 none 60 61).2.1.oids 80).oid_refcnt = 3
      ∧ (sysctl_remove_oid 0
          (sysctl_add_oid
            (sysctl_add_oid tree_dyn (some []) 1 OID_AUTO [100] CTLTYPE_NODE 0 0 0 none 60
              61).2.1
            (some [80]) 1 OID_AUTO [100] CTLTYPE_NODE 0 0 0 none 60 61).2.1 80 false false).map
          (fun r => (r.1, (r.2.oids 80).oid_refcnt)) = some (0, 2)) := by
  decide

/-! ## Enumeration: a node without children -/

/-- The enumeration on two trees without an empty interior node in the way: the
successor of the empty path and of each returned path, up to `ENOENT`. -/
theorem next_ls_examples :
    dfs_paths tree_kern CTL_MAXNAME sysctl__children = [[1, 10]]
    ∧ sysctl_sysctl_next_ls tree_kern CTL_MAXNAME sysctl__children (some []) 0
        = some (some [1, 10])
    ∧ sysctl_sysctl_next_ls tree_kern CTL_MAXNAME sysctl__children (some [1, 10]) 2 = some none
    ∧ dfs_paths tree_busy CTL_MAXNAME sysctl__children = [[7], [101]]
    ∧ sysctl_sysctl_next_ls tree_busy CTL_MAXNAME sysctl__children (some []) 0
        = some (some [7])
    ∧ sysctl_sysctl_next_ls tree_busy CTL_MAXNAME sysctl__children (some [7]) 1
        = some (some [101])
    ∧ sysctl_sysctl_next_ls tree_busy CTL_MAXNAME sysctl__children (some [101]) 1
        = some none := by
  decide

theorem tree_hollow_inv : sibling_inv tree_hollow := by
  constructor <;> intro l <;> by_cases e1 : l = 1
  · subst e1; decide
  · by_cases e9 : l = 9
    · subst e9; decide
    · have : tree_hollow.lists l = [] := by simp [tree_hollow, sysctl__children, e1, e9]
      rw [this]; exact List.Pairwise.nil
  · subst e1; decide
  · by_cases e9 : l = 9
    · subst e9; decide
    · have : tree_hollow.lists l = [] := by simp [tree_hollow, sysctl__children, e1, e9]
      rw [this]; exact List.Pairwise.nil

/-- C11: the enumeration meets an interior node without handler and without
children.  `tree_hollow` satisfies the sibling invariants and has depth two; its
depth-first sequence is the one path `[1, 2]` of the leaf `92`.  The first step of the
iteration, `sysctl_sysctl_next` on the empty path, has no result, whatever stands in
memory behind the empty path: the scan of list `9` passes the empty node `91`, sets
`namelen` to `1` at the label `next` and then reads `*name` through the null pointer
of the unconstrained recursion.  In `tree_hollow_root` the empty node is a root child
and `name` is not null: with `7` standing behind the empty path the first step
returns `ENOENT` and the leaf with path `[2]` is never returned. -/
theorem C11_next_after_empty_node (w : Nat) (env : kenv) (stale : List Int)
    (req : sysctl_req) :
    sibling_inv tree_hollow
    ∧ dfs_paths tree_hollow CTL_MAXNAME sysctl__children = [[1, 2]]
    ∧ sysctl_sysctl_next_ls tree_hollow CTL_MAXNAME sysctl__children (some stale) 0 = none
    ∧ sysctl_sysctl_next w env { ks_kern with tree := tree_hollow } 0 (handler_arg.path stale) 0
        req = none
    ∧ dfs_paths tree_hollow_root CTL_MAXNAME sysctl__children = [[2]]
    ∧ sysctl_sysctl_next_ls tree_hollow_root CTL_MAXNAME sysctl__children (some [7]) 0
        = some none
    ∧ sysctl_sysctl_next w env { ks_kern with tree := tree_hollow_root } 0
        (handler_arg.path [7]) 0 req
        = some (ENOENT, { ks_kern with tree := tree_hollow_root }, req) := by
  have h1 : sysctl_sysctl_next_ls tree_hollow CTL_MAXNAME sysctl__children (some stale) 0
      = none := rfl
  have h2 : sysctl_sysctl_next_ls tree_hollow_root CTL_MAXNAME sysctl__children (some [7]) 0
      = some none := by decide
  have hz : size_of_int 32 0 = 0 := by decide
  refine ⟨tree_hollow_inv, by decide, h1, ?_, by decide, h2, ?_⟩
  · simp only [sysctl_sysctl_next, handler_arg.ints, hz]
    rw [h1]
  · simp only [sysctl_sysctl_next, handler_arg.ints, hz]
    rw [h2]

/-! ## The states `sysctl_add_oid` and `sysctl_ctx_free` build -/

/-- In a state that satisfies the invariant of the reachable states the sibling
names are distinct and every entry of every context can be linked again. -/
theorem count_inv_relinkable (s0 s : Tree) (ctxs : List (List Nat))
    (h : count_inv s0 s ctxs) :
    (∀ l, names_distinct s (s.lists l)) ∧ ∀ c ∈ ctxs, ∀ e ∈ c, relinkable s e := by
  obtain ⟨i1, i6, -, -, i3, i4, -⟩ := h
  refine ⟨i1, ?_⟩
  intro c hc e he hgt
  obtain ⟨pre, post, hsplit⟩ := List.append_of_mem hc
  have hpos : 0 < entries ctxs e := by
    rw [hsplit, entries_split]
    have := List.count_pos_iff.mpr he
    omega
  obtain ⟨l, hl⟩ := i3 e hpos
  refine ⟨i4 l e hl hgt, ?_⟩
  rw [i6 l e hl]; exact hl

/-- The node shared by two contexts: freeing the first context returns `0` and leaves
node `60` in the root list with ref-count `1`; freeing the second then returns `0`
and unlinks it. -/
theorem ctx_free_shared_example :
    (tree_shared2.oids 60).oid_refcnt = 2
    ∧ (sysctl_ctx_free tree_shared2 [60]).map
        (fun r => (r.1, (r.2.1.oids 60).oid_refcnt, r.2.1.lists sysctl__children, r.2.2))
      = some (0, 1, [50, 60], [])
    ∧ ((sysctl_ctx_free tree_shared2 [60]).bind (fun r => sysctl_ctx_free r.2.1 [60])).map
        (fun r => (r.1, r.2.1.lists sysctl__children, r.2.2))
      = some (0, [50], []) := by
  decide

/-! ## Recursive removal stops half way -/

theorem remove_children_norec (rm1 rm2 : Tree → Nat → Option (Int × Tree)) (s : Tree)
    (l : List Nat) : remove_children false rm1 s l = remove_children false rm2 s l := by
  cases l with
  | nil => rfl
  | cons p rest => simp [remove_children]

/-- Without recursion the bound on the depth plays no part. -/
theorem remove_oid_norec (depth : Nat) (s : Tree) (oidp : Nat) (del : Bool) :
    sysctl_remove_oid depth s oidp del false = sysctl_remove_oid 0 s oidp del false := by
  unfold sysctl_remove_oid
  rw [remove_children_norec _ (fun _ _ => none)]

/-- C26: recursive removal is not all-or-nothing, removal without recursion is.  In
`tree_half_removed` the dynamic interior node `100` has ref-count `1` and the children
`101` (a dynamic leaf) and `102` (a static leaf): `sysctl_remove_oid(100, 0, 1)` returns
`EINVAL`, and the child list that was `[101, 102]` is `[102]` afterwards, while node
`100` is still linked.  And every call with `recurse = 0` that returns a non-zero value
leaves the tree as it was, for any bound on the depth, any node and any `del`. -/
theorem C26_partial_recursive_removal :
    (is_dyn (tree_half_removed.oids 100).oid_kind = true
      ∧ is_node (tree_half_removed.oids 100).oid_kind = true
      ∧ (tree_half_removed.oids 100).oid_refcnt = 1
      ∧ tree_half_removed.lists (SYSCTL_CHILDREN tree_half_removed 100) = [101, 102]
      ∧ is_dyn (tree_half_removed.oids 101).oid_kind = true
      ∧ is_node (tree_half_removed.oids 101).oid_kind = false
      ∧ is_dyn (tree_half_removed.oids 102).oid_kind = false
      ∧ is_node (tree_half_removed.oids 102).oid_kind = false
      ∧ (sysctl_remove_oid 1 tree_half_removed 100 false true).map
          (fun r => (r.1, r.2.lists 12, r.2.lists sysctl__children))
        = some (EINVAL, [102], [100]))
    ∧ (∀ (depth : Nat) (s : Tree) (oidp : Nat) (del : Bool) (error : Int) (s1 : Tree),
        sysctl_remove_oid depth s oidp del false = some (error, s1) → error ≠ 0 → s1 = s) := by
  refine ⟨by decide, ?_⟩
  intro depth s oidp del error s1 h he
  rw [remove_oid_norec] at h
  exact remove_oid_flat_fail s s1 oidp del error h he

/-- C26, witness: the static leaf `42` of the example tree is refused without
recursion, and the tree is as it was. -/
theorem C26_partial_recursive_removal_witness :
    ∃ s1, sysctl_remove_oid 3 tree_busy 42 true false = some (EINVAL, s1) ∧ s1 = tree_busy := by
  have hsome : (sysctl_remove_oid 3 tree_busy 42 true false).map (fun r => r.1)
      = some EINVAL := by decide
  cases h : sysctl_remove_oid 3 tree_busy 42 true false with
  | none => rw [h] at hsome; simp at hsome
  | some r =>
    obtain ⟨e, s1⟩ := r
    rw [h] at hsome
    simp only [Option.map_some', Option.some.injEq] at hsome
    subst hsome
    exact ⟨s1, rfl, C26_partial_recursive_removal.2 3 tree_busy 42 true EINVAL s1 h (by decide)⟩

/-! ## The user ranges `userland_sysctl` checks -/

/-- C21: the ranges `userland_sysctl` validates.  An old buffer that `useracc` refuses
for writing over `oldlen` bytes gives `EFAULT` with the state untouched, and so does a
new buffer that `useracc` refuses for reading over `0` bytes: the new buffer is
checked with `req.newlen`, which is still zero at that point, not with `newlen`.  In
the example the caller's memory ends at `5000` and the new buffer is `5000 .. 5003`:
it is not readable, yet the call acquires `memlock`, runs `sysctl_handle_string` on
`kern.hostname`, which writes the old value to the old buffer (it is pinned and
unpinned) and stores a NUL at index `4` of the datum before `EFAULT` comes back from
`copyin`; and on a leaf without `CTLFLAG_WR` the call returns `EPERM`. -/
theorem C21_new_range_checked_with_length_zero (w : Nat) (env : kenv) (hs : Nat → handler_fn)
    (attempts : Nat) (ks : kstate) (p : Nat) (name : List Int) (namelen : Nat) (old : Nat)
    (oldlenp : Option (Nat × Nat)) (inkernel : Bool) (new : Nat) (newlen : Nat)
    (retval : Bool) :
    (oldlenp_error w env oldlenp inkernel = 0 → old ≠ 0 →
        env.useracc old (oldlenp_value oldlenp) VM_PROT_WRITE = false →
        userland_sysctl w env hs attempts ks p name namelen old oldlenp inkernel new newlen
          retval = some (EFAULT, ks, none, blank_req p))
    ∧ (oldlenp_error w env oldlenp inkernel = 0 →
        (old ≠ 0 → env.useracc old (oldlenp_value oldlenp) VM_PROT_WRITE = true) →
        new ≠ 0 → env.useracc new 0 VM_PROT_READ = false →
        userland_sysctl w env hs attempts ks p name namelen old oldlenp inkernel new newlen
          retval = some (EFAULT, ks, none, blank_req p))
    ∧ env_short.useracc 5000 4 VM_PROT_READ = false
    ∧ env_short.useracc 5000 0 VM_PROT_READ = true
    ∧ (userland_sysctl 32 env_short handlers_short 1 ks_kern 1 [1, 10] 2 3000
          (some (2900, 64)) true 5000 4 true).map
        (fun r => (r.1, r.2.1.vslocks, r.2.1.vsunlocks, mem_read r.2.1.mem 3000 4,
          r.2.1.mem 2004))
      = some (EFAULT, 1, 1, [97, 98, 99, 100], 0)
    ∧ ks_kern.mem 2004 = 101
    ∧ (userland_sysctl 32 env_short handlers_short 1 ks57 1 [5] 1 0 none true 5000 4
          true).map (fun r => r.1) = some EPERM := by
  refine ⟨?_, ?_, by decide, by decide, by decide, by decide, by decide⟩
  · intro hlen ho hacc
    unfold userland_sysctl
    simp only [hlen, ne_eq, not_true_eq_false, if_false]
    rw [if_pos ⟨ho, by rw [hacc]; rfl⟩]
  · intro hlen hold hn hacc
    unfold userland_sysctl
    simp only [hlen, ne_eq, not_true_eq_false, if_false]
    have h2 : ¬ (¬ old = 0 ∧ (!env.useracc old (oldlenp_value oldlenp) VM_PROT_WRITE) = true) := by
      intro ⟨ho, hu⟩
      rw [hold ho] at hu
      simp at hu
    rw [if_neg h2, if_pos ⟨hn, by rw [hacc]; rfl⟩]

/-! ## The retry loop -/

/-- C23: a read from user space through a handler that writes output and then asks
for a retry.  The first attempt pins the old buffer at its first out and ends with
`EAGAIN`; the second attempt starts again from the initial request, whose lock state
is `1`, and pins the buffer once more; the call returns `0` and unpins once: two
`vslock`, one `vsunlock`.  Without the retry (the handler finds its mark set) the same
call pins and unpins once. -/
theorem C23_pin_twice_unpin_once :
    (userland_sysctl 32 env_ok handlers_again 2 ks_kern 1 [1, 10] 2 3000 (some (2900, 64))
        true 0 0 true).map
        (fun r => (r.1, r.2.1.vslocks, r.2.1.vsunlocks, r.2.2.2.lock, r.2.2.1))
      = some (0, 2, 1, 2, some 4)
    ∧ ks_kern.vslocks = 0 ∧ ks_kern.vsunlocks = 0
    ∧ (userland_sysctl 32 env_ok handlers_again 2
        { ks_kern with mem := fun a => if a = 7000 then 1 else ks_kern.mem a } 1 [1, 10] 2 3000
        (some (2900, 64)) true 0 0 true).map
        (fun r => (r.1, r.2.1.vslocks, r.2.1.vsunlocks))
      = some (0, 1, 1) := by
  decide

/-! ## Reads pass the dispatcher whatever the access flags -/

theorem kind_other_type (k k2 : Nat) (h : k2 &&& KIND_OTHER = k &&& KIND_OTHER) :
    k2 &&& CTLTYPE = k &&& CTLTYPE := by
  have e : KIND_OTHER &&& CTLTYPE = CTLTYPE := by decide
  rw [← e, ← Nat.land_assoc, ← Nat.land_assoc, h]

theorem kind_other_nolock (k k2 : Nat) (h : k2 &&& KIND_OTHER = k &&& KIND_OTHER) :
    k2 &&& CTLFLAG_NOLOCK = k &&& CTLFLAG_NOLOCK := by
  have e : KIND_OTHER &&& CTLFLAG_NOLOCK = CTLFLAG_NOLOCK := by decide
  rw [← e, ← Nat.land_assoc, ← Nat.land_assoc, h]

theorem same_but_access_fields {s t : Tree} (h : same_but_access s t) (x : Nat) :
    (t.oids x).oid_number = (s.oids x).oid_number
    ∧ (t.oids x).oid_handler = (s.oids x).oid_handler
    ∧ (t.oids x).oid_arg1 = (s.oids x).oid_arg1
    ∧ (t.oids x).oid_arg2 = (s.oids x).oid_arg2
    ∧ is_node (t.oids x).oid_kind = is_node (s.oids x).oid_kind
    ∧ (t.oids x).oid_kind &&& CTLFLAG_NOLOCK = (s.oids x).oid_kind &&& CTLFLAG_NOLOCK := by
  have h1 := h.2.1 x
  refine ⟨by rw [h1], by rw [h1], by rw [h1], by rw [h1], ?_, kind_other_nolock _ _ (h.2.2 x)⟩
  unfold is_node
  rw [kind_other_type _ _ (h.2.2 x)]

/-- The resolver does not look at the access flags. -/
theorem find_oid_loop_access {s t : Tree} (h : same_but_access s t) (name : List Int)
    (namelen : Nat) (room : Nat) :
    ∀ (indx lock : Nat) (l : List Nat),
      find_oid_loop t name namelen room indx lock l
        = find_oid_loop s name namelen room indx lock l := by
  induction room with
  | zero => intro indx lock l; rfl
  | succ n ih =>
    intro indx lock l
    unfold find_oid_loop
    congr 1
    funext oid
    obtain ⟨f1, f2, f3, -, f5, f6⟩ := same_but_access_fields h oid
    rw [f1, f2, f3, f5, f6, h.1]
    simp only [ih]

/-- A resolver loop that ends without error has stored a node and an index. -/
theorem find_oid_loop_some (s : Tree) (name : List Int) (n : Nat) :
    ∀ (room indx lock : Nat) (l : List Nat),
      (find_oid_loop s name n room indx lock l).1 = 0 →
      ∃ p, (find_oid_loop s name n room indx lock l).2.1 = some p := by
  intro room
  induction room with
  | zero =>
    intro indx lock l h
    exact absurd h enoent_ne
  | succ room ih =>
    intro indx lock l
    unfold find_oid_loop
    refine slist_walk_elim
      (fun (r : Int × Option (Nat × Nat) × Nat) => r.1 = 0 → ∃ p, r.2.1 = some p) _ _ _ ?_ ?_
    · intro h; exact absurd h enoent_ne
    · intro q r _ hv
      by_cases h1 : (s.oids q).oid_number = name.getD indx 0
      · rw [if_pos h1] at hv
        have hv2 := Option.some.inj hv
        subst hv2
        by_cases hn : is_node (s.oids q).oid_kind = true
        · simp only [if_pos hn]
          by_cases hh : (s.oids q).oid_handler ≠ 0 ∨ indx + 1 = n
          · simp only [if_pos hh]
            intro _
            exact ⟨_, rfl⟩
          · simp only [if_neg hh]
            exact ih _ _ _
        · simp only [if_neg hn]
          by_cases hl : indx + 1 = n
          · simp only [if_pos hl]
            intro _
            exact ⟨_, rfl⟩
          · simp only [if_neg hl]
            intro h
            exact absurd h enotdir_ne
      · rw [if_neg h1] at hv
        exact absurd hv (by simp)

/-- C27: reads are not gated by the dispatcher.  For a request without new input,
take two runs of `sysctl_root` with the same handler table, path and request, in
states that differ in the access flags of the nodes (`CTLFLAG_RD`, `CTLFLAG_WR`,
`CTLFLAG_ANYBODY`, `CTLFLAG_SECURE`, `CTLFLAG_PRISON`) and in `securelevel`, and with
different answers of the privilege check.  Either both runs return the same error
without calling a handler and without changing their state, or both return what the
same handler returns when called with the same node, the same `arg1` and `arg2` and
the same request, each in its own state. -/
theorem C27_reads_not_gated (env env2 : kenv) (hs : Nat → handler_fn) (ks : kstate)
    (t2 : Tree) (sl2 : Int) (name : List Int) (namelen : Nat) (req : sysctl_req)
    (hread : req.newptr = 0) (hsame : same_but_access ks.tree t2) :
    (∃ e lock,
        sysctl_root env hs ks name namelen req = some (e, ks, { req with lock := lock })
        ∧ sysctl_root env2 hs { ks with tree := t2, securelevel := sl2 } name namelen req
            = some (e, { ks with tree := t2, securelevel := sl2 }, { req with lock := lock }))
    ∨ (∃ h oid a1 a2 lock, h ≠ 0
        ∧ sysctl_root env hs ks name namelen req = hs h ks oid a1 a2 { req with lock := lock }
        ∧ sysctl_root env2 hs { ks with tree := t2, securelevel := sl2 } name namelen req
            = hs h { ks with tree := t2, securelevel := sl2 } oid a1 a2
                { req with lock := lock }) := by
  have hfind : sysctl_find_oid t2 name namelen req.lock
      = sysctl_find_oid ks.tree name namelen req.lock := by
    unfold sysctl_find_oid
    rw [find_oid_loop_access hsame, hsame.1]
  have hsome := find_oid_loop_some ks.tree name namelen CTL_MAXNAME 0 req.lock
    (ks.tree.lists sysctl__children)
  unfold sysctl_root
  simp only [hfind]
  generalize hf : sysctl_find_oid ks.tree name namelen req.lock = found
  have hsome2 : found.1 = 0 → ∃ p, found.2.1 = some p := by
    rw [← hf]; exact hsome
  obtain ⟨e, tgt, lock⟩ := found
  by_cases he : e = 0
  · subst he
    obtain ⟨p, hp⟩ := hsome2 rfl
    obtain ⟨oid, indx⟩ := p
    have hp : tgt = some (oid, indx) := hp
    subst hp
    obtain ⟨-, f2, f3, f4, f5, -⟩ := same_but_access_fields hsame oid
    simp only [ne_eq, not_true_eq_false, if_false, hread, false_and, and_false, f2, f3, f4, f5]
    by_cases hn : is_node (ks.tree.oids oid).oid_kind = true
    · by_cases hh : (ks.tree.oids oid).oid_handler = 0
      · left
        refine ⟨EISDIR, lock, ?_, ?_⟩
        · simp [hn, hh, hread]
        · simp [hn, hh, hread]
      · right
        refine ⟨(ks.tree.oids oid).oid_handler, oid, handler_arg.path (name.drop indx),
          (namelen : Int) - indx, lock, hh, ?_, ?_⟩
        · simp [hn, hh, hread]
        · simp [hn, hh, hread]
    · by_cases hh : (ks.tree.oids oid).oid_handler = 0
      · left
        refine ⟨EINVAL, lock, ?_, ?_⟩
        · simp [hn, hh, hread]
        · simp [hn, hh, hread]
      · right
        refine ⟨(ks.tree.oids oid).oid_handler, oid, handler_arg.data (ks.tree.oids oid).oid_arg1,
          (ks.tree.oids oid).oid_arg2, lock, hh, ?_, ?_⟩
        · simp [hn, hh, hread]
        · simp [hn, hh, hread]
  · left
    refine ⟨e, lock, ?_, ?_⟩
    · simp only [ne_eq, he, not_false_eq_true, if_true]
    · simp only [ne_eq, he, not_false_eq_true, if_true]

theorem tree_kern_closed_same : same_but_access tree_kern tree_kern_closed := by
  refine ⟨rfl, ?_, ?_⟩
  · intro x
    by_cases h50 : x = 50
    · subst h50; rfl
    · by_cases h51 : x = 51
      · subst h51; rfl
      · simp [tree_kern_closed, h50, h51]
  · intro x
    by_cases h50 : x = 50
    · subst h50; decide
    · by_cases h51 : x = 51
      · subst h51; decide
      · simp [tree_kern_closed, h50, h51]

/-- C27, witness: a read of `kern.hostname` by a caller the privilege check refuses,
at security level `5`, in the example tree with the access flags of both nodes
cleared: the run calls the handler the open tree calls, and the value is read. -/
theorem C27_reads_not_gated_witness :
    ((∃ e lock,
        sysctl_root env_ok handlers32 ks_kern [1, 10] 2 (userland_req 1 3000 64 0 0)
          = some (e, ks_kern, { userland_req 1 3000 64 0 0 with lock := lock })
        ∧ sysctl_root { env_ok with suser_xxx := fun _ _ => EPERM } handlers32
            { ks_kern with tree := tree_kern_closed, securelevel := 5 } [1, 10] 2
            (userland_req 1 3000 64 0 0)
            = some (e, { ks_kern with tree := tree_kern_closed, securelevel := 5 },
                { userland_req 1 3000 64 0 0 with lock := lock }))
      ∨ (∃ h oid a1 a2 lock, h ≠ 0
        ∧ sysctl_root env_ok handlers32 ks_kern [1, 10] 2 (userland_req 1 3000 64 0 0)
            = handlers32 h ks_kern oid a1 a2 { userland_req 1 3000 64 0 0 with lock := lock }
        ∧ sysctl_root { env_ok with suser_xxx := fun _ _ => EPERM } handlers32
            { ks_kern with tree := tree_kern_closed, securelevel := 5 } [1, 10] 2
            (userland_req 1 3000 64 0 0)
            = handlers32 h { ks_kern with tree := tree_kern_closed, securelevel := 5 } oid a1 a2
                { userland_req 1 3000 64 0 0 with lock := lock }))
    ∧ (tree_kern_closed.oids 51).oid_kind &&& CTLFLAG_RD = 0
    ∧ (sysctl_root { env_ok with suser_xxx := fun _ _ => EPERM } handlers32
          { ks_kern with tree := tree_kern_closed, securelevel := 5 } [1, 10] 2
          (userland_req 1 3000 64 0 0)).map
        (fun r => (r.1, r.2.2.oldidx, mem_read r.2.1.mem 3000 5))
      = some (0, 21, [97, 98, 99, 100, 101]) :=
  ⟨C27_reads_not_gated env_ok { env_ok with suser_xxx := fun _ _ => EPERM } handlers32 ks_kern
      tree_kern_closed 5 [1, 10] 2 (userland_req 1 3000 64 0 0) rfl tree_kern_closed_same,
    by decide, by decide⟩

/-! ## The default handlers with the in-process transfer -/

/-- The in-process output step, byte by byte. -/
theorem out_kernel_mem (w : Nat) (env : kenv) (ks : kstate) (req : sysctl_req) (p : List Nat)
    (l : Nat) (hf : req.oldfunc = xfer.kernel) (hidx : req.oldidx ≤ req.oldlen)
    (hlen : req.oldlen < 2 ^ w) (a : Nat) :
    (SYSCTL_OUT w env ks req p l).2.1.mem a
      = if req.oldptr ≠ 0 ∧ req.oldptr + req.oldidx ≤ a
            ∧ a < req.oldptr + req.oldidx + min l (req.oldlen - req.oldidx)
        then p.getD (a - (req.oldptr + req.oldidx)) 0 else ks.mem a := by
  have hsub := size_sub_of_le w req.oldlen req.oldidx hidx hlen
  unfold SYSCTL_OUT
  rw [hf]
  simp only [sysctl_old_kernel, hsub]
  by_cases hp : req.oldptr = 0
  · simp [hp]
  · by_cases hl : l > req.oldlen - req.oldidx
    · have hmin : min l (req.oldlen - req.oldidx) = req.oldlen - req.oldidx := by omega
      simp only [ne_eq, hp, not_false_eq_true, if_true, if_pos hl, true_and, hmin]
      by_cases h0 : req.oldlen - req.oldidx > 0
      · simp only [if_pos h0]
        split_ifs <;> simp_all [mem_write]
      · have hno : ¬ (req.oldptr + req.oldidx ≤ a
            ∧ a < req.oldptr + req.oldidx + (req.oldlen - req.oldidx)) := by omega
        simp only [if_neg h0, if_neg hno]
        split_ifs <;> rfl
    · have hmin : min l (req.oldlen - req.oldidx) = l := by omega
      simp only [ne_eq, hp, not_false_eq_true, if_true, if_neg hl, true_and, hmin]
      by_cases h0 : l > 0
      · simp only [if_pos h0]
        split_ifs <;> simp_all [mem_write]
      · have hno : ¬ (req.oldptr + req.oldidx ≤ a ∧ a < req.oldptr + req.oldidx + l) := by
          omega
        simp only [if_neg h0, if_neg hno]
        split_ifs <;> rfl

/-- The in-process output step leaves every byte outside the old buffer alone. -/
theorem out_kernel_outside (w : Nat) (env : kenv) (ks : kstate) (req : sysctl_req)
    (p : List Nat) (l : Nat) (hf : req.oldfunc = xfer.kernel) (hidx : req.oldidx ≤ req.oldlen)
    (hlen : req.oldlen < 2 ^ w) (a : Nat)
    (ha : ¬ (req.oldptr ≠ 0 ∧ req.oldptr ≤ a ∧ a < req.oldptr + req.oldlen)) :
    (SYSCTL_OUT w env ks req p l).2.1.mem a = ks.mem a := by
  rw [out_kernel_mem w env ks req p l hf hidx hlen a]
  apply if_neg
  intro h
  apply ha
  refine ⟨h.1, by omega, ?_⟩
  have := h.2.2
  omega

/-- The in-process output step stores the head of the source at the old cursor. -/
theorem out_kernel_emitted (w : Nat) (env : kenv) (ks : kstate) (req : sysctl_req)
    (p : List Nat) (l : Nat) (hf : req.oldfunc = xfer.kernel) (hidx : req.oldidx ≤ req.oldlen)
    (hlen : req.oldlen < 2 ^ w) (hp : req.oldptr ≠ 0) (j : Nat)
    (hj : j < min l (req.oldlen - req.oldidx)) :
    (SYSCTL_OUT w env ks req p l).2.1.mem (req.oldptr + req.oldidx + j) = p.getD j 0 := by
  rw [out_kernel_mem w env ks req p l hf hidx hlen]
  rw [if_pos ⟨hp, by omega, by omega⟩]
  congr 1
  omega

theorem mem_read_getD (m : Nat → Nat) (addr n j : Nat) (hj : j < n) :
    (mem_read m addr n).getD j 0 = m (addr + j) := by
  unfold mem_read
  simp [List.getD, hj]

/-- A failing in-process input step changes nothing. -/
theorem in_kernel_fail (w : Nat) (env : kenv) (ks : kstate) (req : sysctl_req) (p l : Nat)
    (hf : req.newfunc = xfer.kernel) (he : (SYSCTL_IN w env ks req p l).1 ≠ 0) :
    (SYSCTL_IN w env ks req p l).2.1 = ks := by
  unfold SYSCTL_IN at he ⊢
  rw [hf] at he ⊢
  simp only [sysctl_new_kernel] at he ⊢
  split_ifs at he ⊢
  · rfl
  · rfl
  · exact (he rfl).elim

/-- The in-process output of the first `l` bytes of a datum: the part of the old
buffer the step covers holds those bytes, and a datum apart from the old buffer is
not touched. -/
theorem out_stage (w : Nat) (env : kenv) (ks : kstate) (req : sysctl_req) (addr m l n : Nat)
    (hl : l ≤ m) (hf : req.oldfunc = xfer.kernel) (hidx : req.oldidx ≤ req.oldlen)
    (hlen : req.oldlen < 2 ^ w) (hapart : req.oldptr ≠ 0 → apart req.oldptr req.oldlen addr n) :
    (req.oldptr ≠ 0 →
      mem_read (SYSCTL_OUT w env ks req (mem_read ks.mem addr m) l).2.1.mem
          (req.oldptr + req.oldidx) (min l (req.oldlen - req.oldidx))
        = mem_read ks.mem addr (min l (req.oldlen - req.oldidx)))
    ∧ mem_read (SYSCTL_OUT w env ks req (mem_read ks.mem addr m) l).2.1.mem addr n
        = mem_read ks.mem addr n := by
  constructor
  · intro hp
    unfold mem_read
    apply List.map_congr_left
    intro j hj
    have hj2 := List.mem_range.mp hj
    rw [out_kernel_emitted w env ks req _ l hf hidx hlen hp j hj2]
    exact mem_read_getD ks.mem addr m j (by omega)
  · apply mem_read_congr
    intro j hj
    apply out_kernel_outside w env ks req _ l hf hidx hlen
    intro h
    have := hapart h.1
    unfold apart at this
    omega

/-- The common body of the integer, long and opaque handlers with the in-process
transfer functions and a datum apart from the old buffer. -/
theorem out_then_in_keeps (w : Nat) (env : kenv) (ks : kstate) (req : sysctl_req)
    (addr l : Nat) (hold : req.oldfunc = xfer.kernel) (hnew : req.newfunc = xfer.kernel)
    (hidx : req.oldidx ≤ req.oldlen) (hlen : req.oldlen < 2 ^ w)
    (hapart : req.oldptr ≠ 0 → apart req.oldptr req.oldlen addr l) :
    keeps_datum ks req addr l l (some (out_then_in w env ks req addr l)) := by
  obtain ⟨s1, s2⟩ := out_stage w env ks req addr l l l (Nat.le_refl l) hold hidx hlen hapart
  have hfields := out_fields w env ks req (mem_read ks.mem addr l) l
  intro e ks1 req1 h
  unfold out_then_in at h
  simp only at h
  by_cases hc : (SYSCTL_OUT w env ks req (mem_read ks.mem addr l) l).1 ≠ 0
      ∨ (SYSCTL_OUT w env ks req (mem_read ks.mem addr l) l).2.2.newptr = 0
  · rw [if_pos hc] at h
    have h1 : (SYSCTL_OUT w env ks req (mem_read ks.mem addr l) l).2.1 = ks1 := by
      rw [Option.some.inj h]
    rw [← h1]
    exact ⟨s1, fun _ => s2⟩
  · rw [if_neg hc] at h
    have hin := Option.some.inj h
    have h1 : (SYSCTL_IN w env (SYSCTL_OUT w env ks req (mem_read ks.mem addr l) l).2.1
        (SYSCTL_OUT w env ks req (mem_read ks.mem addr l) l).2.2 addr l).2.1 = ks1 := by
      rw [hin]
    have h0 : (SYSCTL_IN w env (SYSCTL_OUT w env ks req (mem_read ks.mem addr l) l).2.1
        (SYSCTL_OUT w env ks req (mem_read ks.mem addr l) l).2.2 addr l).1 = e := by
      rw [hin]
    constructor
    · intro hp
      rw [← s1 hp, ← h1]
      apply mem_read_congr
      intro j hj
      apply in_mem_outside
      have := hapart hp
      unfold apart at this
      omega
    · intro he
      rw [← h0] at he
      have hk := in_kernel_fail w env _ _ addr l (by rw [hfields.2.2.2.1]; exact hnew) he
      rw [← h1, hk]
      exact s2

theorem handle_int_eq (w : Nat) (env : kenv) (ks : kstate) (oidp addr : Nat) (arg2 : Int)
    (req : sysctl_req) (ha : addr ≠ 0) :
    sysctl_handle_int w env ks oidp (handler_arg.data addr) arg2 req
      = some (out_then_in w env ks req addr SIZEOF_INT) := by
  simp only [sysctl_handle_int, out_then_in, handler_arg.addr, ne_eq, ha, not_false_eq_true,
    if_true, if_false]
  split_ifs <;> rfl

theorem handle_long_eq (w : Nat) (env : kenv) (ks : kstate) (oidp addr : Nat) (arg2 : Int)
    (req : sysctl_req) (ha : addr ≠ 0) :
    sysctl_handle_long w env ks oidp (handler_arg.data addr) arg2 req
      = some (out_then_in w env ks req addr (w / 8)) := by
  simp only [sysctl_handle_long, out_then_in, handler_arg.addr, ha, if_false]
  split_ifs <;> rfl

theorem handle_opaque_eq (w : Nat) (env : kenv) (ks : kstate) (oidp : Nat) (arg1 : handler_arg)
    (arg2 : Int) (req : sysctl_req) :
    sysctl_handle_opaque w env ks oidp arg1 arg2 req
      = some (out_then_in w env ks req arg1.addr (size_of_int w arg2)) := by
  simp only [ sysctl_handle_opaque, out_then_in]
  split_ifs <;> rfl

/-- The string handler with the in-process transfer functions, a capacity `cap` and a
buffer apart from the old buffer. -/
theorem handle_string_keeps (w : Nat) (env : kenv) (ks : kstate) (oidp addr n cap : Nat)
    (req : sysctl_req) (hw : 31 ≤ w) (hcap : cap < 2 ^ 31)
    (hs : c_strlen ks.mem (2 ^ w) addr = some n)
    (hold : req.oldfunc = xfer.kernel) (hnew : req.newfunc = xfer.kernel)
    (hidx : req.oldidx ≤ req.oldlen) (hlen : req.oldlen < 2 ^ w)
    (hapart : req.oldptr ≠ 0 → apart req.oldptr req.oldlen addr cap) :
    keeps_datum ks req addr cap (size_add w n 1)
      (sysctl_handle_string w env ks oidp (handler_arg.data addr) (cap : Int) req) := by
  obtain ⟨s1, s2⟩ := out_stage w env ks req addr (n + 1) (size_add w n 1) cap
    (Nat.mod_le _ _) hold hidx hlen hapart
  have hfields := out_fields w env ks req (mem_read ks.mem addr (n + 1)) (size_add w n 1)
  intro e ks1 req1 h
  by_cases hc : (SYSCTL_OUT w env ks req (mem_read ks.mem addr (n + 1)) (size_add w n 1)).1 ≠ 0
      ∨ (SYSCTL_OUT w env ks req (mem_read ks.mem addr (n + 1)) (size_add w n 1)).2.2.newptr = 0
  · simp only [sysctl_handle_string, handler_arg.addr, hs] at h
    rw [if_pos hc] at h
    have h1 : (SYSCTL_OUT w env ks req (mem_read ks.mem addr (n + 1)) (size_add w n 1)).2.1
        = ks1 := by
      rw [Option.some.inj h]
    rw [← h1]
    exact ⟨s1, fun _ => s2⟩
  · have hc1 : (SYSCTL_OUT w env ks req (mem_read ks.mem addr (n + 1)) (size_add w n 1)).1 = 0 := by
      by_contra h0
      exact hc (Or.inl h0)
    have hc2 : (SYSCTL_OUT w env ks req (mem_read ks.mem addr (n + 1))
        (size_add w n 1)).2.2.newptr ≠ 0 := fun h0 => hc (Or.inr h0)
    have hout : SYSCTL_OUT w env ks req (mem_read ks.mem addr (n + 1)) (size_add w n 1)
        = (0, (SYSCTL_OUT w env ks req (mem_read ks.mem addr (n + 1)) (size_add w n 1)).2.1,
            (SYSCTL_OUT w env ks req (mem_read ks.mem addr (n + 1)) (size_add w n 1)).2.2) := by
      rw [← hc1]
    rw [handle_string_write w env ks _ oidp addr n cap req _ hw hcap hs hout hc2] at h
    by_cases hk : cap ≤ size_sub w
        (SYSCTL_OUT w env ks req (mem_read ks.mem addr (n + 1)) (size_add w n 1)).2.2.newlen
        (SYSCTL_OUT w env ks req (mem_read ks.mem addr (n + 1)) (size_add w n 1)).2.2.newidx
    · rw [if_pos hk] at h
      have h1 : (SYSCTL_OUT w env ks req (mem_read ks.mem addr (n + 1)) (size_add w n 1)).2.1
          = ks1 := by
        have := Option.some.inj h
        exact (Prod.mk.inj (Prod.mk.inj this).2).1
      rw [← h1]
      exact ⟨s1, fun _ => s2⟩
    · rw [if_neg hk] at h
      have hin := in_ok w env
        (SYSCTL_OUT w env ks req (mem_read ks.mem addr (n + 1)) (size_add w n 1)).2.1
        (SYSCTL_OUT w env ks req (mem_read ks.mem addr (n + 1)) (size_add w n 1)).2.2 addr
        (size_sub w
          (SYSCTL_OUT w env ks req (mem_read ks.mem addr (n + 1)) (size_add w n 1)).2.2.newlen
          (SYSCTL_OUT w env ks req (mem_read ks.mem addr (n + 1)) (size_add w n 1)).2.2.newidx)
        hc2 (Nat.lt_irrefl _) (Or.inl (by rw [hfields.2.2.2.1]; exact hnew))
      have hh := Option.some.inj h
      have he : e = 0 := by
        rw [← hin.1]
        exact ((Prod.mk.inj hh).1).symm
      have hks := (Prod.mk.inj (Prod.mk.inj hh).2).1
      constructor
      · intro hp
        rw [← s1 hp, ← hks]
        apply mem_read_congr
        intro j hj
        have hap := hapart hp
        unfold apart at hap
        show (if req.oldptr + req.oldidx + j = addr + _ then 0 else _) = _
        rw [if_neg (by omega)]
        apply in_mem_outside
        omega
      · intro hne
        exact (hne he).elim

theorem handle_string_returns (w : Nat) (env : kenv) (ks : kstate) (oidp : Nat)
    (arg1 : handler_arg) (arg2 : Int) (req : sysctl_req) (n : Nat)
    (hs : c_strlen ks.mem (2 ^ w) arg1.addr = some n) :
    (sysctl_handle_string w env ks oidp arg1 arg2 req).isSome = true := by
  simp only [sysctl_handle_string, hs]
  split_ifs <;> rfl

/-- The integer handler on a constant with the in-process output: the part of the old
buffer the out step covers holds the bytes of the constant, no byte outside the old
buffer changes, and a request with new input gets a non-zero error. -/
theorem handle_int_constant_keeps (w : Nat) (env : kenv) (ks : kstate) (oidp : Nat) (c : Int)
    (req : sysctl_req) (hold : req.oldfunc = xfer.kernel)
    (hidx : req.oldidx ≤ req.oldlen) (hlen : req.oldlen < 2 ^ w) :
    ∃ e ks1 req1, sysctl_handle_int w env ks oidp (handler_arg.data 0) c req = some (e, ks1, req1)
      ∧ (req.oldptr ≠ 0 → ∀ j, j < min SIZEOF_INT (req.oldlen - req.oldidx) →
          ks1.mem (req.oldptr + req.oldidx + j) = (int_bytes c).getD j 0)
      ∧ (∀ a, ¬ (req.oldptr ≠ 0 ∧ req.oldptr ≤ a ∧ a < req.oldptr + req.oldlen) →
          ks1.mem a = ks.mem a)
      ∧ (req.newptr ≠ 0 → e ≠ 0) := by
  have hfields := out_fields w env ks req (int_bytes c) SIZEOF_INT
  have hx : ∀ x : Int × kstate × sysctl_req,
      x.2.1 = (SYSCTL_OUT w env ks req (int_bytes c) SIZEOF_INT).2.1 →
      (req.newptr ≠ 0 → x.1 ≠ 0) →
      (req.oldptr ≠ 0 → ∀ j, j < min SIZEOF_INT (req.oldlen - req.oldidx) →
          x.2.1.mem (req.oldptr + req.oldidx + j) = (int_bytes c).getD j 0)
      ∧ (∀ a, ¬ (req.oldptr ≠ 0 ∧ req.oldptr ≤ a ∧ a < req.oldptr + req.oldlen) →
          x.2.1.mem a = ks.mem a)
      ∧ (req.newptr ≠ 0 → x.1 ≠ 0) := by
    intro x hx1 hx2
    rw [hx1]
    exact ⟨fun hp j hj => out_kernel_emitted w env ks req _ _ hold hidx hlen hp j hj,
      fun a ha => out_kernel_outside w env ks req _ _ hold hidx hlen a ha, hx2⟩
  simp only [sysctl_handle_int, handler_arg.addr, ne_eq, not_true_eq_false, if_false, if_true]
  by_cases hc : (SYSCTL_OUT w env ks req (int_bytes c) SIZEOF_INT).1 ≠ 0
      ∨ (SYSCTL_OUT w env ks req (int_bytes c) SIZEOF_INT).2.2.newptr = 0
  · rw [if_pos hc]
    refine ⟨_, _, _, rfl, hx _ rfl ?_⟩
    intro hn
    rcases hc with hc | hc
    · exact hc
    · rw [hfields.1] at hc
      exact (hn hc).elim
  · rw [if_neg hc]
    have hne : EPERM ≠ 0 := by decide
    exact ⟨_, _, _, rfl, hx (EPERM, _, _) rfl (fun _ => hne)⟩

/-- C24 (as amended): the default handlers with the in-process transfer functions,
for a request whose old cursor is inside the old buffer and a datum that does not
overlap the old buffer.  Each of `sysctl_handle_int` and `sysctl_handle_long` (on a datum at a
non-null address), `sysctl_handle_opaque` (on `n` bytes) and `sysctl_handle_string`
(on a terminated string in a buffer of `cap` bytes) returns, and of its result
`keeps_datum` holds: the part of the old buffer the out step covers holds the bytes
the datum had before the call, also when new input is stored afterwards; and when the
returned error is not zero the datum holds what it held before the call.
`sysctl_handle_int` on a constant emits the bytes of the constant, changes no byte
outside the old buffer and answers a request with new input with a non-zero error. -/
theorem C24_default_handlers_keep_datum (w : Nat) (env : kenv) (ks : kstate) (oidp addr : Nat)
    (arg2 c : Int) (n cap m : Nat) (req : sysctl_req)
    (hold : req.oldfunc = xfer.kernel) (hnew : req.newfunc = xfer.kernel)
    (hidx : req.oldidx ≤ req.oldlen) (hlen : req.oldlen < 2 ^ w) :
    (addr ≠ 0 → (req.oldptr ≠ 0 → apart req.oldptr req.oldlen addr SIZEOF_INT) →
        (sysctl_handle_int w env ks oidp (handler_arg.data addr) arg2 req).isSome = true
        ∧ keeps_datum ks req addr SIZEOF_INT SIZEOF_INT
            (sysctl_handle_int w env ks oidp (handler_arg.data addr) arg2 req))
    ∧ (addr ≠ 0 → (req.oldptr ≠ 0 → apart req.oldptr req.oldlen addr (w / 8)) →
        (sysctl_handle_long w env ks oidp (handler_arg.data addr) arg2 req).isSome = true
        ∧ keeps_datum ks req addr (w / 8) (w / 8)
            (sysctl_handle_long w env ks oidp (handler_arg.data addr) arg2 req))
    ∧ (n < 2 ^ w → (req.oldptr ≠ 0 → apart req.oldptr req.oldlen addr n) →
        ( sysctl_handle_opaque w env ks oidp (handler_arg.data addr) (n : Int) req).isSome = true
        ∧ keeps_datum ks req addr n n
            ( sysctl_handle_opaque w env ks oidp (handler_arg.data addr) (n : Int) req))
    ∧ (31 ≤ w → cap < 2 ^ 31 → c_strlen ks.mem (2 ^ w) addr = some m →
        (req.oldptr ≠ 0 → apart req.oldptr req.oldlen addr cap) →
        (sysctl_handle_string w env ks oidp (handler_arg.data addr) (cap : Int) req).isSome = true
        ∧ keeps_datum ks req addr cap (size_add w m 1)
            (sysctl_handle_string w env ks oidp (handler_arg.data addr) (cap : Int) req))
    ∧ (∃ e ks1 req1,
        sysctl_handle_int w env ks oidp (handler_arg.data 0) c req = some (e, ks1, req1)
        ∧ (req.oldptr ≠ 0 → ∀ j, j < min SIZEOF_INT (req.oldlen - req.oldidx) →
            ks1.mem (req.oldptr + req.oldidx + j) = (int_bytes c).getD j 0)
        ∧ (∀ a, ¬ (req.oldptr ≠ 0 ∧ req.oldptr ≤ a ∧ a < req.oldptr + req.oldlen) →
            ks1.mem a = ks.mem a)
        ∧ (req.newptr ≠ 0 → e ≠ 0)) := by
  refine ⟨?_, ?_, ?_, ?_, handle_int_constant_keeps w env ks oidp c req hold hidx hlen⟩
  · intro ha hap
    rw [handle_int_eq w env ks oidp addr arg2 req ha]
    exact ⟨rfl, out_then_in_keeps w env ks req addr SIZEOF_INT hold hnew hidx hlen hap⟩
  · intro ha hap
    rw [handle_long_eq w env ks oidp addr arg2 req ha]
    exact ⟨rfl, out_then_in_keeps w env ks req addr (w / 8) hold hnew hidx hlen hap⟩
  · intro hn hap
    rw [handle_opaque_eq w env ks oidp (handler_arg.data addr) (n : Int) req,
      size_of_int_cast w n hn]
    exact ⟨rfl, out_then_in_keeps w env ks req addr n hold hnew hidx hlen hap⟩
  · intro hw hcap hs hap
    exact ⟨handle_string_returns w env ks oidp (handler_arg.data addr) (cap : Int) req m hs,
      handle_string_keeps w env ks oidp addr m cap req hw hcap hs hold hnew hidx hlen hap⟩

/-- On `ks_kern`, for the integer at address `2000`, a two-byte old buffer at `3000`
and four bytes of new input at `2010`: the handler returns `ENOMEM`, the two bytes of
the old buffer are the first two bytes of the integer, and the integer is what it
was. -/
theorem C24_default_handlers_keep_datum_witness :
    (kernel_req 0 3000 (some 2) 2010 4).oldfunc = xfer.kernel
    ∧ (kernel_req 0 3000 (some 2) 2010 4).newfunc = xfer.kernel
    ∧ (sysctl_handle_int 32 env_ok ks_kern 51 (handler_arg.data 2000) 0
        (kernel_req 0 3000 (some 2) 2010 4)).isSome = true
    ∧ keeps_datum ks_kern (kernel_req 0 3000 (some 2) 2010 4) 2000 SIZEOF_INT SIZEOF_INT
        (sysctl_handle_int 32 env_ok ks_kern 51 (handler_arg.data 2000) 0
          (kernel_req 0 3000 (some 2) 2010 4))
    ∧ (sysctl_handle_int 32 env_ok ks_kern 51 (handler_arg.data 2000) 0
        (kernel_req 0 3000 (some 2) 2010 4)).map
          (fun r => (r.1, mem_read r.2.1.mem 3000 2, mem_read r.2.1.mem 2000 4))
        = some (ENOMEM, [97, 98], [97, 98, 99, 100]) :=
  ⟨rfl, rfl,
    ((C24_default_handlers_keep_datum 32 env_ok ks_kern 51 2000 0 0 4 64 20
      (kernel_req 0 3000 (some 2) 2010 4) rfl rfl (by decide) (by decide)).1 (by decide)
      (fun _ => Or.inr (by decide))).1,
    ((C24_default_handlers_keep_datum 32 env_ok ks_kern 51 2000 0 0 4 64 20
      (kernel_req 0 3000 (some 2) 2010 4) rfl rfl (by decide) (by decide)).1 (by decide)
      (fun _ => Or.inr (by decide))).2,
    by decide⟩

/-! ## The commit loop of `sysctl_ctx_free` -/

/-- On a tree alike the one the dry run started from, the commit loop finds every
removal the dry run made: none of its `sysctl_remove_oid` calls returns an error. -/
theorem commit_succeeds (keep : Nat → Bool) (clist : List Nat) :
    ∀ (s t : Tree) (done : List Nat) (s1 : Tree) (done1 : List Nat),
      alike keep t s → ctx_dry_run s clist done = some (0, s1, done1) →
      ∃ f, ctx_commit t clist = some f := by
  induction clist with
  | nil =>
    intro s t done s1 done1 _ _
    exact ⟨t, rfl⟩
  | cons e rest ih =>
    intro s t done s1 done1 hal hd
    simp only [ctx_dry_run] at hd
    cases hr : sysctl_remove_oid 0 s e false false with
    | none => rw [hr] at hd; simp at hd
    | some r =>
      obtain ⟨err0, s2⟩ := r
      rw [hr] at hd
      simp only at hd
      by_cases he : err0 = 0
      · subst he
        simp only [ne_eq, not_true_eq_false, if_false] at hd
        obtain ⟨t2, ht2, hal2⟩ := alike_remove (alike_symm hal) e false true 0 s2 hr
        obtain ⟨f, hf⟩ := ih s2 t2 (e :: done) s1 done1 (alike_symm hal2) hd
        refine ⟨f, ?_⟩
        simp only [ctx_commit, ht2, ne_eq, not_true_eq_false, if_false]
        exact hf
      · simp only [ne_eq, he, not_false_eq_true, if_true, Option.some.injEq, Prod.mk.injEq] at hd
        exact hd.1.elim

/-- With distinct sibling names and entries that can be linked again, a dry run
without error is followed by a commit loop without error. -/
theorem dry_run_then_commit (s : Tree) (clist : List Nat) (s1 : Tree) (done : List Nat)
    (hn : ∀ l, names_distinct s (s.lists l)) (hre : ∀ e ∈ clist, relinkable s e)
    (hd : ctx_dry_run s clist [] = some (0, s1, done)) :
    ∃ f, ctx_commit (ctx_restore s1 done) clist = some f
      ∧ sysctl_ctx_free s clist = some (0, f, []) := by
  obtain ⟨pre, hpre, hal⟩ := dry_run_restore_alike (unreferenced clist) clist s [] 0 s1 done hn hre
    (fun e he => by simp [unreferenced, he]) hd
  rw [List.append_nil] at hpre
  subst hpre
  obtain ⟨f, hf⟩ := commit_succeeds (unreferenced clist) clist s _ [] s1 done hal hd
  refine ⟨f, hf, ?_⟩
  simp only [sysctl_ctx_free, hd, ne_eq, not_true_eq_false, if_false, hf]

/-- The invariant holds of the same tree with fewer entries. -/
theorem ctx_inv_mono (s : Tree) (ctxs ctxs1 : List (List Nat)) (h : ctx_inv s ctxs1)
    (hle : ∀ x, entries ctxs x ≤ entries ctxs1 x) : ctx_inv s ctxs := by
  obtain ⟨i1, i6, i7, i2, i3, i4⟩ := h
  refine ⟨i1, i6, i7, ?_, ?_, ?_⟩
  · intro l x hx
    exact Nat.le_trans (hle x) (i2 l x hx)
  · intro x hx
    exact i3 x (Nat.lt_of_lt_of_le hx (hle x))
  · intro l x hx hpos hgt
    exact i4 l x hx (Nat.lt_of_lt_of_le hpos (hle x)) hgt

/-- The invariant after `sysctl_add_oid` has found an interior node under the name. -/
theorem ctx_inv_bump (s : Tree) (pre : List (List Nat)) (c : List Nat)
    (post : List (List Nat)) (p parent : Nat)
    (hinv : ctx_inv s (pre ++ c :: post)) (hp : p ∈ s.lists parent)
    (hnode : is_node (s.oids p).oid_kind = true) :
    ctx_inv (set_refcnt s p ((s.oids p).oid_refcnt + 1)) (pre ++ (p :: c) :: post) := by
  obtain ⟨i1, i6, i7, i2, i3, i4⟩ := hinv
  have hname : ∀ q, ((set_refcnt s p ((s.oids p).oid_refcnt + 1)).oids q).oid_name
      = (s.oids q).oid_name := by
    intro q; simp only [set_refcnt]; split_ifs with hq
    · subst hq; rfl
    · rfl
  have hpar : ∀ q, ((set_refcnt s p ((s.oids p).oid_refcnt + 1)).oids q).oid_parent
      = (s.oids q).oid_parent := by
    intro q; simp only [set_refcnt]; split_ifs with hq
    · subst hq; rfl
    · rfl
  have hkind : ∀ q, ((set_refcnt s p ((s.oids p).oid_refcnt + 1)).oids q).oid_kind
      = (s.oids q).oid_kind := by
    intro q; simp only [set_refcnt]; split_ifs with hq
    · subst hq; rfl
    · rfl
  have hself : ((set_refcnt s p ((s.oids p).oid_refcnt + 1)).oids p).oid_refcnt
      = (s.oids p).oid_refcnt + 1 := by simp [set_refcnt]
  have hother : ∀ q, q ≠ p → (set_refcnt s p ((s.oids p).oid_refcnt + 1)).oids q = s.oids q := by
    intro q hq; simp [set_refcnt, hq]
  refine ⟨fun l => names_distinct_congr (fun q _ => hname q) (i1 l), ?_, i7, ?_, ?_, ?_⟩
  · intro l x hx
    rw [hpar]
    exact i6 l x hx
  · intro l x hx
    by_cases hxp : x = p
    · subst hxp
      rw [hself, entries_bump_self]
      have := i2 l x hx
      omega
    · rw [hother x hxp, entries_bump_other _ _ _ _ _ hxp]
      exact i2 l x hx
  · intro x hx
    by_cases hxp : x = p
    · subst hxp
      exact ⟨parent, hp⟩
    · rw [entries_bump_other _ _ _ _ _ hxp] at hx
      exact i3 x hx
  · intro l x hx hpos hgt
    rw [hkind]
    by_cases hxp : x = p
    · subst hxp; exact hnode
    · rw [hother x hxp] at hgt
      rw [entries_bump_other _ _ _ _ _ hxp] at hpos
      exact i4 l x hx hpos hgt

/-- The invariant after `sysctl_add_oid` has linked a new node. -/
theorem ctx_inv_new (s s1 : Tree) (pre : List (List Nat)) (c : List Nat)
    (post : List (List Nat)) (parent newoid : Nat) (node : sysctl_oid)
    (hinv : ctx_inv s (pre ++ c :: post))
    (h0 : newoid ≠ 0) (hfresh : ∀ l, newoid ∉ s.lists l)
    (hother : ∀ q, q ≠ newoid → s1.oids q = s.oids q)
    (hself : same_but_number (s1.oids newoid) node)
    (hnpar : node.oid_parent = parent) (hnref : node.oid_refcnt = 1)
    (hlists : ∀ l, l ≠ parent → s1.lists l = s.lists l)
    (hperm : (s1.lists parent).Perm (newoid :: s.lists parent))
    (hnames : names_distinct s1 (s1.lists parent)) :
    ctx_inv s1 (pre ++ (newoid :: c) :: post) := by
  obtain ⟨i1, i6, i7, i2, i3, i4⟩ := hinv
  obtain ⟨fp, -, -, -, fr⟩ := same_but_number_fields hself
  have hmem : ∀ l x, x ∈ s1.lists l → x = newoid ∧ l = parent ∨ x ≠ newoid ∧ x ∈ s.lists l := by
    intro l x hx
    by_cases hl : l = parent
    · subst hl
      rcases List.mem_cons.mp (hperm.mem_iff.mp hx) with h | h
      · exact Or.inl ⟨h, rfl⟩
      · exact Or.inr ⟨fun e2 => hfresh l (e2 ▸ h), h⟩
    · rw [hlists l hl] at hx
      exact Or.inr ⟨fun e2 => hfresh l (e2 ▸ hx), hx⟩
  have hgrow : ∀ l x, x ∈ s.lists l → x ∈ s1.lists l := by
    intro l x hx
    by_cases hl : l = parent
    · subst hl
      exact hperm.mem_iff.mpr (List.mem_cons_of_mem _ hx)
    · rw [hlists l hl]; exact hx
  have hzero : entries (pre ++ c :: post) newoid = 0 := by
    by_contra hc
    obtain ⟨l, hl⟩ := i3 newoid (by omega)
    exact hfresh l hl
  refine ⟨?_, ?_, ?_, ?_, ?_, ?_⟩
  · intro l
    by_cases hl : l = parent
    · rw [hl]; exact hnames
    · rw [hlists l hl]
      exact names_distinct_congr
        (fun q hq => by rw [hother q (fun e2 => hfresh l (e2 ▸ hq))]) (i1 l)
  · intro l x hx
    rcases hmem l x hx with ⟨h1, h2⟩ | ⟨h1, h2⟩
    · rw [h1, fp, hnpar, h2]
    · rw [hother x h1]; exact i6 l x h2
  · intro l hc
    rcases hmem l 0 hc with ⟨h1, -⟩ | ⟨-, h2⟩
    · exact h0 h1.symm
    · exact i7 l h2
  · intro l x hx
    rcases hmem l x hx with ⟨h1, -⟩ | ⟨h1, h2⟩
    · subst h1
      rw [fr, hnref, entries_bump_self, hzero]
    · rw [hother x h1, entries_bump_other _ _ _ _ _ h1]
      exact i2 l x h2
  · intro x hx
    by_cases hxn : x = newoid
    · subst hxn
      exact ⟨parent, hperm.mem_iff.mpr (List.mem_cons_self _ _)⟩
    · rw [entries_bump_other _ _ _ _ _ hxn] at hx
      obtain ⟨l, hl⟩ := i3 x hx
      exact ⟨l, hgrow l x hl⟩
  · intro l x hx hpos hgt
    rcases hmem l x hx with ⟨h1, -⟩ | ⟨h1, h2⟩
    · subst h1
      rw [fr, hnref] at hgt
      omega
    · rw [hother x h1] at hgt ⊢
      rw [entries_bump_other _ _ _ _ _ h1] at hpos
      exact i4 l x h2 hpos hgt

/-- The invariant is kept by `sysctl_add_oid` with a context. -/
theorem ctx_inv_add (s : Tree) (pre : List (List Nat)) (c : List Nat)
    (post : List (List Nat)) (parent : Nat) (number : Int) (name : List Nat) (kind : Nat)
    (arg1 : Nat) (arg2 : Int) (handler : Nat) (fmt : Option (List Nat))
    (newoid newlist ret : Nat) (s1 : Tree) (c1 : List Nat)
    (hinv : ctx_inv s (pre ++ c :: post))
    (h0 : newoid ≠ 0) (hfresh : ∀ l, newoid ∉ s.lists l) (hlist : s.lists newlist = [])
    (hadd : sysctl_add_oid s (some c) parent number name kind arg1 arg2 handler fmt newoid
      newlist = (ret, s1, some c1)) :
    ctx_inv s1 (pre ++ c1 :: post) := by
  by_cases hp : parent = 0
  · unfold sysctl_add_oid at hadd
    rw [if_pos hp] at hadd
    simp only [Prod.mk.injEq, Option.some.injEq] at hadd
    obtain ⟨-, rfl, rfl⟩ := hadd
    exact hinv
  cases hf : sysctl_find_oidname s name parent with
  | some p =>
    have hmem := (find_oidname_some hf).1
    have hp0 : p ≠ 0 := fun e => hinv.2.2.1 parent (e ▸ hmem)
    unfold sysctl_add_oid at hadd
    simp only [hp, if_false, hf] at hadd
    by_cases hn : is_node (s.oids p).oid_kind = true
    · rw [if_pos hn] at hadd
      simp only [sysctl_ctx_entry_add, hp0, if_false, Prod.mk.injEq, Option.some.injEq] at hadd
      obtain ⟨-, rfl, rfl⟩ := hadd
      exact ctx_inv_bump s pre c post p parent hinv hmem hn
    · rw [if_neg hn] at hadd
      simp only [Prod.mk.injEq, Option.some.injEq] at hadd
      obtain ⟨-, rfl, rfl⟩ := hadd
      exact hinv
  | none =>
    obtain ⟨hret, ho, hs, hl, hperm⟩ := add_oid_new_shape s (some c) parent number name kind arg1
      arg2 handler fmt newoid newlist hp hf hfresh hlist
    have hnames := add_oid_names s (some c) parent number name kind arg1 arg2 handler fmt newoid
      newlist (hinv.1 parent) (hfresh parent)
    rw [hadd] at hret ho hs hl hperm hnames
    simp only [sysctl_ctx_entry_add, h0, if_false, Prod.mk.injEq, Option.some.injEq] at hret
    obtain ⟨-, -, rfl⟩ := hret
    exact ctx_inv_new s s1 pre c post parent newoid _ hinv h0 hfresh ho hs rfl rfl hl hperm
      hnames

/-- The tree `sysctl_add_oid` leaves does not depend on the context. -/
theorem add_oid_tree_indep (s : Tree) (c1 c2 : Option (List Nat)) (parent : Nat) (number : Int)
    (name : List Nat) (kind : Nat) (arg1 : Nat) (arg2 : Int) (handler : Nat)
    (fmt : Option (List Nat)) (newoid newlist : Nat) :
    (sysctl_add_oid s c1 parent number name kind arg1 arg2 handler fmt newoid newlist).2.1
      = (sysctl_add_oid s c2 parent number name kind arg1 arg2 handler fmt newoid newlist).2.1 := by
  unfold sysctl_add_oid
  split_ifs
  · rfl
  · cases sysctl_find_oidname s name parent with
    | none => rfl
    | some p =>
      simp only
      split_ifs <;> rfl

/-- With a context, `sysctl_add_oid` returns a context. -/
theorem add_oid_ctx_some (s : Tree) (c : List Nat) (parent : Nat) (number : Int)
    (name : List Nat) (kind : Nat) (arg1 : Nat) (arg2 : Int) (handler : Nat)
    (fmt : Option (List Nat)) (newoid newlist : Nat) :
    ∃ c1, (sysctl_add_oid s (some c) parent number name kind arg1 arg2 handler fmt newoid
      newlist).2.2 = some c1 := by
  unfold sysctl_add_oid
  split_ifs
  · exact ⟨c, rfl⟩
  · cases sysctl_find_oidname s name parent with
    | none =>
      simp only [sysctl_ctx_entry_add]
      split_ifs
      · exact ⟨_, rfl⟩
      · exact ⟨_, rfl⟩
    | some p =>
      simp only [sysctl_ctx_entry_add]
      split_ifs
      · exact ⟨_, rfl⟩
      · exact ⟨_, rfl⟩
      · exact ⟨_, rfl⟩

/-- The invariant is kept by `sysctl_add_oid` with a `NULL` context. -/
theorem ctx_inv_add_null (s : Tree) (ctxs : List (List Nat)) (parent : Nat) (number : Int)
    (name : List Nat) (kind : Nat) (arg1 : Nat) (arg2 : Int) (handler : Nat)
    (fmt : Option (List Nat)) (newoid newlist ret : Nat) (s1 : Tree) (c1 : Option (List Nat))
    (hinv : ctx_inv s ctxs)
    (h0 : newoid ≠ 0) (hfresh : ∀ l, newoid ∉ s.lists l) (hlist : s.lists newlist = [])
    (hadd : sysctl_add_oid s none parent number name kind arg1 arg2 handler fmt newoid
      newlist = (ret, s1, c1)) :
    ctx_inv s1 ctxs := by
  obtain ⟨c2, hc2⟩ := add_oid_ctx_some s [] parent number name kind arg1 arg2 handler fmt newoid
    newlist
  have htree := add_oid_tree_indep s none (some []) parent number name kind arg1 arg2 handler fmt
    newoid newlist
  rw [hadd] at htree
  have hstart : ctx_inv s ([] ++ [] :: ctxs) := by
    apply ctx_inv_mono s _ ctxs hinv
    intro x
    rw [List.nil_append, entries_cons, List.count_nil, Nat.zero_add]
  have hrun : sysctl_add_oid s (some []) parent number name kind arg1 arg2 handler fmt newoid
      newlist
      = ((sysctl_add_oid s (some []) parent number name kind arg1 arg2 handler fmt newoid
          newlist).1, s1, some c2) := by
    rw [← hc2]
    have h2 : s1 = (sysctl_add_oid s (some []) parent number name kind arg1 arg2 handler fmt
        newoid newlist).2.1 := htree
    rw [h2]
  have hend := ctx_inv_add s [] [] ctxs parent number name kind arg1 arg2 handler fmt newoid
    newlist _ s1 c2 hstart h0 hfresh hlist hrun
  apply ctx_inv_mono s1 ctxs _ hend
  intro x
  rw [List.nil_append, entries_cons]
  omega

/-- The invariant is kept by `sysctl_ctx_free`. -/
theorem ctx_inv_free (s : Tree) (pre : List (List Nat)) (c : List Nat)
    (post : List (List Nat)) (err : Int) (s1 : Tree) (c1 : List Nat)
    (hinv : ctx_inv s (pre ++ c :: post))
    (hrun : sysctl_ctx_free s c = some (err, s1, c1)) :
    ctx_inv s1 (pre ++ c1 :: post) := by
  obtain ⟨i1, i6, i7, i2, i3, i4⟩ := hinv
  have hre : ∀ e ∈ c, relinkable s e := by
    intro e he hgt
    have hpos : 0 < entries (pre ++ c :: post) e := by
      rw [entries_split]
      have := List.count_pos_iff.mpr he
      omega
    obtain ⟨l, hl⟩ := i3 e hpos
    refine ⟨i4 l e hl hpos hgt, ?_⟩
    rw [i6 l e hl]; exact hl
  obtain ⟨hfld, hsub, hn1, hfail⟩ := ctx_free_frame s c err s1 c1 i1 hre hrun
  by_cases he : err = 0
  · subst he
    obtain ⟨hc1, hcnt, hun, -⟩ := ctx_free_counts s c s1 c1 i1 hre hrun
    subst hc1
    have hE : ∀ x, entries (pre ++ c :: post) x
        = entries (pre ++ [] :: post) x + c.count x := by
      intro x
      rw [entries_split, entries_split, List.count_nil]
      omega
    have hstay : ∀ l x, x ∈ s.lists l →
        (c.count x = 0 ∨ c.count x < (s.oids x).oid_refcnt) → x ∈ s1.lists l := by
      intro l x hx hm
      by_cases h0 : c.count x = 0
      · exact ((hun x (List.count_eq_zero.mp h0)).2 l).mpr hx
      · exact (((hcnt x (by omega)).2.1 (by omega)).2 l).mpr hx
    refine ⟨hn1, ?_, ?_, ?_, ?_, ?_⟩
    · intro l x hx
      rw [(hfld x).2.1]
      exact i6 l x (hsub l x hx)
    · intro l hc
      exact i7 l (hsub l 0 hc)
    · intro l x hx
      have hxs := hsub l x hx
      have hr : (s1.oids x).oid_refcnt + c.count x = (s.oids x).oid_refcnt := by
        by_cases h0 : c.count x = 0
        · rw [(hun x (List.count_eq_zero.mp h0)).1, h0, Nat.add_zero]
        · obtain ⟨a, b, d⟩ := hcnt x (by omega)
          by_cases hlt : c.count x < (s.oids x).oid_refcnt
          · rw [(b hlt).1]; omega
          · have hnot := (d (by omega)).2
            rw [i6 l x hxs] at hnot
            exact absurd hx hnot
      have := i2 l x hxs
      have := hE x
      omega
    · intro x hx
      have hpos : 0 < entries (pre ++ c :: post) x := by rw [hE]; omega
      obtain ⟨l, hl⟩ := i3 x hpos
      refine ⟨l, hstay l x hl ?_⟩
      have := i2 l x hl
      have := hE x
      by_cases h0 : c.count x = 0
      · exact Or.inl h0
      · right; omega
    · intro l x hx hpos hgt
      rw [(hfld x).1]
      have hpos2 : 0 < entries (pre ++ c :: post) x := by rw [hE]; omega
      exact i4 l x (hsub l x hx) hpos2 (by have := (hfld x).2.2.2; omega)
  · obtain ⟨hc1, hsame⟩ := hfail he
    subst hc1
    refine ⟨hn1, ?_, ?_, ?_, ?_, ?_⟩
    · intro l x hx
      rw [(hfld x).2.1]
      exact i6 l x (hsub l x hx)
    · intro l hc
      exact i7 l (hsub l 0 hc)
    · intro l x hx
      rw [(hsame x).1]
      exact i2 l x (hsub l x hx)
    · intro x hx
      obtain ⟨l, hl⟩ := i3 x hx
      exact ⟨l, ((hsame x).2 l).mpr hl⟩
    · intro l x hx hpos hgt
      rw [(hfld x).1]
      rw [(hsame x).1] at hgt
      exact i4 l x (hsub l x hx) hpos hgt

/-- Every state reached from a tree with distinct sibling names, in which every node
is linked under the parent its record names and `NULL` is on no list, satisfies the
invariant. -/
theorem reach_any_inv (s0 : Tree)
    (hn : ∀ l, names_distinct s0 (s0.lists l))
    (hp : ∀ l, ∀ x ∈ s0.lists l, (s0.oids x).oid_parent = l)
    (hz : ∀ l, (0 : Nat) ∉ s0.lists l) :
    ∀ (s : Tree) (ctxs : List (List Nat)), reach_any s0 s ctxs → ctx_inv s ctxs := by
  intro s ctxs hr
  induction hr with
  | start =>
    refine ⟨hn, hp, hz, ?_, ?_, ?_⟩
    · intro l x _
      rw [entries_nil]
      exact Nat.zero_le _
    · intro x hx
      rw [entries_nil] at hx
      exact absurd hx (by decide)
    · intro l x _ hx
      rw [entries_nil] at hx
      exact absurd hx (by decide)
  | ctx_init _ ih =>
    apply ctx_inv_mono _ _ _ ih
    intro x
    rw [entries_cons, List.count_nil, Nat.zero_add]
  | add_oid parent number name kind arg1 arg2 handler fmt newoid newlist ret s1 c1 _ h0 hfresh
      hlist hadd ih =>
    exact ctx_inv_add _ _ _ _ parent number name kind arg1 arg2 handler fmt newoid newlist
      ret s1 c1 ih h0 hfresh hlist hadd
  | add_oid_null parent number name kind arg1 arg2 handler fmt newoid newlist ret s1 c1 _ h0
      hfresh hlist hadd ih =>
    exact ctx_inv_add_null _ _ parent number name kind arg1 arg2 handler fmt newoid newlist
      ret s1 c1 ih h0 hfresh hlist hadd
  | ctx_free err s1 c1 _ hrun ih =>
    exact ctx_inv_free _ _ _ _ err s1 c1 ih hrun

/-- In a state that satisfies the invariant every entry of every context can be
linked again. -/
theorem ctx_inv_relinkable (s : Tree) (ctxs : List (List Nat)) (h : ctx_inv s ctxs) :
    ∀ c ∈ ctxs, ∀ e ∈ c, relinkable s e := by
  obtain ⟨-, i6, -, -, i3, i4⟩ := h
  intro c hc e he hgt
  obtain ⟨pre, post, hsplit⟩ := List.append_of_mem hc
  have hpos : 0 < entries ctxs e := by
    rw [hsplit, entries_split]
    have := List.count_pos_iff.mpr he
    omega
  obtain ⟨l, hl⟩ := i3 e hpos
  refine ⟨i4 l e hl hpos hgt, ?_⟩
  rw [i6 l e hl]; exact hl

/-- C25: the commit loop of `sysctl_ctx_free` meets no error.  Take a tree with
distinct sibling names in which every node is linked under the parent its record names
and `NULL` is on no list, whatever its ref-counts, and any state reached from it by
`sysctl_ctx_init`, by `sysctl_add_oid` with one of the contexts or with a `NULL`
context, and by `sysctl_ctx_free`.  If in that state the dry run over a context ends
without error, then on the tree the restore loop leaves every
`sysctl_remove_oid(entry, 1, 0)` call of the commit loop returns `0` (the loop has a
result), and `sysctl_ctx_free` returns `0` with an empty context. -/
theorem C25_commit_loop_never_fails (s0 s : Tree) (ctxs : List (List Nat)) (c : List Nat)
    (s1 : Tree) (done : List Nat)
    (hn : ∀ l, names_distinct s0 (s0.lists l))
    (hp : ∀ l, ∀ x ∈ s0.lists l, (s0.oids x).oid_parent = l)
    (hz : ∀ l, (0 : Nat) ∉ s0.lists l)
    (hr : reach_any s0 s ctxs) (hc : c ∈ ctxs)
    (hd : ctx_dry_run s c [] = some (0, s1, done)) :
    ∃ f, ctx_commit (ctx_restore s1 done) c = some f
      ∧ sysctl_ctx_free s c = some (0, f, []) := by
  have hinv := reach_any_inv s0 hn hp hz s ctxs hr
  exact dry_run_then_commit s c s1 done hinv.1 (ctx_inv_relinkable s ctxs hinv c hc) hd

/-- The node `60` that two contexts hold, in the state reached from `tree_kern` by two
`sysctl_add_oid` calls: the dry run over the first context ends without error, and
so does the commit loop. -/
theorem C25_commit_loop_never_fails_witness :
    ∃ s1 done f, ctx_dry_run tree_shared2 [60] [] = some (0, s1, done)
      ∧ ctx_commit (ctx_restore s1 done) [60] = some f
      ∧ sysctl_ctx_free tree_shared2 [60] = some (0, f, []) := by
  have hfresh0 : ∀ l, 60 ∉ tree_kern.lists l :=
    fun l => tree_kern_lists l (fun ls => 60 ∉ ls) (by decide) (by decide) (by decide)
  have r0 : reach_any tree_kern tree_kern [[], []] :=
    reach_any.ctx_init (reach_any.ctx_init reach_any.start)
  have r1 : reach_any tree_kern tree_shared1 [[60], []] :=
    @reach_any.add_oid tree_kern tree_kern [] [] [[]] 1 OID_AUTO [100] CTLTYPE_NODE 0 0 0 none
      60 61 60 tree_shared1 [60] r0 (by decide) hfresh0 (by decide) rfl
  have hsh := add_oid_new_shape tree_kern (some []) 1 OID_AUTO [100] CTLTYPE_NODE 0 0 0 none 60
    61 (by decide) (by decide) hfresh0 (by decide)
  have hfresh1 : ∀ l, 62 ∉ tree_shared1.lists l := by
    intro l
    by_cases hl : l = 1
    · subst hl; decide
    · have h2 : tree_shared1.lists l = tree_kern.lists l := hsh.2.2.2.1 l hl
      rw [h2]
      exact tree_kern_lists l (fun ls => 62 ∉ ls) (by decide) (by decide) (by decide)
  have r2 : reach_any tree_kern tree_shared2 [[60], [60]] :=
    @reach_any.add_oid tree_kern tree_shared1 [[60]] [] [] 1 OID_AUTO [100] CTLTYPE_NODE 0 0 0
      none 62 63 60 tree_shared2 [60] r1 (by decide) hfresh1 (by decide) rfl
  have hp : ∀ l, ∀ x ∈ tree_kern.lists l, (tree_kern.oids x).oid_parent = l := by
    intro l
    by_cases e1 : l = 1
    · subst e1; decide
    · by_cases e3 : l = 3
      · subst e3; decide
      · have : tree_kern.lists l = [] := by simp [tree_kern, sysctl__children, e1, e3]
        rw [this]
        intro x hx
        exact absurd hx (List.not_mem_nil _)
  have herr : (ctx_dry_run tree_shared2 [60] []).map (fun r => r.1) = some 0 := by decide
  cases hd : ctx_dry_run tree_shared2 [60] [] with
  | none => rw [hd] at herr; simp at herr
  | some r =>
    obtain ⟨e, s1, done⟩ := r
    rw [hd] at herr
    simp only [Option.map_some', Option.some.injEq] at herr
    subst herr
    obtain ⟨f, hf1, hf2⟩ := C25_commit_loop_never_fails tree_kern tree_shared2 [[60], [60]] [60]
      s1 done tree_kern_inv.1 hp
      (fun l => tree_kern_lists l (fun ls => 0 ∉ ls) (by decide) (by decide) (by decide))
      r2 (by decide) hd
    exact ⟨s1, done, f, rfl, hf1, hf2⟩

/-- C24, counterexample: `sysctl_handle_int` with the in-process transfer functions
on the integer at `2000`, whose bytes are `97 98 99 100`.  With a two-byte old buffer at
`2001`, inside the integer, the out step copies the first two bytes there and the
handler returns `ENOMEM` with the integer changed to `97 97 98 100`.  With a four-byte
old buffer at `1990`, apart from the integer, but the old cursor at `11`, past its
end, the out step writes at `2001` and the handler returns `EINVAL` (two bytes of new
input are too short) with the integer changed to `97 97 98 99`. -/
theorem C24_counterexample :
    mem_read ks_kern.mem 2000 4 = [97, 98, 99, 100]
    ∧ (sysctl_handle_int 32 env_ok ks_kern 51 (handler_arg.data 2000) 0
        (kernel_req 0 2001 (some 2) 2010 4)).map
          (fun r => (r.1, mem_read r.2.1.mem 2000 4))
        = some (ENOMEM, [97, 97, 98, 100])
    ∧ (sysctl_handle_int 32 env_ok ks_kern 51 (handler_arg.data 2000) 0
        { kernel_req 0 1990 (some 4) 2010 2 with oldidx := 11 }).map
          (fun r => (r.1, mem_read r.2.1.mem 2000 4))
        = some (EINVAL, [97, 97, 98, 99]) := by
  decide

/-! ## What registration leaves in the tree -/

/-- A node that `sysctl_register_oid` links has an id other than `AUTO`, when the
sibling ids are `int`s. -/
theorem register_not_auto (s : Tree) (oidp : Nat)
    (habs : sysctl_find_oidname s (s.oids oidp).oid_name (s.oids oidp).oid_parent = none)
    (hint : ∀ q ∈ s.lists (s.oids oidp).oid_parent, (s.oids q).oid_number ≤ INT_MAX) :
    oidp ∈ (sysctl_register_oid s oidp).lists (s.oids oidp).oid_parent
    ∧ ((sysctl_register_oid s oidp).oids oidp).oid_number ≠ OID_AUTO := by
  rw [register_absent habs]
  constructor
  · simp only [set_list, if_true]
    exact (insert_in_order_perm _ _ _).mem_iff.mpr (List.mem_cons_self _ _)
  · show ((numbered s oidp).oids oidp).oid_number ≠ OID_AUTO
    by_cases ha : (s.oids oidp).oid_number = OID_AUTO
    · rw [numbered_auto s oidp ha]
      obtain ⟨h1, -, h3⟩ := highest_oid_fold_ge s (s.lists (s.oids oidp).oid_parent) 99
      have h99 : 99 ≤ highest_oid s (s.lists (s.oids oidp).oid_parent) := h1
      have hle : highest_oid s (s.lists (s.oids oidp).oid_parent) ≤ INT_MAX := by
        unfold highest_oid
        rcases h3 with h3 | ⟨q, hq, h3⟩
        · rw [h3]; decide
        · rw [← h3]; exact hint q hq
      unfold int_wrap OID_AUTO
      unfold INT_MAX at hle
      omega
    · rw [numbered_explicit s oidp ha]
      exact ha

/-- In a state that satisfies the invariant every entry of every context is linked in
the list of its parent, and is an interior node when its ref-count is above one. -/
theorem ctx_inv_entries (s : Tree) (ctxs : List (List Nat)) (h : ctx_inv s ctxs) :
    ∀ c ∈ ctxs, ∀ e ∈ c,
      e ∈ s.lists (s.oids e).oid_parent
      ∧ ((s.oids e).oid_refcnt > 1 → is_node (s.oids e).oid_kind = true) := by
  obtain ⟨-, i6, -, -, i3, i4⟩ := h
  intro c hc e he
  obtain ⟨pre, post, hsplit⟩ := List.append_of_mem hc
  have hpos : 0 < entries ctxs e := by
    rw [hsplit, entries_split]
    have := List.count_pos_iff.mpr he
    omega
  obtain ⟨l, hl⟩ := i3 e hpos
  refine ⟨?_, i4 l e hl hpos⟩
  rw [i6 l e hl]; exact hl

end Sysctl
